import Mathlib

/-!
# bin2iso: a shallow embedding of `bin2iso.c` and checked properties

The C program is embedded as pure Lean functions.

* C strings are lists of byte values (`List Nat`), the end of the list standing for the
  terminating NUL.
* Machine integers are `Nat`/`Int` with explicit reduction: `wrapU32` for `uint32_t`,
  `wrapI32` for `int32_t`, `% 256` for `uint8_t`/`char`.  `off_t` is taken to be the 64-bit
  signed type of an LP64 platform; the offsets computed here stay far below `2^63`, so it is
  modelled by `Int`.
* `exit(1)` paths and operations without a defined result return an `Err`.
-/

namespace Bin2Iso

/-! ## Machine integers -/

/-- Conversion of an integer value to `uint32_t`. -/
def wrapU32 (x : Int) : Int := x % 4294967296

/-- Conversion of an integer value to `int32_t` (two's complement wrap-around). -/
def wrapI32 (x : Int) : Int := (x + 2147483648) % 4294967296 - 2147483648

/-- Bytes of a string literal, for readable concrete inputs. -/
def bytes (s : String) : List Nat := s.toList.map Char.toNat

/-! ## `SectorIndex` and `TimeIndex` (bin2iso.c 211-231) -/

/-- Source `SectorIndex(uint8_t m, uint8_t s, uint8_t f)`: the arguments are converted to
`uint8_t` on entry, the result is a `uint32_t`. -/
def SectorIndex (m s f : Nat) : Nat :=
  let m := m % 256
  let s := s % 256
  let f := f % 256
  let temp := (((m >>> 4) * 10) + (m &&& 0xF)) * 60
  let temp := (temp + (((s >>> 4) * 10) + (s &&& 0xF))) * 75
  let temp := temp + (((f >>> 4) * 10) + (f &&& 0xF))
  temp % 4294967296

/-- Text that `sprintf` writes for one `%d` conversion of a non-negative value. -/
def fmtD (n : Nat) : List Nat := (Nat.toDigits 10 n).map Char.toNat

/-- Source `TimeIndex(uint32_t sectorindex, char* ptr)`: the text written to `ptr`; the
argument is converted to `uint32_t` on entry, `m`, `s`, `f` are `uint8_t`. -/
def TimeIndex (sectorindex : Nat) : List Nat :=
  let sectorindex := sectorindex % 4294967296
  let f := (sectorindex % 75) % 256
  let s := ((sectorindex / 75) % 60) % 256
  let m := (sectorindex / (75 * 60)) % 256
  fmtD (m / 10) ++ fmtD (m % 10) ++ [58] ++ fmtD (s / 10) ++ fmtD (s % 10) ++ [58]
    ++ fmtD (f / 10) ++ fmtD (f % 10)

/-- Source lines 641-643 of `ParseCueLine`: `((c0 - '0') << 4) | (c1 - '0')` stored in a
`char` and then passed as `uint8_t`; reduction modulo 256 commutes with the shift and the
bitwise or, so the value is computed on bytes. -/
def packDigits (c0 c1 : Nat) : Nat :=
  ((((c0 + 256 - 48) % 256) * 16) % 256) ||| ((c1 + 256 - 48) % 256)

/-! ## Data model (bin2iso.c 58-115) -/

abbrev MODE_AUDIO : Nat := 0
abbrev MODE_AUDIOSUB : Nat := 10
abbrev MODE1_2352 : Nat := 20
abbrev MODE1_2048 : Nat := 30
abbrev MODE1_2448 : Nat := 40
abbrev MODE2_2352 : Nat := 50
abbrev MODE2_2336 : Nat := 60
abbrev MODE2_2448 : Nat := 70

abbrev MAXIMUM_TRACK_NUMBERS : Nat := 100
abbrev SIZERAW : Nat := 2352
abbrev CD74_MAX_SECTORS : Int := 334873

/-- An opened source file as the geometry code sees it: its length (`GetFileSize`) and its
bytes by position (`fread`). -/
structure SrcFile where
  size : Nat
  byte : Nat → Nat

/-- Source `tTrack`. -/
@[ext]
structure Track where
  mode : Nat
  num : Int
  idx0 : Int
  idx1 : Int
  startOfs : Int
  totalSectors : Int
  sectorSize : Nat
  predata : Nat
  postdata : Nat
  fdSrcFile : SrcFile
  sSrcFileName : List Nat
  name : List Nat

/-- An entry of the zero-initialised global `tracks` array. -/
def Track.zero : Track :=
  { mode := 0, num := 0, idx0 := 0, idx1 := 0, startOfs := 0, totalSectors := 0,
    sectorSize := 0, predata := 0, postdata := 0, fdSrcFile := ⟨0, fun _ => 0⟩,
    sSrcFileName := [], name := [] }

/-- The global `tracks` array, by index.  Only indices below `MAXIMUM_TRACK_NUMBERS` exist in
the program; the functions below return `Err.tableOverflow` where the source would touch
another one. -/
abbrev Table := Nat → Track

/-- Assignment to `tracks[i]`. -/
def setTrack (tbl : Table) (i : Nat) (t : Track) : Table :=
  fun j => if j = i then t else tbl j

/-- The fields of source `struct CommandlineOptions` that are not file names. -/
structure CommandlineOptions where
  oneTrackNum : Int
  splitRmsLimit : Nat
  splitGapLength : Nat
  noOverburn : Bool
  noGaps : Bool
  autoGaps : Bool
  allPostGaps : Bool
  createCue : Bool
  doOneTrack : Bool
  doInPlace : Bool

/-- The options as `ParseArgs` leaves them when no switch is given (lines 1348-1350). -/
def defaultOptions : CommandlineOptions :=
  { oneTrackNum := 0, splitRmsLimit := 80, splitGapLength := 48, noOverburn := false,
    noGaps := false, autoGaps := false, allPostGaps := true, createCue := false,
    doOneTrack := false, doInPlace := false }

/-- The ways a run ends other than by completing: one constructor per `exit(1)` message of
the modelled functions, three for operations whose result the source does not determine,
and one for a loop that was not run to its end. -/
inductive Err where
  | fileUnpairedQuote
  | fileEmptyName
  | tooManyTracks
  | trackBeforeFile
  | openFailed
  | unknownMode
  | indexWithoutTrack
  | unexpectedIndexNumber
  | index0OnNonAudio
  | noTracks
  | index0AfterIndex1
  | index1PastFileEnd
  | index1PastNextIndex0
  | freadFailed
  | seekFailed
  | unexpectedMode
  | fwriteFailed
  /-- a read of the line buffer beyond the terminator of the current line -/
  | readPastLine
  /-- an access to `tracks[100]`, or to a character buffer beyond its size -/
  | tableOverflow
  /-- a division by a zero sector size, or a read beyond the sector buffer of `CheckGaps` -/
  | undefinedResult
  /-- the bound given for the rounds of a loop whose end the source does not ensure was
  reached before the loop ended -/
  | outOfFuel
  deriving DecidableEq, Repr

/-- The file system as `OpenCaseless` sees it: the file opened for a name, if any. -/
abbrev FileSys := List Nat → Option SrcFile

/-- The state `ParseCueLine` works on: the globals `tracks` and `nTracks`, the caller's
`activefile` buffer and the `track` pointer (as an index into `tracks`). -/
structure CueState where
  tracks : Table
  nTracks : Nat
  activefile : List Nat
  track : Option Nat

/-- The state in which `ParseCue` starts. -/
def CueState.init : CueState :=
  { tracks := fun _ => Track.zero, nTracks := 0, activefile := [], track := none }

/-! ## `ParseCueLine` (bin2iso.c 434-682) -/

/-- The C string held by a buffer: the bytes before the first NUL. -/
def cstr (l : List Nat) : List Nat := l.takeWhile (fun c => c ≠ 0)

/-- Line 442: `while (*readp == ' ' || *readp == '\n' || *readp == '\r') readp++`. -/
def skipWs : List Nat → List Nat
  | [] => []
  | c :: cs => if c = 32 ∨ c = 10 ∨ c = 13 then skipWs cs else c :: cs

/-- The loop `while (*readp == ' ') readp++`. -/
def skipSp : List Nat → List Nat
  | [] => []
  | c :: cs => if c = 32 then skipSp cs else c :: cs

/-- The test `strncmp(readp, kw, strlen(kw)) == 0` for a keyword without NUL. -/
def startsWith (kw : String) (readp : List Nat) : Bool := (bytes kw).isPrefixOf readp

/-- The loop `while (*readp >= '0' && *readp <= '9') i = i * 10 + (*(readp++) - '0')` on an
`int32_t`; returns the value and the rest of the line. -/
def readNum : List Nat → Int → Int × List Nat
  | [], acc => (acc, [])
  | c :: cs, acc =>
    if 48 ≤ c ∧ c ≤ 57 then readNum cs (wrapI32 (acc * 10 + ((c : Int) - 48)))
    else (acc, c :: cs)

/-- Lines 458-484: the copy loop of the `FILE` branch.  `acc` is the text between
`activefile` and `writep`, `term` the current terminator.  Returns the rest of the line,
the accumulated name and the terminator. -/
def fileLoop : List Nat → List Nat → Nat → List Nat × List Nat × Nat
  | [], acc, term => ([], acc, term)
  | c :: cs, acc, term =>
    if c = term then (c :: cs, acc, term)
    else if 1 ≤ c ∧ c ≤ 31 then fileLoop cs acc term
    else if c = 47 ∨ c = 92 then fileLoop cs [] term
    else if c = 34 then fileLoop cs acc 34
    else fileLoop cs (acc ++ [c]) term

/-- Lines 450-499: the `FILE` branch; `readp` is the line after the keyword. -/
def parseFile (readp : List Nat) (st : CueState) : Except Err CueState :=
  let readp := skipSp readp
  let (rest, acc, term) := fileLoop readp [] 32
  if term = 34 ∧ rest.head? ≠ some 34 then .error .fileUnpairedQuote
  else if acc = [] then .error .fileEmptyName
  else .ok { st with activefile := acc, track := none }

/-- C library `isspace` in the "C" locale. -/
def isspace (c : Nat) : Bool := c = 32 ∨ (9 ≤ c ∧ c ≤ 13)

/-- Value of the leading decimal digits of a text. -/
def digitsValue : List Nat → Nat → Nat
  | [], acc => acc
  | c :: cs, acc => if 48 ≤ c ∧ c ≤ 57 then digitsValue cs (acc * 10 + (c - 48)) else acc

/-- C library `strtol(s, NULL, 10)` with a 64-bit `long`: white space, an optional sign, the
digits, saturating at the ends of the range. -/
def strtol10 (s : List Nat) : Int :=
  match s.dropWhile isspace with
  | 45 :: t => max (-(digitsValue t 0 : Int)) (-9223372036854775808)
  | 43 :: t => min (digitsValue t 0 : Int) 9223372036854775807
  | t => min (digitsValue t 0 : Int) 9223372036854775807

/-- Lines 546-558: the datatype text to the mode. -/
def parseMode (readp : List Nat) : Option Nat :=
  if startsWith "AUDIO/" readp then some MODE_AUDIOSUB
  else if startsWith "AUDIO" readp then some MODE_AUDIO
  else if startsWith "MODE1/2352" readp then some MODE1_2352
  else if startsWith "MODE1/2048" readp then some MODE1_2048
  else if startsWith "MODE1/2448" readp then some MODE1_2448
  else if startsWith "MODE2/2352" readp then some MODE2_2352
  else if startsWith "MODE2/2336" readp then some MODE2_2336
  else if startsWith "MODE2/2448" readp then some MODE2_2448
  else none

/-- Lines 560-593: the sector layout of a mode, applied to a track whose `sectorSize`,
`predata`, `postdata` hold the defaults of lines 520-522. -/
def applyMode (t : Track) (readp : List Nat) : Track :=
  if t.mode = MODE_AUDIOSUB then
    let sz := (wrapU32 (strtol10 (readp.drop 6))).toNat
    if sz > SIZERAW then { t with sectorSize := sz, postdata := sz - SIZERAW }
    else { t with sectorSize := sz }
  else if t.mode = MODE1_2048 then { t with sectorSize := 2048 }
  else if t.mode = MODE1_2352 then { t with predata := 16, postdata := 288 }
  else if t.mode = MODE2_2336 then { t with sectorSize := 2336, predata := 8, postdata := 280 }
  else if t.mode = MODE2_2352 then { t with predata := 24, postdata := 280 }
  else if t.mode = MODE1_2448 then { t with sectorSize := 2448, predata := 16, postdata := 384 }
  else if t.mode = MODE2_2448 then { t with sectorSize := 2448, predata := 24, postdata := 376 }
  else t

/-- Lines 596-599: the name up to its last `'.'` (`strrchr`), or all of it. -/
def cutExt (s : List Nat) : List Nat :=
  match s.reverse.dropWhile (fun c => c ≠ 46) with
  | [] => s
  | _ :: r => r.reverse

/-- Lines 517-536 and 546-553: the fields a `TRACK` line sets in the table entry `old`
before the mode switch. -/
def newTrack (old : Track) (fd : SrcFile) (activefile : List Nat) (num : Int) (mode : Nat) :
    Track :=
  { old with idx0 := -1, idx1 := -1, sectorSize := SIZERAW, predata := 0, postdata := 0,
             sSrcFileName := activefile, fdSrcFile := fd, num := num, mode := mode }

/-- Lines 595-606: `<source file without extension>-<numstr>.<wav or iso>`. -/
def trackName (t : Track) (numstr : List Nat) : List Nat :=
  cutExt t.sSrcFileName ++ bytes "-" ++ numstr ++
    (if t.mode = MODE_AUDIO ∨ t.mode = MODE_AUDIOSUB then bytes ".wav" else bytes ".iso")

/-- Lines 506-607: the `TRACK` branch; `readp` is the line after the keyword.  The byte after
the number is overwritten by the terminator of `numstr` and skipped (line 537); when the
line ends with the number, the text read next lies beyond the line.  `name` has 264 bytes. -/
def parseTrack (fs : FileSys) (readp : List Nat) (st : CueState) : Except Err CueState :=
  let readp := skipSp readp
  if st.nTracks ≥ MAXIMUM_TRACK_NUMBERS then .error .tooManyTracks
  else if st.activefile = [] then .error .trackBeforeFile
  else
    match fs st.activefile with
    | none => .error .openFailed
    | some fd =>
      let numstr := readp.take (readp.length - (readNum readp 0).2.length)
      match (readNum readp 0).2 with
      | [] => .error .readPastLine
      | _ :: rest =>
        match parseMode (skipSp rest) with
        | none => .error .unknownMode
        | some mode =>
          let t := applyMode (newTrack (st.tracks st.nTracks) fd st.activefile
                      (readNum readp 0).1 mode) (skipSp rest)
          if (trackName t numstr).length ≥ 264 then .error .tableOverflow
          else
            .ok { st with
                    tracks := setTrack st.tracks st.nTracks { t with name := trackName t numstr },
                    nTracks := st.nTracks + 1, track := some st.nTracks }

/-- Lines 615-660: the `INDEX` branch; `readp` is the line after the keyword. -/
def parseIndex (readp : List Nat) (st : CueState) : Except Err CueState :=
  let readp := skipSp readp
  match st.track with
  | none => .error .indexWithoutTrack
  | some k =>
    let (i, rest) := readNum readp 0
    if i ≥ 2 then .error .unexpectedIndexNumber
    else
      let readp := skipSp rest
      if readp.length < 7 then .error .readPastLine
      else
        let min := packDigits (readp.getD 0 0) (readp.getD 1 0)
        let sec := packDigits (readp.getD 3 0) (readp.getD 4 0)
        let frame := packDigits (readp.getD 6 0) (readp.getD 7 0)
        let t := st.tracks k
        if i = 0 then
          if t.mode ≠ MODE_AUDIO ∧ t.mode ≠ MODE_AUDIOSUB then .error .index0OnNonAudio
          else
            let t : Track := { t with idx0 := (SectorIndex min sec frame : Int) }
            let t : Track := if t.idx1 = -1 then { t with idx1 := t.idx0 } else t
            .ok { st with tracks := setTrack st.tracks k t }
        else
          let t : Track := { t with idx1 := (SectorIndex min sec frame : Int) }
          let t : Track := if t.idx0 = -1 then { t with idx0 := t.idx1 } else t
          .ok { st with tracks := setTrack st.tracks k t }

/-- Source `ParseCueLine(readp, activefile, track)`.  `line` is the buffer `fgets` filled;
the result carries the new `activefile` and the returned `track`.  The ignored directives of
lines 664-674 and the unrecognised lines (a message only) both leave the state as it is. -/
def ParseCueLine (fs : FileSys) (line : List Nat) (st : CueState) : Except Err CueState :=
  let readp := skipWs (cstr line)
  if readp = [] then .ok st
  else if startsWith "FILE " readp then parseFile (readp.drop 5) st
  else if startsWith "TRACK " readp then parseTrack fs (readp.drop 6) st
  else if startsWith "INDEX " readp then parseIndex (readp.drop 6) st
  else .ok st

/-- One call of `fgets(sLine, 256, fdCueFile)` on the unread part of the sheet: at most 255
bytes, ending after the first newline.  Returns the buffer and what is left unread. -/
def fgets : Nat → List Nat → List Nat × List Nat
  | 0, rest => ([], rest)
  | _ + 1, [] => ([], [])
  | n + 1, c :: cs =>
    if c = 10 then ([c], cs)
    else let (l, r) := fgets n cs; (c :: l, r)

/-- Lines 705-716: the read loop of `ParseCue`, one `fgets` and one `ParseCueLine` per
round until the sheet is read; `fuel` bounds the number of rounds. -/
def parseLines (fs : FileSys) : Nat → List Nat → CueState → Except Err CueState
  | 0, _, st => .ok st
  | fuel + 1, content, st =>
    if content = [] then .ok st
    else
      let (line, rest) := fgets 255 content
      match ParseCueLine fs line st with
      | .error e => .error e
      | .ok st => parseLines fs fuel rest st

/-- Source `ParseCue()` on the bytes of the sheet: the track table and `nTracks`.  Each
round of the loop reads at least one byte, so `content.length` rounds suffice. -/
def ParseCue (fs : FileSys) (content : List Nat) : Except Err (Table × Nat) :=
  match parseLines fs content.length content CueState.init with
  | .error e => .error e
  | .ok st => if st.nTracks = 0 then .error .noTracks else .ok (st.tracks, st.nTracks)

/-! ## `CheckGaps` (bin2iso.c 728-765) -/

/-- The test `*readp != 0` on the 32-bit word at byte position `pos` of the file. -/
def wordNonZero (f : SrcFile) (pos : Nat) : Bool :=
  f.byte pos ≠ 0 ∨ f.byte (pos + 1) ≠ 0 ∨ f.byte (pos + 2) ≠ 0 ∨ f.byte (pos + 3) ≠ 0

/-- Lines 748-754: the loop over the `SIZERAW >> 2` words of the sector read from byte
position `pos`; `k` counts down, `cnt` is the `uint32_t nonzerocount`. -/
def sectorWords (f : SrcFile) : Nat → Nat → Nat → Nat
  | 0, _, cnt => cnt
  | k + 1, pos, cnt =>
    sectorWords f k (pos + 4) (if wordNonZero f pos then (cnt + 1) % 4294967296 else cnt)

/-- Lines 741-755: the loop over the pregap sectors; `fread` of one sector of `ss` bytes at
`pos` fails when fewer than `ss` bytes are left (or `ss` is 0); the word loop reads 2352 bytes
of the `ss`-byte buffer. -/
def gapLoop (f : SrcFile) (ss : Nat) : Nat → Nat → Nat → Except Err Nat
  | 0, _, cnt => .ok cnt
  | k + 1, pos, cnt =>
    if ss = 0 ∨ pos + ss > f.size then .error .freadFailed
    else if ss < SIZERAW then .error .undefinedResult
    else gapLoop f ss k (pos + ss) (sectorWords f (SIZERAW >>> 2) pos cnt)

/-- Source `CheckGaps(track)`: `true` when the pregap is to be saved. -/
def CheckGaps (track : Track) : Except Err Bool :=
  if track.startOfs < 0 then .error .seekFailed
  else
    let pregapsectors := (wrapU32 (track.idx1 - track.idx0)).toNat
    match gapLoop track.fdSrcFile track.sectorSize pregapsectors track.startOfs.toNat 0 with
    | .error e => .error e
    | .ok nonzerocount => .ok (decide (nonzerocount > SIZERAW >>> 3))

/-! ## The geometry pass of `IsoFromCue` (bin2iso.c 771-875) -/

/-- The assignment `tracks[i].startOfs = x`. -/
def setStartOfs (tbl : Table) (i : Nat) (x : Int) : Table :=
  setTrack tbl i { tbl i with startOfs := x }

/-- The assignment `tracks[i].totalSectors = x`. -/
def setTotalSectors (tbl : Table) (i : Nat) (x : Int) : Table :=
  setTrack tbl i { tbl i with totalSectors := x }

/-- The assignment `tracks[i].idx1 = x`. -/
def setIdx1 (tbl : Table) (i : Nat) (x : Int) : Table :=
  setTrack tbl i { tbl i with idx1 := x }

/-- The assignment `tracks[i].idx0 = x`. -/
def setIdx0 (tbl : Table) (i : Nat) (x : Int) : Table :=
  setTrack tbl i { tbl i with idx0 := x }

/-- Lines 774-775: the two assignments that replace a negative index by 0. -/
def normTrack (t : Track) : Track :=
  let t : Track := if t.idx0 < 0 then { t with idx0 := 0 } else t
  if t.idx1 < 0 then { t with idx1 := 0 } else t

/-- Lines 772-781: the normalisation loop, `r` rounds from index `i`. -/
def normalise : Nat → Nat → Table → Except Err Table
  | 0, _, tbl => .ok tbl
  | r + 1, i, tbl =>
    if (normTrack (tbl i)).idx0 > (normTrack (tbl i)).idx1 then .error .index0AfterIndex1
    else normalise r (i + 1) (setTrack tbl i (normTrack (tbl i)))

/-- Line 803: the condition `!options.noGaps && (!options.autoGaps || CheckGaps(&tracks[i]))`
with its short-circuit evaluation. -/
def keepPregap (opts : CommandlineOptions) (t : Track) : Except Err Bool :=
  if opts.noGaps then .ok false
  else if !opts.autoGaps then .ok true
  else CheckGaps t

/-- Lines 809-812: the pregap of track `i` becomes a postgap of the previous track when that
one is an audio track of the same file run (`trackofs != 0`). -/
def growPrevious (tbl : Table) (i : Nat) (trackofs pregapframes : Int) : Table :=
  if i ≠ 0 ∧ trackofs ≠ 0
      ∧ ((tbl (i - 1)).mode = MODE_AUDIO ∨ (tbl (i - 1)).mode = MODE_AUDIOSUB) then
    setTotalSectors tbl (i - 1) (wrapI32 ((tbl (i - 1)).totalSectors + pregapframes))
  else tbl

/-- Lines 798-828: the first half of a round of the geometry loop, for track `i` at running
offset `trackofs`. -/
def pregapStep (opts : CommandlineOptions) (i : Nat) (tbl : Table) (trackofs : Int) :
    Except Err (Table × Int) :=
  let tbl := setStartOfs tbl i trackofs
  let pregapframes := wrapU32 ((tbl i).idx1 - (tbl i).idx0)
  if pregapframes ≠ 0 then
    match keepPregap opts (tbl i) with
    | .error e => .error e
    | .ok true =>
      if opts.allPostGaps then
        let tbl := growPrevious tbl i trackofs pregapframes
        let trackofs := trackofs + wrapU32 (pregapframes * (tbl i).sectorSize)
        .ok (setStartOfs tbl i trackofs, trackofs)
      else
        .ok (setIdx1 tbl i (tbl i).idx0, trackofs)
    | .ok false =>
      let trackofs := trackofs + wrapU32 (pregapframes * (tbl i).sectorSize)
      .ok (setStartOfs tbl i trackofs, trackofs)
  else .ok (tbl, trackofs)

/-- Lines 830-856: the second half of a round, the span of track `i` of `n`. -/
def spanStep (n i : Nat) (tbl : Table) (trackofs : Int) : Except Err (Table × Int) :=
  if i + 1 = n ∨ (tbl i).sSrcFileName ≠ (tbl (i + 1)).sSrcFileName then
    let filesize : Int := (tbl i).fdSrcFile.size
    let trackbytes := filesize - trackofs
    if trackbytes < 0 then .error .index1PastFileEnd
    else if (tbl i).sectorSize = 0 then .error .undefinedResult
    else .ok (setTotalSectors tbl i (wrapI32 (trackbytes / (tbl i).sectorSize)), 0)
  else
    if (tbl i).idx1 > (tbl (i + 1)).idx0 then .error .index1PastNextIndex0
    else
      let totalSectors := wrapI32 ((tbl (i + 1)).idx0 - (tbl i).idx1)
      .ok (setTotalSectors tbl i totalSectors,
           trackofs + wrapU32 (totalSectors * (tbl i).sectorSize))

/-- One round of the loop of lines 796-860. -/
def geomStep (opts : CommandlineOptions) (n i : Nat) (tbl : Table) (trackofs : Int) :
    Except Err (Table × Int) :=
  match pregapStep opts i tbl trackofs with
  | .error e => .error e
  | .ok (tbl, trackofs) => spanStep n i tbl trackofs

/-- Lines 795-860: `r` rounds of the geometry loop from index `i`. -/
def geomLoop (opts : CommandlineOptions) (n : Nat) :
    Nat → Nat → Table → Int → Except Err Table
  | 0, _, tbl, _ => .ok tbl
  | r + 1, i, tbl, trackofs =>
    match geomStep opts n i tbl trackofs with
    | .error e => .error e
    | .ok (tbl, trackofs) => geomLoop opts n r (i + 1) tbl trackofs

/-- Lines 771-860 of `IsoFromCue`: normalisation, the write to `tracks[nTracks]` of line 782
and the geometry loop, on the table of `n` tracks. -/
def geometryPass (opts : CommandlineOptions) (tbl : Table) (n : Nat) : Except Err Table :=
  match normalise n 0 tbl with
  | .error e => .error e
  | .ok tbl =>
    if n ≥ MAXIMUM_TRACK_NUMBERS then .error .tableOverflow
    else
      let tbl := setIdx0 (setIdx1 tbl n 0) n 0
      geomLoop opts n n 0 tbl 0

/-- Lines 862-875 of `IsoFromCue`: the overburn step; returns the table and `nTracks`. -/
def overburnStep (opts : CommandlineOptions) (tbl : Table) (n : Nat) :
    Except Err (Table × Nat) :=
  if opts.noOverburn then
    if n ≥ MAXIMUM_TRACK_NUMBERS then .error .tableOverflow
    else if (tbl n).idx0 > CD74_MAX_SECTORS then
      if n = 0 then .error .tableOverflow
      else
        let i := n
        let t := tbl (i - 1)
        .ok (setTrack tbl i { t with name := bytes "obdatatemp.bin", idx0 := CD74_MAX_SECTORS,
                                     idx1 := CD74_MAX_SECTORS, mode := (tbl (i - 1)).mode },
             n + 1)
    else .ok (tbl, n)
  else .ok (tbl, n)

/-- Lines 769-875 of `IsoFromCue`: the sheet is parsed and its geometry resolved. -/
def IsoFromCue (fs : FileSys) (opts : CommandlineOptions) (content : List Nat) :
    Except Err (Table × Nat) :=
  match ParseCue fs content with
  | .error e => .error e
  | .ok (tbl, n) =>
    match geometryPass opts tbl n with
    | .error e => .error e
    | .ok tbl => overburnStep opts tbl n

/-! ## `DoTrack` and the buffered file access (bin2iso.c 233-432) -/

/-- Line 378: `size_t datasize = track->sectorSize - track->predata - track->postdata`, a
`uint32_t` expression. -/
def datasize (t : Track) : Nat :=
  (wrapU32 ((t.sectorSize : Int) - t.predata - t.postdata)).toNat

/-- Lines 88-89. -/
abbrev OUTBUF_SIZE : Nat := 2 * 1024 * 1024

abbrev INBUF_SIZE : Nat := 4 * 1024 * 1024

/-- Lines 31-32. -/
abbrev HEADBYTES : Nat := 36

abbrev WINDOWS_PCM : Nat := 1

/-- An open `FILE*`: the file behind it and the position in it. -/
structure Stream where
  file : SrcFile
  pos : Nat

/-- Result of `fwrite(data, n, 1, s)` with `n > 0` on a stream open for writing: the bytes
replace or extend the file at the position, a hole left by a seek past the end reading as
zero. -/
def Stream.write (s : Stream) (data : List Nat) : Stream :=
  { file := ⟨max s.file.size (s.pos + data.length),
             fun p => if s.pos ≤ p ∧ p < s.pos + data.length then data.getD (p - s.pos) 0
                      else if p < s.file.size then s.file.byte p else 0⟩,
    pos := s.pos + data.length }

/-- The globals of lines 90-97 and the two streams the buffered functions work on.  `outBuf`
holds the bytes `outBuf[0 .. outBufIndex)`, so `outBufIndex` is its length.  `bin` is the
stream `fdBinFile`; `out` is the content of the file behind `fdOutFile` when that is another
stream than `fdBinFile`: it is written from its start and only appended to. -/
structure IOState where
  inBuf : Nat → Nat
  inBufReadIndex : Nat
  inBufWriteIndex : Nat
  outBuf : List Nat
  writePos : Int
  bin : Stream
  out : List Nat

/-- Line 238: `inBufWriteIndex = fread(inBuf, 1, INBUF_SIZE - INBUF_SIZE % readsize, srcfile)`. -/
def fillBuffer (readsize : Nat) (s : IOState) : IOState :=
  let n := min (INBUF_SIZE - INBUF_SIZE % readsize) (s.bin.file.size - s.bin.pos)
  { s with inBuf := fun p => if p < n then s.bin.file.byte (s.bin.pos + p) else s.inBuf p,
           inBufWriteIndex := n, bin := { s.bin with pos := s.bin.pos + n } }

/-- Lines 244-253 of `BufferedFRead`: the pointer handed out is the offset of the record in
`inBuf`; `inBufReadIndex` is a `uint32_t`; the `memset` must stay inside `inBuf`. -/
def takeRecord (readsize : Nat) (s : IOState) : Except Err (Option Nat × IOState) :=
  let idx := (s.inBufReadIndex + readsize) % 4294967296
  if idx > s.inBufWriteIndex then
    if idx > INBUF_SIZE then .error .undefinedResult
    else .ok (some s.inBufReadIndex,
      { s with inBufReadIndex := idx,
               inBuf := fun p => if s.inBufWriteIndex ≤ p ∧ p < idx then 0 else s.inBuf p })
  else .ok (some s.inBufReadIndex, { s with inBufReadIndex := idx })

/-- Source `BufferedFRead(&readptr, readsize, srcfile)` on the stream `bin`: `none` for
`false`, the offset of `*readptr` in `inBuf` for `true`.  A `readsize` of 0 divides by
zero. -/
def BufferedFRead (readsize : Nat) (s : IOState) : Except Err (Option Nat × IOState) :=
  if s.inBufReadIndex ≥ s.inBufWriteIndex then
    if readsize = 0 then .error .undefinedResult
    else
      let s1 := fillBuffer readsize s
      if s1.inBufWriteIndex = 0 then .ok (none, s1)
      else takeRecord readsize { s1 with inBufReadIndex := 0 }
  else takeRecord readsize s

/-- Lines 259-289 of `BufferedFWrite`: the flush of a full `outBuf`.  `same` is the test
`fdOutFile == fdBinFile`.  `fwrite` of an item of 0 bytes returns 0, which the source takes
for a failure. -/
def flushFull (same : Bool) (s : IOState) : Except Err IOState :=
  if s.outBuf = [] then .error .fwriteFailed
  else if same then
    if s.writePos < 0 then .error .seekFailed
    else
      let w := Stream.write ⟨s.bin.file, s.writePos.toNat⟩ s.outBuf
      .ok { s with bin := ⟨w.file, s.bin.pos⟩, writePos := w.pos, outBuf := [] }
  else .ok { s with out := s.out ++ s.outBuf, outBuf := [] }

/-- Source `BufferedFWrite(srcptr, size, fdBinFile)`, `srcptr` being `inBuf + src`.  The
`memcpy` must stay inside both buffers. -/
def BufferedFWrite (same : Bool) (src size : Nat) (s : IOState) : Except Err IOState :=
  match (if s.outBuf.length + size > OUTBUF_SIZE then flushFull same s else .ok s) with
  | .error e => .error e
  | .ok s =>
    if s.outBuf.length + size > OUTBUF_SIZE ∨ src + size > INBUF_SIZE then
      .error .undefinedResult
    else .ok { s with outBuf := s.outBuf ++ (List.range size).map (fun k => s.inBuf (src + k)) }

/-- Source `FlushBuffers(fdBinFile)`. -/
def FlushBuffers (same : Bool) (s : IOState) : Except Err IOState :=
  if same then
    if s.writePos < 0 then .error .seekFailed
    else
      let w := if s.outBuf = [] then (⟨s.bin.file, s.writePos.toNat⟩ : Stream)
               else Stream.write ⟨s.bin.file, s.writePos.toNat⟩ s.outBuf
      .ok { s with bin := ⟨w.file, s.bin.pos⟩, writePos := w.pos, outBuf := [],
                   inBufReadIndex := 0, inBufWriteIndex := 0 }
  else .ok { s with out := s.out ++ s.outBuf, outBuf := [],
                    inBufReadIndex := 0, inBufWriteIndex := 0 }

/-- Source `tWavHead` (lines 13-29). -/
structure tWavHead where
  riff : List Nat
  bytesToEnd : Nat
  waveTxt : List Nat
  fmtTxt : List Nat
  formatSize : Nat
  format : Nat
  channels : Nat
  sampleRate : Nat
  avgByteRate : Nat
  sampleBytes : Nat
  channelBits : Nat
  dataTxt : List Nat
  blockSize : Nat

/-- Object representation of a `uint16_t` on a little-endian machine. -/
def le16 (x : Nat) : List Nat := [x % 256, x / 256 % 256]

/-- Object representation of a `uint32_t` on a little-endian machine. -/
def le32 (x : Nat) : List Nat := [x % 256, x / 256 % 256, x / 65536 % 256, x / 16777216 % 256]

/-- The bytes `fwrite(&wavhead, sizeof(wavhead), 1, f)` writes on a little-endian machine.
Every member of `tWavHead` lies at a multiple of its size, so the structure has no padding. -/
def tWavHead.objectBytes (h : tWavHead) : List Nat :=
  h.riff ++ le32 h.bytesToEnd ++ h.waveTxt ++ h.fmtTxt ++ le32 h.formatSize ++ le16 h.format
    ++ le16 h.channels ++ le32 h.sampleRate ++ le32 h.avgByteRate ++ le16 h.sampleBytes
    ++ le16 h.channelBits ++ h.dataTxt ++ le32 h.blockSize

/-- Lines 390-406: `totalsize` and the initialiser of `wavhead`.  The product is an `int`
expression converted to `uint32_t`. -/
def wavhead (t : Track) : tWavHead :=
  let totalsize := (wrapU32 (wrapI32 (t.totalSectors * SIZERAW))).toNat
  { riff := bytes "RIFF", bytesToEnd := (totalsize + HEADBYTES) % 4294967296,
    waveTxt := bytes "WAVE", fmtTxt := bytes "fmt ", formatSize := 16, format := WINDOWS_PCM,
    channels := 2, sampleRate := 44100, avgByteRate := 176400, sampleBytes := 4,
    channelBits := 16, dataTxt := bytes "data", blockSize := totalsize }

/-- Lines 422-425: the copy loop, `remainingsectors` rounds at most. -/
def copyLoop (t : Track) : Nat → IOState → Except Err IOState
  | 0, s => .ok s
  | n + 1, s =>
    match BufferedFRead t.sectorSize s with
    | .error e => .error e
    | .ok (none, s) => .ok s
    | .ok (some buffer, s) =>
      match BufferedFWrite false (buffer + t.predata) (datasize t) s with
      | .error e => .error e
      | .ok s => copyLoop t n s

/-- Source `DoTrack(track)`.  The state on entry holds the globals; `fdOutFile` is a newly
created file, another stream than the source file of the track.  The result holds the
globals and, in `out`, the content of the file written. -/
def DoTrack (t : Track) (s : IOState) : Except Err IOState :=
  if ¬ (t.mode = MODE_AUDIO ∨ t.mode = MODE_AUDIOSUB ∨ t.mode = MODE1_2352 ∨
      t.mode = MODE1_2048 ∨ t.mode = MODE1_2448 ∨ t.mode = MODE2_2352 ∨
      t.mode = MODE2_2336) then .error .unexpectedMode
  else
    let header := if t.mode = MODE_AUDIO ∨ t.mode = MODE_AUDIOSUB then (wavhead t).objectBytes
                  else []
    if t.startOfs < 0 then .error .seekFailed
    else
      match copyLoop t (wrapU32 t.totalSectors).toNat
          { s with out := header, bin := ⟨t.fdSrcFile, t.startOfs.toNat⟩ } with
      | .error e => .error e
      | .ok s => FlushBuffers false s

/-- The globals as the program starts. -/
def IOState.init : IOState :=
  { inBuf := fun _ => 0, inBufReadIndex := 0, inBufWriteIndex := 0, outBuf := [],
    writePos := 0, bin := ⟨⟨0, fun _ => 0⟩, 0⟩, out := [] }

/-! ## The splitting loop of `CueFromBin` (bin2iso.c 1215-1288) -/

/-- Conversion of an integer value to `int16_t`. -/
def wrapI16 (x : Int) : Int := (x + 32768) % 65536 - 32768

/-- Lines 1228-1229: `int16_t value = buffer[i] | (buffer[i + 1] << 8)` and
`uint32_t squared = value * value`, for the two bytes `lo`, `hi` of a sample. -/
def sampleSquared (lo hi : Nat) : Nat :=
  let value := wrapI16 (((lo % 256) ||| ((hi % 256) <<< 8) : Nat) : Int)
  (wrapU32 (value * value)).toNat

/-- Lines 1226-1233: the rounds of the loop `for (i = 0; i < SIZERAW; i += 2)` from index
`i` on, `n` of them; `RMS` is a `uint64_t`, `samplehits` a `uint32_t`. -/
def statsLoop (limitsquared : Nat) (buffer : Nat → Nat) : Nat → Nat → Nat → Nat → Nat × Nat
  | 0, _, rms, samplehits => (rms, samplehits)
  | n + 1, i, rms, samplehits =>
    let squared := sampleSquared (buffer i) (buffer (i + 1))
    statsLoop limitsquared buffer n (i + 2) ((rms + squared) % 18446744073709551616)
      (if squared > limitsquared then (samplehits + 1) % 4294967296 else samplehits)

/-- Lines 1223-1234: `RMS` and `samplehits` of the sector at `buffer`; the loop has
`SIZERAW / 2` rounds and the sum is divided by `SIZERAW`. -/
def sectorStats (limitsquared : Nat) (buffer : Nat → Nat) : Nat × Nat :=
  ((statsLoop limitsquared buffer (SIZERAW / 2) 0 0 0).1 / SIZERAW,
   (statsLoop limitsquared buffer (SIZERAW / 2) 0 0 0).2)

/-- Line 1218: `uint32_t limitsquared = options.splitRmsLimit * options.splitRmsLimit`. -/
def limitSquared (opts : CommandlineOptions) : Nat :=
  (wrapU32 (wrapI32 ((opts.splitRmsLimit : Int) * opts.splitRmsLimit))).toNat

/-- The locals of `CueFromBin` the splitting loop works on, and in `cue` the text written to
the cue file by the loop. -/
structure SplitState where
  gapsectors : Nat
  lowestRMS : Nat
  lowestRMSsector0 : Nat
  lowestRMSsector1 : Nat
  sector : Nat
  track : Int
  cue : List Nat

/-- The output of `printf("%02d", n)`. -/
def fmt02d (n : Int) : List Nat :=
  if n < 0 then 45 :: fmtD (-n).toNat
  else if n < 10 then 48 :: fmtD n.toNat
  else fmtD n.toNat

/-- Lines 1178, 1251 and 1255: `TimeIndex(sector, indextxt)` for the buffer
`char indextxt[9]` of `CueFromBin`: the text, when it fits the buffer together with its
terminator.  From minute 100 on `sprintf` writes ten bytes, beyond the end of the buffer. -/
def indexText (sector : Nat) : Except Err (List Nat) :=
  if (TimeIndex sector).length + 1 ≤ 9 then .ok (TimeIndex sector) else .error .tableOverflow

/-- Lines 1248-1258: the three lines written for a split. -/
def splitText (track : Int) (modetxt : List Nat) (sector0 sector1 : Nat) :
    Except Err (List Nat) :=
  match indexText sector0 with
  | .error e => .error e
  | .ok index0 =>
    match indexText sector1 with
    | .error e => .error e
    | .ok index1 =>
      .ok (bytes "  TRACK " ++ fmt02d track ++ bytes " " ++ modetxt ++ bytes "\n"
        ++ bytes "    INDEX 00 " ++ index0 ++ bytes "\n"
        ++ bytes "    INDEX 01 " ++ index1 ++ bytes "\n")

/-- Lines 1236-1261: a sector above the limit. -/
def loudStep (opts : CommandlineOptions) (modetxt : List Nat) (st : SplitState) :
    Except Err SplitState :=
  if st.gapsectors = 0 then .ok st
  else if st.gapsectors ≥ opts.splitGapLength then
    match splitText (wrapI32 (st.track + 1)) modetxt st.lowestRMSsector0
        st.lowestRMSsector1 with
    | .error e => .error e
    | .ok text =>
      .ok { st with track := wrapI32 (st.track + 1), cue := st.cue ++ text, gapsectors := 0 }
  else .ok { st with gapsectors := 0 }

/-- Lines 1263-1285: a sector not above the limit. -/
def quietStep (rms : Nat) (st : SplitState) : SplitState :=
  if st.gapsectors ≠ 0 then
    if rms ≤ st.lowestRMS then
      if rms ≠ st.lowestRMS then
        { st with lowestRMS := rms % 4294967296, lowestRMSsector0 := st.sector,
                  lowestRMSsector1 := st.sector,
                  gapsectors := (st.gapsectors + 1) % 4294967296 }
      else { st with lowestRMSsector1 := st.sector,
                     gapsectors := (st.gapsectors + 1) % 4294967296 }
    else { st with gapsectors := (st.gapsectors + 1) % 4294967296 }
  else
    { st with lowestRMS := rms % 4294967296, lowestRMSsector0 := st.sector,
              lowestRMSsector1 := st.sector, gapsectors := (st.gapsectors + 1) % 4294967296 }

/-- Lines 1236-1287: the body of the loop after the statistics of the sector. -/
def splitStep (opts : CommandlineOptions) (modetxt : List Nat) (rms samplehits : Nat)
    (st : SplitState) : Except Err SplitState :=
  match (if rms > limitSquared opts ∧ samplehits > 120 then loudStep opts modetxt st
         else .ok (quietStep rms st)) with
  | .error e => .error e
  | .ok st => .ok { st with sector := (st.sector + 1) % 4294967296 }

/-- Lines 1220-1288: the loop `while (BufferedFRead(&buffer, sectorsize, fdBinFile))`;
`fuel` bounds the number of rounds, one more than the number of sectors left in the file
suffices. -/
def splitLoop (opts : CommandlineOptions) (modetxt : List Nat) (sectorsize : Nat) :
    Nat → IOState → SplitState → Except Err (IOState × SplitState)
  | 0, s, st => .ok (s, st)
  | fuel + 1, s, st =>
    match BufferedFRead sectorsize s with
    | .error e => .error e
    | .ok (none, s) => .ok (s, st)
    | .ok (some buffer, s) =>
      match splitStep opts modetxt
          (sectorStats (limitSquared opts) (fun i => s.inBuf (buffer + i))).1
          (sectorStats (limitSquared opts) (fun i => s.inBuf (buffer + i))).2 st with
      | .error e => .error e
      | .ok st => splitLoop opts modetxt sectorsize fuel s st

/-! ## `CheckIsoHeader` and `AnalyseTrack` (bin2iso.c 37-39, 960-1142) -/

/-- Source `syncPattern`. -/
def syncPattern : List Nat := [0, 255, 255, 255, 255, 255, 255, 255, 255, 255, 255, 0]

/-- Source `isoVolumeDescriptor`: `{ 0x01, 'C', 'D', '0', '0', '1', 0x01, 0x00 }`. -/
def isoVolumeDescriptor : List Nat := [1, 67, 68, 48, 48, 49, 1, 0]

/-- Source `udfVolumeDescriptor`: `{ 0x00, 'B', 'E', 'A', '0', '1', 0x01, 0x00 }`. -/
def udfVolumeDescriptor : List Nat := [0, 66, 69, 65, 48, 49, 1, 0]

/-- The `n` elements of a `uint8_t` buffer from offset `ofs` on: the test
`memcmp(buffer + ofs, pat, n) == 0` is `bytesAt buffer ofs n = pat`. -/
def bytesAt (buffer : Nat → Nat) (ofs n : Nat) : List Nat :=
  (List.range n).map (fun k => buffer (ofs + k) % 256)

/-- Source `CheckIsoHeader(buffer + ofs, &sectorcount)`: the value of `sectorcount` on
return.  `volumeBlockCountLSB` lies at offset 80 of the packed `tIsoDescriptor` and is read
as a `uint32_t` on a little-endian machine. -/
def CheckIsoHeader (buffer : Nat → Nat) (ofs sectorcount : Nat) : Nat :=
  if bytesAt buffer ofs 8 = isoVolumeDescriptor then
    buffer (ofs + 80) % 256 + 256 * (buffer (ofs + 81) % 256)
      + 65536 * (buffer (ofs + 82) % 256) + 16777216 * (buffer (ofs + 83) % 256)
  else sectorcount

/-- Lines 998 and 1006-1009: `(buffer[ofs + 12] << 16) | (buffer[ofs + 13] << 8) |
buffer[ofs + 14]`. -/
def timeIndexAt (buffer : Nat → Nat) (ofs : Nat) : Nat :=
  ((buffer (ofs + 12) % 256) <<< 16) ||| ((buffer (ofs + 13) % 256) <<< 8)
    ||| (buffer (ofs + 14) % 256)

/-- Lines 1001-1011: the loop `for (sectorsize = 2064; sectorsize < 2560; sectorsize += 4)`
from the value `sectorsize` on, up to the `break` of a round that is not left by `continue`:
the sector size found, if any.  The loop has 124 rounds at most. -/
def candidateLoop (buffer : Nat → Nat) : Nat → Nat → Option Nat
  | 0, _ => none
  | fuel + 1, sectorsize =>
    if ¬ sectorsize < 2560 then none
    else if bytesAt buffer sectorsize 12 ≠ syncPattern then
      candidateLoop buffer fuel (sectorsize + 4)
    else if timeIndexAt buffer sectorsize ≤ timeIndexAt buffer 0
        ∨ buffer 15 % 256 ≠ buffer (sectorsize + 15) % 256 then
      candidateLoop buffer fuel (sectorsize + 4)
    else some sectorsize

/-- Lines 1028-1044: the loop that counts the sectors beginning with the sync pattern, on the
`uint32_t` variables `isotrackbytes` and `isotracksectors`; `fread` of 12 bytes fails at the
end of the file.  `fuel` bounds the number of rounds; `none` when it does not suffice. -/
def syncRun (f : SrcFile) (readpos sectorsize : Nat) : Nat → Nat → Nat → Option (Nat × Nat)
  | 0, _, _ => none
  | fuel + 1, isotrackbytes, isotracksectors =>
    if readpos + isotrackbytes + 12 > f.size then some (isotrackbytes, isotracksectors)
    else if bytesAt f.byte (readpos + isotrackbytes) 12 ≠ syncPattern then
      some (isotrackbytes, isotracksectors)
    else syncRun f readpos sectorsize fuel ((isotrackbytes + sectorsize) % 4294967296)
      ((isotracksectors + 1) % 4294967296)

/-- Lines 1117-1121: the loop `while (count <= maxcount && remaining > 0 && remaining %
SIZERAW != 0)` on the `uint32_t` variables `remaining` and `count`: their values when it is
left.  The test fails when `count` is 148, so 149 evaluations of it suffice. -/
def alignLoop (sectorsize : Nat) : Nat → Nat → Nat → Nat × Nat
  | 0, remaining, count => (remaining, count)
  | fuel + 1, remaining, count =>
    if count ≤ 147 ∧ remaining > 0 ∧ remaining % SIZERAW ≠ 0 then
      alignLoop sectorsize fuel ((remaining + 4294967296 - sectorsize % 4294967296) % 4294967296)
        (count + 1)
    else (remaining, count)

/-- What `AnalyseTrack` leaves: the text in `modetxt`, the value returned (the `uint32_t`
variable `isotracksectors`; the caller stores the `int32_t` result in a `uint32_t` again),
`*subchanbytes`, and the locals `sectorsize` and `isotrackbytes`, the latter being the offset
from the position on entry at which the file is left. -/
structure Analysis where
  modetxt : List Nat
  isotracksectors : Nat
  subchanbytes : Nat
  sectorsize : Nat
  isotrackbytes : Nat

/-- Lines 1048-1063: `*subchanbytes` after the test of the remaining size, in the sync
path. -/
def subchanAfter (remaining sectorsize subchanbytes : Nat) : Nat :=
  if remaining % SIZERAW ≠ 0 ∧ remaining % sectorsize ≠ 0 then subchanbytes
  else if sectorsize < SIZERAW then subchanbytes
  else if sectorsize > SIZERAW then sectorsize - SIZERAW
  else subchanbytes

/-- Lines 1110-1133: the alignment of the end of the data region in the path without sync
pattern, for `isotracksectors ≠ 0`: the new `isotrackbytes` and `isotracksectors`. -/
def alignRegion (filesize readpos sectorsize isotracksectors : Nat) : Nat × Nat :=
  let isotrackbytes := (isotracksectors * sectorsize) % 4294967296
  let remaining := (((filesize : Int) - readpos - isotrackbytes) % 4294967296).toNat
  let count := (alignLoop sectorsize 149 remaining 0).2
  if count ≤ 147 then
    ((isotrackbytes + count * sectorsize) % 4294967296, (isotracksectors + count) % 4294967296)
  else (isotrackbytes, isotracksectors)

/-- Source `AnalyseTrack(srcfile, modetxt, &subchanbytes)` for the file `f` at position
`readpos`, `subchanbytes` being the value of `*subchanbytes` on entry.  `fuel` bounds the
rounds of the loop of lines 1028-1044. -/
def AnalyseTrack (fuel : Nat) (f : SrcFile) (readpos subchanbytes : Nat) :
    Except Err Analysis :=
  if readpos + 50000 > f.size then .error .freadFailed
  else
    let buffer : Nat → Nat := fun k => f.byte (readpos + k)
    if bytesAt buffer 0 12 = syncPattern then
      match candidateLoop buffer 125 2064 with
      | none =>
        .ok { modetxt := bytes "AUDIO", isotracksectors := 0, subchanbytes := subchanbytes,
              sectorsize := 2560, isotrackbytes := 0 }
      | some sectorsize =>
        let hdrofs := sectorsize * 16 + (if buffer 15 % 256 = 1 then 16 else 24)
        let isotracksectors := CheckIsoHeader buffer hdrofs 0
        let isotrackbytes :=
          if isotracksectors ≠ 0 then (isotracksectors * sectorsize) % 4294967296 else 0
        match syncRun f readpos sectorsize fuel isotrackbytes isotracksectors with
        | none => .error .outOfFuel
        | some (isotrackbytes, isotracksectors) =>
          let remaining := (((f.size : Int) - readpos - isotrackbytes) % 4294967296).toNat
          .ok { modetxt := bytes "MODE" ++ fmtD (buffer 15 % 256) ++ bytes "/" ++ fmtD sectorsize,
                isotracksectors := isotracksectors,
                subchanbytes := subchanAfter remaining sectorsize subchanbytes,
                sectorsize := sectorsize, isotrackbytes := isotrackbytes }
    else
      let a : Analysis :=
        if CheckIsoHeader buffer 0x8000 0 ≠ 0 then
          { modetxt := bytes "MODE1/2048", isotracksectors := CheckIsoHeader buffer 0x8000 0,
            subchanbytes := subchanbytes, sectorsize := 2048, isotrackbytes := 0 }
        else if CheckIsoHeader buffer 0x9208 0 ≠ 0 then
          { modetxt := bytes "MODE2/2336", isotracksectors := CheckIsoHeader buffer 0x9208 0,
            subchanbytes := subchanbytes, sectorsize := 2336, isotrackbytes := 0 }
        else if bytesAt buffer 0x8000 8 = udfVolumeDescriptor then
          { modetxt := bytes "MODE1/2048", isotracksectors := (f.size / 2048) % 4294967296,
            subchanbytes := subchanbytes, sectorsize := 2048, isotrackbytes := 0 }
        else
          { modetxt := bytes "AUDIO", isotracksectors := 0, subchanbytes := subchanbytes,
            sectorsize := SIZERAW, isotrackbytes := 0 }
      if a.isotracksectors ≠ 0 then
        .ok { a with
          isotrackbytes := (alignRegion f.size readpos a.sectorsize a.isotracksectors).1,
          isotracksectors := (alignRegion f.size readpos a.sectorsize a.isotracksectors).2 }
      else .ok a

/-! ## The first track and the label of the audio tracks in `CueFromBin` (bin2iso.c 1181-1196) -/

/-- Text that `sprintf` writes for one `%d` conversion of an `int` value. -/
def fmtInt (n : Int) : List Nat := if n < 0 then 45 :: fmtD (-n).toNat else fmtD n.toNat

/-- Lines 1184-1191 of `CueFromBin`: the lines written for the first track, `a` being what
`AnalyseTrack` has left; nothing is written when the sector count returned is 0. -/
def firstTrackText (a : Analysis) : List Nat :=
  if a.isotracksectors ≠ 0 then
    bytes "  TRACK 01 " ++ a.modetxt ++ bytes "\n" ++ bytes "    INDEX 01 00:00:00\n"
  else []

/-- Line 1193 of `CueFromBin`: `uint32_t sectorsize = SIZERAW + subchanbytes`, the record
size of the splitting loop. -/
def audioSectorSize (subchanbytes : Nat) : Nat := (SIZERAW + subchanbytes) % 4294967296

/-- Lines 1192-1195 of `CueFromBin`: `modetxt` in the splitting loop, `AUDIO` or the text of
`sprintf(modetxt, "AUDIO/%d", sectorsize)`; `modetxt` has 13 bytes, which hold the text while
the number has six characters at most. -/
def audioLabel (subchanbytes : Nat) : List Nat :=
  if subchanbytes ≠ 0 then bytes "AUDIO/" ++ fmtInt (wrapI32 (audioSectorSize subchanbytes))
  else bytes "AUDIO"

/-! ## Vocabulary of the statements -/

/-- The BCD byte of a two-digit number: tens digit in the high nibble (the packing named by
the specification). -/
def toBCD (n : Nat) : Nat := (n / 10) * 16 + n % 10

/-- The text `mm:ss:ff` of three two-digit numbers. -/
def timeText (m s f : Nat) : List Nat :=
  [48 + m / 10, 48 + m % 10, 58, 48 + s / 10, 48 + s % 10, 58, 48 + f / 10, 48 + f % 10]

/-- The range of the index fields of a track while a sheet is parsed: `-1` (unset) or a
value `SectorIndex` can return. -/
def idxBounded (t : Track) : Prop :=
  -1 ≤ t.idx0 ∧ t.idx0 ≤ 755040 ∧ -1 ≤ t.idx1 ∧ t.idx1 ≤ 755040

/-- An `INDEX` line: leading white space `pre`, the keyword, `a` spaces, the index number
`i` written with `z` leading zeros, `b + 1` spaces, the time `mm:ss:ff` and any further
text. -/
def indexLine (pre : List Nat) (a z i b m s f : Nat) (rest : List Nat) : List Nat :=
  pre ++ bytes "INDEX " ++ List.replicate a 32 ++ List.replicate z 48 ++ [48 + i, 32]
    ++ List.replicate b 32 ++ timeText m s f ++ rest


/-- A parser state with one track, the active one. -/
def stOneTrack : CueState := { CueState.init with nTracks := 1, track := some 0 }

/-- A file system holding the one file `a.bin`. -/
def fsOne (f : SrcFile) : FileSys := fun n => if n = bytes "a.bin" then some f else none

/-- The sheet of scenario 1. -/
def sheetC3 : List Nat :=
  bytes "FILE \"a.bin\" BINARY\n  TRACK 01 MODE1/2048\n    INDEX 01 00:00:00\n"

/-- The sheet of scenario 2. -/
def sheetC4 : List Nat :=
  bytes ("FILE \"a.bin\" BINARY\n  TRACK 01 AUDIO\n    INDEX 01 00:02:00\n" ++
    "  TRACK 02 AUDIO\n    INDEX 00 00:10:00\n    INDEX 01 00:10:20\n")

/-- A sheet with one audio track from the start of the file. -/
def sheetC9 : List Nat := bytes "FILE \"a.bin\" BINARY\n  TRACK 01 AUDIO\n    INDEX 01 00:00:00\n"

/-- A sheet with two audio tracks, the second with a pregap of one sector at sector 10. -/
def sheetC10 : List Nat :=
  bytes ("FILE \"a.bin\" BINARY\n  TRACK 01 AUDIO\n    INDEX 01 00:00:00\n" ++
    "  TRACK 02 AUDIO\n    INDEX 00 00:00:10\n    INDEX 01 00:00:11\n")

/-- A file of 20 raw sectors whose sector 10 begins with 100 non-zero 32-bit words, all
other bytes being zero. -/
def fileC10 : SrcFile :=
  ⟨2352 * 20, fun p => if 23520 ≤ p ∧ p < 23520 + 400 then 1 else 0⟩

/-- Number of non-zero 32-bit words among the first 588 words of each of the `pg` sectors of
`ss` bytes that start at byte `start` of the file. -/
def gapWordCount (f : SrcFile) (ss pg start : Nat) : Nat :=
  ((List.range pg).map (fun k =>
    ((List.range 588).filter (fun w => wordNonZero f (start + k * ss + 4 * w))).length)).sum

/-- Number of non-zero words among the `k` words from byte `pos` on. -/
def countNZ (f : SrcFile) (pos k : Nat) : Nat :=
  ((List.range k).filter (fun w => wordNonZero f (pos + 4 * w))).length

/-- The tracks agree in every field the geometry loop only reads: all but `idx1`, `startOfs`
and `totalSectors`. -/
structure SameIn (a b : Track) : Prop where
  mode : a.mode = b.mode
  num : a.num = b.num
  idx0 : a.idx0 = b.idx0
  sectorSize : a.sectorSize = b.sectorSize
  predata : a.predata = b.predata
  postdata : a.postdata = b.postdata
  fdSrcFile : a.fdSrcFile = b.fdSrcFile
  sSrcFileName : a.sSrcFileName = b.sSrcFileName
  name : a.name = b.name

/-- A table whose entries are one raw audio track from sector 0 over a file of 23525 bytes
(ten sectors of 2352 bytes and 5 more bytes). -/
def tblOdd : Table :=
  fun _ => { Track.zero with sectorSize := 2352, fdSrcFile := ⟨23525, fun _ => 0⟩ }

/-- A sheet with an `AUDIO/2448` track followed, in the same file, by an `AUDIO` track with
a pregap of 10 sectors. -/
def sheetC5 : List Nat :=
  bytes ("FILE \"a.bin\" BINARY\n  TRACK 01 AUDIO/2448\n    INDEX 01 00:00:00\n" ++
    "  TRACK 02 AUDIO\n    INDEX 00 00:00:10\n    INDEX 01 00:00:20\n")

/-- A sheet with two `AUDIO/2147483648` tracks in one file, the first of two sectors. -/
def sheetC5wrap : List Nat :=
  bytes ("FILE \"a.bin\" BINARY\n  TRACK 01 AUDIO/2147483648\n    INDEX 01 00:00:00\n" ++
    "  TRACK 02 AUDIO/2147483648\n    INDEX 01 00:00:02\n")

/-- An entry with a one-sector pregap at sector 10 of `fileC10`. -/
def tblC10 : Table :=
  fun _ => { Track.zero with idx0 := 10, idx1 := 11, sectorSize := 2352, fdSrcFile := fileC10 }

/-- The options of `bin2iso -a`. -/
def optsAuto : CommandlineOptions := { defaultOptions with autoGaps := true }

/-- The track table `ParseCue` yields for the sheet of scenario 2 over a file of 1000 raw
sectors. -/
def tblC4 : Table :=
  match ParseCue (fsOne ⟨2352 * 1000, fun _ => 0⟩) sheetC4 with
  | .ok (tbl, _) => tbl
  | .error _ => fun _ => Track.zero

/-- Both indices of a track are unset (`-1`), or both hold a sector number. -/
def idxPaired (t : Track) : Prop :=
  (t.idx0 = -1 ∧ t.idx1 = -1) ∨ (0 ≤ t.idx0 ∧ 0 ≤ t.idx1)

/-- A sheet whose only track has an `INDEX 01` line and no `INDEX 00` line. -/
def sheetC12 : List Nat := bytes "FILE \"a.bin\" BINARY\n  TRACK 01 AUDIO\n    INDEX 01 00:02:00\n"

/-- The index from which the span of a track is counted when automatic gap detection is
off: `idx0` when the pregap is preserved (neither discarded nor converted to a postgap),
`idx1` otherwise. -/
def effIdx1 (opts : CommandlineOptions) (t : Track) : Int :=
  if opts.noGaps = false ∧ opts.allPostGaps = false then t.idx0 else t.idx1

/-- A sheet whose first track has `INDEX 01` at sector 300, past the `INDEX 00` of the
second track of the same file at sector 150. -/
def sheetC11 : List Nat :=
  bytes ("FILE \"a.bin\" BINARY\n  TRACK 01 AUDIO\n    INDEX 00 00:00:00\n" ++
    "    INDEX 01 00:04:00\n  TRACK 02 AUDIO\n    INDEX 01 00:02:00\n")

/-- The options of `bin2iso -p`: pregaps are preserved. -/
def optsPreserve : CommandlineOptions := { defaultOptions with allPostGaps := false }

/-- The track table `ParseCue` yields for `sheetC11` over a file of 1000 raw sectors. -/
def tblC11 : Table :=
  match ParseCue (fsOne ⟨2352 * 1000, fun _ => 0⟩) sheetC11 with
  | .ok (tbl, _) => tbl
  | .error _ => fun _ => Track.zero

/-- The table `tblC11` after the normalisation loop. -/
def normC11 : Table :=
  match normalise 2 0 tblC11 with
  | .ok N => N
  | .error _ => fun _ => Track.zero

/-- A `TRACK` line: leading white space `pre`, the keyword, `a` spaces, the digits of the
track number, the byte `c` that follows them, `b` spaces and the datatype text `dt` with the
rest of the line. -/
def trackLine (pre : List Nat) (a : Nat) (digits : List Nat) (c b : Nat) (dt : List Nat) :
    List Nat :=
  pre ++ bytes "TRACK " ++ List.replicate a 32 ++ digits ++ [c] ++ List.replicate b 32 ++ dt

/-- The text begins with one of the seven datatype names the `TRACK` branch compares with
(`AUDIO` covers `AUDIO/<n>`). -/
def listedPrefix (d : List Nat) : Prop :=
  bytes "AUDIO" <+: d ∨ bytes "MODE1/2352" <+: d ∨ bytes "MODE1/2048" <+: d ∨
    bytes "MODE1/2448" <+: d ∨ bytes "MODE2/2352" <+: d ∨ bytes "MODE2/2336" <+: d ∨
    bytes "MODE2/2448" <+: d

/-- The mode `m` is the one named at the start of the datatype text `d`. -/
def modeMatches (m : Nat) (d : List Nat) : Prop :=
  (bytes "AUDIO/" <+: d → m = MODE_AUDIOSUB) ∧
  (bytes "AUDIO" <+: d → ¬ bytes "AUDIO/" <+: d → m = MODE_AUDIO) ∧
  (bytes "MODE1/2352" <+: d → m = MODE1_2352) ∧
  (bytes "MODE1/2048" <+: d → m = MODE1_2048) ∧
  (bytes "MODE1/2448" <+: d → m = MODE1_2448) ∧
  (bytes "MODE2/2352" <+: d → m = MODE2_2352) ∧
  (bytes "MODE2/2336" <+: d → m = MODE2_2336) ∧
  (bytes "MODE2/2448" <+: d → m = MODE2_2448)

/-- A parser state after a `FILE "a.bin"` line. -/
def stFile : CueState := { CueState.init with activefile := bytes "a.bin" }

/-- The sector layout the `TRACK` branch gives a track of each mode: the sector size is
below `2^32`, the three sizes are consistent, the payload of the six data modes is 2048 bytes, an `AUDIO` track has raw
sectors, and an `AUDIO/<n>` track has sectors of `n` bytes (`n` below `2^32`) of which the
first 2352, or all `n` when `n` is smaller, are payload. -/
def layoutOK (t : Track) : Prop :=
  t.sectorSize < 4294967296 ∧ t.predata + t.postdata ≤ t.sectorSize ∧
  ((t.mode = MODE1_2352 ∨ t.mode = MODE1_2048 ∨ t.mode = MODE1_2448 ∨ t.mode = MODE2_2352 ∨
      t.mode = MODE2_2336 ∨ t.mode = MODE2_2448) → 0 < t.sectorSize ∧ datasize t = 2048) ∧
  (t.mode = MODE_AUDIO → t.sectorSize = 2352 ∧ datasize t = 2352) ∧
  (t.mode = MODE_AUDIOSUB → t.predata = 0 ∧ datasize t = min t.sectorSize 2352) ∧
  (t.mode = MODE_AUDIO ∨ t.mode = MODE_AUDIOSUB ∨ t.mode = MODE1_2352 ∨ t.mode = MODE1_2048 ∨
    t.mode = MODE1_2448 ∨ t.mode = MODE2_2352 ∨ t.mode = MODE2_2336 ∨ t.mode = MODE2_2448)

/-- A sheet with an `AUDIO/100` and an `AUDIO/0` track. -/
def sheetC14 : List Nat :=
  bytes ("FILE \"a.bin\" BINARY\n  TRACK 01 AUDIO/100\n    INDEX 01 00:00:00\n" ++
    "  TRACK 02 AUDIO/0\n    INDEX 01 00:00:10\n")

/-- An `INDEX` line in general: leading white space `pre`, the keyword, `a` spaces, the
digits of the index number (possibly none) and the rest of the line. -/
def indexLineG (pre : List Nat) (a : Nat) (digits rest : List Nat) : List Nat :=
  pre ++ bytes "INDEX " ++ List.replicate a 32 ++ digits ++ rest

/-- The track is an `AUDIO` or `AUDIO/<n>` track. -/
def isAudio (t : Track) : Prop := t.mode = MODE_AUDIO ∨ t.mode = MODE_AUDIOSUB

instance (t : Track) : Decidable (isAudio t) := by
  unfold isAudio
  infer_instance

/-- The sector number of the time field at the start of a text, as the `INDEX` branch
reads it (bytes 0, 1, 3, 4, 6 and 7). -/
def timeSector (tf : List Nat) : Nat :=
  SectorIndex (packDigits (tf.getD 0 0) (tf.getD 1 0)) (packDigits (tf.getD 3 0) (tf.getD 4 0))
    (packDigits (tf.getD 6 0) (tf.getD 7 0))

/-- A parser state with one `AUDIO` track, the active one. -/
def stAudio : CueState := stOneTrack

/-- A parser state with one `MODE1/2352` track, the active one. -/
def stData : CueState :=
  { stOneTrack with tracks := fun _ => { Track.zero with mode := MODE1_2352 } }

/-- The upper-case form of an ASCII byte. -/
def upper (c : Nat) : Nat := if 97 ≤ c ∧ c ≤ 122 then c - 32 else c

/-- The byte is `'/'` or `'\'`. -/
def isSep (c : Nat) : Bool := c = 47 ∨ c = 92

/-- The byte is a control character (1 to 31). -/
def isCtl (c : Nat) : Bool := 1 ≤ c ∧ c ≤ 31

/-- The text after the last `'/'` or `'\'` of a text, all of it when it has none. -/
def afterLastSep (l : List Nat) : List Nat := (l.reverse.takeWhile (fun c => !isSep c)).reverse

/-- The text without its control characters. -/
def dropCtl (l : List Nat) : List Nat := l.filter (fun c => !isCtl c)

/-- The name text of a `FILE` line whose text after the keyword and the spaces is `body`,
and whether its quotes are paired.  The name text is the word up to the first space; when a
`'"'` comes before that space, it is the text before the quote followed by the text up to
the next quote. -/
def nameRegion (body : List Nat) : List Nat × Bool :=
  match body.dropWhile (fun c => c ≠ 32 ∧ c ≠ 34) with
  | 34 :: t =>
    (body.takeWhile (fun c => c ≠ 32 ∧ c ≠ 34) ++ t.takeWhile (fun c => c ≠ 34),
      !(t.dropWhile (fun c => c ≠ 34)).isEmpty)
  | _ => (body.takeWhile (fun c => c ≠ 32 ∧ c ≠ 34), true)

/-- The base name a `FILE` line gives, or the error: the name text after its last separator,
control characters dropped. -/
def fileName (body : List Nat) : Except Err (List Nat) :=
  if (nameRegion body).2 = false then .error .fileUnpairedQuote
  else if dropCtl (afterLastSep (nameRegion body).1) = [] then .error .fileEmptyName
  else .ok (dropCtl (afterLastSep (nameRegion body).1))

/-- The name the copy loop of the `FILE` branch holds after the text `seg`, when it held
`acc` before and `seg` has neither the terminator nor a quote. -/
def scan (acc seg : List Nat) : List Nat :=
  seg.foldl (fun a c => if isCtl c then a else if isSep c then [] else a ++ [c]) acc

/-- Byte `q` of record `k` of the stream of records of `ss` bytes that starts at offset `o`
of the file, bytes beyond the end of the file reading as zero. -/
def recByte (f : SrcFile) (o ss k q : Nat) : Nat :=
  if o + k * ss + q < f.size then f.byte (o + k * ss + q) else 0

/-- The payload bytes `[predata, predata + datasize)` of sector `k` of a track whose data
starts at offset `o` of the file `f`. -/
def payloadOf (t : Track) (f : SrcFile) (o k : Nat) : List Nat :=
  (List.range (datasize t)).map (fun q => recByte f o t.sectorSize k (t.predata + q))

/-- The payloads of the `m` sectors from sector `j` on, one after the other. -/
def payloads (t : Track) (f : SrcFile) (o j : Nat) : Nat → List Nat
  | 0 => []
  | m + 1 => payloadOf t f o j ++ payloads t f o (j + 1) m

/-- The state of the input buffer after `j` records of `ss` bytes were handed out from the
stream that starts at offset `o`: `inBuf` holds the bytes of the file from offset `b`, and
the next record starts at `inBufReadIndex`. -/
structure RecInv (ss o j b : Nat) (s : IOState) : Prop where
  wle : s.inBufWriteIndex ≤ INBUF_SIZE - INBUF_SIZE % ss
  rle : s.inBufReadIndex ≤ INBUF_SIZE - INBUF_SIZE % ss
  rdvd : ss ∣ s.inBufReadIndex
  next : b + s.inBufReadIndex = o + j * ss
  held : ∀ p, p < s.inBufWriteIndex → s.inBuf p = s.bin.file.byte (b + p)
  pos : s.bin.pos = b + s.inBufWriteIndex
  inFile : 0 < s.inBufWriteIndex → s.bin.pos ≤ s.bin.file.size
  short : 0 < s.inBufWriteIndex → s.inBufWriteIndex < INBUF_SIZE - INBUF_SIZE % ss →
    s.bin.pos = s.bin.file.size
  empty : s.inBufWriteIndex = 0 → s.inBufReadIndex = 0

/-- The `w` bytes of the little-endian encoding of a number. -/
def leBytes (w x : Nat) : List Nat := (List.range w).map (fun i => x / 256 ^ i % 256)

/-- The 44-byte header of a WAV file with `dataSize` bytes of samples, field by field as the
specification lists them. -/
def wavHeaderSpec (dataSize : Nat) : List Nat :=
  bytes "RIFF" ++ leBytes 4 (dataSize + 36) ++ bytes "WAVE" ++ bytes "fmt " ++ leBytes 4 16
    ++ leBytes 2 1 ++ leBytes 2 2 ++ leBytes 4 44100 ++ leBytes 4 176400 ++ leBytes 2 4
    ++ leBytes 2 16 ++ bytes "data" ++ leBytes 4 dataSize

/-- The concatenation, for `k = 0 .. n-1`, of the bytes `[pre, pre + ds)` of sector `k` of
the sectors of `ss` bytes that start at offset `o` of the file. -/
def sectorPayloads (f : SrcFile) (o ss pre ds n : Nat) : List Nat :=
  (List.range n).flatMap (fun k => (List.range ds).map (fun q => f.byte (o + k * ss + pre + q)))

/-- A sheet with one `MODE2/2448` track. -/
def sheetC18 : List Nat :=
  bytes "FILE \"a.bin\" BINARY\n  TRACK 01 MODE2/2448\n    INDEX 01 00:00:00\n"

/-- The track table `IsoFromCue` yields for the sheet with one audio track over a file of
1000 raw sectors. -/
def tblC19 : Table :=
  match IsoFromCue (fsOne ⟨2352 * 1000, fun p => p % 251⟩) defaultOptions sheetC9 with
  | .ok (tbl, _) => tbl
  | .error _ => fun _ => Track.zero

/-- Sector `k` of the stream of sectors of `ss` bytes that starts at offset `o` of the file,
as a buffer. -/
def sectorBuf (f : SrcFile) (o ss k : Nat) : Nat → Nat := fun i => recByte f o ss k i

/-- The volume value (`RMS` of the source) of sector `k` of the stream. -/
def volume (opts : CommandlineOptions) (f : SrcFile) (o ss k : Nat) : Nat :=
  (sectorStats (limitSquared opts) (sectorBuf f o ss k)).1

/-- The number of samples of sector `k` above the limit. -/
def sampleHits (opts : CommandlineOptions) (f : SrcFile) (o ss k : Nat) : Nat :=
  (sectorStats (limitSquared opts) (sectorBuf f o ss k)).2

/-- Sector `k` of the stream is loud: its volume value is above the squared limit and more
than 120 of its samples are. -/
def isLoud (opts : CommandlineOptions) (f : SrcFile) (o ss k : Nat) : Prop :=
  volume opts f o ss k > limitSquared opts ∧ sampleHits opts f o ss k > 120

/-- The three lines of a track boundary with the texts of `TimeIndex` for the two sectors:
what `splitText` yields when both texts fit the buffer `indextxt`. -/
def boundaryText (track : Int) (modetxt : List Nat) (sector0 sector1 : Nat) : List Nat :=
  bytes "  TRACK " ++ fmt02d track ++ bytes " " ++ modetxt ++ bytes "\n"
    ++ bytes "    INDEX 00 " ++ TimeIndex sector0 ++ bytes "\n"
    ++ bytes "    INDEX 01 " ++ TimeIndex sector1 ++ bytes "\n"

/-- The text of `TimeIndex` for the sector fits the buffer `char indextxt[9]` with its
terminator. -/
def indexFits (sector : Nat) : Prop := (TimeIndex sector).length + 1 ≤ 9

instance (sector : Nat) : Decidable (indexFits sector) := by
  unfold indexFits
  infer_instance

/-- The state `loudStep` yields when the texts it formats fit the buffer `indextxt`. -/
def loudNext (opts : CommandlineOptions) (modetxt : List Nat) (st : SplitState) : SplitState :=
  if st.gapsectors = 0 then st
  else if st.gapsectors ≥ opts.splitGapLength then
    { st with track := wrapI32 (st.track + 1),
              cue := st.cue ++ boundaryText (wrapI32 (st.track + 1)) modetxt st.lowestRMSsector0
                        st.lowestRMSsector1,
              gapsectors := 0 }
  else { st with gapsectors := 0 }

/-- The state `splitStep` yields when the texts it formats fit the buffer `indextxt`. -/
def splitNext (opts : CommandlineOptions) (modetxt : List Nat) (rms samplehits : Nat)
    (st : SplitState) : SplitState :=
  let st := if rms > limitSquared opts ∧ samplehits > 120 then loudNext opts modetxt st
            else quietStep rms st
  { st with sector := (st.sector + 1) % 4294967296 }

/-- The round of the splitting loop on a sector with the statistics `rms`, `samplehits` in
the state `st` stays inside the buffer `indextxt`: if it writes a boundary, the texts of both
of its sectors fit. -/
def stepFits (opts : CommandlineOptions) (rms samplehits : Nat) (st : SplitState) : Prop :=
  rms > limitSquared opts ∧ samplehits > 120 → st.gapsectors ≠ 0 →
    st.gapsectors ≥ opts.splitGapLength →
    indexFits st.lowestRMSsector0 ∧ indexFits st.lowestRMSsector1

/-- The rounds of the splitting loop on the `m` sectors of the stream from sector `j` on, as
long as every text fits the buffer `indextxt`. -/
def splitFold (opts : CommandlineOptions) (modetxt : List Nat) (f : SrcFile) (o ss : Nat) :
    Nat → Nat → SplitState → SplitState
  | _, 0, st => st
  | j, m + 1, st =>
    splitFold opts modetxt f o ss (j + 1) m
      (splitNext opts modetxt (volume opts f o ss j) (sampleHits opts f o ss j) st)

/-- The state of the splitting loop inside a gap that began at sector `a` of the stream, the
sector counter being `S` then, after `m` sectors of the gap: sector `j0` of the gap is the
earliest and `j1` the latest with the lowest volume value so far. -/
structure GapInv (opts : CommandlineOptions) (f : SrcFile) (o ss a S : Nat) (c0 : List Nat)
    (t0 : Int) (m j0 j1 : Nat) (st : SplitState) : Prop where
  gap : st.gapsectors = m
  sector : st.sector = S + m
  cue : st.cue = c0
  track : st.track = t0
  le : j0 ≤ j1
  lt : j1 < m
  s0 : st.lowestRMSsector0 = S + j0
  s1 : st.lowestRMSsector1 = S + j1
  low : st.lowestRMS = volume opts f o ss (a + j0)
  same : volume opts f o ss (a + j1) = volume opts f o ss (a + j0)
  least : ∀ j, j < m → volume opts f o ss (a + j0) ≤ volume opts f o ss (a + j)
  first : ∀ j, j < j0 → volume opts f o ss (a + j0) < volume opts f o ss (a + j)
  last : ∀ j, j1 < j → j < m → volume opts f o ss (a + j0) < volume opts f o ss (a + j)

/-- An audio image of 1000 loud sectors, 60 silent sectors and 1000 loud sectors: every
byte outside the gap is 127. -/
def fileC20 : SrcFile :=
  ⟨2060 * 2352, fun p => if 1000 * 2352 ≤ p ∧ p < 1060 * 2352 then 0 else 127⟩

/-- An audio image of `2^32` silent sectors followed by one loud sector. -/
def fileC20x : SrcFile :=
  ⟨4294967297 * 2352, fun p => if p < 4294967296 * 2352 then 0 else 127⟩

/-- The buffers as the program starts, over the file `f` read from its start. -/
def ioStart (f : SrcFile) : IOState := { IOState.init with bin := ⟨f, 0⟩ }

/-- The locals of the splitting loop for an image without data track. -/
def stC20 : SplitState :=
  { gapsectors := 0, lowestRMS := 0, lowestRMSsector0 := 0, lowestRMSsector1 := 0,
    sector := 0, track := 0, cue := [] }

/-- The signed 16-bit little-endian sample made of the bytes `lo`, `hi`. -/
def sample16 (lo hi : Nat) : Int :=
  if lo % 256 + 256 * (hi % 256) < 32768 then ((lo % 256 + 256 * (hi % 256) : Nat) : Int)
  else ((lo % 256 + 256 * (hi % 256) : Nat) : Int) - 65536

/-- The square of sample `k` of the sector at `buffer`. -/
def squareAt (buffer : Nat → Nat) (k : Nat) : Nat :=
  (sample16 (buffer (2 * k)) (buffer (2 * k + 1)) ^ 2).toNat

/-- The sum of the squares of the 1176 samples in the first 2352 bytes of the sector. -/
def sumSquares (buffer : Nat → Nat) : Nat :=
  ((List.range 1176).map (squareAt buffer)).sum

/-- The number of the 1176 samples whose square exceeds `limitsquared`. -/
def hitCount (limitsquared : Nat) (buffer : Nat → Nat) : Nat :=
  (List.range 1176).countP (fun k => decide (squareAt buffer k > limitsquared))

/-- A sector whose bytes all have the value 127. -/
def bufC22 : Nat → Nat := fun _ => 127

/-- The records of `readsize` bytes that `n` successive calls of `BufferedFRead` hand out, each
copied from `inBuf` at the pointer returned, up to the first call that returns `false`. -/
def readRecords (readsize : Nat) : Nat → IOState → Except Err (List (List Nat) × IOState)
  | 0, s => .ok ([], s)
  | n + 1, s =>
    match BufferedFRead readsize s with
    | .error e => .error e
    | .ok (none, s1) => .ok ([], s1)
    | .ok (some ptr, s1) =>
      match readRecords readsize n s1 with
      | .error e => .error e
      | .ok (rs, s2) => .ok ((List.range readsize).map (fun q => s1.inBuf (ptr + q)) :: rs, s2)

/-- The content of the file followed by zero bytes, `n` bytes in all. -/
def paddedContent (f : SrcFile) (n : Nat) : List Nat :=
  (List.range n).map (fun p => if p < f.size then f.byte p else 0)

/-- A file of 5 bytes. -/
def fileC27 : SrcFile := ⟨5, fun p => p + 1⟩

/-- A sheet with one `FILE` line and `n` `TRACK` lines. -/
def sheetTracks (n : Nat) : List Nat :=
  bytes "FILE \"a.bin\" BINARY\n" ++ (List.replicate n (bytes "  TRACK 01 AUDIO\n")).flatten

/-- The run ended with the error `e`. -/
def failsWith {α : Type} (e : Err) : Except Err α → Bool
  | .error e' => decide (e' = e)
  | .ok _ => false

/-- The run ended without error. -/
def completes {α : Type} : Except Err α → Bool
  | .error _ => false
  | .ok _ => true

/-- A sheet with one `AUDIO/100000` track whose `INDEX 01` is at sector 50000. -/
def sheetC30 : List Nat :=
  bytes ("FILE \"a.bin\" BINARY\n  TRACK 01 AUDIO/100000\n    INDEX 00 00:00:00\n" ++
    "    INDEX 01 11:06:50\n")

/-- The window `AnalyseTrack` examines: the bytes of the file from position `readpos` on. -/
def window (f : SrcFile) (readpos : Nat) : Nat → Nat := fun k => f.byte (readpos + k)

/-- The 24-bit big-endian number in the bytes `ofs + 12 .. ofs + 14` of the buffer. -/
def timeIndex24 (buffer : Nat → Nat) (ofs : Nat) : Nat :=
  65536 * (buffer (ofs + 12) % 256) + 256 * (buffer (ofs + 13) % 256) + buffer (ofs + 14) % 256

/-- A sector size the search of `AnalyseTrack` tries: 2064, 2068, ..., 2556. -/
def isCandidate (s : Nat) : Prop := 2064 ≤ s ∧ s < 2560 ∧ s % 4 = 0

/-- The sync pattern repeats at offset `s`, byte 15 equals byte `s + 15`, and the time index
at offset `s` is greater than the one at offset 0. -/
def qualifies (buffer : Nat → Nat) (s : Nat) : Prop :=
  bytesAt buffer s 12 = syncPattern ∧ buffer 15 % 256 = buffer (s + 15) % 256 ∧
    timeIndex24 buffer s > timeIndex24 buffer 0

/-- An image of 30 raw mode 1 sectors: each begins with the sync pattern, the time index
`00 02 <sector number>` and the mode byte 1. -/
def fileC23 : SrcFile :=
  ⟨2352 * 30, fun p =>
    if p % 2352 = 0 ∨ p % 2352 = 11 then 0
    else if p % 2352 < 12 then 255
    else if p % 2352 = 13 then 2
    else if p % 2352 = 14 then p / 2352
    else if p % 2352 = 15 then 1
    else 0⟩

/-- The ISO-9660 signature is at offset `ofs` of the buffer. -/
def isoAt (buffer : Nat → Nat) (ofs : Nat) : Prop := bytesAt buffer ofs 8 = isoVolumeDescriptor

/-- The UDF signature is at offset `ofs` of the buffer. -/
def udfAt (buffer : Nat → Nat) (ofs : Nat) : Prop := bytesAt buffer ofs 8 = udfVolumeDescriptor

/-- The block count of the volume descriptor at offset `ofs`: the 32-bit little-endian
number at its offset 80. -/
def blockCount (buffer : Nat → Nat) (ofs : Nat) : Nat :=
  buffer (ofs + 80) % 256 + 256 * (buffer (ofs + 81) % 256)
    + 65536 * (buffer (ofs + 82) % 256) + 16777216 * (buffer (ofs + 83) % 256)

/-- The descriptor at offset `ofs` is one `CheckIsoHeader` reports: the ISO-9660 signature
with a block count other than 0. -/
def isoFound (buffer : Nat → Nat) (ofs : Nat) : Prop := isoAt buffer ofs ∧ blockCount buffer ofs ≠ 0

/-- A file of `size` bytes, all zero but for the ISO-9660 signature at offset `0x8000` and
the byte `count` at offset `0x8050`, the low byte of the block count. -/
def isoImage (size count : Nat) : SrcFile :=
  ⟨size, fun p => if 32768 ≤ p ∧ p < 32776 then isoVolumeDescriptor.getD (p - 32768) 0
                  else if p = 32848 then count else 0⟩

/-- The text of the track boundaries `bs` (pairs of the sectors given to `TimeIndex` for
`INDEX 00` and `INDEX 01`), as the splitting loop writes them one after the other when the
track counter is `t` before the first. -/
def boundariesText (modetxt : List Nat) : Int → List (Nat × Nat) → List Nat
  | _, [] => []
  | t, b :: r => boundaryText (t + 1) modetxt b.1 b.2 ++ boundariesText modetxt (t + 1) r

/-- The boundary `x` lies in a run of sectors that are not loud: the run begins at sector `p`
of the stream (the first sector, or the one after a loud sector), has `g` sectors, at least
the gap width, and is ended by a loud sector before sector `n` of the stream; `S` is the
number of the first sector of the stream, and `x.1 ≤ x.2` are sector numbers of the run. -/
def inQuietRun (opts : CommandlineOptions) (f : SrcFile) (o ss S n : Nat) (x : Nat × Nat) :
    Prop :=
  ∃ p g, (p = 0 ∨ isLoud opts f o ss (p - 1)) ∧
    (∀ k, p ≤ k → k < p + g → ¬ isLoud opts f o ss k) ∧ isLoud opts f o ss (p + g) ∧
    p + g < n ∧ opts.splitGapLength ≤ g ∧ S + p ≤ x.1 ∧ x.1 ≤ x.2 ∧ x.2 < S + p + g

/-- The state of the splitting loop after the first `n` sectors of the stream: the text
written so far is that of the boundaries `bs`, each inside its run and before the next, and
all of them before sector `q`, at which the run of sectors that are not loud began that
sector `n - 1` belongs to (`q = n` when there is no such run). -/
structure BoundInv (opts : CommandlineOptions) (modetxt : List Nat) (f : SrcFile)
    (o ss S : Nat) (c0 : List Nat) (t0 : Int) (n : Nat) (bs : List (Nat × Nat)) (q : Nat)
    (st : SplitState) : Prop where
  cue : st.cue = c0 ++ boundariesText modetxt t0 bs
  track : st.track = t0 + bs.length
  count : 2 * bs.length ≤ q
  sector : st.sector = S + n
  runs : ∀ x ∈ bs, inQuietRun opts f o ss S n x
  ordered : bs.Pairwise (fun x y => x.2 < y.1)
  below : ∀ x ∈ bs, x.2 < S + q
  qle : q ≤ n
  edge : q = 0 ∨ isLoud opts f o ss (q - 1)
  phase : (q = n ∧ st.gapsectors = 0) ∨
    (∃ m j0 j1, 0 < m ∧ q + m = n ∧ (∀ k, q ≤ k → k < n → ¬ isLoud opts f o ss k) ∧
      GapInv opts f o ss q (S + q) st.cue st.track m j0 j1 st)

/-- The texts of both sectors of every boundary of the list fit the buffer `indextxt`. -/
def boundsFit (bs : List (Nat × Nat)) : Prop := ∀ x ∈ bs, indexFits x.1 ∧ indexFits x.2

/-- An audio image of `a` loud sectors, `g` silent sectors and `b` loud sectors: every byte
outside the gap is 127. -/
def gapImage (a g b : Nat) : SrcFile :=
  ⟨(a + g + b) * 2352, fun p => if a * 2352 ≤ p ∧ p < (a + g) * 2352 then 0 else 127⟩

/-- The label `MODE<b>/<s>` that `AnalyseTrack` builds from the mode byte `b` and the sector
size `s`. -/
def syncLabel (b s : Nat) : List Nat := bytes "MODE" ++ fmtD b ++ bytes "/" ++ fmtD s

/-- The datatype names of the six data modes of the `TRACK` branch. -/
def dataLabels : List (List Nat) :=
  [bytes "MODE1/2048", bytes "MODE1/2352", bytes "MODE1/2448", bytes "MODE2/2336",
   bytes "MODE2/2352", bytes "MODE2/2448"]

/-- The sector size the `TRACK` branch gives a track of mode `m` other than `AUDIO/<n>`. -/
def sizeOfMode (m : Nat) : Nat :=
  if m = MODE1_2048 then 2048 else if m = MODE2_2336 then 2336
  else if m = MODE1_2448 ∨ m = MODE2_2448 then 2448 else 2352

/-- How the `TRACK` branch reads the label `l` followed by a newline: the text has no NUL and
does not begin with a space; when `l` is one of the six data labels its mode has the sector
size `s`, and otherwise no datatype name matches. -/
def labelParse (l : List Nat) (s : Nat) : Prop :=
  cstr (l ++ [10]) = l ++ [10] ∧ (l ++ [10]).head? ≠ some 32 ∧
  (l ∈ dataLabels →
    (parseMode (l ++ [10])).map sizeOfMode = some s ∧
    parseMode (l ++ [10]) ≠ some MODE_AUDIOSUB) ∧
  (l ∉ dataLabels → parseMode (l ++ [10]) = none)

instance (l : List Nat) (s : Nat) : Decidable (labelParse l s) := by
  unfold labelParse
  infer_instance

/-- The decimal text of a mode byte other than 1 and 2 followed by `/` does not begin like
`1/` or `2/`; the text is not empty and has no NUL. -/
def otherByte (b : Nat) : Prop :=
  (fmtD b ++ [47]).take 2 ≠ [49, 47] ∧ (fmtD b ++ [47]).take 2 ≠ [50, 47] ∧
    fmtD b ≠ [] ∧ 0 ∉ fmtD b

instance (b : Nat) : Decidable (otherByte b) := by
  unfold otherByte
  infer_instance

/-- How the `TRACK` branch reads the label of the audio tracks for `n` subchannel bytes
followed by a newline: the mode is `AUDIO` for `n = 0` and `AUDIO/<n>` otherwise, and the
number read is the record size of the splitting loop. -/
def audioParse (n : Nat) : Prop :=
  cstr (audioLabel n ++ [10]) = audioLabel n ++ [10] ∧
  (audioLabel n ++ [10]).head? ≠ some 32 ∧
  parseMode (audioLabel n ++ [10]) = some (if n = 0 then MODE_AUDIO else MODE_AUDIOSUB) ∧
  (n ≠ 0 → (wrapU32 (strtol10 ((audioLabel n ++ [10]).drop 6))).toNat = audioSectorSize n)

instance (n : Nat) : Decidable (audioParse n) := by
  unfold audioParse
  infer_instance

/-- An image of 25 sectors of 2064 bytes: each begins with the sync pattern, the time index
`00 02 <sector number>` and the mode byte 1. -/
def fileC32 : SrcFile :=
  ⟨2064 * 25, fun p =>
    if p % 2064 = 0 ∨ p % 2064 = 11 then 0
    else if p % 2064 < 12 then 255
    else if p % 2064 = 13 then 2
    else if p % 2064 = 14 then p / 2064
    else if p % 2064 = 15 then 1
    else 0⟩

/-- A sheet whose first track is an `AUDIO/0` track of 10 sectors. -/
def sheetC19 : List Nat :=
  bytes ("FILE \"a.bin\" BINARY\n  TRACK 01 AUDIO/0\n    INDEX 01 00:00:00\n" ++
    "  TRACK 02 AUDIO\n    INDEX 01 00:00:10\n")

/-- The loop of `AnalyseTrack` that counts the sectors beginning with the sync pattern is left
at the offset `p` from the position of the window: fewer than 12 bytes are left in the file
there, or the 12 bytes are not the sync pattern. -/
def countingStops (f : SrcFile) (readpos p : Nat) : Prop :=
  readpos + p + 12 > f.size ∨ bytesAt f.byte (readpos + p) 12 ≠ syncPattern

instance (f : SrcFile) (readpos p : Nat) : Decidable (countingStops f readpos p) := by
  unfold countingStops
  infer_instance

/-- The 32-bit byte count of the data region that the volume descriptor of a track with
sync pattern gives, for the sector size `s`: 0 when there is no descriptor. -/
def descriptorBytes (buffer : Nat → Nat) (s : Nat) : Nat :=
  if CheckIsoHeader buffer (s * 16 + (if buffer 15 % 256 = 1 then 16 else 24)) 0 ≠ 0 then
    (CheckIsoHeader buffer (s * 16 + (if buffer 15 % 256 = 1 then 16 else 24)) 0 * s)
      % 4294967296
  else 0

/-- A file of `2^32 + 2064` bytes in which every block of 16 bytes begins with the sync
pattern and ends with the mode byte 1; the time index is 1 in the block at offset 2064 and 0
in every other block. -/
def fileC23x : SrcFile :=
  ⟨4294967296 + 2064, fun p =>
    if p % 16 = 0 ∨ p % 16 = 11 then 0
    else if p % 16 < 12 then 255
    else if p % 16 = 15 then 1
    else if p = 2078 then 1
    else 0⟩

/-! ## Lemmas on BCD arithmetic -/

theorem bcd_decode (n : Nat) (h : n < 100) :
    ((toBCD n % 256) >>> 4) * 10 + ((toBCD n % 256) &&& 0xF) = n := by
  unfold toBCD
  interval_cases n <;> rfl

theorem fmtD_digit (d : Nat) (h : d < 10) : fmtD d = [48 + d] := by
  interval_cases d <;> rfl

theorem packDigits_digits (a b : Nat) (ha : a < 10) (hb : b < 10) :
    packDigits (48 + a) (48 + b) = toBCD (a * 10 + b) := by
  interval_cases a <;> interval_cases b <;> rfl

theorem SectorIndex_bcd (m s f : Nat) (hm : m < 100) (hs : s < 100) (hf : f < 100) :
    SectorIndex (toBCD m) (toBCD s) (toBCD f) = (m * 60 + s) * 75 + f := by
  unfold SectorIndex
  dsimp only
  simp only [bcd_decode m hm, bcd_decode s hs, bcd_decode f hf]
  omega

theorem TimeIndex_text (n : Nat) (h : n < 450000) :
    TimeIndex n = timeText (n / 4500) (n / 75 % 60) (n % 75) := by
  unfold TimeIndex timeText
  have h0 : n % 4294967296 = n := by omega
  have h1 : n / (75 * 60) % 256 = n / 4500 := by omega
  have h2 : n / 75 % 60 % 256 = n / 75 % 60 := by omega
  have h3 : n % 75 % 256 = n % 75 := by omega
  rw [h0]
  show fmtD (n / (75 * 60) % 256 / 10) ++ fmtD (n / (75 * 60) % 256 % 10) ++ [58]
      ++ fmtD (n / 75 % 60 % 256 / 10) ++ fmtD (n / 75 % 60 % 256 % 10) ++ [58]
      ++ fmtD (n % 75 % 256 / 10) ++ fmtD (n % 75 % 256 % 10) = _
  rw [h1, h2, h3]
  rw [fmtD_digit (n / 4500 / 10) (by omega), fmtD_digit (n / 4500 % 10) (by omega),
    fmtD_digit (n / 75 % 60 / 10) (by omega), fmtD_digit (n / 75 % 60 % 10) (by omega),
    fmtD_digit (n % 75 / 10) (by omega), fmtD_digit (n % 75 % 10) (by omega)]
  rfl

/-! ## Lemmas on the parser -/

theorem cstr_append (l r : List Nat) (h : ∀ x ∈ l, x ≠ 0) : cstr (l ++ r) = l ++ cstr r := by
  induction l with
  | nil => rfl
  | cons c cs ih =>
    have hc : c ≠ 0 := h c (List.mem_cons_self _ _)
    have := ih (fun x hx => h x (List.mem_cons_of_mem _ hx))
    show List.takeWhile _ (c :: (cs ++ r)) = c :: (cs ++ cstr r)
    rw [List.takeWhile_cons_of_pos (by simpa using hc)]
    exact congrArg _ this

theorem skipWs_append (pre r : List Nat) (c : Nat) (h : ∀ x ∈ pre, x = 32 ∨ x = 10 ∨ x = 13)
    (hc : ¬ (c = 32 ∨ c = 10 ∨ c = 13)) : skipWs (pre ++ c :: r) = c :: r := by
  induction pre with
  | nil => simp [skipWs, hc]
  | cons x xs ih =>
    have hx := h x (List.mem_cons_self _ _)
    simp only [List.cons_append, skipWs, hx, if_true]
    exact ih (fun y hy => h y (List.mem_cons_of_mem _ hy))

theorem skipSp_replicate (a : Nat) (c : Nat) (r : List Nat) (hc : c ≠ 32) :
    skipSp (List.replicate a 32 ++ c :: r) = c :: r := by
  induction a with
  | zero => simp [skipSp, hc]
  | succ n ih => simp [List.replicate_succ, skipSp, ih]

theorem readNum_zeros (z : Nat) (r : List Nat) :
    readNum (List.replicate z 48 ++ r) 0 = readNum r 0 := by
  induction z with
  | zero => rfl
  | succ n ih =>
    simp only [List.replicate_succ, List.cons_append, readNum]
    simpa [wrapI32] using ih

theorem readNum_digit (i : Nat) (hi : i < 10) (c : Nat) (r : List Nat) (hc : ¬ (48 ≤ c ∧ c ≤ 57)) :
    readNum ((48 + i) :: c :: r) 0 = ((i : Int), c :: r) := by
  have h1 : 48 ≤ 48 + i ∧ 48 + i ≤ 57 := by omega
  simp only [readNum, h1, hc, and_self, if_true, if_false]
  simp only [wrapI32]
  congr 1
  push_cast
  omega



theorem skipSp_replicate_head (a : Nat) (x : List Nat) (hx : x.head? ≠ some 32) :
    skipSp (List.replicate a 32 ++ x) = x := by
  cases x with
  | nil =>
    induction a with
    | zero => rfl
    | succ n ih => simpa [List.replicate_succ, skipSp] using ih
  | cons c r => exact skipSp_replicate a c r (by simpa using hx)

/-- The time text followed by `r`, as the `INDEX` branch reads it. -/
theorem parseIndex_time (st : CueState) (k : Nat) (hk : st.track = some k)
    (a z i b m s f : Nat) (r : List Nat) (hi : i ≤ 1) (hm : m < 100) (hs : s < 100)
    (hf : f < 100) :
    parseIndex (List.replicate a 32 ++ (List.replicate z 48 ++ (48 + i) :: 32 ::
        (List.replicate b 32 ++ (timeText m s f ++ r)))) st =
      (let v : Int := ((m * 60 + s) * 75 + f : Nat)
       let t := st.tracks k
       if i = 0 then
          if t.mode ≠ MODE_AUDIO ∧ t.mode ≠ MODE_AUDIOSUB then .error .index0OnNonAudio
          else
            .ok { st with
                  tracks := setTrack st.tracks k
                    { t with idx0 := v, idx1 := if t.idx1 = -1 then v else t.idx1 } }
        else
          .ok { st with
                tracks := setTrack st.tracks k
                  { t with idx1 := v, idx0 := if t.idx0 = -1 then v else t.idx0 } }) := by
  unfold parseIndex
  have h1 : skipSp (List.replicate a 32 ++ (List.replicate z 48 ++ (48 + i) :: 32 ::
        (List.replicate b 32 ++ (timeText m s f ++ r)))) =
      List.replicate z 48 ++ (48 + i) :: 32 :: (List.replicate b 32 ++ (timeText m s f ++ r)) := by
    apply skipSp_replicate_head
    cases z with
    | zero => simp; omega
    | succ n => simp [List.replicate_succ]
  have h2 : readNum (List.replicate z 48 ++ (48 + i) :: 32 ::
        (List.replicate b 32 ++ (timeText m s f ++ r))) 0 =
      ((i : Int), 32 :: (List.replicate b 32 ++ (timeText m s f ++ r))) := by
    rw [readNum_zeros]
    exact readNum_digit i (by omega) 32 _ (by omega)
  have h3 : skipSp (32 :: (List.replicate b 32 ++ (timeText m s f ++ r))) =
      timeText m s f ++ r := by
    have : (32 :: (List.replicate b 32 ++ (timeText m s f ++ r))) =
        List.replicate (b + 1) 32 ++ (timeText m s f ++ r) := by
      simp [List.replicate_succ]
    rw [this]
    apply skipSp_replicate_head
    simp [timeText]
    omega
  have hi2 : ¬ ((i : Int) ≥ 2) := by omega
  have hlen : ¬ ((timeText m s f ++ r).length < 7) := by simp [timeText]
  have e1 : packDigits (48 + m / 10) (48 + m % 10) = toBCD m := by
    rw [packDigits_digits _ _ (by omega) (by omega)]; congr 1; omega
  have e2 : packDigits (48 + s / 10) (48 + s % 10) = toBCD s := by
    rw [packDigits_digits _ _ (by omega) (by omega)]; congr 1; omega
  have e3 : packDigits (48 + f / 10) (48 + f % 10) = toBCD f := by
    rw [packDigits_digits _ _ (by omega) (by omega)]; congr 1; omega
  simp only [h1, hk, h2, hi2, if_false, h3, hlen]
  simp only [timeText, List.cons_append, List.getD_cons_zero, List.getD_cons_succ, e1, e2, e3,
    SectorIndex_bcd m s f hm hs hf]
  rcases Nat.le_one_iff_eq_zero_or_eq_one.mp hi with rfl | rfl
  · by_cases hmode : (st.tracks k).mode ≠ MODE_AUDIO ∧ (st.tracks k).mode ≠ MODE_AUDIOSUB
    · simp [hmode]
    · simp only [Nat.cast_zero, if_true, hmode, if_false]
      by_cases h1 : (st.tracks k).idx1 = -1 <;> simp [h1]
  · simp only [Nat.cast_one, one_ne_zero, if_false]
    by_cases h0 : (st.tracks k).idx0 = -1 <;> simp [h0]

theorem bcd_byte_le (x : Nat) (h : x < 256) : (x >>> 4) * 10 + (x &&& 0xF) ≤ 165 := by
  interval_cases x <;> decide

theorem SectorIndex_le (m s f : Nat) : SectorIndex m s f ≤ 755040 := by
  unfold SectorIndex
  dsimp only
  have hm := bcd_byte_le (m % 256) (Nat.mod_lt _ (by decide))
  have hs := bcd_byte_le (s % 256) (Nat.mod_lt _ (by decide))
  have hf := bcd_byte_le (f % 256) (Nat.mod_lt _ (by decide))
  refine Nat.le_trans (Nat.mod_le _ _) ?_
  omega

theorem applyMode_idx (t : Track) (r : List Nat) :
    (applyMode t r).idx0 = t.idx0 ∧ (applyMode t r).idx1 = t.idx1 := by
  unfold applyMode
  dsimp only
  split_ifs <;> exact ⟨rfl, rfl⟩

theorem parseFile_tracks (r : List Nat) (st st' : CueState) (h : parseFile r st = .ok st') :
    st'.tracks = st.tracks := by
  unfold parseFile at h
  dsimp only at h
  split_ifs at h
  cases h
  rfl

theorem parseTrack_inv (fs : FileSys) (r : List Nat) (st st' : CueState)
    (hinv : ∀ j, idxBounded (st.tracks j)) (h : parseTrack fs r st = .ok st') :
    ∀ j, idxBounded (st'.tracks j) := by
  unfold parseTrack at h
  dsimp only at h
  split_ifs at h
  split at h
  · cases h
  · split at h
    · cases h
    · split at h
      · cases h
      · split_ifs at h
        cases h
        intro j
        simp only [setTrack]
        split_ifs
        · simp only [idxBounded, (applyMode_idx _ _).1, (applyMode_idx _ _).2, newTrack]
          omega
        · exact hinv j

theorem parseIndex_inv (r : List Nat) (st st' : CueState)
    (hinv : ∀ j, idxBounded (st.tracks j)) (h : parseIndex r st = .ok st') :
    ∀ j, idxBounded (st'.tracks j) := by
  unfold parseIndex at h
  dsimp only at h
  split at h
  · cases h
  · rename_i k hk
    have hb := hinv k
    unfold idxBounded at hb
    split_ifs at h <;> cases h <;> intro j <;> simp only [setTrack] <;> split_ifs <;>
      first
        | exact hinv j
        | (simp only [idxBounded]
           have := SectorIndex_le
              (packDigits ((skipSp (readNum (skipSp r) 0).2).getD 0 0)
                ((skipSp (readNum (skipSp r) 0).2).getD 1 0))
              (packDigits ((skipSp (readNum (skipSp r) 0).2).getD 3 0)
                ((skipSp (readNum (skipSp r) 0).2).getD 4 0))
              (packDigits ((skipSp (readNum (skipSp r) 0).2).getD 6 0)
                ((skipSp (readNum (skipSp r) 0).2).getD 7 0))
           omega)

theorem bytes_INDEX : bytes "INDEX " = [73, 78, 68, 69, 88, 32] := rfl

theorem ParseCueLine_indexLine (fs : FileSys) (st : CueState) (pre : List Nat)
    (a z i b m s f : Nat) (rest : List Nat)
    (hpre : ∀ x ∈ pre, x = 32 ∨ x = 10 ∨ x = 13) :
    ParseCueLine fs (indexLine pre a z i b m s f rest) st =
      parseIndex (List.replicate a 32 ++ (List.replicate z 48 ++ (48 + i) :: 32 ::
        (List.replicate b 32 ++ (timeText m s f ++ cstr rest)))) st := by
  have hfront : ∀ x ∈ pre ++ bytes "INDEX " ++ List.replicate a 32 ++ List.replicate z 48
      ++ [48 + i, 32] ++ List.replicate b 32 ++ timeText m s f, x ≠ 0 := by
    intro x hx
    simp only [bytes_INDEX, timeText, List.mem_append, List.mem_cons, List.mem_replicate,
      List.mem_singleton, List.not_mem_nil, or_false] at hx
    rcases hx with ((((((h | h) | h) | h) | h) | h) | h)
    · rcases hpre x h with h | h | h <;> omega
    all_goals omega
  have hc : cstr (indexLine pre a z i b m s f rest) =
      pre ++ 73 :: ([78, 68, 69, 88, 32] ++ (List.replicate a 32 ++ (List.replicate z 48 ++
        (48 + i) :: 32 :: (List.replicate b 32 ++ (timeText m s f ++ cstr rest))))) := by
    unfold indexLine
    rw [cstr_append _ _ hfront]
    simp [bytes_INDEX]
  unfold ParseCueLine
  rw [hc, skipWs_append pre _ 73 hpre (by omega)]
  simp [startsWith, bytes, List.isPrefixOf]

theorem ParseCueLine_inv (fs : FileSys) (line : List Nat) (st st' : CueState)
    (hinv : ∀ j, idxBounded (st.tracks j)) (h : ParseCueLine fs line st = .ok st') :
    ∀ j, idxBounded (st'.tracks j) := by
  unfold ParseCueLine at h
  dsimp only at h
  split_ifs at h
  · cases h; exact hinv
  · rw [parseFile_tracks _ _ _ h]; exact hinv
  · exact parseTrack_inv fs _ st st' hinv h
  · exact parseIndex_inv _ st st' hinv h
  · cases h; exact hinv

theorem parseLines_inv (fs : FileSys) (fuel : Nat) (content : List Nat) (st st' : CueState)
    (hinv : ∀ j, idxBounded (st.tracks j)) (h : parseLines fs fuel content st = .ok st') :
    ∀ j, idxBounded (st'.tracks j) := by
  induction fuel generalizing content st with
  | zero => cases h; exact hinv
  | succ n ih =>
    unfold parseLines at h
    split_ifs at h
    · cases h; exact hinv
    · dsimp only at h
      split at h
      · cases h
      · rename_i st1 hst1
        exact ih _ st1 (ParseCueLine_inv fs _ st st1 hinv hst1) h

theorem ParseCue_inv (fs : FileSys) (content : List Nat) (tbl : Table) (n : Nat)
    (h : ParseCue fs content = .ok (tbl, n)) : ∀ j, idxBounded (tbl j) := by
  unfold ParseCue at h
  split at h
  · cases h
  · rename_i st hst
    split_ifs at h
    cases h
    exact parseLines_inv fs _ _ _ st (fun _ => by simp [idxBounded, CueState.init, Track.zero]) hst

/-! ## Lemmas on the track table -/

theorem setTrack_same (tbl : Table) (i : Nat) (t : Track) : setTrack tbl i t i = t := by
  simp [setTrack]

theorem setTrack_other (tbl : Table) (i j : Nat) (t : Track) (h : j ≠ i) :
    setTrack tbl i t j = tbl j := by
  simp [setTrack, h]

theorem setTrack_self (tbl : Table) (i : Nat) : setTrack tbl i (tbl i) = tbl := by
  funext j
  by_cases h : j = i
  · simp [setTrack, h]
  · simp [setTrack, h]

theorem setStartOfs_other (tbl : Table) (i j : Nat) (x : Int) (h : j ≠ i) :
    setStartOfs tbl i x j = tbl j := by
  simp [setStartOfs, setTrack, h]

@[simp]
theorem setStartOfs_mode (tbl : Table) (i j : Nat) (x : Int) :
    (setStartOfs tbl i x j).mode = (tbl j).mode := by
  unfold setStartOfs setTrack
  by_cases h : j = i
  · simp [h]
  · simp [h]

@[simp]
theorem setStartOfs_num (tbl : Table) (i j : Nat) (x : Int) :
    (setStartOfs tbl i x j).num = (tbl j).num := by
  unfold setStartOfs setTrack
  by_cases h : j = i
  · simp [h]
  · simp [h]

@[simp]
theorem setStartOfs_idx0 (tbl : Table) (i j : Nat) (x : Int) :
    (setStartOfs tbl i x j).idx0 = (tbl j).idx0 := by
  unfold setStartOfs setTrack
  by_cases h : j = i
  · simp [h]
  · simp [h]

@[simp]
theorem setStartOfs_idx1 (tbl : Table) (i j : Nat) (x : Int) :
    (setStartOfs tbl i x j).idx1 = (tbl j).idx1 := by
  unfold setStartOfs setTrack
  by_cases h : j = i
  · simp [h]
  · simp [h]

@[simp]
theorem setStartOfs_startOfs (tbl : Table) (i j : Nat) (x : Int) :
    (setStartOfs tbl i x j).startOfs = if j = i then x else (tbl j).startOfs := by
  unfold setStartOfs setTrack
  by_cases h : j = i
  · simp [h]
  · simp [h]

@[simp]
theorem setStartOfs_totalSectors (tbl : Table) (i j : Nat) (x : Int) :
    (setStartOfs tbl i x j).totalSectors = (tbl j).totalSectors := by
  unfold setStartOfs setTrack
  by_cases h : j = i
  · simp [h]
  · simp [h]

@[simp]
theorem setStartOfs_sectorSize (tbl : Table) (i j : Nat) (x : Int) :
    (setStartOfs tbl i x j).sectorSize = (tbl j).sectorSize := by
  unfold setStartOfs setTrack
  by_cases h : j = i
  · simp [h]
  · simp [h]

@[simp]
theorem setStartOfs_predata (tbl : Table) (i j : Nat) (x : Int) :
    (setStartOfs tbl i x j).predata = (tbl j).predata := by
  unfold setStartOfs setTrack
  by_cases h : j = i
  · simp [h]
  · simp [h]

@[simp]
theorem setStartOfs_postdata (tbl : Table) (i j : Nat) (x : Int) :
    (setStartOfs tbl i x j).postdata = (tbl j).postdata := by
  unfold setStartOfs setTrack
  by_cases h : j = i
  · simp [h]
  · simp [h]

@[simp]
theorem setStartOfs_fdSrcFile (tbl : Table) (i j : Nat) (x : Int) :
    (setStartOfs tbl i x j).fdSrcFile = (tbl j).fdSrcFile := by
  unfold setStartOfs setTrack
  by_cases h : j = i
  · simp [h]
  · simp [h]

@[simp]
theorem setStartOfs_sSrcFileName (tbl : Table) (i j : Nat) (x : Int) :
    (setStartOfs tbl i x j).sSrcFileName = (tbl j).sSrcFileName := by
  unfold setStartOfs setTrack
  by_cases h : j = i
  · simp [h]
  · simp [h]

@[simp]
theorem setStartOfs_name (tbl : Table) (i j : Nat) (x : Int) :
    (setStartOfs tbl i x j).name = (tbl j).name := by
  unfold setStartOfs setTrack
  by_cases h : j = i
  · simp [h]
  · simp [h]

theorem setTotalSectors_other (tbl : Table) (i j : Nat) (x : Int) (h : j ≠ i) :
    setTotalSectors tbl i x j = tbl j := by
  simp [setTotalSectors, setTrack, h]

@[simp]
theorem setTotalSectors_mode (tbl : Table) (i j : Nat) (x : Int) :
    (setTotalSectors tbl i x j).mode = (tbl j).mode := by
  unfold setTotalSectors setTrack
  by_cases h : j = i
  · simp [h]
  · simp [h]

@[simp]
theorem setTotalSectors_num (tbl : Table) (i j : Nat) (x : Int) :
    (setTotalSectors tbl i x j).num = (tbl j).num := by
  unfold setTotalSectors setTrack
  by_cases h : j = i
  · simp [h]
  · simp [h]

@[simp]
theorem setTotalSectors_idx0 (tbl : Table) (i j : Nat) (x : Int) :
    (setTotalSectors tbl i x j).idx0 = (tbl j).idx0 := by
  unfold setTotalSectors setTrack
  by_cases h : j = i
  · simp [h]
  · simp [h]

@[simp]
theorem setTotalSectors_idx1 (tbl : Table) (i j : Nat) (x : Int) :
    (setTotalSectors tbl i x j).idx1 = (tbl j).idx1 := by
  unfold setTotalSectors setTrack
  by_cases h : j = i
  · simp [h]
  · simp [h]

@[simp]
theorem setTotalSectors_startOfs (tbl : Table) (i j : Nat) (x : Int) :
    (setTotalSectors tbl i x j).startOfs = (tbl j).startOfs := by
  unfold setTotalSectors setTrack
  by_cases h : j = i
  · simp [h]
  · simp [h]

@[simp]
theorem setTotalSectors_totalSectors (tbl : Table) (i j : Nat) (x : Int) :
    (setTotalSectors tbl i x j).totalSectors = if j = i then x else (tbl j).totalSectors := by
  unfold setTotalSectors setTrack
  by_cases h : j = i
  · simp [h]
  · simp [h]

@[simp]
theorem setTotalSectors_sectorSize (tbl : Table) (i j : Nat) (x : Int) :
    (setTotalSectors tbl i x j).sectorSize = (tbl j).sectorSize := by
  unfold setTotalSectors setTrack
  by_cases h : j = i
  · simp [h]
  · simp [h]

@[simp]
theorem setTotalSectors_predata (tbl : Table) (i j : Nat) (x : Int) :
    (setTotalSectors tbl i x j).predata = (tbl j).predata := by
  unfold setTotalSectors setTrack
  by_cases h : j = i
  · simp [h]
  · simp [h]

@[simp]
theorem setTotalSectors_postdata (tbl : Table) (i j : Nat) (x : Int) :
    (setTotalSectors tbl i x j).postdata = (tbl j).postdata := by
  unfold setTotalSectors setTrack
  by_cases h : j = i
  · simp [h]
  · simp [h]

@[simp]
theorem setTotalSectors_fdSrcFile (tbl : Table) (i j : Nat) (x : Int) :
    (setTotalSectors tbl i x j).fdSrcFile = (tbl j).fdSrcFile := by
  unfold setTotalSectors setTrack
  by_cases h : j = i
  · simp [h]
  · simp [h]

@[simp]
theorem setTotalSectors_sSrcFileName (tbl : Table) (i j : Nat) (x : Int) :
    (setTotalSectors tbl i x j).sSrcFileName = (tbl j).sSrcFileName := by
  unfold setTotalSectors setTrack
  by_cases h : j = i
  · simp [h]
  · simp [h]

@[simp]
theorem setTotalSectors_name (tbl : Table) (i j : Nat) (x : Int) :
    (setTotalSectors tbl i x j).name = (tbl j).name := by
  unfold setTotalSectors setTrack
  by_cases h : j = i
  · simp [h]
  · simp [h]

theorem setIdx1_other (tbl : Table) (i j : Nat) (x : Int) (h : j ≠ i) :
    setIdx1 tbl i x j = tbl j := by
  simp [setIdx1, setTrack, h]

@[simp]
theorem setIdx1_mode (tbl : Table) (i j : Nat) (x : Int) :
    (setIdx1 tbl i x j).mode = (tbl j).mode := by
  unfold setIdx1 setTrack
  by_cases h : j = i
  · simp [h]
  · simp [h]

@[simp]
theorem setIdx1_num (tbl : Table) (i j : Nat) (x : Int) :
    (setIdx1 tbl i x j).num = (tbl j).num := by
  unfold setIdx1 setTrack
  by_cases h : j = i
  · simp [h]
  · simp [h]

@[simp]
theorem setIdx1_idx0 (tbl : Table) (i j : Nat) (x : Int) :
    (setIdx1 tbl i x j).idx0 = (tbl j).idx0 := by
  unfold setIdx1 setTrack
  by_cases h : j = i
  · simp [h]
  · simp [h]

@[simp]
theorem setIdx1_idx1 (tbl : Table) (i j : Nat) (x : Int) :
    (setIdx1 tbl i x j).idx1 = if j = i then x else (tbl j).idx1 := by
  unfold setIdx1 setTrack
  by_cases h : j = i
  · simp [h]
  · simp [h]

@[simp]
theorem setIdx1_startOfs (tbl : Table) (i j : Nat) (x : Int) :
    (setIdx1 tbl i x j).startOfs = (tbl j).startOfs := by
  unfold setIdx1 setTrack
  by_cases h : j = i
  · simp [h]
  · simp [h]

@[simp]
theorem setIdx1_totalSectors (tbl : Table) (i j : Nat) (x : Int) :
    (setIdx1 tbl i x j).totalSectors = (tbl j).totalSectors := by
  unfold setIdx1 setTrack
  by_cases h : j = i
  · simp [h]
  · simp [h]

@[simp]
theorem setIdx1_sectorSize (tbl : Table) (i j : Nat) (x : Int) :
    (setIdx1 tbl i x j).sectorSize = (tbl j).sectorSize := by
  unfold setIdx1 setTrack
  by_cases h : j = i
  · simp [h]
  · simp [h]

@[simp]
theorem setIdx1_predata (tbl : Table) (i j : Nat) (x : Int) :
    (setIdx1 tbl i x j).predata = (tbl j).predata := by
  unfold setIdx1 setTrack
  by_cases h : j = i
  · simp [h]
  · simp [h]

@[simp]
theorem setIdx1_postdata (tbl : Table) (i j : Nat) (x : Int) :
    (setIdx1 tbl i x j).postdata = (tbl j).postdata := by
  unfold setIdx1 setTrack
  by_cases h : j = i
  · simp [h]
  · simp [h]

@[simp]
theorem setIdx1_fdSrcFile (tbl : Table) (i j : Nat) (x : Int) :
    (setIdx1 tbl i x j).fdSrcFile = (tbl j).fdSrcFile := by
  unfold setIdx1 setTrack
  by_cases h : j = i
  · simp [h]
  · simp [h]

@[simp]
theorem setIdx1_sSrcFileName (tbl : Table) (i j : Nat) (x : Int) :
    (setIdx1 tbl i x j).sSrcFileName = (tbl j).sSrcFileName := by
  unfold setIdx1 setTrack
  by_cases h : j = i
  · simp [h]
  · simp [h]

@[simp]
theorem setIdx1_name (tbl : Table) (i j : Nat) (x : Int) :
    (setIdx1 tbl i x j).name = (tbl j).name := by
  unfold setIdx1 setTrack
  by_cases h : j = i
  · simp [h]
  · simp [h]

theorem setIdx0_other (tbl : Table) (i j : Nat) (x : Int) (h : j ≠ i) :
    setIdx0 tbl i x j = tbl j := by
  simp [setIdx0, setTrack, h]

@[simp]
theorem setIdx0_mode (tbl : Table) (i j : Nat) (x : Int) :
    (setIdx0 tbl i x j).mode = (tbl j).mode := by
  unfold setIdx0 setTrack
  by_cases h : j = i
  · simp [h]
  · simp [h]

@[simp]
theorem setIdx0_num (tbl : Table) (i j : Nat) (x : Int) :
    (setIdx0 tbl i x j).num = (tbl j).num := by
  unfold setIdx0 setTrack
  by_cases h : j = i
  · simp [h]
  · simp [h]

@[simp]
theorem setIdx0_idx0 (tbl : Table) (i j : Nat) (x : Int) :
    (setIdx0 tbl i x j).idx0 = if j = i then x else (tbl j).idx0 := by
  unfold setIdx0 setTrack
  by_cases h : j = i
  · simp [h]
  · simp [h]

@[simp]
theorem setIdx0_idx1 (tbl : Table) (i j : Nat) (x : Int) :
    (setIdx0 tbl i x j).idx1 = (tbl j).idx1 := by
  unfold setIdx0 setTrack
  by_cases h : j = i
  · simp [h]
  · simp [h]

@[simp]
theorem setIdx0_startOfs (tbl : Table) (i j : Nat) (x : Int) :
    (setIdx0 tbl i x j).startOfs = (tbl j).startOfs := by
  unfold setIdx0 setTrack
  by_cases h : j = i
  · simp [h]
  · simp [h]

@[simp]
theorem setIdx0_totalSectors (tbl : Table) (i j : Nat) (x : Int) :
    (setIdx0 tbl i x j).totalSectors = (tbl j).totalSectors := by
  unfold setIdx0 setTrack
  by_cases h : j = i
  · simp [h]
  · simp [h]

@[simp]
theorem setIdx0_sectorSize (tbl : Table) (i j : Nat) (x : Int) :
    (setIdx0 tbl i x j).sectorSize = (tbl j).sectorSize := by
  unfold setIdx0 setTrack
  by_cases h : j = i
  · simp [h]
  · simp [h]

@[simp]
theorem setIdx0_predata (tbl : Table) (i j : Nat) (x : Int) :
    (setIdx0 tbl i x j).predata = (tbl j).predata := by
  unfold setIdx0 setTrack
  by_cases h : j = i
  · simp [h]
  · simp [h]

@[simp]
theorem setIdx0_postdata (tbl : Table) (i j : Nat) (x : Int) :
    (setIdx0 tbl i x j).postdata = (tbl j).postdata := by
  unfold setIdx0 setTrack
  by_cases h : j = i
  · simp [h]
  · simp [h]

@[simp]
theorem setIdx0_fdSrcFile (tbl : Table) (i j : Nat) (x : Int) :
    (setIdx0 tbl i x j).fdSrcFile = (tbl j).fdSrcFile := by
  unfold setIdx0 setTrack
  by_cases h : j = i
  · simp [h]
  · simp [h]

@[simp]
theorem setIdx0_sSrcFileName (tbl : Table) (i j : Nat) (x : Int) :
    (setIdx0 tbl i x j).sSrcFileName = (tbl j).sSrcFileName := by
  unfold setIdx0 setTrack
  by_cases h : j = i
  · simp [h]
  · simp [h]

@[simp]
theorem setIdx0_name (tbl : Table) (i j : Nat) (x : Int) :
    (setIdx0 tbl i x j).name = (tbl j).name := by
  unfold setIdx0 setTrack
  by_cases h : j = i
  · simp [h]
  · simp [h]

@[simp]
theorem normTrack_mode (t : Track) : (normTrack t).mode = t.mode := by
  unfold normTrack
  dsimp only
  split_ifs <;> rfl

@[simp]
theorem normTrack_num (t : Track) : (normTrack t).num = t.num := by
  unfold normTrack
  dsimp only
  split_ifs <;> rfl

@[simp]
theorem normTrack_idx0 (t : Track) : (normTrack t).idx0 = if t.idx0 < 0 then 0 else t.idx0 := by
  unfold normTrack
  dsimp only
  split_ifs <;> rfl

@[simp]
theorem normTrack_idx1 (t : Track) : (normTrack t).idx1 = if t.idx1 < 0 then 0 else t.idx1 := by
  unfold normTrack
  dsimp only
  split_ifs <;> rfl

@[simp]
theorem normTrack_startOfs (t : Track) : (normTrack t).startOfs = t.startOfs := by
  unfold normTrack
  dsimp only
  split_ifs <;> rfl

@[simp]
theorem normTrack_totalSectors (t : Track) : (normTrack t).totalSectors = t.totalSectors := by
  unfold normTrack
  dsimp only
  split_ifs <;> rfl

@[simp]
theorem normTrack_sectorSize (t : Track) : (normTrack t).sectorSize = t.sectorSize := by
  unfold normTrack
  dsimp only
  split_ifs <;> rfl

@[simp]
theorem normTrack_predata (t : Track) : (normTrack t).predata = t.predata := by
  unfold normTrack
  dsimp only
  split_ifs <;> rfl

@[simp]
theorem normTrack_postdata (t : Track) : (normTrack t).postdata = t.postdata := by
  unfold normTrack
  dsimp only
  split_ifs <;> rfl

@[simp]
theorem normTrack_fdSrcFile (t : Track) : (normTrack t).fdSrcFile = t.fdSrcFile := by
  unfold normTrack
  dsimp only
  split_ifs <;> rfl

@[simp]
theorem normTrack_sSrcFileName (t : Track) : (normTrack t).sSrcFileName = t.sSrcFileName := by
  unfold normTrack
  dsimp only
  split_ifs <;> rfl

@[simp]
theorem normTrack_name (t : Track) : (normTrack t).name = t.name := by
  unfold normTrack
  dsimp only
  split_ifs <;> rfl

/-! ## Lemmas on the geometry pass -/

theorem fs_eq_override (fs : FileSys) (nm : List Nat) (f : SrcFile) (h : fs nm = some f) :
    fs = fun n => if n = nm then some f else fs n := by
  funext n
  by_cases hn : n = nm
  · simp [hn, h]
  · simp [hn]

set_option maxRecDepth 100000 in
theorem ParseCue_sheetC3 (fs : FileSys) (f : SrcFile) (h : fs (bytes "a.bin") = some f) :
    ∃ tbl, ParseCue fs sheetC3 = .ok (tbl, 1) ∧ (tbl 0).idx0 = 0 ∧ (tbl 0).idx1 = 0 ∧
      (tbl 0).sectorSize = 2048 ∧ (tbl 0).fdSrcFile = f ∧ (tbl 0).mode = MODE1_2048 := by
  rw [fs_eq_override fs _ f h]
  exact ⟨_, rfl, rfl, rfl, rfl, rfl, rfl⟩

theorem geometryPass_one (opts : CommandlineOptions) (tbl : Table)
    (h0 : (tbl 0).idx0 = 0) (h1 : (tbl 0).idx1 = 0) (hs : (tbl 0).sectorSize ≠ 0) :
    ∃ tbl', geometryPass opts tbl 1 = .ok tbl' ∧ (tbl' 0).startOfs = 0 ∧
      (tbl' 0).totalSectors = wrapI32 (((tbl 0).fdSrcFile.size : Int) / (tbl 0).sectorSize) ∧
      (tbl' 1).idx0 = 0 := by
  have hsz : ¬ ((tbl 0).fdSrcFile.size : Int) < 0 := by omega
  simp [geometryPass, normalise, geomLoop, geomStep, pregapStep, spanStep, h0, h1,
    wrapU32, hs, hsz, setTrack_same, setTrack_other]

/-! ## Lemmas on `CheckGaps` -/

theorem countNZ_succ (f : SrcFile) (pos k : Nat) :
    countNZ f pos (k + 1) = (if wordNonZero f pos then 1 else 0) + countNZ f (pos + 4) k := by
  unfold countNZ
  have : ((fun w => wordNonZero f (pos + 4 * w)) ∘ Nat.succ) =
      (fun w => wordNonZero f (pos + 4 + 4 * w)) := by
    funext w
    simp only [Function.comp, Nat.succ_eq_add_one]
    congr 1
    omega
  rw [List.range_succ_eq_map, List.filter_cons, List.filter_map, this]
  by_cases h : wordNonZero f pos = true
  · simp [h]; omega
  · simp [h]

theorem countNZ_le (f : SrcFile) (pos k : Nat) : countNZ f pos k ≤ k := by
  unfold countNZ
  exact (List.length_filter_le _ _).trans (by simp)

theorem sectorWords_eq (f : SrcFile) (k pos cnt : Nat) (h : cnt + k < 4294967296) :
    sectorWords f k pos cnt = cnt + countNZ f pos k := by
  induction k generalizing pos cnt with
  | zero => simp [sectorWords, countNZ]
  | succ k ih =>
    rw [sectorWords, countNZ_succ]
    by_cases hw : wordNonZero f pos = true
    · simp only [hw, if_true]
      rw [Nat.mod_eq_of_lt (by omega), ih _ _ (by omega)]
      omega
    · have hw' : wordNonZero f pos = false := by simpa using hw
      simp only [hw', Bool.false_eq_true, if_false]
      rw [ih _ _ (by omega)]
      simp

theorem gapWordCount_eq (f : SrcFile) (ss pg start : Nat) :
    gapWordCount f ss pg start = ((List.range pg).map (fun k => countNZ f (start + k * ss) 588)).sum :=
  rfl

theorem gapWordCount_succ (f : SrcFile) (ss pg start : Nat) :
    gapWordCount f ss (pg + 1) start = countNZ f start 588 + gapWordCount f ss pg (start + ss) := by
  rw [gapWordCount_eq, gapWordCount_eq, List.range_succ_eq_map, List.map_cons, List.sum_cons,
    List.map_map]
  have : ((fun k => countNZ f (start + k * ss) 588) ∘ Nat.succ) =
      (fun k => countNZ f (start + ss + k * ss) 588) := by
    funext k
    simp only [Function.comp, Nat.succ_eq_add_one]
    congr 1
    rw [Nat.add_mul]
    omega
  rw [this]
  simp

theorem gapWordCount_le (f : SrcFile) (ss pg start : Nat) :
    gapWordCount f ss pg start ≤ 588 * pg := by
  induction pg generalizing start with
  | zero => simp [gapWordCount]
  | succ k ih =>
    rw [gapWordCount_succ]
    have := countNZ_le f start 588
    have := ih (start + ss)
    omega

theorem gapLoop_eq (f : SrcFile) (ss k pos cnt : Nat) (hss : 2352 ≤ ss)
    (hfit : pos + k * ss ≤ f.size) (hc : cnt + 588 * k < 4294967296) :
    gapLoop f ss k pos cnt = .ok (cnt + gapWordCount f ss k pos) := by
  induction k generalizing pos cnt with
  | zero => simp [gapLoop, gapWordCount]
  | succ k ih =>
    rw [Nat.add_mul] at hfit
    have h1 : ¬ (ss = 0 ∨ pos + ss > f.size) := by omega
    have h2 : ¬ (ss < SIZERAW) := by simp only [SIZERAW]; omega
    rw [gapLoop]
    simp only [h1, h2, if_false]
    have h3 : SIZERAW >>> 2 = 588 := rfl
    rw [h3, sectorWords_eq f 588 pos cnt (by omega)]
    have := countNZ_le f pos 588
    rw [ih (pos + ss) _ (by omega) (by omega), gapWordCount_succ, Nat.add_assoc]

theorem CheckGaps_eq (t : Track) (h0 : 0 ≤ t.startOfs) (hss : 2352 ≤ t.sectorSize)
    (hlo : t.idx0 ≤ t.idx1) (hhi : t.idx1 - t.idx0 ≤ 755040)
    (hfit : t.startOfs + (t.idx1 - t.idx0) * t.sectorSize ≤ t.fdSrcFile.size) :
    CheckGaps t = .ok (decide (294 <
      gapWordCount t.fdSrcFile t.sectorSize (t.idx1 - t.idx0).toNat t.startOfs.toNat)) := by
  unfold CheckGaps
  have hneg : ¬ t.startOfs < 0 := by omega
  have hw : (wrapU32 (t.idx1 - t.idx0)).toNat = (t.idx1 - t.idx0).toNat := by
    unfold wrapU32
    congr 1
    omega
  simp only [hneg, if_false, hw]
  have hfit' : t.startOfs.toNat + (t.idx1 - t.idx0).toNat * t.sectorSize ≤ t.fdSrcFile.size := by
    have e1 : ((t.startOfs.toNat : Nat) : Int) = t.startOfs := Int.toNat_of_nonneg h0
    have e2 : (((t.idx1 - t.idx0).toNat : Nat) : Int) = t.idx1 - t.idx0 :=
      Int.toNat_of_nonneg (by omega)
    have : ((t.startOfs.toNat + (t.idx1 - t.idx0).toNat * t.sectorSize : Nat) : Int)
        ≤ (t.fdSrcFile.size : Int) := by
      push_cast
      rw [e1, e2]
      exact hfit
    exact_mod_cast this
  rw [gapLoop_eq _ _ _ _ _ hss hfit' (by omega)]
  simp
  rfl

@[simp]
theorem growPrevious_mode (tbl : Table) (i j : Nat) (ofs pg : Int) :
    (growPrevious tbl i ofs pg j).mode = (tbl j).mode := by
  unfold growPrevious
  split_ifs <;> simp

@[simp]
theorem growPrevious_num (tbl : Table) (i j : Nat) (ofs pg : Int) :
    (growPrevious tbl i ofs pg j).num = (tbl j).num := by
  unfold growPrevious
  split_ifs <;> simp

@[simp]
theorem growPrevious_idx0 (tbl : Table) (i j : Nat) (ofs pg : Int) :
    (growPrevious tbl i ofs pg j).idx0 = (tbl j).idx0 := by
  unfold growPrevious
  split_ifs <;> simp

@[simp]
theorem growPrevious_idx1 (tbl : Table) (i j : Nat) (ofs pg : Int) :
    (growPrevious tbl i ofs pg j).idx1 = (tbl j).idx1 := by
  unfold growPrevious
  split_ifs <;> simp

@[simp]
theorem growPrevious_startOfs (tbl : Table) (i j : Nat) (ofs pg : Int) :
    (growPrevious tbl i ofs pg j).startOfs = (tbl j).startOfs := by
  unfold growPrevious
  split_ifs <;> simp

@[simp]
theorem growPrevious_sectorSize (tbl : Table) (i j : Nat) (ofs pg : Int) :
    (growPrevious tbl i ofs pg j).sectorSize = (tbl j).sectorSize := by
  unfold growPrevious
  split_ifs <;> simp

@[simp]
theorem growPrevious_predata (tbl : Table) (i j : Nat) (ofs pg : Int) :
    (growPrevious tbl i ofs pg j).predata = (tbl j).predata := by
  unfold growPrevious
  split_ifs <;> simp

@[simp]
theorem growPrevious_postdata (tbl : Table) (i j : Nat) (ofs pg : Int) :
    (growPrevious tbl i ofs pg j).postdata = (tbl j).postdata := by
  unfold growPrevious
  split_ifs <;> simp

@[simp]
theorem growPrevious_fdSrcFile (tbl : Table) (i j : Nat) (ofs pg : Int) :
    (growPrevious tbl i ofs pg j).fdSrcFile = (tbl j).fdSrcFile := by
  unfold growPrevious
  split_ifs <;> simp

@[simp]
theorem growPrevious_sSrcFileName (tbl : Table) (i j : Nat) (ofs pg : Int) :
    (growPrevious tbl i ofs pg j).sSrcFileName = (tbl j).sSrcFileName := by
  unfold growPrevious
  split_ifs <;> simp

@[simp]
theorem growPrevious_name (tbl : Table) (i j : Nat) (ofs pg : Int) :
    (growPrevious tbl i ofs pg j).name = (tbl j).name := by
  unfold growPrevious
  split_ifs <;> simp

theorem growPrevious_other (tbl : Table) (i j : Nat) (ofs pg : Int) (h : j + 1 ≠ i) :
    growPrevious tbl i ofs pg j = tbl j := by
  unfold growPrevious
  split_ifs with hc
  · exact setTotalSectors_other _ _ _ _ (by omega)
  · rfl

theorem growPrevious_zero_ofs (tbl : Table) (i : Nat) (pg : Int) :
    growPrevious tbl i 0 pg = tbl := by
  simp [growPrevious]

theorem SameIn.rfl' (a : Track) : SameIn a a := ⟨rfl, rfl, rfl, rfl, rfl, rfl, rfl, rfl, rfl⟩

theorem SameIn.trans' {a b c : Track} (h1 : SameIn a b) (h2 : SameIn b c) : SameIn a c :=
  ⟨h1.mode.trans h2.mode, h1.num.trans h2.num, h1.idx0.trans h2.idx0,
   h1.sectorSize.trans h2.sectorSize, h1.predata.trans h2.predata,
   h1.postdata.trans h2.postdata, h1.fdSrcFile.trans h2.fdSrcFile,
   h1.sSrcFileName.trans h2.sSrcFileName, h1.name.trans h2.name⟩

theorem SameIn.symm' {a b : Track} (h : SameIn a b) : SameIn b a :=
  ⟨h.mode.symm, h.num.symm, h.idx0.symm, h.sectorSize.symm, h.predata.symm, h.postdata.symm,
   h.fdSrcFile.symm, h.sSrcFileName.symm, h.name.symm⟩

theorem wrapU32_nonneg (x : Int) : 0 ≤ wrapU32 x := by
  unfold wrapU32
  omega

theorem wrapU32_of_range (x : Int) (h0 : 0 ≤ x) (h1 : x < 4294967296) : wrapU32 x = x := by
  unfold wrapU32
  omega

theorem wrapI32_of_range (x : Int) (h0 : -2147483648 ≤ x) (h1 : x < 2147483648) :
    wrapI32 x = x := by
  unfold wrapI32
  omega

/-- The four ways a first half-round ends without an error. -/
theorem pregapStep_cases {opts : CommandlineOptions} {i : Nat} {tbl tbl' : Table}
    {ofs ofs' : Int} (h : pregapStep opts i tbl ofs = .ok (tbl', ofs')) :
    (wrapU32 ((tbl i).idx1 - (tbl i).idx0) = 0 ∧ tbl' = setStartOfs tbl i ofs ∧ ofs' = ofs) ∨
    (wrapU32 ((tbl i).idx1 - (tbl i).idx0) ≠ 0 ∧
      keepPregap opts (setStartOfs tbl i ofs i) = .ok true ∧ opts.allPostGaps = true ∧
      ofs' = ofs + wrapU32 (wrapU32 ((tbl i).idx1 - (tbl i).idx0) * (tbl i).sectorSize) ∧
      tbl' = setStartOfs (growPrevious (setStartOfs tbl i ofs) i ofs
                (wrapU32 ((tbl i).idx1 - (tbl i).idx0))) i ofs') ∨
    (wrapU32 ((tbl i).idx1 - (tbl i).idx0) ≠ 0 ∧
      keepPregap opts (setStartOfs tbl i ofs i) = .ok true ∧ opts.allPostGaps = false ∧
      ofs' = ofs ∧ tbl' = setIdx1 (setStartOfs tbl i ofs) i (tbl i).idx0) ∨
    (wrapU32 ((tbl i).idx1 - (tbl i).idx0) ≠ 0 ∧
      keepPregap opts (setStartOfs tbl i ofs i) = .ok false ∧
      ofs' = ofs + wrapU32 (wrapU32 ((tbl i).idx1 - (tbl i).idx0) * (tbl i).sectorSize) ∧
      tbl' = setStartOfs (setStartOfs tbl i ofs) i ofs') := by
  unfold pregapStep at h
  simp only [setStartOfs_idx1, setStartOfs_idx0, setStartOfs_sectorSize,
    growPrevious_sectorSize] at h
  by_cases hpg : wrapU32 ((tbl i).idx1 - (tbl i).idx0) = 0
  · simp only [hpg, ne_eq, not_true_eq_false, if_false] at h
    cases h
    exact Or.inl ⟨hpg, rfl, rfl⟩
  · simp only [hpg, ne_eq, not_false_eq_true, if_true] at h
    split at h
    · cases h
    · rename_i hk
      by_cases hp : opts.allPostGaps = true
      · simp only [hp, if_true] at h
        cases h
        exact Or.inr (Or.inl ⟨hpg, hk, hp, rfl, rfl⟩)
      · simp only [hp, if_false] at h
        cases h
        exact Or.inr (Or.inr (Or.inl ⟨hpg, hk, by simpa using hp, rfl, rfl⟩))
    · rename_i hk
      cases h
      exact Or.inr (Or.inr (Or.inr ⟨hpg, hk, rfl, rfl⟩))

/-- The two ways a second half-round ends without an error. -/
theorem spanStep_cases {n i : Nat} {tbl tbl' : Table} {ofs ofs' : Int}
    (h : spanStep n i tbl ofs = .ok (tbl', ofs')) :
    ((i + 1 = n ∨ (tbl i).sSrcFileName ≠ (tbl (i + 1)).sSrcFileName) ∧
      0 ≤ ((tbl i).fdSrcFile.size : Int) - ofs ∧ (tbl i).sectorSize ≠ 0 ∧ ofs' = 0 ∧
      tbl' = setTotalSectors tbl i
        (wrapI32 ((((tbl i).fdSrcFile.size : Int) - ofs) / (tbl i).sectorSize))) ∨
    (¬ (i + 1 = n ∨ (tbl i).sSrcFileName ≠ (tbl (i + 1)).sSrcFileName) ∧
      (tbl i).idx1 ≤ (tbl (i + 1)).idx0 ∧
      ofs' = ofs + wrapU32 (wrapI32 ((tbl (i + 1)).idx0 - (tbl i).idx1) * (tbl i).sectorSize) ∧
      tbl' = setTotalSectors tbl i (wrapI32 ((tbl (i + 1)).idx0 - (tbl i).idx1))) := by
  unfold spanStep at h
  by_cases hl : i + 1 = n ∨ (tbl i).sSrcFileName ≠ (tbl (i + 1)).sSrcFileName
  · simp only [hl, if_true] at h
    split_ifs at h with h1 h2
    cases h
    exact Or.inl ⟨hl, by omega, h2, rfl, rfl⟩
  · simp only [hl, if_false] at h
    split_ifs at h with h1
    cases h
    exact Or.inr ⟨hl, by omega, rfl, rfl⟩

theorem geomStep_split {opts : CommandlineOptions} {n i : Nat} {tbl tbl' : Table}
    {ofs ofs' : Int} (h : geomStep opts n i tbl ofs = .ok (tbl', ofs')) :
    ∃ tbl1 ofs1, pregapStep opts i tbl ofs = .ok (tbl1, ofs1) ∧
      spanStep n i tbl1 ofs1 = .ok (tbl', ofs') := by
  unfold geomStep at h
  split at h
  · cases h
  · rename_i tbl1 ofs1 hp
    exact ⟨tbl1, ofs1, hp, h⟩

theorem pregapStep_sameIn {opts : CommandlineOptions} {i : Nat} {tbl tbl' : Table}
    {ofs ofs' : Int} (h : pregapStep opts i tbl ofs = .ok (tbl', ofs')) (j : Nat) :
    SameIn (tbl' j) (tbl j) := by
  rcases pregapStep_cases h with ⟨_, rfl, rfl⟩ | ⟨_, _, _, rfl, rfl⟩ | ⟨_, _, _, rfl, rfl⟩ |
    ⟨_, _, rfl, rfl⟩ <;> constructor <;> simp

theorem spanStep_sameIn {n i : Nat} {tbl tbl' : Table}
    {ofs ofs' : Int} (h : spanStep n i tbl ofs = .ok (tbl', ofs')) (j : Nat) :
    SameIn (tbl' j) (tbl j) := by
  rcases spanStep_cases h with ⟨_, _, _, rfl, rfl⟩ | ⟨_, _, rfl, rfl⟩ <;> constructor <;> simp

theorem geomStep_sameIn {opts : CommandlineOptions} {n i : Nat} {tbl tbl' : Table}
    {ofs ofs' : Int} (h : geomStep opts n i tbl ofs = .ok (tbl', ofs')) (j : Nat) :
    SameIn (tbl' j) (tbl j) := by
  obtain ⟨tbl1, ofs1, hp, hs⟩ := geomStep_split h
  exact (spanStep_sameIn hs j).trans' (pregapStep_sameIn hp j)

theorem pregapStep_far {opts : CommandlineOptions} {i : Nat} {tbl tbl' : Table}
    {ofs ofs' : Int} (h : pregapStep opts i tbl ofs = .ok (tbl', ofs')) (j : Nat)
    (h1 : j ≠ i) (h2 : j + 1 ≠ i) : tbl' j = tbl j := by
  rcases pregapStep_cases h with ⟨_, rfl, rfl⟩ | ⟨_, _, _, rfl, rfl⟩ | ⟨_, _, _, rfl, rfl⟩ |
    ⟨_, _, rfl, rfl⟩ <;>
    simp [setStartOfs_other, setIdx1_other, growPrevious_other, h1, h2]

theorem spanStep_far {n i : Nat} {tbl tbl' : Table}
    {ofs ofs' : Int} (h : spanStep n i tbl ofs = .ok (tbl', ofs')) (j : Nat)
    (h1 : j ≠ i) : tbl' j = tbl j := by
  rcases spanStep_cases h with ⟨_, _, _, rfl, rfl⟩ | ⟨_, _, rfl, rfl⟩ <;>
    simp [setTotalSectors_other, h1]

theorem geomStep_far {opts : CommandlineOptions} {n i : Nat} {tbl tbl' : Table}
    {ofs ofs' : Int} (h : geomStep opts n i tbl ofs = .ok (tbl', ofs')) (j : Nat)
    (h1 : j ≠ i) (h2 : j + 1 ≠ i) : tbl' j = tbl j := by
  obtain ⟨tbl1, ofs1, hp, hs⟩ := geomStep_split h
  rw [spanStep_far hs j h1, pregapStep_far hp j h1 h2]

/-- A round leaves `idx1` and `startOfs` of the other tracks as they are. -/
theorem geomStep_other {opts : CommandlineOptions} {n i : Nat} {tbl tbl' : Table}
    {ofs ofs' : Int} (h : geomStep opts n i tbl ofs = .ok (tbl', ofs')) (j : Nat)
    (h1 : j ≠ i) : (tbl' j).idx1 = (tbl j).idx1 ∧ (tbl' j).startOfs = (tbl j).startOfs := by
  obtain ⟨tbl1, ofs1, hp, hs⟩ := geomStep_split h
  rw [spanStep_far hs j h1]
  rcases pregapStep_cases hp with ⟨_, rfl, rfl⟩ | ⟨_, _, _, rfl, rfl⟩ | ⟨_, _, _, rfl, rfl⟩ |
    ⟨_, _, rfl, rfl⟩ <;> simp [h1]

/-- A round leaves `totalSectors` of another track as it is, unless that track is the
previous one and the running offset is not 0. -/
theorem geomStep_totalSectors {opts : CommandlineOptions} {n i : Nat} {tbl tbl' : Table}
    {ofs ofs' : Int} (h : geomStep opts n i tbl ofs = .ok (tbl', ofs')) (j : Nat)
    (h1 : j ≠ i) (h2 : ofs = 0 ∨ j + 1 ≠ i) :
    (tbl' j).totalSectors = (tbl j).totalSectors := by
  obtain ⟨tbl1, ofs1, hp, hs⟩ := geomStep_split h
  rw [spanStep_far hs j h1]
  rcases pregapStep_cases hp with ⟨_, rfl, rfl⟩ | ⟨_, _, _, rfl, rfl⟩ | ⟨_, _, _, rfl, rfl⟩ |
    ⟨_, _, rfl, rfl⟩
  · simp
  · rcases h2 with h2 | h2
    · subst h2
      simp [growPrevious_zero_ofs]
    · simp [growPrevious_other _ _ _ _ _ h2]
  · simp
  · simp

theorem geomStep_ofs_nonneg {opts : CommandlineOptions} {n i : Nat} {tbl tbl' : Table}
    {ofs ofs' : Int} (h : geomStep opts n i tbl ofs = .ok (tbl', ofs')) (h0 : 0 ≤ ofs) :
    0 ≤ ofs' := by
  obtain ⟨tbl1, ofs1, hp, hs⟩ := geomStep_split h
  have h1 : 0 ≤ ofs1 := by
    rcases pregapStep_cases hp with ⟨_, _, rfl⟩ | ⟨_, _, _, rfl, _⟩ | ⟨_, _, _, rfl, _⟩ |
      ⟨_, _, rfl, _⟩
    · exact h0
    · have := wrapU32_nonneg (wrapU32 ((tbl i).idx1 - (tbl i).idx0) * (tbl i).sectorSize)
      omega
    · exact h0
    · have := wrapU32_nonneg (wrapU32 ((tbl i).idx1 - (tbl i).idx0) * (tbl i).sectorSize)
      omega
  rcases spanStep_cases hs with ⟨_, _, _, rfl, _⟩ | ⟨_, _, rfl, _⟩
  · exact le_refl _
  · have := wrapU32_nonneg
      (wrapI32 ((tbl1 (i + 1)).idx0 - (tbl1 i).idx1) * (tbl1 i).sectorSize)
    omega

theorem geomLoop_succ {opts : CommandlineOptions} {n r i : Nat} {tbl F : Table} {ofs : Int}
    (h : geomLoop opts n (r + 1) i tbl ofs = .ok F) :
    ∃ tbl1 ofs1, geomStep opts n i tbl ofs = .ok (tbl1, ofs1) ∧
      geomLoop opts n r (i + 1) tbl1 ofs1 = .ok F := by
  rw [geomLoop] at h
  split at h
  · cases h
  · rename_i tbl1 ofs1 hs
    exact ⟨tbl1, ofs1, hs, h⟩

theorem geomLoop_sameIn {opts : CommandlineOptions} {n : Nat} (r : Nat) {i : Nat}
    {tbl F : Table} {ofs : Int} (h : geomLoop opts n r i tbl ofs = .ok F) (j : Nat) :
    SameIn (F j) (tbl j) := by
  induction r generalizing i tbl ofs with
  | zero => cases h; exact SameIn.rfl' _
  | succ r ih =>
    obtain ⟨tbl1, ofs1, hs, hl⟩ := geomLoop_succ h
    exact (ih hl).trans' (geomStep_sameIn hs j)

theorem geomLoop_far {opts : CommandlineOptions} {n : Nat} (r : Nat) {i : Nat}
    {tbl F : Table} {ofs : Int} (h : geomLoop opts n r i tbl ofs = .ok F) (j : Nat)
    (hj : j + 1 < i ∨ i + r ≤ j) : F j = tbl j := by
  induction r generalizing i tbl ofs with
  | zero => cases h; rfl
  | succ r ih =>
    obtain ⟨tbl1, ofs1, hs, hl⟩ := geomLoop_succ h
    rw [ih hl (by omega), geomStep_far hs j (by omega) (by omega)]

theorem geomLoop_before {opts : CommandlineOptions} {n : Nat} (r : Nat) {i : Nat}
    {tbl F : Table} {ofs : Int} (h : geomLoop opts n r i tbl ofs = .ok F) (j : Nat)
    (hj : j < i) : (F j).idx1 = (tbl j).idx1 ∧ (F j).startOfs = (tbl j).startOfs := by
  induction r generalizing i tbl ofs with
  | zero => cases h; exact ⟨rfl, rfl⟩
  | succ r ih =>
    obtain ⟨tbl1, ofs1, hs, hl⟩ := geomLoop_succ h
    have h1 := ih hl (by omega)
    have h2 := geomStep_other hs j (by omega)
    exact ⟨h1.1.trans h2.1, h1.2.trans h2.2⟩

theorem geomLoop_totalSectors {opts : CommandlineOptions} {n : Nat} (r : Nat) {i : Nat}
    {tbl F : Table} {ofs : Int} (h : geomLoop opts n r i tbl ofs = .ok F) (j : Nat)
    (hj : j < i) (h2 : ofs = 0 ∨ j + 1 < i) : (F j).totalSectors = (tbl j).totalSectors := by
  induction r generalizing i tbl ofs with
  | zero => cases h; rfl
  | succ r ih =>
    obtain ⟨tbl1, ofs1, hs, hl⟩ := geomLoop_succ h
    rw [ih hl (by omega) (by omega), geomStep_totalSectors hs j (by omega) (by omega)]

theorem geomStep_idx1 {opts : CommandlineOptions} {n i : Nat} {tbl tbl' : Table}
    {ofs ofs' : Int} (h : geomStep opts n i tbl ofs = .ok (tbl', ofs')) :
    (tbl' i).idx1 = (tbl i).idx1 ∨ (tbl' i).idx1 = (tbl i).idx0 := by
  obtain ⟨tbl1, ofs1, hp, hs⟩ := geomStep_split h
  have e : (tbl' i).idx1 = (tbl1 i).idx1 := by
    rcases spanStep_cases hs with ⟨_, _, _, rfl, rfl⟩ | ⟨_, _, rfl, rfl⟩ <;> simp
  rw [e]
  rcases pregapStep_cases hp with ⟨_, rfl, rfl⟩ | ⟨_, _, _, rfl, rfl⟩ | ⟨_, _, _, rfl, rfl⟩ |
    ⟨_, _, rfl, rfl⟩ <;> simp

theorem geomLoop_idx1 {opts : CommandlineOptions} {n : Nat} (r : Nat) {i : Nat}
    {tbl F : Table} {ofs : Int} (h : geomLoop opts n r i tbl ofs = .ok F) (j : Nat) :
    (F j).idx1 = (tbl j).idx1 ∨ (F j).idx1 = (tbl j).idx0 := by
  induction r generalizing i tbl ofs with
  | zero => cases h; exact Or.inl rfl
  | succ r ih =>
    obtain ⟨tbl1, ofs1, hs, hl⟩ := geomLoop_succ h
    by_cases hj : j = i
    · subst hj
      rw [(geomLoop_before r hl j (by omega)).1]
      exact geomStep_idx1 hs
    · rcases ih hl with h1 | h1
      · exact Or.inl (h1.trans (geomStep_other hs j hj).1)
      · exact Or.inr (h1.trans (geomStep_sameIn hs j).idx0)

theorem normalise_spec (r : Nat) {i : Nat} {tbl tbl' : Table}
    (h : normalise r i tbl = .ok tbl') :
    (∀ j, tbl' j = if i ≤ j ∧ j < i + r then normTrack (tbl j) else tbl j) ∧
    (∀ j, i ≤ j → j < i + r → (normTrack (tbl j)).idx0 ≤ (normTrack (tbl j)).idx1) := by
  induction r generalizing i tbl with
  | zero =>
    cases h
    refine ⟨fun j => ?_, fun j h1 h2 => by omega⟩
    have : ¬ (i ≤ j ∧ j < i) := by omega
    simp [this]
  | succ r ih =>
    rw [normalise] at h
    split_ifs at h with hc
    obtain ⟨h1, h2⟩ := ih h
    constructor
    · intro j
      rw [h1 j]
      by_cases hj : j = i
      · subst hj
        simp [setTrack_same]
      · rw [setTrack_other _ _ _ _ hj]
        by_cases c1 : i + 1 ≤ j ∧ j < i + 1 + r
        · have c2 : i ≤ j ∧ j < i + (r + 1) := by omega
          simp [c1, c2]
        · have c2 : ¬ (i ≤ j ∧ j < i + (r + 1)) := by omega
          simp [c1, c2]
    · intro j hj1 hj2
      by_cases hj : j = i
      · subst hj
        omega
      · have := h2 j (by omega) (by omega)
        rwa [setTrack_other _ _ _ _ hj] at this

theorem geometryPass_split {opts : CommandlineOptions} {tbl F : Table} {n : Nat}
    (h : geometryPass opts tbl n = .ok F) :
    n < MAXIMUM_TRACK_NUMBERS ∧ ∃ N, normalise n 0 tbl = .ok N ∧
      geomLoop opts n n 0 (setIdx0 (setIdx1 N n 0) n 0) 0 = .ok F := by
  unfold geometryPass at h
  split at h
  · cases h
  · rename_i N hN
    split_ifs at h with hc
    exact ⟨by omega, N, hN, h⟩

theorem pregapStep_nogap (opts : CommandlineOptions) (i : Nat) (tbl : Table) (ofs : Int)
    (h : (tbl i).idx0 = (tbl i).idx1) :
    pregapStep opts i tbl ofs = .ok (setStartOfs tbl i ofs, ofs) := by
  unfold pregapStep
  simp [h, wrapU32]

theorem geomLoop_policy_indep (opts1 opts2 : CommandlineOptions) (n r : Nat) (i : Nat)
    (tbl : Table) (ofs : Int) (h : ∀ j, i ≤ j → j < i + r → (tbl j).idx0 = (tbl j).idx1) :
    geomLoop opts1 n r i tbl ofs = geomLoop opts2 n r i tbl ofs := by
  induction r generalizing i tbl ofs with
  | zero => rfl
  | succ r ih =>
    rw [geomLoop, geomLoop]
    have hi := h i (le_refl _) (by omega)
    simp only [geomStep, pregapStep_nogap _ i tbl ofs hi]
    cases hs : spanStep n i (setStartOfs tbl i ofs) ofs with
    | error e => rfl
    | ok p =>
      obtain ⟨tbl1, ofs1⟩ := p
      apply ih
      intro j hj1 hj2
      rw [spanStep_far hs j (by omega)]
      simpa using h j (by omega) (by omega)

/-- The entry `tracks[nTracks]` after the geometry pass: `idx0` is the 0 of line 782. -/
theorem geometryPass_end_idx0 {opts : CommandlineOptions} {tbl F : Table} {n : Nat}
    (h : geometryPass opts tbl n = .ok F) : (F n).idx0 = 0 := by
  obtain ⟨_, N, _, hl⟩ := geometryPass_split h
  rw [geomLoop_far n hl n (by omega)]
  simp

/-- The overburn step after a geometry pass never adds a track. -/
theorem overburnStep_after_geometryPass {opts : CommandlineOptions} {tbl F : Table} {n : Nat}
    (h : geometryPass opts tbl n = .ok F) : overburnStep opts F n = .ok (F, n) := by
  have hn := (geometryPass_split h).1
  have h0 := geometryPass_end_idx0 h
  unfold overburnStep
  have : ¬ (n ≥ MAXIMUM_TRACK_NUMBERS) := by omega
  simp [h0, this]

theorem pregapStep_startOfs {opts : CommandlineOptions} {i : Nat} {tbl tbl' : Table}
    {ofs ofs' : Int} (h : pregapStep opts i tbl ofs = .ok (tbl', ofs')) :
    (tbl' i).startOfs = ofs' ∧ ofs ≤ ofs' := by
  rcases pregapStep_cases h with ⟨_, rfl, rfl⟩ | ⟨_, _, _, rfl, rfl⟩ | ⟨_, _, _, rfl, rfl⟩ |
    ⟨_, _, rfl, rfl⟩
  · simp
  · have := wrapU32_nonneg (wrapU32 ((tbl i).idx1 - (tbl i).idx0) * (tbl i).sectorSize)
    simp
    omega
  · simp
  · have := wrapU32_nonneg (wrapU32 ((tbl i).idx1 - (tbl i).idx0) * (tbl i).sectorSize)
    simp
    omega

theorem div_mod_bounds (x s : Int) (hs : 0 < s) :
    0 ≤ x - x / s * s ∧ x - x / s * s < s := by
  have h1 := Int.emod_nonneg x (ne_of_gt hs)
  have h2 := Int.emod_lt_of_pos x hs
  have h3 := Int.ediv_add_emod x s
  have h4 : x / s * s = s * (x / s) := Int.mul_comm _ _
  omega

theorem geomLoop_last_track {opts : CommandlineOptions} {n : Nat} (r : Nat) {i0 : Nat}
    {tbl F : Table} {ofs : Int} (h : geomLoop opts n r i0 tbl ofs = .ok F) (h0 : 0 ≤ ofs)
    (i : Nat) (hi1 : i0 ≤ i) (hi2 : i < i0 + r)
    (hlast : i + 1 = n ∨ (F i).sSrcFileName ≠ (F (i + 1)).sSrcFileName)
    (hsz : ((F i).fdSrcFile.size : Int) / (F i).sectorSize < 2147483648) :
    0 ≤ ((F i).fdSrcFile.size : Int)
          - ((F i).startOfs + (F i).totalSectors * (F i).sectorSize) ∧
    ((F i).fdSrcFile.size : Int)
          - ((F i).startOfs + (F i).totalSectors * (F i).sectorSize) < (F i).sectorSize := by
  induction r generalizing i0 tbl ofs with
  | zero => omega
  | succ r ih =>
    obtain ⟨tbl1, ofs1, hs, hl⟩ := geomLoop_succ h
    by_cases hi : i = i0
    · subst hi
      obtain ⟨tblp, ofsp, hp, hsp⟩ := geomStep_split hs
      have sF := fun j => geomLoop_sameIn r hl j
      have s1 := fun j => spanStep_sameIn hsp j
      have hlast' : i + 1 = n ∨ (tblp i).sSrcFileName ≠ (tblp (i + 1)).sSrcFileName := by
        rcases hlast with hc | hc
        · exact Or.inl hc
        · right
          rw [← (s1 i).sSrcFileName, ← (s1 (i + 1)).sSrcFileName, ← (sF i).sSrcFileName,
            ← (sF (i + 1)).sSrcFileName]
          exact hc
      obtain ⟨hst, hle⟩ := pregapStep_startOfs hp
      rcases spanStep_cases hsp with ⟨_, hnn, hss, rfl, rfl⟩ | ⟨hnl, _, _, _⟩
      · have e1 : (F i).startOfs = ofsp := by
          rw [(geomLoop_before r hl i (by omega)).2]
          simpa using hst
        have e2 : (F i).totalSectors
            = wrapI32 ((((tblp i).fdSrcFile.size : Int) - ofsp) / (tblp i).sectorSize) := by
          rw [geomLoop_totalSectors r hl i (by omega) (Or.inl rfl)]
          simp
        have e3 : (F i).fdSrcFile = (tblp i).fdSrcFile := by
          rw [(sF i).fdSrcFile]; simp
        have e4 : (F i).sectorSize = (tblp i).sectorSize := by
          rw [(sF i).sectorSize]; simp
        rw [e3, e4] at hsz
        rw [e1, e2, e3, e4]
        have hpos : (0 : Int) < (tblp i).sectorSize := by omega
        have hq0 : 0 ≤ (((tblp i).fdSrcFile.size : Int) - ofsp) / (tblp i).sectorSize :=
          Int.ediv_nonneg hnn (le_of_lt hpos)
        have hq1 : (((tblp i).fdSrcFile.size : Int) - ofsp) / (tblp i).sectorSize
            ≤ ((tblp i).fdSrcFile.size : Int) / (tblp i).sectorSize :=
          Int.ediv_le_ediv hpos (by omega)
        rw [wrapI32_of_range _ (by omega) (by omega)]
        have := div_mod_bounds (((tblp i).fdSrcFile.size : Int) - ofsp) (tblp i).sectorSize
          hpos
        omega
      · exact absurd hlast' hnl
    · exact ih hl (geomStep_ofs_nonneg hs h0) (by omega) (by omega)

theorem growPrevious_totalSectors_prev (tbl : Table) (i : Nat) (ofs pg : Int) :
    (growPrevious tbl (i + 1) ofs pg i).totalSectors = (tbl i).totalSectors ∨
    (growPrevious tbl (i + 1) ofs pg i).totalSectors = wrapI32 ((tbl i).totalSectors + pg) := by
  unfold growPrevious
  split_ifs
  · right
    simp
  · left
    rfl

theorem mul_bound (a b : Int) (ha0 : 0 ≤ a) (ha : a ≤ 755040) (hb0 : 0 ≤ b) (hb : b ≤ 5688) :
    0 ≤ a * b ∧ a * b < 4294967296 := by
  have h1 : a * b ≤ 755040 * 5688 := Int.mul_le_mul ha hb hb0 (by omega)
  have h2 : 0 ≤ a * b := Int.mul_nonneg ha0 hb0
  omega

/-- A round for a track followed by a track of the same file, when no 32-bit product wraps:
the running offset ends exactly at the end of the track's span. -/
theorem geomStep_nonlast {opts : CommandlineOptions} {n i : Nat} {tbl tbl1 : Table}
    {ofs ofs1 : Int} (h : geomStep opts n i tbl ofs = .ok (tbl1, ofs1))
    (hnl : ¬ (i + 1 = n ∨ (tbl i).sSrcFileName ≠ (tbl (i + 1)).sSrcFileName))
    (h0 : 0 ≤ (tbl i).idx0) (h1 : 0 ≤ (tbl i).idx1)
    (hn : (tbl (i + 1)).idx0 ≤ 755040) (hss : (tbl i).sectorSize ≤ 5688) :
    0 ≤ (tbl1 i).totalSectors ∧ (tbl1 i).totalSectors ≤ 755040 ∧
      ofs1 = (tbl1 i).startOfs + (tbl1 i).totalSectors * (tbl i).sectorSize := by
  obtain ⟨tblp, ofsp, hp, hsp⟩ := geomStep_split h
  have sp := fun j => pregapStep_sameIn hp j
  obtain ⟨hst, _⟩ := pregapStep_startOfs hp
  have hidx : (tblp i).idx1 = (tbl i).idx1 ∨ (tblp i).idx1 = (tbl i).idx0 := by
    rcases pregapStep_cases hp with ⟨_, rfl, rfl⟩ | ⟨_, _, _, rfl, rfl⟩ | ⟨_, _, _, rfl, rfl⟩ |
      ⟨_, _, rfl, rfl⟩ <;> simp
  have hnl' : ¬ (i + 1 = n ∨ (tblp i).sSrcFileName ≠ (tblp (i + 1)).sSrcFileName) := by
    rw [(sp i).sSrcFileName, (sp (i + 1)).sSrcFileName]
    exact hnl
  rcases spanStep_cases hsp with ⟨hl, _, _, _, _⟩ | ⟨_, hle, rfl, rfl⟩
  · exact absurd hl hnl'
  · have e0 : (tblp (i + 1)).idx0 = (tbl (i + 1)).idx0 := (sp (i + 1)).idx0
    have e1 : (tblp i).sectorSize = (tbl i).sectorSize := (sp i).sectorSize
    have hr0 : 0 ≤ (tblp (i + 1)).idx0 - (tblp i).idx1 := by omega
    have hr1 : (tblp (i + 1)).idx0 - (tblp i).idx1 ≤ 755040 := by
      rcases hidx with _ | _ <;> omega
    rw [wrapI32_of_range _ (by omega) (by omega)]
    have hm := mul_bound _ ((tbl i).sectorSize : Int) hr0 hr1 (by omega) (by omega)
    simp only [setTotalSectors_totalSectors, if_true, setTotalSectors_startOfs, e1, hst]
    rw [wrapU32_of_range _ hm.1 hm.2]
    exact ⟨hr0, hr1, rfl⟩

theorem spanStep_keeps {n i : Nat} {tbl tbl' : Table}
    {ofs ofs' : Int} (h : spanStep n i tbl ofs = .ok (tbl', ofs')) (j : Nat) :
    (tbl' j).startOfs = (tbl j).startOfs ∧ (tbl' j).idx1 = (tbl j).idx1 := by
  rcases spanStep_cases h with ⟨_, _, _, rfl, rfl⟩ | ⟨_, _, rfl, rfl⟩ <;> simp

theorem keepPregap_congr (opts : CommandlineOptions) (t t' : Track)
    (h1 : t.startOfs = t'.startOfs) (h2 : t.idx0 = t'.idx0) (h3 : t.idx1 = t'.idx1)
    (h4 : t.sectorSize = t'.sectorSize) (h5 : t.fdSrcFile = t'.fdSrcFile) :
    keepPregap opts t = keepPregap opts t' := by
  unfold keepPregap CheckGaps
  rw [h1, h2, h3, h4, h5]

theorem pregapStep_of_zero (opts : CommandlineOptions) (i : Nat) (tbl : Table) (ofs : Int)
    (h : wrapU32 ((tbl i).idx1 - (tbl i).idx0) = 0) :
    pregapStep opts i tbl ofs = .ok (setStartOfs tbl i ofs, ofs) := by
  unfold pregapStep
  simp [h]

theorem pregapStep_of_postgap (opts : CommandlineOptions) (i : Nat) (tbl : Table) (ofs : Int)
    (h : wrapU32 ((tbl i).idx1 - (tbl i).idx0) ≠ 0)
    (hk : keepPregap opts (setStartOfs tbl i ofs i) = .ok true)
    (hp : opts.allPostGaps = true) :
    pregapStep opts i tbl ofs =
      .ok (setStartOfs (growPrevious (setStartOfs tbl i ofs) i ofs
              (wrapU32 ((tbl i).idx1 - (tbl i).idx0))) i
            (ofs + wrapU32 (wrapU32 ((tbl i).idx1 - (tbl i).idx0) * (tbl i).sectorSize)),
           ofs + wrapU32 (wrapU32 ((tbl i).idx1 - (tbl i).idx0) * (tbl i).sectorSize)) := by
  unfold pregapStep
  simp [h, hk, hp]

theorem pregapStep_of_discard (opts : CommandlineOptions) (i : Nat) (tbl : Table) (ofs : Int)
    (h : wrapU32 ((tbl i).idx1 - (tbl i).idx0) ≠ 0)
    (hk : keepPregap opts (setStartOfs tbl i ofs i) = .ok false) :
    pregapStep opts i tbl ofs =
      .ok (setStartOfs (setStartOfs tbl i ofs) i
            (ofs + wrapU32 (wrapU32 ((tbl i).idx1 - (tbl i).idx0) * (tbl i).sectorSize)),
           ofs + wrapU32 (wrapU32 ((tbl i).idx1 - (tbl i).idx0) * (tbl i).sectorSize)) := by
  unfold pregapStep
  simp [h, hk]

theorem growPrevious_prev_congr (T1 T2 : Table) (i : Nat) (ofs pg : Int)
    (h : T1 (i - 1) = T2 (i - 1)) :
    growPrevious T1 i ofs pg (i - 1) = growPrevious T2 i ofs pg (i - 1) := by
  unfold growPrevious
  rw [h]
  split_ifs
  · simp [setTotalSectors, setTrack, h]
  · exact h

/-- The first half-round run again on a table that differs from the first run's table only
in fields the half-round overwrites, and in `idx1` of track `i`, which already holds the
value the first run left. -/
theorem pregapStep_rerun {opts : CommandlineOptions} {i : Nat} {A A' B : Table}
    {ofs ofs' : Int} (h : pregapStep opts i A ofs = .ok (A', ofs'))
    (hprev : i ≠ 0 → B (i - 1) = A (i - 1)) (hin : SameIn (B i) (A i))
    (hidx : (B i).idx1 = (A' i).idx1) :
    ∃ B', pregapStep opts i B ofs = .ok (B', ofs') ∧
      (i ≠ 0 → B' (i - 1) = A' (i - 1)) ∧ SameIn (B' i) (A' i) ∧
      (B' i).idx1 = (A' i).idx1 ∧ (B' i).startOfs = (A' i).startOfs := by
  have hne : i ≠ 0 → i - 1 ≠ i := by omega
  rcases pregapStep_cases h with ⟨hpg, rfl, rfl⟩ | ⟨hpg, hk, hp, rfl, rfl⟩ |
    ⟨hpg, hk, hp, rfl, rfl⟩ | ⟨hpg, hk, rfl, rfl⟩
  · simp only [setStartOfs_idx1] at hidx
    have hpgB : wrapU32 ((B i).idx1 - (B i).idx0) = 0 := by rw [hidx, hin.idx0]; exact hpg
    refine ⟨_, pregapStep_of_zero opts i B _ hpgB, ?_, ?_, ?_, ?_⟩
    · intro h0
      rw [setStartOfs_other _ _ _ _ (hne h0), setStartOfs_other _ _ _ _ (hne h0)]
      exact hprev h0
    · constructor <;> simp [hin.mode, hin.num, hin.idx0, hin.sectorSize, hin.predata,
        hin.postdata, hin.fdSrcFile, hin.sSrcFileName, hin.name]
    · simpa using hidx
    · simp
  · simp only [setStartOfs_idx1, growPrevious_idx1] at hidx
    have hpgB : wrapU32 ((B i).idx1 - (B i).idx0) ≠ 0 := by rw [hidx, hin.idx0]; exact hpg
    have hkB : keepPregap opts (setStartOfs B i ofs i) = .ok true := by
      rw [← hk]
      apply keepPregap_congr <;> simp [hidx, hin.idx0, hin.sectorSize, hin.fdSrcFile]
    rw [pregapStep_of_postgap opts i B ofs hpgB hkB hp, hidx, hin.idx0, hin.sectorSize]
    refine ⟨_, rfl, ?_, ?_, ?_, ?_⟩
    · intro h0
      rw [setStartOfs_other _ _ _ _ (hne h0), setStartOfs_other _ _ _ _ (hne h0)]
      apply growPrevious_prev_congr
      rw [setStartOfs_other _ _ _ _ (hne h0), setStartOfs_other _ _ _ _ (hne h0)]
      exact hprev h0
    · constructor <;> simp [hin.mode, hin.num, hin.idx0, hin.sectorSize, hin.predata,
        hin.postdata, hin.fdSrcFile, hin.sSrcFileName, hin.name]
    · simpa using hidx
    · simp
  · simp only [setIdx1_idx1, if_true] at hidx
    have hpgB : wrapU32 ((B i).idx1 - (B i).idx0) = 0 := by
      rw [hidx, hin.idx0]
      simp [wrapU32]
    refine ⟨_, pregapStep_of_zero opts i B _ hpgB, ?_, ?_, ?_, ?_⟩
    · intro h0
      rw [setStartOfs_other _ _ _ _ (hne h0), setIdx1_other _ _ _ _ (hne h0),
        setStartOfs_other _ _ _ _ (hne h0)]
      exact hprev h0
    · constructor <;> simp [hin.mode, hin.num, hin.idx0, hin.sectorSize, hin.predata,
        hin.postdata, hin.fdSrcFile, hin.sSrcFileName, hin.name]
    · simpa using hidx
    · simp
  · simp only [setStartOfs_idx1] at hidx
    have hpgB : wrapU32 ((B i).idx1 - (B i).idx0) ≠ 0 := by rw [hidx, hin.idx0]; exact hpg
    have hkB : keepPregap opts (setStartOfs B i ofs i) = .ok false := by
      rw [← hk]
      apply keepPregap_congr <;> simp [hidx, hin.idx0, hin.sectorSize, hin.fdSrcFile]
    rw [pregapStep_of_discard opts i B ofs hpgB hkB, hidx, hin.idx0, hin.sectorSize]
    refine ⟨_, rfl, ?_, ?_, ?_, ?_⟩
    · intro h0
      rw [setStartOfs_other _ _ _ _ (hne h0), setStartOfs_other _ _ _ _ (hne h0),
        setStartOfs_other _ _ _ _ (hne h0), setStartOfs_other _ _ _ _ (hne h0)]
      exact hprev h0
    · constructor <;> simp [hin.mode, hin.num, hin.idx0, hin.sectorSize, hin.predata,
        hin.postdata, hin.fdSrcFile, hin.sSrcFileName, hin.name]
    · simpa using hidx
    · simp

/-- The second half-round run again on a table that agrees with the first run's table in
what the half-round reads. -/
theorem spanStep_rerun {n i : Nat} {A' A1 B' : Table} {ofs ofs1 : Int}
    (h : spanStep n i A' ofs = .ok (A1, ofs1)) (hin : SameIn (B' i) (A' i))
    (hidx : (B' i).idx1 = (A' i).idx1) (hst : (B' i).startOfs = (A' i).startOfs)
    (hnext : i + 1 ≠ n → (B' (i + 1)).idx0 = (A' (i + 1)).idx0 ∧
      (B' (i + 1)).sSrcFileName = (A' (i + 1)).sSrcFileName) :
    ∃ B1, spanStep n i B' ofs = .ok (B1, ofs1) ∧ B1 i = A1 i ∧ ∀ j, j ≠ i → B1 j = B' j := by
  rcases spanStep_cases h with ⟨hl, hnn, hss, rfl, rfl⟩ | ⟨hl, hle, rfl, rfl⟩
  · have hlB : i + 1 = n ∨ (B' i).sSrcFileName ≠ (B' (i + 1)).sSrcFileName := by
      rcases hl with hc | hc
      · exact Or.inl hc
      · by_cases hn : i + 1 = n
        · exact Or.inl hn
        · right
          rw [hin.sSrcFileName, (hnext hn).2]
          exact hc
    have h1 : ¬ (((A' i).fdSrcFile.size : Int) - ofs < 0) := by omega
    refine ⟨setTotalSectors B' i
      (wrapI32 ((((A' i).fdSrcFile.size : Int) - ofs) / (A' i).sectorSize)), ?_, ?_, ?_⟩
    · unfold spanStep
      simp only [hlB, if_true, hin.fdSrcFile, hin.sectorSize, h1, if_false, hss]
    · apply Track.ext <;> simp [hin.mode, hin.num, hin.idx0, hin.sectorSize, hin.predata,
        hin.postdata, hin.fdSrcFile, hin.sSrcFileName, hin.name, hidx, hst]
    · intro j hj
      exact setTotalSectors_other _ _ _ _ hj
  · have hn : i + 1 ≠ n := fun hc => hl (Or.inl hc)
    have hlB : ¬ (i + 1 = n ∨ (B' i).sSrcFileName ≠ (B' (i + 1)).sSrcFileName) := by
      rw [hin.sSrcFileName, (hnext hn).2]
      exact hl
    have h1 : ¬ ((A' i).idx1 > (A' (i + 1)).idx0) := by omega
    refine ⟨setTotalSectors B' i (wrapI32 ((A' (i + 1)).idx0 - (A' i).idx1)), ?_, ?_, ?_⟩
    · unfold spanStep
      simp only [hlB, if_false, hidx, (hnext hn).1, h1, hin.sectorSize]
    · apply Track.ext <;> simp [hin.mode, hin.num, hin.idx0, hin.sectorSize, hin.predata,
        hin.postdata, hin.fdSrcFile, hin.sSrcFileName, hin.name, hidx, hst]
    · intro j hj
      exact setTotalSectors_other _ _ _ _ hj

theorem geomLoop_rerun {opts : CommandlineOptions} {n : Nat} (r : Nat) {i : Nat}
    {A F : Table} {ofs : Int} (h : geomLoop opts n r i A ofs = .ok F) (hr : i + r = n)
    (B : Table) (hout : ∀ j, (j < i ∨ n ≤ j) → B j = A j)
    (hin : ∀ j, i ≤ j → j < n → SameIn (B j) (A j) ∧ (B j).idx1 = (F j).idx1) :
    geomLoop opts n r i B ofs = .ok F := by
  induction r generalizing i A ofs B with
  | zero =>
    have hBA : B = A := by
      funext j
      exact hout j (by omega)
    rw [hBA]
    exact h
  | succ r ih =>
    obtain ⟨A1, ofs1, hs, hl⟩ := geomLoop_succ h
    obtain ⟨A', ofs', hp, hsp⟩ := geomStep_split hs
    have hFi : (F i).idx1 = (A' i).idx1 := by
      rw [(geomLoop_before r hl i (by omega)).1, (spanStep_keeps hsp i).2]
    obtain ⟨B', hpB, b1, b2, b3, b4⟩ := pregapStep_rerun hp
      (fun h0 => hout (i - 1) (by omega)) (hin i (le_refl _) (by omega)).1
      ((hin i (le_refl _) (by omega)).2.trans hFi)
    have hBfar : ∀ j, j ≠ i → j + 1 ≠ i → B' j = B j := fun j h1 h2 => pregapStep_far hpB j h1 h2
    have hAfar : ∀ j, j ≠ i → j + 1 ≠ i → A' j = A j := fun j h1 h2 => pregapStep_far hp j h1 h2
    obtain ⟨B1, hsB, c1, c2⟩ := spanStep_rerun hsp b2 b3 b4 (by
      intro hn
      rw [hBfar (i + 1) (by omega) (by omega), hAfar (i + 1) (by omega) (by omega)]
      have := (hin (i + 1) (by omega) (by omega)).1
      exact ⟨this.idx0, this.sSrcFileName⟩)
    have hsB' : geomStep opts n i B ofs = .ok (B1, ofs1) := by
      unfold geomStep
      rw [hpB]
      exact hsB
    rw [geomLoop, hsB']
    apply ih hl (by omega)
    · intro j hj
      by_cases h1 : j = i
      · rw [h1]; exact c1
      · rw [c2 j h1, spanStep_far hsp j h1]
        by_cases h2 : j + 1 = i
        · have h0 : i ≠ 0 := by omega
          have e : j = i - 1 := by omega
          rw [e]
          exact b1 h0
        · rw [hBfar j h1 h2, hAfar j h1 h2]
          exact hout j (by omega)
    · intro j hj1 hj2
      rw [c2 j (by omega), spanStep_far hsp j (by omega), hBfar j (by omega) (by omega),
        hAfar j (by omega) (by omega)]
      exact hin j (by omega) hj2

theorem normTrack_id (t : Track) (h0 : 0 ≤ t.idx0) (h1 : 0 ≤ t.idx1) : normTrack t = t := by
  have a : ¬ t.idx0 < 0 := by omega
  have b : ¬ t.idx1 < 0 := by omega
  apply Track.ext <;> simp [a, b]

theorem normalise_id (r : Nat) (i : Nat) (F : Table)
    (h : ∀ j, i ≤ j → j < i + r → 0 ≤ (F j).idx0 ∧ (F j).idx0 ≤ (F j).idx1) :
    normalise r i F = .ok F := by
  induction r generalizing i with
  | zero => rfl
  | succ r ih =>
    obtain ⟨h0, h1⟩ := h i (le_refl _) (by omega)
    rw [normalise, normTrack_id _ h0 (by omega), setTrack_self]
    have : ¬ ((F i).idx0 > (F i).idx1) := by omega
    simp only [this, if_false]
    exact ih (i + 1) (fun j hj1 hj2 => h j (by omega) (by omega))

theorem setIdx_end_id (F : Table) (n : Nat) (h0 : (F n).idx0 = 0) (h1 : (F n).idx1 = 0) :
    setIdx0 (setIdx1 F n 0) n 0 = F := by
  funext j
  apply Track.ext <;> simp
  · intro hj; rw [hj, h0]
  · intro hj; rw [hj, h1]

/-! ## Lemmas on accepted lines -/

/-- What an accepted line is: an ignored one, or one of the three branches. -/
theorem ParseCueLine_ok_cases {fs : FileSys} {line : List Nat} {st st' : CueState}
    (h : ParseCueLine fs line st = .ok st') :
    st' = st ∨ (∃ r, parseFile r st = .ok st') ∨ (∃ r, parseTrack fs r st = .ok st') ∨
      (∃ r, parseIndex r st = .ok st') := by
  unfold ParseCueLine at h
  dsimp only at h
  split_ifs at h
  · cases h; exact Or.inl rfl
  · exact Or.inr (Or.inl ⟨_, h⟩)
  · exact Or.inr (Or.inr (Or.inl ⟨_, h⟩))
  · exact Or.inr (Or.inr (Or.inr ⟨_, h⟩))
  · cases h; exact Or.inl rfl

/-- What an accepted `FILE` line leaves. -/
theorem parseFile_ok_cases {r : List Nat} {st st' : CueState} (h : parseFile r st = .ok st') :
    st'.tracks = st.tracks ∧ st'.nTracks = st.nTracks ∧ st'.track = none ∧
      st'.activefile ≠ [] := by
  unfold parseFile at h
  dsimp only at h
  split_ifs at h with h1 h2
  cases h
  exact ⟨rfl, rfl, rfl, h2⟩

/-- What an accepted `TRACK` line leaves: one more entry, made by `newTrack` and
`applyMode` from the mode of the datatype text, and the active track set to it. -/
theorem parseTrack_ok_cases {fs : FileSys} {r : List Nat} {st st' : CueState}
    (h : parseTrack fs r st = .ok st') :
    ∃ fd c rest mode, st.nTracks < MAXIMUM_TRACK_NUMBERS ∧ st.activefile ≠ [] ∧
      fs st.activefile = some fd ∧
      (readNum (skipSp r) 0).2 = c :: rest ∧ parseMode (skipSp rest) = some mode ∧
      st'.nTracks = st.nTracks + 1 ∧ st'.track = some st.nTracks ∧
      st'.activefile = st.activefile ∧
      (∀ j, j ≠ st.nTracks → st'.tracks j = st.tracks j) ∧
      (∃ nm, st'.tracks st.nTracks =
        { applyMode (newTrack (st.tracks st.nTracks) fd st.activefile
            (readNum (skipSp r) 0).1 mode) (skipSp rest) with name := nm }) := by
  unfold parseTrack at h
  dsimp only at h
  split_ifs at h with h1 h2
  split at h
  · cases h
  · rename_i fd hfd
    split at h
    · cases h
    · rename_i c rest hrest
      split at h
      · cases h
      · rename_i mode hmode
        split_ifs at h
        cases h
        refine ⟨fd, c, rest, mode, by omega, h2, hfd, hrest, hmode, rfl, rfl, rfl, ?_, ?_⟩
        · intro j hj
          simp only [setTrack, if_neg hj]
        · exact ⟨_, if_pos rfl⟩

/-- What an accepted `INDEX` line leaves: the entry of the active track with the given index
set to a sector number, the other index set to the same number when it was unset. -/
theorem parseIndex_ok_cases {r : List Nat} {st st' : CueState} (h : parseIndex r st = .ok st') :
    ∃ k, ∃ v : Int, st.track = some k ∧ 0 ≤ v ∧ v ≤ 755040 ∧
      st'.nTracks = st.nTracks ∧ st'.track = st.track ∧ st'.activefile = st.activefile ∧
      (∀ j, j ≠ k → st'.tracks j = st.tracks j) ∧
      SameIn { st'.tracks k with idx0 := 0 } { st.tracks k with idx0 := 0 } ∧
      (((readNum (skipSp r) 0).1 = 0 ∧ (st'.tracks k).idx0 = v ∧
          (st'.tracks k).idx1 = (if (st.tracks k).idx1 = -1 then v else (st.tracks k).idx1)) ∨
       ((readNum (skipSp r) 0).1 ≠ 0 ∧ (st'.tracks k).idx1 = v ∧
          (st'.tracks k).idx0 = (if (st.tracks k).idx0 = -1 then v else (st.tracks k).idx0))) := by
  unfold parseIndex at h
  dsimp only at h
  split at h
  · cases h
  · rename_i k hk
    have hv := SectorIndex_le
      (packDigits ((skipSp (readNum (skipSp r) 0).2).getD 0 0)
        ((skipSp (readNum (skipSp r) 0).2).getD 1 0))
      (packDigits ((skipSp (readNum (skipSp r) 0).2).getD 3 0)
        ((skipSp (readNum (skipSp r) 0).2).getD 4 0))
      (packDigits ((skipSp (readNum (skipSp r) 0).2).getD 6 0)
        ((skipSp (readNum (skipSp r) 0).2).getD 7 0))
    split_ifs at h with h1 h2 h3 h4 h5 h6 <;> cases h <;>
      refine ⟨k, _, hk, Int.natCast_nonneg _, by exact_mod_cast hv, rfl, rfl, rfl,
        fun j hj => by simp only [setTrack, if_neg hj], ?_, ?_⟩ <;>
      simp only [setTrack, if_true] <;>
      first
        | exact ⟨rfl, rfl, rfl, rfl, rfl, rfl, rfl, rfl, rfl⟩
        | (simp only [*, if_true, if_false]; simp [*])

/-- A property of the parser state that every accepted line keeps holds when the read loop
ends. -/
theorem parseLines_induct (fs : FileSys) (P : CueState → Prop)
    (hstep : ∀ line st st', P st → ParseCueLine fs line st = .ok st' → P st')
    (fuel : Nat) (content : List Nat) (st st' : CueState)
    (h0 : P st) (h : parseLines fs fuel content st = .ok st') : P st' := by
  induction fuel generalizing content st with
  | zero => cases h; exact h0
  | succ n ih =>
    unfold parseLines at h
    split_ifs at h
    · cases h; exact h0
    · dsimp only at h
      split at h
      · cases h
      · rename_i st1 hst1
        exact ih _ st1 (hstep _ _ _ h0 hst1) h

theorem ParseCue_induct (fs : FileSys) (P : CueState → Prop) (hinit : P CueState.init)
    (hstep : ∀ line st st', P st → ParseCueLine fs line st = .ok st' → P st')
    {content : List Nat} {tbl : Table} {n : Nat} (h : ParseCue fs content = .ok (tbl, n)) :
    ∃ st, P st ∧ st.tracks = tbl ∧ st.nTracks = n := by
  unfold ParseCue at h
  split at h
  · cases h
  · rename_i st hst
    split_ifs at h
    cases h
    exact ⟨st, parseLines_induct fs P hstep _ _ _ st hinit hst, rfl, rfl⟩

theorem applyMode_newTrack_idx (old : Track) (fd : SrcFile) (af : List Nat) (num : Int)
    (mode : Nat) (r : List Nat) :
    (applyMode (newTrack old fd af num mode) r).idx0 = -1 ∧
      (applyMode (newTrack old fd af num mode) r).idx1 = -1 := by
  rw [(applyMode_idx _ _).1, (applyMode_idx _ _).2]
  exact ⟨rfl, rfl⟩

/-- What one accepted line does to the indices of entry `j`: nothing; or the entry is the
one a `TRACK` line made, with both indices unset; or the entry is the active track of an
`INDEX` line, which sets one index to its sector number and the other one too if it was
unset. -/
theorem ParseCueLine_idx {fs : FileSys} {line : List Nat} {st st' : CueState}
    (h : ParseCueLine fs line st = .ok st') (j : Nat) :
    ((st'.tracks j).idx0 = (st.tracks j).idx0 ∧ (st'.tracks j).idx1 = (st.tracks j).idx1) ∨
    (j = st.nTracks ∧ st'.nTracks = st.nTracks + 1 ∧ (st'.tracks j).idx0 = -1 ∧
      (st'.tracks j).idx1 = -1) ∨
    (st.track = some j ∧ ∃ v : Int, 0 ≤ v ∧
      (((st'.tracks j).idx0 = v ∧
          (st'.tracks j).idx1 = (if (st.tracks j).idx1 = -1 then v else (st.tracks j).idx1)) ∨
       ((st'.tracks j).idx1 = v ∧
          (st'.tracks j).idx0 = (if (st.tracks j).idx0 = -1 then v else (st.tracks j).idx0)))) := by
  rcases ParseCueLine_ok_cases h with h | ⟨r, h⟩ | ⟨r, h⟩ | ⟨r, h⟩
  · subst h; exact Or.inl ⟨rfl, rfl⟩
  · rw [(parseFile_ok_cases h).1]; exact Or.inl ⟨rfl, rfl⟩
  · obtain ⟨fd, c, rest, mode, _, _, _, _, _, hn, _, _, ho, nm, hnew⟩ := parseTrack_ok_cases h
    by_cases hj : j = st.nTracks
    · subst hj
      refine Or.inr (Or.inl ⟨rfl, hn, ?_, ?_⟩)
      · rw [hnew]; exact (applyMode_newTrack_idx _ _ _ _ _ _).1
      · rw [hnew]; exact (applyMode_newTrack_idx _ _ _ _ _ _).2
    · rw [ho j hj]; exact Or.inl ⟨rfl, rfl⟩
  · obtain ⟨k, v, hk, hv0, _, _, _, _, ho, _, hc⟩ := parseIndex_ok_cases h
    by_cases hj : j = k
    · subst hj
      refine Or.inr (Or.inr ⟨hk, v, hv0, ?_⟩)
      rcases hc with ⟨_, h1, h2⟩ | ⟨_, h1, h2⟩
      · exact Or.inl ⟨h1, h2⟩
      · exact Or.inr ⟨h1, h2⟩
    · rw [ho j hj]; exact Or.inl ⟨rfl, rfl⟩

theorem ParseCueLine_paired (fs : FileSys) (line : List Nat) (st st' : CueState)
    (hinv : ∀ j, idxPaired (st.tracks j)) (h : ParseCueLine fs line st = .ok st') :
    ∀ j, idxPaired (st'.tracks j) := by
  intro j
  have hp := hinv j
  unfold idxPaired at hp ⊢
  rcases ParseCueLine_idx h j with ⟨h0, h1⟩ | ⟨_, _, h0, h1⟩ | ⟨_, v, hv, ⟨h0, h1⟩ | ⟨h1, h0⟩⟩
  · rw [h0, h1]; exact hp
  · exact Or.inl ⟨h0, h1⟩
  · right
    rw [h0, h1]
    split_ifs <;> omega
  · right
    rw [h0, h1]
    split_ifs <;> omega

theorem ParseCue_paired {fs : FileSys} {content : List Nat} {tbl : Table} {n : Nat}
    (h : ParseCue fs content = .ok (tbl, n)) : ∀ j, idxPaired (tbl j) := by
  obtain ⟨st, hst, rfl, _⟩ := ParseCue_induct fs (fun st => ∀ j, idxPaired (st.tracks j))
    (fun _ => Or.inr ⟨by simp [CueState.init, Track.zero], by simp [CueState.init, Track.zero]⟩)
    (ParseCueLine_paired fs) h
  exact hst

/-! ## Lemmas on the span of a track -/

theorem keepPregap_true {opts : CommandlineOptions} {t : Track}
    (h : keepPregap opts t = .ok true) : opts.noGaps = false := by
  unfold keepPregap at h
  split_ifs at h with h1
  · cases h
  · simpa using h1
  · simpa using h1

/-- A round on a track followed by a track of the same file: the span is counted from the
`idx1` the round leaves, which is the `idx1` it found or, when the pregap is preserved, the
`idx0` of the track. -/
theorem geomStep_span {opts : CommandlineOptions} {n i : Nat} {tbl tbl1 : Table}
    {ofs ofs1 : Int} (h : geomStep opts n i tbl ofs = .ok (tbl1, ofs1))
    (hnl : ¬ (i + 1 = n ∨ (tbl i).sSrcFileName ≠ (tbl (i + 1)).sSrcFileName)) :
    (tbl1 i).idx1 ≤ (tbl (i + 1)).idx0 ∧
    (tbl1 i).totalSectors = wrapI32 ((tbl (i + 1)).idx0 - (tbl1 i).idx1) ∧
    ((tbl1 i).idx1 = (tbl i).idx1 ∨
      (opts.noGaps = false ∧ opts.allPostGaps = false ∧ (tbl1 i).idx1 = (tbl i).idx0)) := by
  obtain ⟨tblp, ofsp, hp, hsp⟩ := geomStep_split h
  have n1 := (pregapStep_sameIn hp i).sSrcFileName
  have n2 := (pregapStep_sameIn hp (i + 1)).sSrcFileName
  have i0 := (pregapStep_sameIn hp (i + 1)).idx0
  have hnl' : ¬ (i + 1 = n ∨ (tblp i).sSrcFileName ≠ (tblp (i + 1)).sSrcFileName) := by
    rw [n1, n2]; exact hnl
  have hpi : (tblp i).idx1 = (tbl i).idx1 ∨
      (opts.noGaps = false ∧ opts.allPostGaps = false ∧ (tblp i).idx1 = (tbl i).idx0) := by
    rcases pregapStep_cases hp with ⟨_, rfl, rfl⟩ | ⟨_, _, _, rfl, rfl⟩ | ⟨_, hk, ha, rfl, rfl⟩ |
      ⟨_, _, rfl, rfl⟩
    · left; simp
    · left; simp
    · right; exact ⟨keepPregap_true hk, ha, by simp⟩
    · left; simp
  rcases spanStep_cases hsp with ⟨hl, _⟩ | ⟨_, hle, _, rfl⟩
  · exact absurd hl hnl'
  · simp only [setTotalSectors_idx1, setTotalSectors_totalSectors, if_true]
    rw [i0] at hle ⊢
    exact ⟨hle, rfl, hpi⟩

/-- The round of the next track leaves `idx1` of a track as it is, and its span too unless
the pregap of the next track is converted to a postgap. -/
theorem geomStep_prev_span {opts : CommandlineOptions} {n i : Nat} {tbl tbl2 : Table}
    {ofs ofs2 : Int} (h : geomStep opts n (i + 1) tbl ofs = .ok (tbl2, ofs2)) :
    (tbl2 i).idx1 = (tbl i).idx1 ∧
    ((tbl2 i).totalSectors = (tbl i).totalSectors ∨
      (opts.allPostGaps = true ∧ (tbl2 i).totalSectors =
        wrapI32 ((tbl i).totalSectors + wrapU32 ((tbl (i + 1)).idx1 - (tbl (i + 1)).idx0)))) := by
  obtain ⟨tblq, ofsq, hp, hsp⟩ := geomStep_split h
  rw [spanStep_far hsp i (by omega)]
  rcases pregapStep_cases hp with ⟨_, rfl, rfl⟩ | ⟨_, _, ha, rfl, rfl⟩ | ⟨_, _, _, rfl, rfl⟩ |
    ⟨_, _, rfl, rfl⟩
  · simp
  · constructor
    · simp
    · rcases growPrevious_totalSectors_prev (setStartOfs tbl (i + 1) ofs) i ofs
          (wrapU32 ((tbl (i + 1)).idx1 - (tbl (i + 1)).idx0)) with e | e
      · left; simpa using e
      · right; exact ⟨ha, by simpa using e⟩
  · simp
  · simp

/-- The span the geometry loop leaves for a track followed by a track of the same file. -/
theorem geomLoop_span {opts : CommandlineOptions} {n : Nat} (r : Nat) {i0 : Nat}
    {tbl F : Table} {ofs : Int} (h : geomLoop opts n r i0 tbl ofs = .ok F)
    (i : Nat) (hi1 : i0 ≤ i) (hi2 : i + 1 < i0 + r) (hn : i + 1 ≠ n)
    (hname : (tbl i).sSrcFileName = (tbl (i + 1)).sSrcFileName) :
    (F i).idx1 ≤ (F (i + 1)).idx0 ∧
    ((F i).idx1 = (tbl i).idx1 ∨
      (opts.noGaps = false ∧ opts.allPostGaps = false ∧ (F i).idx1 = (tbl i).idx0)) ∧
    ((F i).totalSectors = wrapI32 ((F (i + 1)).idx0 - (F i).idx1) ∨
      (opts.allPostGaps = true ∧ (F i).totalSectors =
        wrapI32 (wrapI32 ((F (i + 1)).idx0 - (F i).idx1) +
          wrapU32 ((tbl (i + 1)).idx1 - (tbl (i + 1)).idx0)))) := by
  induction r generalizing i0 tbl ofs with
  | zero => omega
  | succ r ih =>
    obtain ⟨tbl1, ofs1, hs, hl⟩ := geomLoop_succ h
    by_cases hi : i = i0
    · subst hi
      cases r with
      | zero => omega
      | succ r =>
        obtain ⟨tbl2, ofs2, hs2, hl2⟩ := geomLoop_succ hl
        have hnl : ¬ (i + 1 = n ∨ (tbl i).sSrcFileName ≠ (tbl (i + 1)).sSrcFileName) := by
          simp [hn, hname]
        obtain ⟨a1, a2, a3⟩ := geomStep_span hs hnl
        obtain ⟨b1, b2⟩ := geomStep_prev_span hs2
        have e1 : tbl1 (i + 1) = tbl (i + 1) := geomStep_far hs (i + 1) (by omega) (by omega)
        have f1 : F i = tbl2 i := geomLoop_far r hl2 i (by omega)
        have f2 : (F (i + 1)).idx0 = (tbl (i + 1)).idx0 :=
          (geomLoop_sameIn _ h (i + 1)).idx0
        rw [f1, f2, b1]
        refine ⟨a1, a3, ?_⟩
        rcases b2 with b2 | ⟨hp, b2⟩
        · left; rw [b2, a2]
        · right; rw [b2, a2, e1]; exact ⟨hp, rfl⟩
    · have e1 : tbl1 i = tbl i := geomStep_far hs i (by omega) (by omega)
      have e2 : tbl1 (i + 1) = tbl (i + 1) := geomStep_far hs (i + 1) (by omega) (by omega)
      have := ih hl (by omega) (by omega) (by rw [e1, e2]; exact hname)
      rw [e1, e2] at this
      exact this

theorem keepPregap_noauto {opts : CommandlineOptions}
    (hauto : opts.autoGaps = false ∨ opts.noGaps = true) (t : Track) :
    keepPregap opts t = .ok (!opts.noGaps) := by
  unfold keepPregap
  by_cases h1 : opts.noGaps = true
  · simp [h1]
  · have h2 : opts.autoGaps = false := by tauto
    simp [h1, h2]

/-- Without automatic gap detection the first half of a round does not fail, and leaves in
`idx1` the index the span is counted from. -/
theorem pregapStep_noauto {opts : CommandlineOptions}
    (hauto : opts.autoGaps = false ∨ opts.noGaps = true) (i : Nat) (tbl : Table) (ofs : Int)
    (h0 : 0 ≤ (tbl i).idx0) (h01 : (tbl i).idx0 ≤ (tbl i).idx1) (h1 : (tbl i).idx1 ≤ 755040) :
    ∃ tbl' ofs', pregapStep opts i tbl ofs = .ok (tbl', ofs') ∧
      (tbl' i).idx1 = effIdx1 opts (tbl i) := by
  have hw : wrapU32 ((tbl i).idx1 - (tbl i).idx0) = (tbl i).idx1 - (tbl i).idx0 :=
    wrapU32_of_range _ (by omega) (by omega)
  unfold pregapStep
  simp only [setStartOfs_idx1, setStartOfs_idx0, setStartOfs_sectorSize,
    growPrevious_sectorSize, keepPregap_noauto hauto, hw]
  unfold effIdx1
  by_cases hpg : (tbl i).idx1 - (tbl i).idx0 = 0
  · simp only [hpg, ne_eq, not_true_eq_false, if_false]
    refine ⟨_, _, rfl, ?_⟩
    rw [setStartOfs_idx1]
    split_ifs
    · omega
    · rfl
  · simp only [hpg, ne_eq, not_false_eq_true, if_true]
    by_cases hg : opts.noGaps = true
    · simp only [hg, Bool.not_true]
      refine ⟨_, _, rfl, ?_⟩
      simp
    · have hg' : opts.noGaps = false := by simpa using hg
      simp only [hg', Bool.not_false]
      by_cases hp : opts.allPostGaps = true
      · simp only [hp, if_true]
        refine ⟨_, _, rfl, ?_⟩
        simp
      · have hp' : opts.allPostGaps = false := by simpa using hp
        simp only [hp', Bool.false_eq_true, if_false]
        refine ⟨_, _, rfl, ?_⟩
        simp

/-- The geometry loop fails with the error of line 849 when the tracks up to a pair in the
wrong order belong to one file and automatic gap detection is off. -/
theorem geomLoop_fails {opts : CommandlineOptions} {n : Nat}
    (hauto : opts.autoGaps = false ∨ opts.noGaps = true) (i : Nat) (hin : i + 1 < n)
    (r : Nat) (i0 : Nat) (tbl : Table) (ofs : Int) (hi1 : i0 ≤ i) (hi2 : i + 1 < i0 + r)
    (hname : ∀ j, i0 ≤ j → j ≤ i → (tbl j).sSrcFileName = (tbl (j + 1)).sSrcFileName)
    (hb : ∀ j, i0 ≤ j → j ≤ i + 1 →
      0 ≤ (tbl j).idx0 ∧ (tbl j).idx0 ≤ (tbl j).idx1 ∧ (tbl j).idx1 ≤ 755040)
    (hv : effIdx1 opts (tbl i) > (tbl (i + 1)).idx0) :
    geomLoop opts n r i0 tbl ofs = .error .index1PastNextIndex0 := by
  induction r generalizing i0 tbl ofs with
  | zero => omega
  | succ r ih =>
    obtain ⟨b0, b01, b1⟩ := hb i0 (Nat.le_refl _) (by omega)
    obtain ⟨tblp, ofsp, hp, hidx⟩ := pregapStep_noauto hauto i0 tbl ofs b0 b01 b1
    have n1 := (pregapStep_sameIn hp i0).sSrcFileName
    have n2 := (pregapStep_sameIn hp (i0 + 1)).sSrcFileName
    have i2 := (pregapStep_sameIn hp (i0 + 1)).idx0
    have hnl : ¬ (i0 + 1 = n ∨ (tblp i0).sSrcFileName ≠ (tblp (i0 + 1)).sSrcFileName) := by
      rw [n1, n2]
      have := hname i0 (Nat.le_refl _) hi1
      simp only [this, ne_eq, not_true_eq_false, or_false]
      omega
    rw [geomLoop]
    unfold geomStep
    rw [hp]
    dsimp only
    by_cases hgt : (tblp i0).idx1 > (tblp (i0 + 1)).idx0
    · unfold spanStep
      rw [if_neg hnl, if_pos hgt]
    · have hi : i0 ≠ i := by
        rintro rfl
        rw [hidx, i2] at hgt
        exact hgt hv
      have hs : spanStep n i0 tblp ofsp =
          .ok (setTotalSectors tblp i0 (wrapI32 ((tblp (i0 + 1)).idx0 - (tblp i0).idx1)),
            ofsp + wrapU32 (wrapI32 ((tblp (i0 + 1)).idx0 - (tblp i0).idx1) *
              (tblp i0).sectorSize)) := by
        unfold spanStep
        rw [if_neg hnl, if_neg hgt]
      rw [hs]
      dsimp only
      have far : ∀ j, i0 + 1 ≤ j →
          setTotalSectors tblp i0 (wrapI32 ((tblp (i0 + 1)).idx0 - (tblp i0).idx1)) j = tbl j := by
        intro j hj
        rw [setTotalSectors_other _ _ _ _ (by omega), pregapStep_far hp j (by omega) (by omega)]
      apply ih
      · omega
      · omega
      · intro j hj1 hj2
        rw [far j hj1, far (j + 1) (by omega)]
        exact hname j (by omega) hj2
      · intro j hj1 hj2
        rw [far j hj1]
        exact hb j (by omega) hj2
      · rw [far i (by omega), far (i + 1) (by omega)]
        exact hv

theorem normTrack_bounds (t : Track) (h : idxBounded t) :
    0 ≤ (normTrack t).idx0 ∧ (normTrack t).idx0 ≤ 755040 ∧
      0 ≤ (normTrack t).idx1 ∧ (normTrack t).idx1 ≤ 755040 := by
  unfold idxBounded at h
  have e0 : (normTrack t).idx0 = if t.idx0 < 0 then 0 else t.idx0 := by
    unfold normTrack; dsimp only; split_ifs <;> rfl
  have e1 : (normTrack t).idx1 = if t.idx1 < 0 then 0 else t.idx1 := by
    unfold normTrack; dsimp only; split_ifs <;> rfl
  rw [e0, e1]
  split_ifs <;> omega

/-- The table the geometry loop starts from, for a parsed sheet that passes normalisation:
the entries below `n` are the normalised ones, with `0 ≤ idx0 ≤ idx1 ≤ 755040`. -/
theorem normalised_start {fs : FileSys} {content : List Nat} {tbl N : Table} {n : Nat}
    (hp : ParseCue fs content = .ok (tbl, n)) (hN : normalise n 0 tbl = .ok N) (j : Nat)
    (hj : j < n) :
    setIdx0 (setIdx1 N n 0) n 0 j = N j ∧ N j = normTrack (tbl j) ∧
      0 ≤ (N j).idx0 ∧ (N j).idx0 ≤ (N j).idx1 ∧ (N j).idx1 ≤ 755040 := by
  obtain ⟨h1, h2⟩ := normalise_spec n hN
  have hNj : N j = normTrack (tbl j) := by
    rw [h1 j, if_pos ⟨Nat.zero_le j, by omega⟩]
  have hle := h2 j (Nat.zero_le j) (by omega)
  obtain ⟨a, b, c, d⟩ := normTrack_bounds _ (ParseCue_inv fs content tbl n hp j)
  refine ⟨?_, hNj, ?_, ?_, ?_⟩
  · rw [setIdx0_other _ _ _ _ (by omega), setIdx1_other _ _ _ _ (by omega)]
  · rw [hNj]; exact a
  · rw [hNj]; exact hle
  · rw [hNj]; exact d

/-! ## Lemmas on the `TRACK` branch -/

theorem bytes_TRACK : bytes "TRACK " = [84, 82, 65, 67, 75, 32] := rfl

theorem bytes_FILE : bytes "FILE " = [70, 73, 76, 69, 32] := rfl

/-- A line that begins, after white space, with `TRACK ` goes to the `TRACK` branch. -/
theorem ParseCueLine_TRACK (fs : FileSys) (st : CueState) (pre r : List Nat)
    (hpre : ∀ x ∈ pre, x = 32 ∨ x = 10 ∨ x = 13) :
    ParseCueLine fs (pre ++ bytes "TRACK " ++ r) st = parseTrack fs (cstr r) st := by
  have hfront : ∀ x ∈ pre ++ bytes "TRACK ", x ≠ 0 := by
    intro x hx
    simp only [bytes_TRACK, List.mem_append, List.mem_cons, List.not_mem_nil, or_false] at hx
    rcases hx with h | h
    · rcases hpre x h with h | h | h <;> omega
    · omega
  unfold ParseCueLine
  rw [cstr_append _ _ hfront, bytes_TRACK, List.append_assoc, List.cons_append,
    skipWs_append pre _ 84 hpre (by omega)]
  simp [startsWith, bytes, List.isPrefixOf]

/-- A line that begins, after white space, with `FILE ` goes to the `FILE` branch. -/
theorem ParseCueLine_FILE (fs : FileSys) (st : CueState) (pre r : List Nat)
    (hpre : ∀ x ∈ pre, x = 32 ∨ x = 10 ∨ x = 13) :
    ParseCueLine fs (pre ++ bytes "FILE " ++ r) st = parseFile (cstr r) st := by
  have hfront : ∀ x ∈ pre ++ bytes "FILE ", x ≠ 0 := by
    intro x hx
    simp only [bytes_FILE, List.mem_append, List.mem_cons, List.not_mem_nil, or_false] at hx
    rcases hx with h | h
    · rcases hpre x h with h | h | h <;> omega
    · omega
  unfold ParseCueLine
  rw [cstr_append _ _ hfront, bytes_FILE, List.append_assoc, List.cons_append,
    skipWs_append pre _ 70 hpre (by omega)]
  simp [startsWith, bytes, List.isPrefixOf]

/-- A line that begins, after white space, with `INDEX ` goes to the `INDEX` branch. -/
theorem ParseCueLine_INDEX (fs : FileSys) (st : CueState) (pre r : List Nat)
    (hpre : ∀ x ∈ pre, x = 32 ∨ x = 10 ∨ x = 13) :
    ParseCueLine fs (pre ++ bytes "INDEX " ++ r) st = parseIndex (cstr r) st := by
  have hfront : ∀ x ∈ pre ++ bytes "INDEX ", x ≠ 0 := by
    intro x hx
    simp only [bytes_INDEX, List.mem_append, List.mem_cons, List.not_mem_nil, or_false] at hx
    rcases hx with h | h
    · rcases hpre x h with h | h | h <;> omega
    · omega
  unfold ParseCueLine
  rw [cstr_append _ _ hfront, bytes_INDEX, List.append_assoc, List.cons_append,
    skipWs_append pre _ 73 hpre (by omega)]
  simp [startsWith, bytes, List.isPrefixOf]

theorem skipSp_spaces (a : Nat) (l : List Nat) (h : l.head? ≠ some 32) :
    skipSp (List.replicate a 32 ++ l) = l := by
  induction a with
  | zero =>
    cases l with
    | nil => rfl
    | cons c cs =>
      have : c ≠ 32 := by simpa using h
      simp [skipSp, this]
  | succ n ih => simp [List.replicate_succ, skipSp, ih]

/-- The number loop stops at the first byte that is not a digit. -/
theorem readNum_rest (digits : List Nat) (hd : ∀ x ∈ digits, 48 ≤ x ∧ x ≤ 57) (c : Nat)
    (hc : ¬ (48 ≤ c ∧ c ≤ 57)) (rest : List Nat) (acc : Int) :
    (readNum (digits ++ c :: rest) acc).2 = c :: rest := by
  induction digits generalizing acc with
  | nil => simp [readNum, hc]
  | cons x xs ih =>
    have hx := hd x (List.mem_cons_self _ _)
    simp only [List.cons_append, readNum, hx, and_self, if_true]
    exact ih (fun y hy => hd y (List.mem_cons_of_mem _ hy)) _

theorem cstr_head (l : List Nat) (h : l.head? ≠ some 32) : (cstr l).head? ≠ some 32 := by
  cases l with
  | nil => simp [cstr]
  | cons c cs =>
    have hc : c ≠ 32 := by simpa using h
    unfold cstr
    by_cases h0 : c = 0
    · simp [List.takeWhile, h0]
    · simp [List.takeWhile, h0, hc]

theorem applyMode_mode (t : Track) (r : List Nat) : (applyMode t r).mode = t.mode := by
  unfold applyMode
  dsimp only
  split_ifs <;> rfl

theorem bytes_AUDIOSUB : bytes "AUDIO/" = [65, 85, 68, 73, 79, 47] := rfl
theorem bytes_AUDIO : bytes "AUDIO" = [65, 85, 68, 73, 79] := rfl
theorem bytes_M1_2352 : bytes "MODE1/2352" = [77, 79, 68, 69, 49, 47, 50, 51, 53, 50] := rfl
theorem bytes_M1_2048 : bytes "MODE1/2048" = [77, 79, 68, 69, 49, 47, 50, 48, 52, 56] := rfl
theorem bytes_M1_2448 : bytes "MODE1/2448" = [77, 79, 68, 69, 49, 47, 50, 52, 52, 56] := rfl
theorem bytes_M2_2352 : bytes "MODE2/2352" = [77, 79, 68, 69, 50, 47, 50, 51, 53, 50] := rfl
theorem bytes_M2_2336 : bytes "MODE2/2336" = [77, 79, 68, 69, 50, 47, 50, 51, 51, 54] := rfl
theorem bytes_M2_2448 : bytes "MODE2/2448" = [77, 79, 68, 69, 50, 47, 50, 52, 52, 56] := rfl

theorem startsWith_iff (kw : String) (d : List Nat) : startsWith kw d = true ↔ bytes kw <+: d :=
  List.isPrefixOf_iff_prefix

/-- The value of `parseMode` on a text that begins with a datatype name. -/
theorem parseMode_begins (t : List Nat) :
    parseMode (bytes "AUDIO/" ++ t) = some MODE_AUDIOSUB ∧
    (t.head? ≠ some 47 → parseMode (bytes "AUDIO" ++ t) = some MODE_AUDIO) ∧
    parseMode (bytes "MODE1/2352" ++ t) = some MODE1_2352 ∧
    parseMode (bytes "MODE1/2048" ++ t) = some MODE1_2048 ∧
    parseMode (bytes "MODE1/2448" ++ t) = some MODE1_2448 ∧
    parseMode (bytes "MODE2/2352" ++ t) = some MODE2_2352 ∧
    parseMode (bytes "MODE2/2336" ++ t) = some MODE2_2336 ∧
    parseMode (bytes "MODE2/2448" ++ t) = some MODE2_2448 := by
  refine ⟨?_, ?_, ?_, ?_, ?_, ?_, ?_, ?_⟩
  · simp [parseMode, startsWith, bytes_AUDIOSUB, List.isPrefixOf]
  · intro h
    cases t with
    | nil => simp [parseMode, startsWith, bytes_AUDIOSUB, bytes_AUDIO, List.isPrefixOf]
    | cons c cs =>
      have hc : c ≠ 47 := by simpa using h
      have hc2 : ¬ (47 = c) := fun e => hc e.symm
      simp [parseMode, startsWith, bytes_AUDIOSUB, bytes_AUDIO, List.isPrefixOf, hc2]
  all_goals
    simp [parseMode, startsWith, bytes_AUDIOSUB, bytes_AUDIO, bytes_M1_2352, bytes_M1_2048,
      bytes_M1_2448, bytes_M2_2352, bytes_M2_2336, bytes_M2_2448, List.isPrefixOf]

theorem parseMode_none_iff (d : List Nat) : parseMode d = none ↔ ¬ listedPrefix d := by
  have hsub : bytes "AUDIO/" <+: d → bytes "AUDIO" <+: d := by
    rintro ⟨t, rfl⟩
    exact ⟨47 :: t, rfl⟩
  unfold parseMode listedPrefix
  simp only [startsWith_iff]
  split_ifs with h1 h2 h3 h4 h5 h6 h7 h8 <;> simp_all

theorem parseMode_matches {d : List Nat} {m : Nat} (h : parseMode d = some m) :
    modeMatches m d := by
  unfold modeMatches
  refine ⟨?_, ?_, ?_, ?_, ?_, ?_, ?_, ?_⟩
  · rintro ⟨t, rfl⟩
    rw [(parseMode_begins t).1] at h
    exact (Option.some.inj h).symm
  · rintro ⟨t, rfl⟩ hn
    have ht : t.head? ≠ some 47 := by
      intro e
      cases t with
      | nil => simp at e
      | cons c cs =>
        have : c = 47 := by simpa using e
        subst this
        exact hn ⟨cs, by simp [bytes_AUDIOSUB, bytes_AUDIO]⟩
    rw [(parseMode_begins t).2.1 ht] at h
    exact (Option.some.inj h).symm
  · rintro ⟨t, rfl⟩
    rw [(parseMode_begins t).2.2.1] at h
    exact (Option.some.inj h).symm
  · rintro ⟨t, rfl⟩
    rw [(parseMode_begins t).2.2.2.1] at h
    exact (Option.some.inj h).symm
  · rintro ⟨t, rfl⟩
    rw [(parseMode_begins t).2.2.2.2.1] at h
    exact (Option.some.inj h).symm
  · rintro ⟨t, rfl⟩
    rw [(parseMode_begins t).2.2.2.2.2.1] at h
    exact (Option.some.inj h).symm
  · rintro ⟨t, rfl⟩
    rw [(parseMode_begins t).2.2.2.2.2.2.1] at h
    exact (Option.some.inj h).symm
  · rintro ⟨t, rfl⟩
    rw [(parseMode_begins t).2.2.2.2.2.2.2] at h
    exact (Option.some.inj h).symm

theorem applyMode_sSrcFileName (t : Track) (r : List Nat) :
    (applyMode t r).sSrcFileName = t.sSrcFileName := by
  unfold applyMode
  dsimp only
  split_ifs <;> rfl

/-- The `TRACK` branch on a line of the shape of `trackLine`, in a state with an active file
that can be opened and room in the table. -/
theorem parseTrack_shape (fs : FileSys) (st : CueState) (a : Nat) (digits : List Nat)
    (c b : Nat) (d : List Nat) (fd : SrcFile)
    (hdig : ∀ x ∈ digits, 48 ≤ x ∧ x ≤ 57) (hne : digits ≠ [])
    (hc : ¬ (48 ≤ c ∧ c ≤ 57)) (hd : d.head? ≠ some 32)
    (hn : st.nTracks < MAXIMUM_TRACK_NUMBERS) (haf : st.activefile ≠ [])
    (hfd : fs st.activefile = some fd) :
    parseTrack fs (List.replicate a 32 ++ (digits ++ c :: (List.replicate b 32 ++ d))) st =
      match parseMode d with
      | none => .error .unknownMode
      | some mode =>
        if (trackName (applyMode (newTrack (st.tracks st.nTracks) fd st.activefile
              (readNum (digits ++ c :: (List.replicate b 32 ++ d)) 0).1 mode) d)
              digits).length ≥ 264 then .error .tableOverflow
        else .ok { st with
          tracks := setTrack st.tracks st.nTracks
            { applyMode (newTrack (st.tracks st.nTracks) fd st.activefile
                (readNum (digits ++ c :: (List.replicate b 32 ++ d)) 0).1 mode) d with
              name := trackName (applyMode (newTrack (st.tracks st.nTracks) fd st.activefile
                (readNum (digits ++ c :: (List.replicate b 32 ++ d)) 0).1 mode) d) digits },
          nTracks := st.nTracks + 1, track := some st.nTracks } := by
  have hhead : (digits ++ c :: (List.replicate b 32 ++ d)).head? ≠ some 32 := by
    cases digits with
    | nil => exact absurd rfl hne
    | cons x xs =>
      have := hdig x (List.mem_cons_self _ _)
      simp only [List.cons_append, List.head?_cons, ne_eq, Option.some.injEq]
      omega
  have hrest := readNum_rest digits hdig c hc (List.replicate b 32 ++ d) 0
  have hlen : (digits ++ c :: (List.replicate b 32 ++ d)).length -
      (c :: (List.replicate b 32 ++ d)).length = digits.length := by
    simp only [List.length_append, List.length_cons]
    omega
  unfold parseTrack
  simp only [skipSp_spaces a _ hhead, hrest, hlen, skipSp_spaces b d hd,
    List.take_left', hfd, haf, if_false, if_neg (Nat.not_le.mpr hn)]

theorem parseMode_range {d : List Nat} {m : Nat} (h : parseMode d = some m) :
    m = MODE_AUDIOSUB ∨ m = MODE_AUDIO ∨ m = MODE1_2352 ∨ m = MODE1_2048 ∨ m = MODE1_2448 ∨
      m = MODE2_2352 ∨ m = MODE2_2336 ∨ m = MODE2_2448 := by
  unfold parseMode at h
  split_ifs at h <;> cases h <;> simp

theorem wrapU32_lt (x : Int) : wrapU32 x < 4294967296 := by
  unfold wrapU32
  omega

/-- The four layout fields of the entry a `TRACK` line makes, mode by mode. -/
theorem applyMode_fields (old : Track) (fd : SrcFile) (af : List Nat) (num : Int)
    (m : Nat) (r : List Nat) :
    (applyMode (newTrack old fd af num m) r).mode = m ∧
    (m = MODE_AUDIOSUB →
      (applyMode (newTrack old fd af num m) r).sectorSize =
        (wrapU32 (strtol10 (r.drop 6))).toNat ∧
      (applyMode (newTrack old fd af num m) r).predata = 0 ∧
      (applyMode (newTrack old fd af num m) r).postdata =
        (wrapU32 (strtol10 (r.drop 6))).toNat - 2352) ∧
    (m ≠ MODE_AUDIOSUB →
      (applyMode (newTrack old fd af num m) r).sectorSize =
        (if m = MODE1_2048 then 2048 else if m = MODE2_2336 then 2336
          else if m = MODE1_2448 ∨ m = MODE2_2448 then 2448 else 2352) ∧
      (applyMode (newTrack old fd af num m) r).predata =
        (if m = MODE1_2352 ∨ m = MODE1_2448 then 16 else if m = MODE2_2336 then 8
          else if m = MODE2_2352 ∨ m = MODE2_2448 then 24 else 0) ∧
      (applyMode (newTrack old fd af num m) r).postdata =
        (if m = MODE1_2352 then 288 else if m = MODE2_2336 ∨ m = MODE2_2352 then 280
          else if m = MODE1_2448 then 384 else if m = MODE2_2448 then 376 else 0)) := by
  refine ⟨by rw [applyMode_mode]; rfl, ?_, ?_⟩
  · rintro rfl
    have e : (newTrack old fd af num MODE_AUDIOSUB).mode = MODE_AUDIOSUB := rfl
    unfold applyMode
    dsimp only
    rw [if_pos e]
    split_ifs with h
    · exact ⟨rfl, rfl, rfl⟩
    · refine ⟨rfl, rfl, ?_⟩
      show 0 = _
      simp only [SIZERAW] at h
      omega
  · intro hm
    unfold applyMode
    dsimp only
    have e : (newTrack old fd af num m).mode = m := rfl
    simp only [e, hm, if_false]
    split_ifs <;> simp_all [newTrack]

/-- The layout of the entry a `TRACK` line makes. -/
theorem applyMode_layout (old : Track) (fd : SrcFile) (af : List Nat) (num : Int)
    (m : Nat) (r : List Nat)
    (hm : m = MODE_AUDIOSUB ∨ m = MODE_AUDIO ∨ m = MODE1_2352 ∨ m = MODE1_2048 ∨
      m = MODE1_2448 ∨ m = MODE2_2352 ∨ m = MODE2_2336 ∨ m = MODE2_2448) :
    layoutOK (applyMode (newTrack old fd af num m) r) := by
  obtain ⟨f0, f1, f2⟩ := applyMode_fields old fd af num m r
  unfold layoutOK datasize
  rw [f0]
  rcases hm with rfl | rfl | rfl | rfl | rfl | rfl | rfl | rfl
  · obtain ⟨a, b, c⟩ := f1 rfl
    have hlt := wrapU32_lt (strtol10 (List.drop 6 r))
    have hnn := wrapU32_nonneg (strtol10 (List.drop 6 r))
    rw [a, b, c]
    refine ⟨by omega, by omega, fun h => absurd h (by decide), fun h => absurd h (by decide),
      fun _ => ⟨rfl, ?_⟩, by decide⟩
    have hw : ∀ x : Int, 0 ≤ x → x < 4294967296 → (wrapU32 x).toNat = x.toNat := by
      intro x h1 h2
      rw [wrapU32_of_range x h1 h2]
    rw [hw _ (by omega) (by omega)]
    omega
  all_goals
    obtain ⟨a, b, c⟩ := f2 (by decide)
    norm_num at a b c
    rw [a, b, c]
    norm_num [wrapU32]
    rfl

theorem layoutOK_congr {a b : Track} (hm : a.mode = b.mode) (hs : a.sectorSize = b.sectorSize)
    (hp : a.predata = b.predata) (hq : a.postdata = b.postdata) (h : layoutOK b) :
    layoutOK a := by
  unfold layoutOK datasize at h ⊢
  rw [hm, hs, hp, hq]
  exact h

/-- Every accepted line keeps the layout of the tracks made so far and gives a new track the
layout of its mode. -/
theorem ParseCueLine_layout (fs : FileSys) (line : List Nat) (st st' : CueState)
    (hinv : ∀ j, j < st.nTracks → layoutOK (st.tracks j))
    (h : ParseCueLine fs line st = .ok st') :
    ∀ j, j < st'.nTracks → layoutOK (st'.tracks j) := by
  rcases ParseCueLine_ok_cases h with h | ⟨r, h⟩ | ⟨r, h⟩ | ⟨r, h⟩
  · subst h; exact hinv
  · obtain ⟨e1, e2, _, _⟩ := parseFile_ok_cases h
    rw [e1, e2]; exact hinv
  · obtain ⟨fd, c, rest, mode, _, _, _, _, hm, hn, _, _, ho, nm, hnew⟩ := parseTrack_ok_cases h
    intro j hj
    by_cases hjn : j = st.nTracks
    · subst hjn
      rw [hnew]
      exact layoutOK_congr rfl rfl rfl rfl (applyMode_layout _ _ _ _ _ _ (parseMode_range hm))
    · rw [ho j hjn]
      exact hinv j (by omega)
  · obtain ⟨k, v, _, _, _, hn, _, _, ho, hs, _⟩ := parseIndex_ok_cases h
    intro j hj
    rw [hn] at hj
    by_cases hjk : j = k
    · subst hjk
      exact layoutOK_congr hs.mode hs.sectorSize hs.predata hs.postdata (hinv j hj)
    · rw [ho j hjk]
      exact hinv j hj

theorem ParseCue_layout {fs : FileSys} {content : List Nat} {tbl : Table} {n : Nat}
    (h : ParseCue fs content = .ok (tbl, n)) : ∀ j, j < n → layoutOK (tbl j) := by
  obtain ⟨st, hst, rfl, rfl⟩ := ParseCue_induct fs
    (fun st => ∀ j, j < st.nTracks → layoutOK (st.tracks j))
    (fun j hj => absurd hj (by simp [CueState.init])) (ParseCueLine_layout fs) h
  exact hst

/-! ## Lemmas on the `INDEX` branch and on keywords -/

theorem digitsValue_ge (digits : List Nat) (acc : Nat) : acc ≤ digitsValue digits acc := by
  induction digits generalizing acc with
  | nil => exact Nat.le_refl _
  | cons c cs ih =>
    unfold digitsValue
    split_ifs
    · exact Nat.le_trans (by omega) (ih _)
    · exact Nat.le_refl _

/-- The number loop on the digits of a number below `2^31` returns its value. -/
theorem readNum_value (digits : List Nat) (hd : ∀ x ∈ digits, 48 ≤ x ∧ x ≤ 57)
    (rest : List Nat) (hr : ∀ c, rest.head? = some c → ¬ (48 ≤ c ∧ c ≤ 57)) (acc : Nat)
    (hv : digitsValue digits acc < 2147483648) :
    readNum (digits ++ rest) (acc : Int) = (((digitsValue digits acc : Nat) : Int), rest) := by
  induction digits generalizing acc with
  | nil =>
    cases rest with
    | nil => rfl
    | cons c cs =>
      have := hr c rfl
      simp [readNum, digitsValue, this]
  | cons x xs ih =>
    have hx := hd x (List.mem_cons_self _ _)
    have hstep : digitsValue (x :: xs) acc = digitsValue xs (acc * 10 + (x - 48)) := by
      simp [digitsValue, hx]
    rw [hstep] at hv ⊢
    have hge := digitsValue_ge xs (acc * 10 + (x - 48))
    have hw : wrapI32 ((acc : Int) * 10 + ((x : Int) - 48)) = ((acc * 10 + (x - 48) : Nat) : Int) := by
      rw [wrapI32_of_range _ (by omega) (by omega)]
      push_cast
      omega
    simp only [List.cons_append, readNum, hx, and_self, if_true, hw]
    exact ih (fun y hy => hd y (List.mem_cons_of_mem _ hy)) _ hv

/-- How the active track changes with an accepted line: a `FILE` line clears it, a `TRACK`
line sets it to the new entry, every other accepted line keeps it. -/
theorem ParseCueLine_track {fs : FileSys} {line : List Nat} {st st' : CueState}
    (h : ParseCueLine fs line st = .ok st') :
    ((∃ r, parseFile r st = .ok st') ∧ st'.track = none) ∨
    ((∃ r, parseTrack fs r st = .ok st') ∧ st'.track = some st.nTracks) ∨
    st'.track = st.track := by
  rcases ParseCueLine_ok_cases h with h | ⟨r, h⟩ | ⟨r, h⟩ | ⟨r, h⟩
  · subst h; exact Or.inr (Or.inr rfl)
  · exact Or.inl ⟨⟨r, h⟩, (parseFile_ok_cases h).2.2.1⟩
  · obtain ⟨_, _, _, _, _, _, _, _, _, _, ht, _⟩ := parseTrack_ok_cases h
    exact Or.inr (Or.inl ⟨⟨r, h⟩, ht⟩)
  · obtain ⟨_, _, _, _, _, _, ht, _⟩ := parseIndex_ok_cases h
    exact Or.inr (Or.inr ht)

/-- The `INDEX` branch on a line with index number `v` below `2^31` and a time field. -/
theorem parseIndex_shape (st : CueState) (a : Nat) (digits rest : List Nat)
    (hdig : ∀ x ∈ digits, 48 ≤ x ∧ x ≤ 57)
    (hrest : ∀ c, rest.head? = some c → ¬ (48 ≤ c ∧ c ≤ 57) ∧ (digits = [] → c ≠ 32))
    (hv : digitsValue digits 0 < 2147483648) (htime : 7 ≤ (skipSp rest).length) :
    parseIndex (List.replicate a 32 ++ (digits ++ rest)) st =
      match st.track with
      | none => .error .indexWithoutTrack
      | some k =>
        let S : Int := (timeSector (skipSp rest) : Nat)
        let t0 : Track :=
          if (st.tracks k).idx1 = -1 then { st.tracks k with idx0 := S, idx1 := S }
          else { st.tracks k with idx0 := S }
        let t1 : Track :=
          if (st.tracks k).idx0 = -1 then { st.tracks k with idx1 := S, idx0 := S }
          else { st.tracks k with idx1 := S }
        if 2 ≤ digitsValue digits 0 then .error .unexpectedIndexNumber
        else if digitsValue digits 0 = 0 then
          if ¬ isAudio (st.tracks k) then .error .index0OnNonAudio
          else .ok { st with tracks := setTrack st.tracks k t0 }
        else .ok { st with tracks := setTrack st.tracks k t1 } := by
  have hhead : (digits ++ rest).head? ≠ some 32 := by
    cases digits with
    | nil =>
      intro e
      exact (hrest 32 e).2 rfl rfl
    | cons x xs =>
      have := hdig x (List.mem_cons_self _ _)
      simp only [List.cons_append, List.head?_cons, ne_eq, Option.some.injEq]
      omega
  have hnum := readNum_value digits hdig rest (fun c hc => (hrest c hc).1) 0 hv
  simp only [Nat.cast_zero] at hnum
  unfold parseIndex
  simp only [skipSp_spaces a _ hhead, hnum]
  cases st.track with
  | none => rfl
  | some k =>
    dsimp only
    by_cases h2 : 2 ≤ digitsValue digits 0
    · have : ((digitsValue digits 0 : Nat) : Int) ≥ 2 := by omega
      rw [if_pos this, if_pos h2]
    · have : ¬ ((digitsValue digits 0 : Nat) : Int) ≥ 2 := by omega
      rw [if_neg this, if_neg h2, if_neg (by omega)]
      by_cases h0 : digitsValue digits 0 = 0
      · have h0' : ((digitsValue digits 0 : Nat) : Int) = 0 := by omega
        rw [if_pos h0', if_pos h0]
        unfold timeSector
        by_cases ha : isAudio (st.tracks k)
        · have ha' : ¬ ((st.tracks k).mode ≠ MODE_AUDIO ∧ (st.tracks k).mode ≠ MODE_AUDIOSUB) := by
            unfold isAudio at ha
            tauto
          rw [if_neg ha', if_neg (not_not.mpr ha)]
        · have ha' : (st.tracks k).mode ≠ MODE_AUDIO ∧ (st.tracks k).mode ≠ MODE_AUDIOSUB := by
            unfold isAudio at ha
            tauto
          rw [if_pos ha', if_pos ha]
      · have h0' : ¬ ((digitsValue digits 0 : Nat) : Int) = 0 := by omega
        rw [if_neg h0', if_neg h0]
        unfold timeSector
        by_cases h1 : (st.tracks k).idx0 = -1
        · simp only [h1, if_true]
        · simp only [h1, if_false]

theorem upper_cases {c u : Nat} (h : upper c = u) : c = u ∨ (c = u + 32 ∧ 65 ≤ u ∧ u ≤ 90) := by
  unfold upper at h
  split_ifs at h <;> omega

/-- A line whose first word is not exactly `FILE `, `TRACK ` or `INDEX ` leaves the parser
state as it is. -/
theorem ParseCueLine_ignored (fs : FileSys) (st : CueState) (pre : List Nat) (c : Nat)
    (w r : List Nat) (hpre : ∀ x ∈ pre, x = 32 ∨ x = 10 ∨ x = 13)
    (hc : ¬ (c = 32 ∨ c = 10 ∨ c = 13)) (hw : ∀ x ∈ c :: w, x ≠ 0)
    (h1 : startsWith "FILE " (c :: (w ++ cstr r)) = false)
    (h2 : startsWith "TRACK " (c :: (w ++ cstr r)) = false)
    (h3 : startsWith "INDEX " (c :: (w ++ cstr r)) = false) :
    ParseCueLine fs (pre ++ (c :: w) ++ r) st = .ok st := by
  have hfront : ∀ x ∈ pre ++ (c :: w), x ≠ 0 := by
    intro x hx
    rcases List.mem_append.1 hx with h | h
    · rcases hpre x h with h | h | h <;> omega
    · exact hw x h
  unfold ParseCueLine
  rw [cstr_append _ _ hfront, List.append_assoc, List.cons_append,
    skipWs_append pre _ c hpre hc]
  simp [h1, h2, h3]

/-! ## Lemmas on the `FILE` branch -/

theorem scan_nil (acc : List Nat) : scan acc [] = acc := rfl

theorem scan_cons (acc : List Nat) (c : Nat) (cs : List Nat) :
    scan acc (c :: cs) = scan (if isCtl c then acc else if isSep c then [] else acc ++ [c]) cs :=
  rfl

theorem scan_append (acc a b : List Nat) : scan acc (a ++ b) = scan (scan acc a) b := by
  unfold scan
  rw [List.foldl_append]

theorem afterLastSep_snoc (l : List Nat) (c : Nat) :
    afterLastSep (l ++ [c]) = if isSep c then [] else afterLastSep l ++ [c] := by
  unfold afterLastSep
  rw [List.reverse_append, List.reverse_singleton, List.singleton_append]
  by_cases h : isSep c = true
  · simp [List.takeWhile, h]
  · have h' : isSep c = false := by simpa using h
    simp [List.takeWhile, h']

/-- The name the loop holds after a text: what follows its last separator, or the old name
extended when it has no separator; control characters dropped. -/
theorem scan_spec (acc seg : List Nat) :
    scan acc seg = if seg.any isSep then dropCtl (afterLastSep seg) else acc ++ dropCtl seg := by
  induction seg using List.reverseRecOn with
  | nil => simp [scan, dropCtl]
  | append_singleton l c ih =>
    rw [scan_append, ih, scan_cons, scan_nil, afterLastSep_snoc]
    by_cases hc : isCtl c = true
    · have hs : isSep c = false := by
        simp only [isCtl, isSep, decide_eq_true_eq, decide_eq_false_iff_not] at hc ⊢
        omega
      simp only [hc, if_true, hs, Bool.false_eq_true, if_false, List.any_append, List.any_cons,
        List.any_nil, Bool.or_false, dropCtl, List.filter_append]
      split_ifs <;> simp [List.filter, hc]
    · have hc' : isCtl c = false := by simpa using hc
      by_cases hs : isSep c = true
      · simp [hc', hs, dropCtl]
      · have hs' : isSep c = false := by simpa using hs
        simp only [hc', Bool.false_eq_true, if_false, hs', List.any_append, List.any_cons,
          List.any_nil, Bool.or_false, dropCtl, List.filter_append]
        split_ifs <;> simp [List.filter, hc']

theorem scan_empty (seg : List Nat) : scan [] seg = dropCtl (afterLastSep seg) := by
  rw [scan_spec]
  split_ifs with h
  · rfl
  · have : afterLastSep seg = seg := by
      unfold afterLastSep
      have hall : ∀ x ∈ seg.reverse, (!isSep x) = true := by
        intro x hx
        have hx' : x ∈ seg := List.mem_reverse.1 hx
        have : ¬ isSep x = true := fun e => h (List.any_eq_true.2 ⟨x, hx', e⟩)
        simpa using this
      rw [List.takeWhile_eq_self_iff.2 hall, List.reverse_reverse]
    rw [this, List.nil_append]

/-- The copy loop inside quotes: it runs to the next quote. -/
theorem fileLoop_quoted (l acc : List Nat) :
    fileLoop l acc 34 =
      (l.dropWhile (fun c => c ≠ 34), scan acc (l.takeWhile (fun c => c ≠ 34)), 34) := by
  induction l generalizing acc with
  | nil => rfl
  | cons c cs ih =>
    by_cases h34 : c = 34
    · subst h34
      simp [fileLoop, List.dropWhile, List.takeWhile, scan]
    · have hd : List.dropWhile (fun c => decide (c ≠ 34)) (c :: cs) =
          List.dropWhile (fun c => decide (c ≠ 34)) cs := by
        simp [List.dropWhile, h34]
      have ht : List.takeWhile (fun c => decide (c ≠ 34)) (c :: cs) =
          c :: List.takeWhile (fun c => decide (c ≠ 34)) cs := by
        simp [List.takeWhile, h34]
      rw [hd, ht, scan_cons]
      unfold fileLoop
      rw [if_neg h34]
      by_cases hc : 1 ≤ c ∧ c ≤ 31
      · have : isCtl c = true := by simp [isCtl, hc]
        rw [if_pos hc, ih, this, if_pos rfl]
      · have hc' : isCtl c = false := by simp [isCtl]; omega
        rw [if_neg hc, hc']
        by_cases hs : c = 47 ∨ c = 92
        · have : isSep c = true := by simp [isSep, hs]
          rw [if_pos hs, ih, this]
          rfl
        · have hs' : isSep c = false := by simp [isSep]; omega
          rw [if_neg hs, if_neg h34, ih, hs']
          rfl

/-- The copy loop before any quote: it runs to the first space, or to the first quote and
on from there inside quotes. -/
theorem fileLoop_unquoted (l acc : List Nat) :
    fileLoop l acc 32 =
      match l.dropWhile (fun c => c ≠ 32 ∧ c ≠ 34) with
      | 34 :: t => fileLoop t (scan acc (l.takeWhile (fun c => c ≠ 32 ∧ c ≠ 34))) 34
      | rest => (rest, scan acc (l.takeWhile (fun c => c ≠ 32 ∧ c ≠ 34)), 32) := by
  induction l generalizing acc with
  | nil => rfl
  | cons c cs ih =>
    by_cases h32 : c = 32
    · subst h32
      simp [fileLoop, List.dropWhile, List.takeWhile, scan]
    · by_cases h34 : c = 34
      · subst h34
        simp [fileLoop, List.dropWhile, List.takeWhile, scan]
      · have hd : List.dropWhile (fun c => decide (c ≠ 32 ∧ c ≠ 34)) (c :: cs) =
            List.dropWhile (fun c => decide (c ≠ 32 ∧ c ≠ 34)) cs := by
          simp [List.dropWhile, h32, h34]
        have ht : List.takeWhile (fun c => decide (c ≠ 32 ∧ c ≠ 34)) (c :: cs) =
            c :: List.takeWhile (fun c => decide (c ≠ 32 ∧ c ≠ 34)) cs := by
          simp [List.takeWhile, h32, h34]
        have e : fileLoop (c :: cs) acc 32 =
            fileLoop cs (if isCtl c then acc else if isSep c then [] else acc ++ [c]) 32 := by
          rw [fileLoop, if_neg h32]
          by_cases hc : 1 ≤ c ∧ c ≤ 31
          · have : isCtl c = true := by simp [isCtl, hc]
            rw [if_pos hc, this, if_pos rfl]
          · have hc' : isCtl c = false := by simp [isCtl]; omega
            rw [if_neg hc, hc']
            by_cases hs : c = 47 ∨ c = 92
            · have : isSep c = true := by simp [isSep, hs]
              rw [if_pos hs, this]
              simp only [Bool.false_eq_true, if_false, if_true]
            · have hs' : isSep c = false := by simp [isSep]; omega
              rw [if_neg hs, if_neg h34, hs']
              simp only [Bool.false_eq_true, if_false]
        rw [hd, ht, scan_cons, e, ih]

theorem dropWhile_head (l : List Nat) (p : Nat → Bool) (c : Nat)
    (h : (l.dropWhile p).head? = some c) : p c = false := by
  induction l with
  | nil => simp at h
  | cons x xs ih =>
    by_cases hx : p x = true
    · rw [List.dropWhile_cons_of_pos hx] at h
      exact ih h
    · rw [List.dropWhile_cons_of_neg hx] at h
      simp only [List.head?_cons, Option.some.injEq] at h
      subst h
      simpa using hx

theorem fileLoop_to_quote (l acc t : List Nat)
    (hq : l.dropWhile (fun c => c ≠ 32 ∧ c ≠ 34) = 34 :: t) :
    fileLoop l acc 32 =
      (t.dropWhile (fun c => c ≠ 34),
        scan acc (l.takeWhile (fun c => c ≠ 32 ∧ c ≠ 34) ++ t.takeWhile (fun c => c ≠ 34)), 34) := by
  rw [fileLoop_unquoted, hq]
  dsimp only
  rw [fileLoop_quoted, scan_append]

theorem fileLoop_to_space (l acc : List Nat)
    (hn : (l.dropWhile (fun c => c ≠ 32 ∧ c ≠ 34)).head? ≠ some 34) :
    fileLoop l acc 32 =
      (l.dropWhile (fun c => c ≠ 32 ∧ c ≠ 34),
        scan acc (l.takeWhile (fun c => c ≠ 32 ∧ c ≠ 34)), 32) := by
  rw [fileLoop_unquoted]
  split
  · rename_i t ht
    rw [ht] at hn
    exact absurd rfl hn
  · rfl

theorem nameRegion_quoted (body t : List Nat)
    (hq : body.dropWhile (fun c => c ≠ 32 ∧ c ≠ 34) = 34 :: t) :
    nameRegion body =
      (body.takeWhile (fun c => c ≠ 32 ∧ c ≠ 34) ++ t.takeWhile (fun c => c ≠ 34),
        !(t.dropWhile (fun c => c ≠ 34)).isEmpty) := by
  unfold nameRegion
  rw [hq]

theorem nameRegion_plain (body : List Nat)
    (hn : (body.dropWhile (fun c => c ≠ 32 ∧ c ≠ 34)).head? ≠ some 34) :
    nameRegion body = (body.takeWhile (fun c => c ≠ 32 ∧ c ≠ 34), true) := by
  unfold nameRegion
  split
  · rename_i t ht
    rw [ht] at hn
    exact absurd rfl hn
  · rfl

/-- The `FILE` branch computes the base name `fileName` describes. -/
theorem parseFile_spec (r : List Nat) (st : CueState) :
    parseFile r st =
      match fileName (skipSp r) with
      | .error e => .error e
      | .ok nm => .ok { st with activefile := nm, track := none } := by
  unfold parseFile fileName
  dsimp only
  by_cases hh : ((skipSp r).dropWhile (fun c => c ≠ 32 ∧ c ≠ 34)).head? = some 34
  · obtain ⟨t, ht⟩ : ∃ t, (skipSp r).dropWhile (fun c => c ≠ 32 ∧ c ≠ 34) = 34 :: t := by
      cases hd : (skipSp r).dropWhile (fun c => c ≠ 32 ∧ c ≠ 34) with
      | nil => rw [hd] at hh; simp at hh
      | cons x xs =>
        rw [hd] at hh
        simp only [List.head?_cons, Option.some.injEq] at hh
        exact ⟨xs, by rw [hh]⟩
    rw [fileLoop_to_quote _ _ t ht, nameRegion_quoted _ t ht, scan_empty]
    dsimp only
    cases hq : List.dropWhile (fun c => decide (c ≠ 34)) t with
    | nil => simp
    | cons x xs =>
      have hx : x = 34 := by
        have := dropWhile_head t (fun c => decide (c ≠ 34)) x (by rw [hq]; rfl)
        simpa using this
      subst hx
      simp only [List.head?_cons, ne_eq, not_true_eq_false, and_false, if_false,
        List.isEmpty_cons, Bool.not_false, Bool.true_eq_false]
      split_ifs <;> rfl
  · rw [fileLoop_to_space _ _ hh, nameRegion_plain _ hh, scan_empty]
    dsimp only
    have h32 : ¬ ((32 : Nat) = 34 ∧
        ((skipSp r).dropWhile (fun c => c ≠ 32 ∧ c ≠ 34)).head? ≠ some 34) := by omega
    rw [if_neg h32]
    simp only [Bool.true_eq_false, if_false]
    split_ifs <;> rfl

theorem takeWhile_dropWhile_append (p : Nat → Bool) (a b : List Nat)
    (ha : ∀ x ∈ a, p x = true) (hb : ∀ c, b.head? = some c → p c = false) :
    (a ++ b).takeWhile p = a ∧ (a ++ b).dropWhile p = b := by
  induction a with
  | nil =>
    cases b with
    | nil => exact ⟨rfl, rfl⟩
    | cons c cs =>
      have := hb c rfl
      simp [List.takeWhile, List.dropWhile, this]
  | cons x xs ih =>
    have hx := ha x (List.mem_cons_self _ _)
    obtain ⟨h1, h2⟩ := ih (fun y hy => ha y (List.mem_cons_of_mem _ hy))
    simp only [List.cons_append, List.takeWhile_cons_of_pos hx, List.dropWhile_cons_of_pos hx,
      h1, h2, and_self]

/-- A name in quotes: the name text is the text between the quotes. -/
theorem nameRegion_in_quotes (inner tail : List Nat) (hin : ∀ c ∈ inner, c ≠ 34) :
    nameRegion (34 :: (inner ++ 34 :: tail)) = (inner, true) := by
  have h := takeWhile_dropWhile_append (fun c => decide (c ≠ 34)) inner (34 :: tail)
    (fun x hx => by simpa using hin x hx) (fun c hc => by
      simp only [List.head?_cons, Option.some.injEq] at hc
      subst hc
      simp)
  rw [nameRegion_quoted _ (inner ++ 34 :: tail) (by simp [List.dropWhile])]
  rw [h.1, h.2]
  simp [List.takeWhile]

/-- A name without quotes: the name text is the word up to the first space. -/
theorem nameRegion_word (word tail : List Nat) (hw : ∀ c ∈ word, c ≠ 32 ∧ c ≠ 34)
    (ht : ∀ c, tail.head? = some c → c = 32) :
    nameRegion (word ++ tail) = (word, true) := by
  have h := takeWhile_dropWhile_append (fun c => decide (c ≠ 32 ∧ c ≠ 34)) word tail
    (fun x hx => by simpa using hw x hx) (fun c hc => by
      have := ht c hc
      subst this
      simp)
  rw [nameRegion_plain _ (by
    rw [h.2]
    intro e
    have := ht 34 e
    omega)]
  rw [h.1]

/-! ## Lemmas on the buffered file access and `DoTrack` -/

theorem chunk_facts (ss : Nat) (h0 : 0 < ss) (hle : ss ≤ INBUF_SIZE) :
    ss ∣ INBUF_SIZE - INBUF_SIZE % ss ∧ ss ≤ INBUF_SIZE - INBUF_SIZE % ss ∧
      INBUF_SIZE - INBUF_SIZE % ss ≤ INBUF_SIZE := by
  refine ⟨Nat.dvd_sub_mod _, ?_, Nat.sub_le _ _⟩
  have h1 : ss * (INBUF_SIZE / ss) + INBUF_SIZE % ss = INBUF_SIZE := Nat.div_add_mod _ _
  have h2 : 1 ≤ INBUF_SIZE / ss := (Nat.one_le_div_iff h0).2 hle
  have h3 : ss * 1 ≤ ss * (INBUF_SIZE / ss) := Nat.mul_le_mul_left _ h2
  omega

theorem next_multiple {ss r c : Nat} (hr : ss ∣ r) (hc : ss ∣ c) (h : r < c) : r + ss ≤ c := by
  obtain ⟨a, rfl⟩ := hr
  obtain ⟨d, rfl⟩ := hc
  have h0 : 0 < ss := by
    rcases Nat.eq_zero_or_pos ss with h0 | h0
    · subst h0; simp at h
    · exact h0
  have : a < d := lt_of_mul_lt_mul_left h (Nat.zero_le _)
  calc ss * a + ss = ss * (a + 1) := by ring
    _ ≤ ss * d := Nat.mul_le_mul_left _ this

/-- `takeRecord` when the record lies inside the part of `inBuf` that may be used. -/
theorem takeRecord_ok (ss : Nat) (s : IOState) (h : s.inBufReadIndex + ss ≤ INBUF_SIZE) :
    ∃ s', takeRecord ss s = .ok (some s.inBufReadIndex, s') ∧
      s'.inBufReadIndex = s.inBufReadIndex + ss ∧
      s'.inBufWriteIndex = s.inBufWriteIndex ∧ s'.bin = s.bin ∧ s'.out = s.out ∧
      s'.outBuf = s.outBuf ∧ s'.writePos = s.writePos ∧
      (∀ p, s'.inBuf p =
        if s.inBufWriteIndex ≤ p ∧ p < s.inBufReadIndex + ss then 0 else s.inBuf p) := by
  have hidx : (s.inBufReadIndex + ss) % 4294967296 = s.inBufReadIndex + ss :=
    Nat.mod_eq_of_lt (by simp only [INBUF_SIZE] at h; omega)
  unfold takeRecord
  simp only [hidx]
  by_cases hgt : s.inBufReadIndex + ss > s.inBufWriteIndex
  · rw [if_pos hgt, if_neg (by omega)]
    exact ⟨_, rfl, rfl, rfl, rfl, rfl, rfl, rfl, fun p => rfl⟩
  · rw [if_neg hgt]
    refine ⟨_, rfl, rfl, rfl, rfl, rfl, rfl, rfl, fun p => ?_⟩
    have : ¬ (s.inBufWriteIndex ≤ p ∧ p < s.inBufReadIndex + ss) := by omega
    rw [if_neg this]

/-- When the buffer is used up, the position of the stream is the start of the next record,
or the stream is at the end of a file that ends before that record. -/
theorem RecInv.refill_pos {ss o j b : Nat} {s : IOState} (hinv : RecInv ss o j b s)
    (hr : s.inBufReadIndex ≥ s.inBufWriteIndex) :
    s.bin.pos = o + j * ss ∨ (s.bin.pos = s.bin.file.size ∧ s.bin.file.size < o + j * ss) := by
  have h1 := hinv.next
  have h2 := hinv.pos
  rcases Nat.eq_zero_or_pos s.inBufWriteIndex with hw | hw
  · have := hinv.empty hw
    left
    omega
  · rcases Nat.lt_or_ge s.inBufWriteIndex s.inBufReadIndex with hlt | hge
    · have h3 := hinv.short hw (Nat.lt_of_lt_of_le hlt hinv.rle)
      right
      omega
    · left
      omega

/-- `BufferedFRead` hands out the next record of the stream when the file has a byte of
it: the record lies in `inBuf` at the offset returned, zero-filled beyond the end of the
file. -/
theorem BufferedFRead_some {ss o j b : Nat} {s : IOState} (hinv : RecInv ss o j b s)
    (h0 : 0 < ss) (hle : ss ≤ INBUF_SIZE) (hex : o + j * ss < s.bin.file.size) :
    ∃ ptr s' b', BufferedFRead ss s = .ok (some ptr, s') ∧ RecInv ss o (j + 1) b' s' ∧
      (∀ q, q < ss → s'.inBuf (ptr + q) = recByte s.bin.file o ss j q) ∧
      ptr + ss ≤ INBUF_SIZE ∧ s'.bin.file = s.bin.file ∧ s'.out = s.out ∧
      s'.outBuf = s.outBuf ∧ s'.writePos = s.writePos := by
  obtain ⟨c1, c2, c3⟩ := chunk_facts ss h0 hle
  have hnext : o + (j + 1) * ss = o + j * ss + ss := by ring
  by_cases hr : s.inBufReadIndex ≥ s.inBufWriteIndex
  · -- the buffer is filled again
    have hpos : s.bin.pos = o + j * ss := by
      rcases hinv.refill_pos hr with h | ⟨_, h⟩
      · exact h
      · omega
    obtain ⟨n, hnd⟩ : ∃ n, n = min (INBUF_SIZE - INBUF_SIZE % ss)
        (s.bin.file.size - s.bin.pos) := ⟨_, rfl⟩
    have hn : n ≠ 0 := by
      have : 0 < s.bin.file.size - s.bin.pos := by omega
      omega
    obtain ⟨s', hs', r1, r2, r3, r4, r5, r6, r7⟩ :=
      takeRecord_ok ss { fillBuffer ss s with inBufReadIndex := 0 }
        (by show 0 + ss ≤ INBUF_SIZE; omega)
    have hW : s'.inBufWriteIndex = n := by rw [r2, hnd]; rfl
    have hR : s'.inBufReadIndex = ss := by rw [r1]; exact Nat.zero_add _
    have hB1 : s'.bin.file = s.bin.file := by rw [r3]; rfl
    have hB2 : s'.bin.pos = s.bin.pos + n := by rw [r3, hnd]; rfl
    have hI : ∀ p, s'.inBuf p =
        if n ≤ p ∧ p < 0 + ss then 0
        else if p < n then s.bin.file.byte (s.bin.pos + p) else s.inBuf p := by
      intro p
      rw [r7 p, hnd]
      rfl
    refine ⟨0, s', s.bin.pos, ?_, ?_, ?_, by omega, hB1, r4, r5, r6⟩
    · unfold BufferedFRead
      rw [if_pos hr, if_neg (by omega)]
      dsimp only
      rw [if_neg (show ¬ (fillBuffer ss s).inBufWriteIndex = 0 from by
        show ¬ min (INBUF_SIZE - INBUF_SIZE % ss) (s.bin.file.size - s.bin.pos) = 0
        rw [← hnd]; exact hn)]
      exact hs'
    · refine ⟨?_, ?_, ?_, ?_, ?_, ?_, ?_, ?_, ?_⟩
      · rw [hW, hnd]; exact Nat.min_le_left _ _
      · rw [hR]; exact c2
      · rw [hR]
      · rw [hR, hnext, hpos]
      · intro p hp
        rw [hW] at hp
        rw [hI p, if_neg (by omega), if_pos hp, hB1]
      · rw [hB2, hW]
      · intro _
        rw [hB1, hB2]
        omega
      · intro _ hlt
        rw [hW] at hlt
        rw [hB1, hB2]
        omega
      · intro hz
        rw [hW] at hz
        exact absurd hz hn
    · intro q hq
      rw [Nat.zero_add, hI q]
      unfold recByte
      by_cases hqn : q < n
      · rw [if_neg (by omega), if_pos hqn, if_pos (by omega), hpos]
      · rw [if_pos (by omega), if_neg (by omega)]
  · -- the buffer holds the record
    have hr' : s.inBufReadIndex < s.inBufWriteIndex := by omega
    have hw : 0 < s.inBufWriteIndex := by omega
    have hfit : s.inBufReadIndex + ss ≤ INBUF_SIZE - INBUF_SIZE % ss :=
      next_multiple hinv.rdvd c1 (Nat.lt_of_lt_of_le hr' hinv.wle)
    obtain ⟨s', hs', r1, r2, r3, r4, r5, r6, r7⟩ := takeRecord_ok ss s (by omega)
    have i1 := hinv.next
    have i2 := hinv.pos
    have i3 := hinv.inFile hw
    refine ⟨s.inBufReadIndex, s', b, ?_, ?_, ?_, by omega, by rw [r3], r4, r5, r6⟩
    · unfold BufferedFRead
      rw [if_neg hr]
      exact hs'
    · refine ⟨?_, ?_, ?_, ?_, ?_, ?_, ?_, ?_, ?_⟩
      · rw [r2]; exact hinv.wle
      · rw [r1]; exact hfit
      · rw [r1]; exact Nat.dvd_add hinv.rdvd (Nat.dvd_refl _)
      · rw [r1, hnext]; omega
      · intro p hp
        rw [r2] at hp
        rw [r7 p, if_neg (by omega), r3]
        exact hinv.held p hp
      · rw [r3, r2]; exact i2
      · intro _
        rw [r3]; exact i3
      · intro _ hlt
        rw [r2] at hlt
        rw [r3]
        exact hinv.short hw hlt
      · intro hz
        rw [r2] at hz
        omega
    · intro q hq
      rw [r7 (s.inBufReadIndex + q)]
      unfold recByte
      by_cases hqw : s.inBufReadIndex + q < s.inBufWriteIndex
      · rw [if_neg (by omega), hinv.held _ hqw, if_pos (by omega)]
        congr 1
        omega
      · have i4 := hinv.short hw (by omega)
        rw [if_pos (by omega), if_neg (by omega)]

/-- `BufferedFRead` returns `false` when the file has no byte of the next record. -/
theorem BufferedFRead_none {ss o j b : Nat} {s : IOState} (hinv : RecInv ss o j b s)
    (h0 : 0 < ss) (hex : s.bin.file.size ≤ o + j * ss) :
    ∃ s', BufferedFRead ss s = .ok (none, s') ∧ s'.bin.file = s.bin.file ∧ s'.out = s.out ∧
      s'.outBuf = s.outBuf ∧ s'.writePos = s.writePos := by
  have hr : s.inBufReadIndex ≥ s.inBufWriteIndex := by
    by_contra hlt
    have hw : 0 < s.inBufWriteIndex := by omega
    have i1 := hinv.next
    have i2 := hinv.pos
    have i3 := hinv.inFile hw
    omega
  have hn : min (INBUF_SIZE - INBUF_SIZE % ss) (s.bin.file.size - s.bin.pos) = 0 := by
    rcases hinv.refill_pos hr with h | ⟨h, _⟩ <;> omega
  refine ⟨fillBuffer ss s, ?_, rfl, rfl, rfl, rfl⟩
  unfold BufferedFRead
  rw [if_pos hr, if_neg (by omega)]
  dsimp only
  rw [if_pos (show (fillBuffer ss s).inBufWriteIndex = 0 from hn)]

/-- `BufferedFWrite` to a file of its own: the bytes written so far, in the file or still in
`outBuf`, are extended by the bytes copied; the input side is left as it is. -/
theorem BufferedFWrite_ok (src size : Nat) (s : IOState) (hsz : size ≤ OUTBUF_SIZE)
    (hsrc : src + size ≤ INBUF_SIZE) :
    ∃ s', BufferedFWrite false src size s = .ok s' ∧
      s'.out ++ s'.outBuf =
        s.out ++ s.outBuf ++ (List.range size).map (fun k => s.inBuf (src + k)) ∧
      s'.inBuf = s.inBuf ∧
      s'.inBufReadIndex = s.inBufReadIndex ∧ s'.inBufWriteIndex = s.inBufWriteIndex ∧
      s'.bin = s.bin ∧ s'.writePos = s.writePos := by
  unfold BufferedFWrite
  by_cases hfull : s.outBuf.length + size > OUTBUF_SIZE
  · have hne : s.outBuf ≠ [] := by
      intro e
      rw [e] at hfull
      simp only [List.length_nil, Nat.zero_add] at hfull
      omega
    rw [if_pos hfull]
    unfold flushFull
    rw [if_neg hne]
    simp only [Bool.false_eq_true, if_false]
    rw [if_neg (by simp only [List.length_nil, Nat.zero_add]; omega)]
    exact ⟨_, rfl, by simp, rfl, rfl, rfl, rfl, rfl⟩
  · rw [if_neg hfull]
    dsimp only
    rw [if_neg (by omega)]
    exact ⟨_, rfl, by simp, rfl, rfl, rfl, rfl, rfl⟩

/-- The copy loop of `DoTrack` on a consistent buffer state: it copies the payloads of the
first `K` of the remaining sectors, `K` being the number of rounds or the number of sectors
the file has a byte of, whichever is smaller. -/
theorem copyLoop_spec (t : Track) (o : Nat) (h0 : 0 < t.sectorSize)
    (hle : t.sectorSize ≤ INBUF_SIZE) (hfit : t.predata + datasize t ≤ t.sectorSize)
    (hds : datasize t ≤ OUTBUF_SIZE) (n K : Nat) (hK : K ≤ n) (j b : Nat) (s : IOState)
    (hinv : RecInv t.sectorSize o j b s)
    (hex : ∀ k, k < K → o + (j + k) * t.sectorSize < s.bin.file.size)
    (hend : K < n → s.bin.file.size ≤ o + (j + K) * t.sectorSize) :
    ∃ s', copyLoop t n s = .ok s' ∧
      s'.out ++ s'.outBuf = s.out ++ s.outBuf ++ payloads t s.bin.file o j K := by
  induction n generalizing K j b s with
  | zero =>
    have : K = 0 := by omega
    subst this
    exact ⟨s, rfl, by simp [payloads]⟩
  | succ n ih =>
    rw [copyLoop]
    cases K with
    | zero =>
      obtain ⟨s1, h1, _, a2, a3, _⟩ := BufferedFRead_none hinv h0
        (by simpa using hend (by omega))
      rw [h1]
      exact ⟨s1, rfl, by rw [a2, a3]; simp [payloads]⟩
    | succ K =>
      obtain ⟨ptr, s1, b1, h1, inv1, hrec, hptr, f1, a2, a3, _⟩ :=
        BufferedFRead_some hinv h0 hle (by simpa using hex 0 (by omega))
      rw [h1]
      dsimp only
      obtain ⟨s2, h2, w2, i2, r2, wi2, bin2, _⟩ :=
        BufferedFWrite_ok (ptr + t.predata) (datasize t) s1 hds (by omega)
      rw [h2]
      dsimp only
      have inv2 : RecInv t.sectorSize o (j + 1) b1 s2 := by
        refine ⟨?_, ?_, ?_, ?_, ?_, ?_, ?_, ?_, ?_⟩
        · rw [wi2]; exact inv1.wle
        · rw [r2]; exact inv1.rle
        · rw [r2]; exact inv1.rdvd
        · rw [r2]; exact inv1.next
        · intro p hp
          rw [wi2] at hp
          rw [i2, bin2]
          exact inv1.held p hp
        · rw [bin2, wi2]; exact inv1.pos
        · rw [bin2, wi2]; exact inv1.inFile
        · rw [bin2, wi2]; exact inv1.short
        · rw [wi2, r2]; exact inv1.empty
      have hfile : s2.bin.file = s.bin.file := by rw [bin2, f1]
      obtain ⟨s3, h3, w3⟩ := ih K (by omega) (j + 1) b1 s2 inv2
        (by
          intro k hk
          rw [hfile]
          have := hex (k + 1) (by omega)
          have e : j + (k + 1) = j + 1 + k := by omega
          rw [e] at this
          exact this)
        (by
          intro hlt
          rw [hfile]
          have := hend (by omega)
          have e : j + (K + 1) = j + 1 + K := by omega
          rw [e] at this
          exact this)
      refine ⟨s3, h3, ?_⟩
      rw [w3, w2, a2, a3, hfile, payloads, List.append_assoc]
      congr 2
      unfold payloadOf
      apply List.map_congr_left
      intro q hq
      have hq' : q < datasize t := List.mem_range.1 hq
      have := hrec (t.predata + q) (by omega)
      rw [← this]
      congr 1
      omega

/-- How many of `n` records of `ss` bytes from offset `o` a file of `size` bytes has a byte
of. -/
theorem exists_records (size o ss : Nat) (n : Nat) :
    ∃ K, K ≤ n ∧ (∀ k, k < K → o + k * ss < size) ∧ (K < n → size ≤ o + K * ss) := by
  induction n with
  | zero => exact ⟨0, Nat.le_refl _, fun k hk => absurd hk (Nat.not_lt_zero _), fun h => absurd h (Nat.lt_irrefl _)⟩
  | succ n ih =>
    obtain ⟨K, hK, h1, h2⟩ := ih
    by_cases hlt : K < n
    · exact ⟨K, by omega, h1, fun _ => h2 hlt⟩
    · have hKn : K = n := by omega
      subst hKn
      by_cases hrec : o + K * ss < size
      · refine ⟨K + 1, Nat.le_refl _, ?_, fun h => absurd h (Nat.lt_irrefl _)⟩
        intro k hk
        rcases Nat.lt_or_ge k K with h | h
        · exact h1 k h
        · have : k = K := by omega
          subst this
          exact hrec
      · exact ⟨K, by omega, h1, fun _ => by omega⟩

/-- The copy loop on a sector size beyond the size of `inBuf`: nothing is read. -/
theorem copyLoop_oversize (t : Track) (hbig : INBUF_SIZE < t.sectorSize) (n : Nat)
    (s : IOState) (hr : s.inBufReadIndex ≥ s.inBufWriteIndex) :
    ∃ s', copyLoop t n s = .ok s' ∧ s'.out = s.out ∧ s'.outBuf = s.outBuf := by
  cases n with
  | zero => exact ⟨s, rfl, rfl, rfl⟩
  | succ n =>
    have hmod : INBUF_SIZE % t.sectorSize = INBUF_SIZE := Nat.mod_eq_of_lt hbig
    have hn : (fillBuffer t.sectorSize s).inBufWriteIndex = 0 := by
      show min (INBUF_SIZE - INBUF_SIZE % t.sectorSize) _ = 0
      rw [hmod, Nat.sub_self, Nat.zero_min]
    have hread : BufferedFRead t.sectorSize s = .ok (none, fillBuffer t.sectorSize s) := by
      unfold BufferedFRead
      rw [if_pos hr, if_neg (by omega)]
      dsimp only
      rw [if_pos hn]
    rw [copyLoop, hread]
    exact ⟨_, rfl, rfl, rfl⟩

theorem RecInv.start (ss o : Nat) (s : IOState) (hr : s.inBufReadIndex = 0)
    (hw : s.inBufWriteIndex = 0) (hp : s.bin.pos = o) : RecInv ss o 0 o s := by
  refine ⟨?_, ?_, ?_, ?_, ?_, ?_, ?_, ?_, ?_⟩
  · rw [hw]; exact Nat.zero_le _
  · rw [hr]; exact Nat.zero_le _
  · rw [hr]; exact Nat.dvd_zero _
  · rw [hr]; omega
  · intro p hp'; rw [hw] at hp'; exact absurd hp' (Nat.not_lt_zero _)
  · rw [hw, hp]; rfl
  · intro h; rw [hw] at h; exact absurd h (Nat.lt_irrefl _)
  · intro h; rw [hw] at h; exact absurd h (Nat.lt_irrefl _)
  · intro _; exact hr

/-- `DoTrack` on a track of a mode its `switch` knows, with a sector size other than 0 and
buffers as `FlushBuffers` leaves them: the file written is the header (for audio) followed
by the payloads of the first `K` sectors, for a `K` up to the sector count of the track;
`K` is that count or the number of sectors the file has a byte of. -/
theorem DoTrack_spec (t : Track) (s : IOState)
    (hmode : t.mode = MODE_AUDIO ∨ t.mode = MODE_AUDIOSUB ∨ t.mode = MODE1_2352 ∨
      t.mode = MODE1_2048 ∨ t.mode = MODE1_2448 ∨ t.mode = MODE2_2352 ∨ t.mode = MODE2_2336)
    (hofs : 0 ≤ t.startOfs) (h0 : t.sectorSize ≠ 0)
    (hfit : t.predata + datasize t ≤ t.sectorSize) (hds : datasize t ≤ OUTBUF_SIZE)
    (hr : s.inBufReadIndex = 0) (hw : s.inBufWriteIndex = 0) (hob : s.outBuf = []) :
    ∃ s' K, DoTrack t s = .ok s' ∧ K ≤ (wrapU32 t.totalSectors).toNat ∧
      (∀ k, k < K → t.startOfs.toNat + k * t.sectorSize < t.fdSrcFile.size) ∧
      (t.sectorSize ≤ INBUF_SIZE → K < (wrapU32 t.totalSectors).toNat →
        t.fdSrcFile.size ≤ t.startOfs.toNat + K * t.sectorSize) ∧
      s'.out = (if t.mode = MODE_AUDIO ∨ t.mode = MODE_AUDIOSUB then (wavhead t).objectBytes
        else []) ++ payloads t t.fdSrcFile t.startOfs.toNat 0 K ∧
      s'.inBufReadIndex = 0 ∧ s'.inBufWriteIndex = 0 ∧ s'.outBuf = [] := by
  have hflush : ∀ s1 : IOState, FlushBuffers false s1 =
      .ok { s1 with out := s1.out ++ s1.outBuf, outBuf := [], inBufReadIndex := 0,
                    inBufWriteIndex := 0 } := fun s1 => rfl
  unfold DoTrack
  rw [if_neg (not_not.mpr hmode)]
  dsimp only
  rw [if_neg (by omega)]
  by_cases hbig : INBUF_SIZE < t.sectorSize
  · obtain ⟨s1, h1, o1, o2⟩ := copyLoop_oversize t hbig (wrapU32 t.totalSectors).toNat
      { s with out := (if t.mode = MODE_AUDIO ∨ t.mode = MODE_AUDIOSUB then
                        (wavhead t).objectBytes else []),
               bin := ⟨t.fdSrcFile, t.startOfs.toNat⟩ }
      (by show s.inBufReadIndex ≥ s.inBufWriteIndex; omega)
    rw [h1]
    dsimp only
    rw [hflush]
    refine ⟨_, 0, rfl, Nat.zero_le _, fun k hk => absurd hk (Nat.not_lt_zero _),
      fun h => absurd h (by omega), ?_, rfl, rfl, rfl⟩
    show s1.out ++ s1.outBuf = _
    rw [o1, o2]
    show _ ++ s.outBuf = _
    rw [hob]
    simp [payloads]
  · obtain ⟨K, hK, e1, e2⟩ := exists_records t.fdSrcFile.size t.startOfs.toNat t.sectorSize
      (wrapU32 t.totalSectors).toNat
    obtain ⟨s1, h1, o1⟩ := copyLoop_spec t t.startOfs.toNat (by omega) (by omega) hfit hds
      (wrapU32 t.totalSectors).toNat K hK 0 t.startOfs.toNat
      { s with out := (if t.mode = MODE_AUDIO ∨ t.mode = MODE_AUDIOSUB then
                        (wavhead t).objectBytes else []),
               bin := ⟨t.fdSrcFile, t.startOfs.toNat⟩ }
      (RecInv.start _ _ _ hr hw rfl)
      (fun k hk => by
        show t.startOfs.toNat + (0 + k) * t.sectorSize < t.fdSrcFile.size
        rw [Nat.zero_add]; exact e1 k hk)
      (fun hlt => by
        show t.fdSrcFile.size ≤ t.startOfs.toNat + (0 + K) * t.sectorSize
        rw [Nat.zero_add]; exact e2 hlt)
    rw [h1]
    dsimp only
    rw [hflush]
    refine ⟨_, K, rfl, hK, e1, fun _ => e2, ?_, rfl, rfl, rfl⟩
    show s1.out ++ s1.outBuf = _
    rw [o1]
    show _ ++ s.outBuf ++ _ = _
    rw [hob, List.append_nil]

theorem layoutOK_fit {t : Track} (h : layoutOK t) :
    t.predata + datasize t ≤ t.sectorSize ∧ datasize t ≤ 2352 := by
  obtain ⟨hlt, h1, h2, h3, h4, h5⟩ := h
  have hd : datasize t = t.sectorSize - t.predata - t.postdata := by
    unfold datasize
    rw [wrapU32_of_range _ (by omega) (by omega)]
    omega
  refine ⟨by omega, ?_⟩
  rcases h5 with m | m | m | m | m | m | m | m
  · rw [(h3 m).2]
  · rw [(h4 m).2]; exact Nat.min_le_right _ _
  all_goals
    rw [(h2 (by simp [m])).2]
    omega

theorem le32_eq (x : Nat) : le32 (x % 4294967296) = leBytes 4 x := by
  unfold le32 leBytes
  simp only [List.range_succ, List.range_zero, List.nil_append, List.map_append, List.map_cons,
    List.map_nil, List.cons_append, pow_zero, Nat.div_one, pow_one]
  have e2 : (256 : Nat) ^ 2 = 65536 := by norm_num
  have e3 : (256 : Nat) ^ 3 = 16777216 := by norm_num
  rw [e2, e3]
  have a : x % 4294967296 % 256 = x % 256 := by omega
  have b : x % 4294967296 / 256 % 256 = x / 256 % 256 := by omega
  have c : x % 4294967296 / 65536 % 256 = x / 65536 % 256 := by omega
  have d : x % 4294967296 / 16777216 % 256 = x / 16777216 % 256 := by omega
  rw [a, b, c, d]

theorem le32_small (x : Nat) (h : x < 4294967296) : le32 x = leBytes 4 x := by
  have := le32_eq x
  rwa [Nat.mod_eq_of_lt h] at this

/-- The header `DoTrack` writes is the header of the specification for the data size
`totalSectors * 2352` modulo `2^32`. -/
theorem wavhead_bytes (t : Track) :
    (wavhead t).objectBytes = wavHeaderSpec ((t.totalSectors * 2352) % 4294967296).toNat := by
  have hts : (wrapU32 (wrapI32 (t.totalSectors * SIZERAW))).toNat =
      ((t.totalSectors * 2352) % 4294967296).toNat := by
    unfold wrapU32 wrapI32
    congr 1
    simp only [SIZERAW]
    push_cast
    omega
  have hlt : ((t.totalSectors * 2352) % 4294967296).toNat < 4294967296 := by omega
  unfold tWavHead.objectBytes wavhead wavHeaderSpec
  dsimp only
  rw [hts, le32_eq, le32_small _ hlt]
  rfl

theorem sectorPayloads_length (f : SrcFile) (o ss pre ds n : Nat) :
    (sectorPayloads f o ss pre ds n).length = n * ds := by
  unfold sectorPayloads
  induction n with
  | zero => simp
  | succ n ih =>
    rw [List.range_succ, List.flatMap_append, List.length_append, ih]
    simp only [List.flatMap_cons, List.flatMap_nil, List.append_nil, List.length_map,
      List.length_range]
    ring

/-- The payloads of sectors that lie inside the file are the bytes of the file. -/
theorem payloads_whole (t : Track) (f : SrcFile) (o : Nat)
    (hfit : t.predata + datasize t ≤ t.sectorSize) (j m : Nat)
    (hwhole : o + (j + m) * t.sectorSize ≤ f.size) :
    payloads t f o j m = (List.range m).flatMap (fun k =>
      (List.range (datasize t)).map (fun q =>
        f.byte (o + (j + k) * t.sectorSize + t.predata + q))) := by
  induction m generalizing j with
  | zero => rfl
  | succ m ih =>
    have hmul : (j + (m + 1)) * t.sectorSize = (j + 1 + m) * t.sectorSize := by
      congr 1
      omega
    have hj : (j + 1) * t.sectorSize ≤ (j + 1 + m) * t.sectorSize :=
      Nat.mul_le_mul_right _ (by omega)
    have hj1 : (j + 1) * t.sectorSize = j * t.sectorSize + t.sectorSize := by ring
    have hw' : o + (j + 1 + m) * t.sectorSize ≤ f.size := by rw [← hmul]; exact hwhole
    rw [payloads, ih (j + 1) hw', List.range_succ_eq_map, List.flatMap_cons, List.flatMap_map]
    congr 1
    · unfold payloadOf
      apply List.map_congr_left
      intro q hq
      have hq' : q < datasize t := List.mem_range.1 hq
      unfold recByte
      rw [Nat.add_zero, if_pos (by omega)]
      congr 1
      omega
    · apply List.flatMap_congr
      intro k _
      apply List.map_congr_left
      intro q _
      congr 1
      have : j + 1 + k = j + (k + 1) := by omega
      rw [this]

/-- C18 for the data modes the `switch` of `DoTrack` knows: when the file holds
`totalSectors` whole sectors from `startOfs` on, the file written has no header and is the
concatenation of the payload bytes of these sectors; its length is `totalSectors * 2048`. -/
theorem DoTrack_data_output (t : Track) (s : IOState)
    (hmode : t.mode = MODE1_2352 ∨ t.mode = MODE1_2048 ∨ t.mode = MODE1_2448 ∨
      t.mode = MODE2_2352 ∨ t.mode = MODE2_2336)
    (hlay : layoutOK t) (hss : t.sectorSize ≤ INBUF_SIZE) (hofs : 0 ≤ t.startOfs)
    (hts : 0 ≤ t.totalSectors) (hts2 : t.totalSectors < 4294967296)
    (hwhole : t.startOfs + t.totalSectors * t.sectorSize ≤ t.fdSrcFile.size)
    (hr : s.inBufReadIndex = 0) (hw : s.inBufWriteIndex = 0) (hob : s.outBuf = []) :
    ∃ s', DoTrack t s = .ok s' ∧
      s'.out = sectorPayloads t.fdSrcFile t.startOfs.toNat t.sectorSize t.predata 2048
        t.totalSectors.toNat ∧
      s'.out.length = t.totalSectors.toNat * 2048 := by
  obtain ⟨hfit, hds⟩ := layoutOK_fit hlay
  have hd : datasize t = 2048 := (hlay.2.2.1 (by tauto)).2
  have hpos : 0 < t.sectorSize := (hlay.2.2.1 (by tauto)).1
  have hnA : ¬ (t.mode = MODE_AUDIO ∨ t.mode = MODE_AUDIOSUB) := by
    rcases hmode with m | m | m | m | m <;> rw [m] <;> decide
  obtain ⟨s', K, h1, hK, e1, e2, hout, _⟩ := DoTrack_spec t s (by tauto) hofs (by omega) hfit
    (Nat.le_trans hds (by decide)) hr hw hob
  have hn : (wrapU32 t.totalSectors).toNat = t.totalSectors.toNat := by
    rw [wrapU32_of_range _ hts hts2]
  rw [hn] at hK e2
  have hwn : t.startOfs.toNat + t.totalSectors.toNat * t.sectorSize ≤ t.fdSrcFile.size := by
    have a1 : (t.startOfs.toNat : Int) = t.startOfs := Int.toNat_of_nonneg hofs
    have a2 : (t.totalSectors.toNat : Int) = t.totalSectors := Int.toNat_of_nonneg hts
    have : ((t.startOfs.toNat + t.totalSectors.toNat * t.sectorSize : Nat) : Int) ≤
        (t.fdSrcFile.size : Int) := by
      push_cast
      rw [a1, a2]
      exact hwhole
    exact_mod_cast this
  have hKn : K = t.totalSectors.toNat := by
    by_contra hne
    have hlt : K < t.totalSectors.toNat := by omega
    have h3 := e2 hss hlt
    have h4 : (K + 1) * t.sectorSize ≤ t.totalSectors.toNat * t.sectorSize :=
      Nat.mul_le_mul_right _ hlt
    have h5 : (K + 1) * t.sectorSize = K * t.sectorSize + t.sectorSize := by ring
    omega
  subst hKn
  rw [if_neg hnA, List.nil_append, payloads_whole t _ _ hfit 0 _
    (by rw [Nat.zero_add]; exact hwn)] at hout
  have hsp : s'.out = sectorPayloads t.fdSrcFile t.startOfs.toNat t.sectorSize t.predata 2048
      t.totalSectors.toNat := by
    rw [hout, hd]
    unfold sectorPayloads
    simp only [Nat.zero_add]
  exact ⟨s', h1, hsp, by rw [hsp, sectorPayloads_length]⟩

theorem payloads_length (t : Track) (f : SrcFile) (o j m : Nat) :
    (payloads t f o j m).length = m * datasize t := by
  induction m generalizing j with
  | zero => simp [payloads]
  | succ m ih =>
    rw [payloads, List.length_append, ih]
    unfold payloadOf
    rw [List.length_map, List.length_range]
    ring

theorem wavHeaderSpec_length (d : Nat) : (wavHeaderSpec d).length = 44 := by
  simp [wavHeaderSpec, leBytes, bytes]

/-! ## Lemmas on the splitting loop -/

theorem statsLoop_congr (lim : Nat) (buf1 buf2 : Nat → Nat) (bound : Nat)
    (h : ∀ i, i < bound → buf1 i = buf2 i) (n i r c : Nat) (hi : i + 2 * n ≤ bound) :
    statsLoop lim buf1 n i r c = statsLoop lim buf2 n i r c := by
  induction n generalizing i r c with
  | zero => rfl
  | succ n ih =>
    rw [statsLoop, statsLoop, h i (by omega), h (i + 1) (by omega)]
    exact ih _ _ _ (by omega)

theorem sectorStats_congr (lim : Nat) (buf1 buf2 : Nat → Nat)
    (h : ∀ i, i < SIZERAW → buf1 i = buf2 i) : sectorStats lim buf1 = sectorStats lim buf2 := by
  unfold sectorStats
  rw [statsLoop_congr lim buf1 buf2 SIZERAW h _ _ _ _ (by decide)]

theorem sampleSquared_lt (lo hi : Nat) : sampleSquared lo hi < 4294967296 := by
  unfold sampleSquared
  have h1 := wrapU32_lt (wrapI16 (((lo % 256) ||| ((hi % 256) <<< 8) : Nat) : Int) *
    wrapI16 (((lo % 256) ||| ((hi % 256) <<< 8) : Nat) : Int))
  have h2 := wrapU32_nonneg (wrapI16 (((lo % 256) ||| ((hi % 256) <<< 8) : Nat) : Int) *
    wrapI16 (((lo % 256) ||| ((hi % 256) <<< 8) : Nat) : Int))
  dsimp only
  omega

theorem statsLoop_sum_le (lim : Nat) (buf : Nat → Nat) (n i r c : Nat) :
    (statsLoop lim buf n i r c).1 ≤ r + n * 4294967295 := by
  induction n generalizing i r c with
  | zero => simp [statsLoop]
  | succ n ih =>
    rw [statsLoop]
    have h1 := sampleSquared_lt (buf i) (buf (i + 1))
    have h2 := ih (i + 2) ((r + sampleSquared (buf i) (buf (i + 1))) % 18446744073709551616)
      (if sampleSquared (buf i) (buf (i + 1)) > lim then (c + 1) % 4294967296 else c)
    have h3 : (r + sampleSquared (buf i) (buf (i + 1))) % 18446744073709551616 ≤
        r + sampleSquared (buf i) (buf (i + 1)) := Nat.mod_le _ _
    have h4 : (n + 1) * 4294967295 = n * 4294967295 + 4294967295 := by ring
    omega

/-- The volume value of a sector fits the `uint32_t` variable `lowestRMS`. -/
theorem volume_lt (opts : CommandlineOptions) (f : SrcFile) (o ss k : Nat) :
    volume opts f o ss k < 4294967296 := by
  unfold volume sectorStats
  have h := statsLoop_sum_le (limitSquared opts) (sectorBuf f o ss k) (SIZERAW / 2) 0 0 0
  have e : SIZERAW / 2 = 1176 := by decide
  rw [e] at h ⊢
  simp only [SIZERAW]
  omega

theorem splitNext_loud {opts : CommandlineOptions} {f : SrcFile} {o ss k : Nat}
    (h : isLoud opts f o ss k) (modetxt : List Nat) (st : SplitState) :
    splitNext opts modetxt (volume opts f o ss k) (sampleHits opts f o ss k) st =
      { loudNext opts modetxt st with
        sector := ((loudNext opts modetxt st).sector + 1) % 4294967296 } := by
  have h' : volume opts f o ss k > limitSquared opts ∧ sampleHits opts f o ss k > 120 := h
  unfold splitNext
  dsimp only
  rw [if_pos h']

theorem splitNext_quiet {opts : CommandlineOptions} {f : SrcFile} {o ss k : Nat}
    (h : ¬ isLoud opts f o ss k) (modetxt : List Nat) (st : SplitState) :
    splitNext opts modetxt (volume opts f o ss k) (sampleHits opts f o ss k) st =
      { quietStep (volume opts f o ss k) st with
        sector := ((quietStep (volume opts f o ss k) st).sector + 1) % 4294967296 } := by
  have h' : ¬ (volume opts f o ss k > limitSquared opts ∧ sampleHits opts f o ss k > 120) := h
  unfold splitNext
  dsimp only
  rw [if_neg h']

/-- Loud sectors outside a gap only advance the sector counter. -/
theorem splitFold_loud (opts : CommandlineOptions) (modetxt : List Nat) (f : SrcFile)
    (o ss : Nat) (m j : Nat) (st : SplitState)
    (hl : ∀ k, j ≤ k → k < j + m → isLoud opts f o ss k) (hg : st.gapsectors = 0)
    (hsec : st.sector + m < 4294967296) :
    splitFold opts modetxt f o ss j m st = { st with sector := st.sector + m } := by
  induction m generalizing j st with
  | zero => rfl
  | succ m ih =>
    have hstep : splitNext opts modetxt (volume opts f o ss j) (sampleHits opts f o ss j) st =
        { st with sector := st.sector + 1 } := by
      rw [splitNext_loud (hl j (Nat.le_refl _) (by omega))]
      unfold loudNext
      rw [if_pos hg, Nat.mod_eq_of_lt (by omega)]
    rw [splitFold, hstep, ih (j + 1) { st with sector := st.sector + 1 }
      (fun k h1 h2 => hl k (by omega) (by omega)) hg (by show st.sector + 1 + m < _; omega)]
    show { st with sector := st.sector + 1 + m } = _
    rw [Nat.add_assoc, Nat.add_comm 1 m]

/-- The first sector of a gap. -/
theorem quiet_first {opts : CommandlineOptions} {f : SrcFile} {o ss a : Nat}
    (hq : ¬ isLoud opts f o ss a) (modetxt : List Nat) (st : SplitState)
    (hg : st.gapsectors = 0) (hsec : st.sector + 1 < 4294967296) :
    GapInv opts f o ss a st.sector st.cue st.track 1 0 0
      (splitNext opts modetxt (volume opts f o ss a) (sampleHits opts f o ss a) st) := by
  have hv := volume_lt opts f o ss a
  rw [splitNext_quiet hq]
  unfold quietStep
  rw [if_neg (by rw [hg]; simp)]
  refine ⟨?_, ?_, rfl, rfl, Nat.le_refl _, by omega, rfl, rfl, ?_, rfl, ?_, ?_, ?_⟩
  · show (st.gapsectors + 1) % 4294967296 = 1
    rw [hg]
  · show (st.sector + 1) % 4294967296 = st.sector + 1
    exact Nat.mod_eq_of_lt hsec
  · show volume opts f o ss a % 4294967296 = volume opts f o ss (a + 0)
    rw [Nat.mod_eq_of_lt hv, Nat.add_zero]
  · intro j hj
    have : j = 0 := by omega
    subst this
    exact Nat.le_refl _
  · intro j hj
    omega
  · intro j h1 h2
    omega

/-- A further sector of a gap. -/
theorem quiet_next {opts : CommandlineOptions} {f : SrcFile} {o ss a S : Nat}
    {c0 : List Nat} {t0 : Int} {m j0 j1 : Nat} {st : SplitState}
    (hinv : GapInv opts f o ss a S c0 t0 m j0 j1 st)
    (hq : ¬ isLoud opts f o ss (a + m)) (modetxt : List Nat)
    (hsec : S + m + 1 < 4294967296) :
    ∃ j0' j1', GapInv opts f o ss a S c0 t0 (m + 1) j0' j1'
      (splitNext opts modetxt (volume opts f o ss (a + m)) (sampleHits opts f o ss (a + m))
        st) := by
  have hv := volume_lt opts f o ss (a + m)
  have hm : 0 < m := Nat.lt_of_le_of_lt (Nat.zero_le _) hinv.lt
  have hgap : (st.gapsectors + 1) % 4294967296 = m + 1 := by
    rw [hinv.gap]
    exact Nat.mod_eq_of_lt (by omega)
  have hsector : (st.sector + 1) % 4294967296 = S + (m + 1) := by
    rw [hinv.sector]
    exact Nat.mod_eq_of_lt (by omega)
  have hle01 := hinv.le
  have hlt1 := hinv.lt
  rw [splitNext_quiet hq]
  unfold quietStep
  rw [if_pos (by rw [hinv.gap]; omega)]
  by_cases hle : volume opts f o ss (a + m) ≤ st.lowestRMS
  · rw [if_pos hle]
    by_cases hne : volume opts f o ss (a + m) ≠ st.lowestRMS
    · rw [if_pos hne]
      have hlt : volume opts f o ss (a + m) < volume opts f o ss (a + j0) := by
        rw [← hinv.low]
        omega
      refine ⟨m, m, hgap, hsector, hinv.cue, hinv.track, Nat.le_refl _, by omega, ?_, ?_,
        ?_, rfl, ?_, ?_, ?_⟩
      · show st.sector = S + m
        exact hinv.sector
      · show st.sector = S + m
        exact hinv.sector
      · show volume opts f o ss (a + m) % 4294967296 = _
        exact Nat.mod_eq_of_lt hv
      · intro j hj
        rcases Nat.lt_or_ge j m with h | h
        · exact Nat.le_trans (Nat.le_of_lt hlt) (hinv.least j h)
        · have : j = m := by omega
          subst this
          exact Nat.le_refl _
      · intro j hj
        exact Nat.lt_of_lt_of_le hlt (hinv.least j hj)
      · intro j h1 h2
        omega
    · rw [if_neg hne]
      have heq : volume opts f o ss (a + m) = volume opts f o ss (a + j0) := by
        rw [← hinv.low]
        exact not_not.mp hne
      refine ⟨j0, m, hgap, hsector, hinv.cue, hinv.track, by omega, by omega, hinv.s0, ?_,
        hinv.low, heq, ?_, hinv.first, ?_⟩
      · show st.sector = S + m
        exact hinv.sector
      · intro j hj
        rcases Nat.lt_or_ge j m with h | h
        · exact hinv.least j h
        · have : j = m := by omega
          subst this
          rw [heq]
      · intro j h1 h2
        omega
  · rw [if_neg hle]
    have hgt : volume opts f o ss (a + j0) < volume opts f o ss (a + m) := by
      rw [← hinv.low]
      omega
    refine ⟨j0, j1, hgap, hsector, hinv.cue, hinv.track, hinv.le, by omega,
      hinv.s0, hinv.s1, hinv.low, hinv.same, ?_, hinv.first, ?_⟩
    · intro j hj
      rcases Nat.lt_or_ge j m with h | h
      · exact hinv.least j h
      · have : j = m := by omega
        subst this
        exact Nat.le_of_lt hgt
    · intro j h1 h2
      rcases Nat.lt_or_ge j m with h | h
      · exact hinv.last j h1 h
      · have : j = m := by omega
        subst this
        exact hgt

/-- The sectors of a gap after the first `m`: the lowest volume value is tracked. -/
theorem splitFold_gap (opts : CommandlineOptions) (modetxt : List Nat) (f : SrcFile)
    (o ss a S : Nat) (c0 : List Nat) (t0 : Int) (n m j0 j1 : Nat) (st : SplitState)
    (hinv : GapInv opts f o ss a S c0 t0 m j0 j1 st)
    (hq : ∀ k, a + m ≤ k → k < a + m + n → ¬ isLoud opts f o ss k)
    (hsec : S + m + n < 4294967296) :
    ∃ j0' j1', GapInv opts f o ss a S c0 t0 (m + n) j0' j1'
      (splitFold opts modetxt f o ss (a + m) n st) := by
  induction n generalizing m j0 j1 st with
  | zero => exact ⟨j0, j1, hinv⟩
  | succ n ih =>
    obtain ⟨j0', j1', h1⟩ := quiet_next hinv (hq (a + m) (Nat.le_refl _) (by omega)) modetxt
      (by omega)
    rw [splitFold]
    have e : a + m + 1 = a + (m + 1) := by omega
    have e2 : m + (n + 1) = m + 1 + n := by omega
    rw [e, e2]
    exact ih (m + 1) j0' j1' _ h1 (fun k h2 h3 => hq k (by omega) (by omega)) (by omega)

theorem splitFold_add (opts : CommandlineOptions) (modetxt : List Nat) (f : SrcFile)
    (o ss : Nat) (m1 m2 j : Nat) (st : SplitState) :
    splitFold opts modetxt f o ss j (m1 + m2) st =
      splitFold opts modetxt f o ss (j + m1) m2 (splitFold opts modetxt f o ss j m1 st) := by
  induction m1 generalizing j st with
  | zero => simp [splitFold]
  | succ m1 ih =>
    have e : m1 + 1 + m2 = (m1 + m2) + 1 := by omega
    rw [e, splitFold, splitFold, ih]
    have e2 : j + 1 + m1 = j + (m1 + 1) := by omega
    rw [e2]

/-- The loud sector that ends a gap of `g` sectors: a split is written when the gap has the
configured length, with the earliest and the latest sector of lowest volume. -/
theorem loud_after_gap {opts : CommandlineOptions} {f : SrcFile} {o ss a S : Nat}
    {c0 : List Nat} {t0 : Int} {g j0 j1 : Nat} {st : SplitState}
    (hinv : GapInv opts f o ss a S c0 t0 g j0 j1 st) (k : Nat) (hl : isLoud opts f o ss k)
    (modetxt : List Nat) (hsec : S + g + 1 < 4294967296)
    (ht : -2147483648 ≤ t0 + 1 ∧ t0 + 1 < 2147483648) :
    (splitNext opts modetxt (volume opts f o ss k) (sampleHits opts f o ss k) st).gapsectors
        = 0 ∧
    (splitNext opts modetxt (volume opts f o ss k) (sampleHits opts f o ss k) st).sector
        = S + g + 1 ∧
    (opts.splitGapLength ≤ g →
      (splitNext opts modetxt (volume opts f o ss k) (sampleHits opts f o ss k) st).cue =
        c0 ++ boundaryText (t0 + 1) modetxt (S + j0) (S + j1) ∧
      (splitNext opts modetxt (volume opts f o ss k) (sampleHits opts f o ss k) st).track =
        t0 + 1) ∧
    (g < opts.splitGapLength →
      (splitNext opts modetxt (volume opts f o ss k) (sampleHits opts f o ss k) st).cue = c0 ∧
      (splitNext opts modetxt (volume opts f o ss k) (sampleHits opts f o ss k) st).track =
        t0) := by
  have hg : 0 < g := Nat.lt_of_le_of_lt (Nat.zero_le _) hinv.lt
  have hw : wrapI32 (st.track + 1) = t0 + 1 := by
    rw [hinv.track]
    exact wrapI32_of_range _ ht.1 ht.2
  have hsector : (st.sector + 1) % 4294967296 = S + g + 1 := by
    rw [hinv.sector]
    exact Nat.mod_eq_of_lt hsec
  rw [splitNext_loud hl]
  unfold loudNext
  rw [if_neg (by rw [hinv.gap]; omega)]
  by_cases hge : st.gapsectors ≥ opts.splitGapLength
  · rw [if_pos hge]
    refine ⟨rfl, hsector, fun _ => ⟨?_, hw⟩, fun h => ?_⟩
    · show st.cue ++ boundaryText (wrapI32 (st.track + 1)) modetxt st.lowestRMSsector0
        st.lowestRMSsector1 = _
      rw [hw, hinv.cue, hinv.s0, hinv.s1]
    · rw [hinv.gap] at hge
      omega
  · rw [if_neg hge]
    refine ⟨rfl, hsector, fun h => ?_, fun _ => ⟨hinv.cue, hinv.track⟩⟩
    rw [hinv.gap] at hge
    omega

theorem statsLoop_const (lim : Nat) (buf : Nat → Nat) (v : Nat) (n i r c : Nat)
    (hv : ∀ p, i ≤ p → p < i + 2 * n → buf p = v)
    (hr : r + n * sampleSquared v v < 18446744073709551616) (hc : c + n < 4294967296) :
    statsLoop lim buf n i r c =
      (r + n * sampleSquared v v, if sampleSquared v v > lim then c + n else c) := by
  induction n generalizing i r c with
  | zero => simp [statsLoop]
  | succ n ih =>
    have e : (n + 1) * sampleSquared v v = n * sampleSquared v v + sampleSquared v v := by
      ring
    rw [e] at hr ⊢
    rw [statsLoop, hv i (Nat.le_refl _) (by omega), hv (i + 1) (by omega) (by omega)]
    rw [Nat.mod_eq_of_lt (by omega)]
    by_cases hq : sampleSquared v v > lim
    · rw [if_pos hq, Nat.mod_eq_of_lt (by omega),
        ih (i + 2) _ _ (fun p h1 h2 => hv p (by omega) (by omega)) (by omega) (by omega),
        if_pos hq, if_pos hq]
      have e1 : r + sampleSquared v v + n * sampleSquared v v =
          r + (n * sampleSquared v v + sampleSquared v v) := by ring
      have e2 : c + 1 + n = c + (n + 1) := by ring
      rw [e1, e2]
    · rw [if_neg hq,
        ih (i + 2) _ _ (fun p h1 h2 => hv p (by omega) (by omega)) (by omega) (by omega),
        if_neg hq, if_neg hq]
      have e1 : r + sampleSquared v v + n * sampleSquared v v =
          r + (n * sampleSquared v v + sampleSquared v v) := by ring
      rw [e1]

/-- The statistics of a sector whose first 2352 bytes all have the value `v`. -/
theorem sectorStats_const (lim : Nat) (buf : Nat → Nat) (v : Nat)
    (hv : ∀ p, p < 2352 → buf p = v) :
    sectorStats lim buf =
      (1176 * sampleSquared v v / 2352, if sampleSquared v v > lim then 1176 else 0) := by
  have h := sampleSquared_lt v v
  have e : SIZERAW / 2 = 1176 := by decide
  unfold sectorStats
  rw [e, statsLoop_const lim buf v 1176 0 0 0 (fun p _ h2 => hv p (by omega)) (by omega)
    (by omega)]
  simp only [SIZERAW, Nat.zero_add]

theorem sampleSquared_127 : sampleSquared 127 127 = 1065304321 := by decide

theorem sampleSquared_0 : sampleSquared 0 0 = 0 := by decide

theorem limitSquared_default : limitSquared defaultOptions = 6400 := by decide

/-- A sector of bytes 127 is loud for the default limit. -/
theorem isLoud_127 (f : SrcFile) (o ss k : Nat)
    (hv : ∀ p, p < 2352 → recByte f o ss k p = 127) : isLoud defaultOptions f o ss k := by
  unfold isLoud volume sampleHits
  rw [sectorStats_const _ (sectorBuf f o ss k) 127 hv, sampleSquared_127,
    limitSquared_default]
  decide

/-- A sector of zero bytes has volume value 0 and is not loud. -/
theorem volume_0 (opts : CommandlineOptions) (f : SrcFile) (o ss k : Nat)
    (hv : ∀ p, p < 2352 → recByte f o ss k p = 0) :
    volume opts f o ss k = 0 ∧ ¬ isLoud opts f o ss k := by
  have e : volume opts f o ss k = 0 := by
    unfold volume
    rw [sectorStats_const _ (sectorBuf f o ss k) 0 hv, sampleSquared_0]
  refine ⟨e, fun h => ?_⟩
  have h' : volume opts f o ss k > limitSquared opts := h.1
  omega

/-- Non-loud sectors write nothing: they only count the gap, modulo `2^32`. -/
theorem splitFold_quiet_frame (opts : CommandlineOptions) (modetxt : List Nat) (f : SrcFile)
    (o ss : Nat) (m j : Nat) (st : SplitState)
    (hq : ∀ k, j ≤ k → k < j + m → ¬ isLoud opts f o ss k)
    (hg : st.gapsectors < 4294967296) :
    (splitFold opts modetxt f o ss j m st).cue = st.cue ∧
    (splitFold opts modetxt f o ss j m st).track = st.track ∧
    (splitFold opts modetxt f o ss j m st).gapsectors =
      (st.gapsectors + m) % 4294967296 := by
  induction m generalizing j st with
  | zero =>
    refine ⟨rfl, rfl, ?_⟩
    show st.gapsectors = _
    omega
  | succ m ih =>
    rw [splitFold]
    have hs : (splitNext opts modetxt (volume opts f o ss j) (sampleHits opts f o ss j)
          st).cue = st.cue ∧
        (splitNext opts modetxt (volume opts f o ss j) (sampleHits opts f o ss j)
          st).track = st.track ∧
        (splitNext opts modetxt (volume opts f o ss j) (sampleHits opts f o ss j)
          st).gapsectors = (st.gapsectors + 1) % 4294967296 := by
      rw [splitNext_quiet (hq j (Nat.le_refl _) (by omega))]
      unfold quietStep
      split_ifs <;> exact ⟨rfl, rfl, rfl⟩
    obtain ⟨h1, h2, h3⟩ := ih (j + 1)
      (splitNext opts modetxt (volume opts f o ss j) (sampleHits opts f o ss j) st)
      (fun k a b => hq k (by omega) (by omega)) (by rw [hs.2.2]; omega)
    rw [h1, h2, h3, hs.1, hs.2.1, hs.2.2]
    refine ⟨rfl, rfl, ?_⟩
    omega

/-- A loud sector outside a gap writes nothing. -/
theorem splitNext_loud_nogap {opts : CommandlineOptions} {f : SrcFile} {o ss k : Nat}
    (h : isLoud opts f o ss k) (modetxt : List Nat) (st : SplitState)
    (hg : st.gapsectors = 0) :
    (splitNext opts modetxt (volume opts f o ss k) (sampleHits opts f o ss k) st).cue
        = st.cue ∧
    (splitNext opts modetxt (volume opts f o ss k) (sampleHits opts f o ss k) st).track
        = st.track := by
  rw [splitNext_loud h]
  unfold loudNext
  rw [if_pos hg]
  exact ⟨rfl, rfl⟩

theorem sampleSquared_eq (lo hi : Nat) :
    sampleSquared lo hi = (sample16 lo hi ^ 2).toNat := by
  have hl : lo % 256 < 2 ^ 8 := Nat.mod_lt _ (by decide)
  have hh : hi % 256 < 256 := Nat.mod_lt _ (by decide)
  have hor : (lo % 256) ||| ((hi % 256) <<< 8) = lo % 256 + 256 * (hi % 256) := by
    rw [Nat.shiftLeft_eq, Nat.lor_comm, Nat.mul_comm, ← Nat.mul_add_lt_is_or hl, Nat.add_comm]
  unfold sampleSquared sample16
  dsimp only
  rw [hor]
  have hu : lo % 256 + 256 * (hi % 256) < 65536 := by omega
  generalize lo % 256 + 256 * (hi % 256) = u at hu ⊢
  by_cases h : u < 32768
  · rw [if_pos h]
    have e : wrapI16 (u : Int) = u := by unfold wrapI16; omega
    rw [e]
    have hb : (u : Int) * u < 4294967296 := by nlinarith
    have hn : (0 : Int) ≤ (u : Int) * u := mul_self_nonneg _
    rw [wrapU32_of_range _ hn hb, sq]
  · rw [if_neg h]
    have e : wrapI16 (u : Int) = (u : Int) - 65536 := by unfold wrapI16; omega
    rw [e]
    have hb : ((u : Int) - 65536) * ((u : Int) - 65536) < 4294967296 := by nlinarith
    have hn : (0 : Int) ≤ ((u : Int) - 65536) * ((u : Int) - 65536) := mul_self_nonneg _
    rw [wrapU32_of_range _ hn hb, sq]

theorem squareAt_le (buffer : Nat → Nat) (k : Nat) : squareAt buffer k ≤ 1073741824 := by
  unfold squareAt sample16
  have hu : buffer (2 * k) % 256 + 256 * (buffer (2 * k + 1) % 256) < 65536 := by omega
  generalize buffer (2 * k) % 256 + 256 * (buffer (2 * k + 1) % 256) = u at hu ⊢
  by_cases h : u < 32768
  · rw [if_pos h]
    have hb : ((u : Int)) ^ 2 ≤ 1073741824 := by nlinarith
    omega
  · rw [if_neg h]
    have h1 : (u : Int) < 65536 := by omega
    have hb : ((u : Int) - 65536) ^ 2 ≤ 1073741824 := by nlinarith
    omega

theorem statsLoop_sums (lim : Nat) (buf : Nat → Nat) (n k0 r c : Nat)
    (hr : r + n * 1073741824 < 18446744073709551616) (hc : c + n < 4294967296) :
    statsLoop lim buf n (2 * k0) r c =
      (r + ((List.range n).map (fun j => squareAt buf (k0 + j))).sum,
       c + (List.range n).countP (fun j => decide (squareAt buf (k0 + j) > lim))) := by
  induction n generalizing k0 r c with
  | zero => simp [statsLoop]
  | succ n ih =>
    have hsq : sampleSquared (buf (2 * k0)) (buf (2 * k0 + 1)) = squareAt buf k0 := by
      rw [sampleSquared_eq]
      rfl
    have hle := squareAt_le buf k0
    have e2 : 2 * k0 + 2 = 2 * (k0 + 1) := by ring
    have hshift : ∀ j, k0 + 1 + j = k0 + (j + 1) := fun j => by omega
    rw [statsLoop, hsq]
    rw [Nat.mod_eq_of_lt (by omega), e2, ih (k0 + 1) _ _ (by omega)
      (by split_ifs <;> omega), List.range_succ_eq_map, List.map_cons, List.sum_cons,
      List.countP_cons, List.map_map, List.countP_map]
    simp only [Function.comp_def, hshift, Nat.add_zero]
    by_cases hq : squareAt buf k0 > lim
    · rw [if_pos hq, Nat.mod_eq_of_lt (by omega)]
      simp only [hq, decide_True, if_true]
      refine Prod.ext ?_ ?_
      · simp only [Nat.succ_eq_add_one]; omega
      · simp only [Nat.succ_eq_add_one]; omega
    · rw [if_neg hq]
      simp only [hq, decide_False]
      refine Prod.ext ?_ ?_
      · simp only [Nat.succ_eq_add_one]; omega
      · simp only [Nat.succ_eq_add_one]
        simp

theorem statsLoop_whole (lim : Nat) (buf : Nat → Nat) :
    statsLoop lim buf 1176 0 0 0 = (sumSquares buf, hitCount lim buf) := by
  have h := statsLoop_sums lim buf 1176 0 0 0 (by decide) (by decide)
  simp only [Nat.mul_zero, Nat.zero_add] at h
  exact h

theorem limitSquared_eq (opts : CommandlineOptions) :
    limitSquared opts = (opts.splitRmsLimit * opts.splitRmsLimit) % 4294967296 := by
  unfold limitSquared wrapU32 wrapI32
  have h : ((opts.splitRmsLimit : Int) * opts.splitRmsLimit) =
      ((opts.splitRmsLimit * opts.splitRmsLimit : Nat) : Int) := by push_cast; rfl
  rw [h]
  generalize opts.splitRmsLimit * opts.splitRmsLimit = x
  omega

theorem readRecords_spec (ss o : Nat) (h0 : 0 < ss) (hle : ss ≤ INBUF_SIZE) (k j b : Nat)
    (s : IOState) (hinv : RecInv ss o j b s)
    (hex : ∀ i, i < k → o + (j + i) * ss < s.bin.file.size) :
    ∃ s' b', readRecords ss k s =
        .ok ((List.range k).map (fun i =>
          (List.range ss).map (fun q => recByte s.bin.file o ss (j + i) q)), s') ∧
      RecInv ss o (j + k) b' s' ∧ s'.bin.file = s.bin.file := by
  induction k generalizing j b s with
  | zero => exact ⟨s, b, rfl, hinv, rfl⟩
  | succ k ih =>
    obtain ⟨ptr, s1, b1, hread, hinv1, hbytes, -, hfile, -⟩ :=
      BufferedFRead_some hinv h0 hle (by simpa using hex 0 (Nat.succ_pos _))
    have hex1 : ∀ i, i < k → o + (j + 1 + i) * ss < s1.bin.file.size := by
      intro i hi
      have h := hex (i + 1) (by omega)
      have e : j + 1 + i = j + (i + 1) := by omega
      rw [hfile, e]
      exact h
    obtain ⟨s2, b2, hrest, hinv2, hfile2⟩ := ih (j + 1) b1 s1 hinv1 hex1
    have e : j + 1 + k = j + (k + 1) := by omega
    refine ⟨s2, b2, ?_, e ▸ hinv2, hfile2.trans hfile⟩
    have hrec : (List.range ss).map (fun q => s1.inBuf (ptr + q)) =
        (List.range ss).map (fun q => recByte s.bin.file o ss j q) :=
      List.map_congr_left (fun q hq => hbytes q (List.mem_range.1 hq))
    rw [readRecords, hread]
    dsimp only
    rw [hrest, hrec, List.range_succ_eq_map, List.map_cons, List.map_map, hfile]
    have hshift : ∀ i, j + 1 + i = j + (i + 1) := fun i => by omega
    simp only [Function.comp_def, hshift, Nat.add_zero, Nat.succ_eq_add_one]

theorem flatten_records (g : Nat → Nat) (r n : Nat) :
    ((List.range n).map (fun k => (List.range r).map (fun q => g (k * r + q)))).flatten =
      (List.range (n * r)).map g := by
  induction n with
  | zero => simp
  | succ n ih =>
    have e : (n + 1) * r = n * r + r := by ring
    rw [List.range_succ, List.map_append, List.flatten_append, ih, e, List.range_add,
      List.map_append, List.map_map]
    simp [Function.comp_def]

/-- The `TRACK` branch on a line with a track number and a datatype text `dt`: an error
when the text begins with none of the seven names, a track of the mode named otherwise. -/
theorem trackLine_parse (fs : FileSys) (st : CueState) (pre : List Nat) (a : Nat)
    (digits : List Nat) (c b : Nat) (dt : List Nat) (fd : SrcFile)
    (hpre : ∀ x ∈ pre, x = 32 ∨ x = 10 ∨ x = 13)
    (hdig : ∀ x ∈ digits, 48 ≤ x ∧ x ≤ 57) (hne : digits ≠ [])
    (hc0 : c ≠ 0) (hc : ¬ (48 ≤ c ∧ c ≤ 57)) (hdt : dt.head? ≠ some 32)
    (hn : st.nTracks < MAXIMUM_TRACK_NUMBERS) (haf : st.activefile ≠ [])
    (hfd : fs st.activefile = some fd)
    (hlen : (cutExt st.activefile).length + digits.length + 5 < 264) :
    (¬ listedPrefix (cstr dt) →
      ParseCueLine fs (trackLine pre a digits c b dt) st = .error .unknownMode) ∧
    (listedPrefix (cstr dt) →
      ∃ st' m, ParseCueLine fs (trackLine pre a digits c b dt) st = .ok st' ∧
        st'.nTracks = st.nTracks + 1 ∧ st'.track = some st.nTracks ∧
        (st'.tracks st.nTracks).mode = m ∧ modeMatches m (cstr dt)) := by
  have hfront : ∀ x ∈ List.replicate a 32 ++ digits ++ [c] ++ List.replicate b 32, x ≠ 0 := by
    intro x hx
    simp only [List.mem_append, List.mem_replicate, List.mem_singleton] at hx
    rcases hx with ((h | h) | h) | h
    · omega
    · have := hdig x h; omega
    · omega
    · omega
  have hline : ParseCueLine fs (trackLine pre a digits c b dt) st =
      parseTrack fs (List.replicate a 32 ++ (digits ++ c :: (List.replicate b 32 ++ cstr dt)))
        st := by
    have e : trackLine pre a digits c b dt = pre ++ bytes "TRACK " ++
        (List.replicate a 32 ++ digits ++ [c] ++ List.replicate b 32 ++ dt) := by
      simp [trackLine, List.append_assoc]
    rw [e, ParseCueLine_TRACK fs st pre _ hpre, cstr_append _ _ hfront]
    simp [List.append_assoc]
  rw [hline, parseTrack_shape fs st a digits c b (cstr dt) fd hdig hne hc (cstr_head dt hdt)
    hn haf hfd]
  constructor
  · intro hnl
    rw [(parseMode_none_iff _).2 hnl]
  · intro hl
    cases hm : parseMode (cstr dt) with
    | none => exact absurd hl ((parseMode_none_iff _).1 hm)
    | some m =>
      have hname : ¬ (trackName (applyMode (newTrack (st.tracks st.nTracks) fd st.activefile
          (readNum (digits ++ c :: (List.replicate b 32 ++ cstr dt)) 0).1 m) (cstr dt))
          digits).length ≥ 264 := by
        unfold trackName
        rw [applyMode_sSrcFileName]
        have e1 : (bytes "-").length = 1 := rfl
        have e2 : (bytes ".wav").length = 4 := rfl
        have e3 : (bytes ".iso").length = 4 := rfl
        simp only [newTrack, List.length_append, e1]
        split_ifs <;> simp only [e2, e3] <;> omega
      dsimp only
      rw [if_neg hname]
      refine ⟨_, m, rfl, rfl, rfl, ?_, parseMode_matches hm⟩
      show (setTrack _ _ _ _).mode = m
      rw [setTrack_same]
      show (applyMode _ _).mode = m
      rw [applyMode_mode]
      rfl

theorem takeRecord_error {ss : Nat} {s : IOState} {e : Err}
    (h : takeRecord ss s = .error e) : e = .undefinedResult := by
  unfold takeRecord at h
  dsimp only at h
  split_ifs at h
  · cases h; rfl

theorem BufferedFRead_error {ss : Nat} {s : IOState} {e : Err}
    (h : BufferedFRead ss s = .error e) : e = .undefinedResult := by
  unfold BufferedFRead at h
  dsimp only at h
  split_ifs at h
  · cases h; rfl
  · exact takeRecord_error h
  · exact takeRecord_error h

theorem BufferedFWrite_error {src size : Nat} {s : IOState} {e : Err}
    (h : BufferedFWrite false src size s = .error e) :
    e = .fwriteFailed ∨ e = .undefinedResult := by
  unfold BufferedFWrite at h
  by_cases hfull : s.outBuf.length + size > OUTBUF_SIZE
  · rw [if_pos hfull] at h
    unfold flushFull at h
    by_cases hem : s.outBuf = []
    · rw [if_pos hem] at h
      cases h
      exact Or.inl rfl
    · rw [if_neg hem] at h
      simp only [Bool.false_eq_true, if_false] at h
      split_ifs at h
      cases h
      exact Or.inr rfl
  · rw [if_neg hfull] at h
    dsimp only at h
    split_ifs at h
    cases h
    exact Or.inr rfl

theorem copyLoop_error (t : Track) (n : Nat) (s : IOState) (e : Err)
    (h : copyLoop t n s = .error e) : e = .fwriteFailed ∨ e = .undefinedResult := by
  induction n generalizing s with
  | zero => cases h
  | succ n ih =>
    rw [copyLoop] at h
    cases hr : BufferedFRead t.sectorSize s with
    | error e' =>
      rw [hr] at h
      cases h
      exact Or.inr (BufferedFRead_error hr)
    | ok p =>
      obtain ⟨o, s1⟩ := p
      rw [hr] at h
      cases o with
      | none => cases h
      | some buffer =>
        dsimp only at h
        cases hw : BufferedFWrite false (buffer + t.predata) (datasize t) s1 with
        | error e' =>
          rw [hw] at h
          cases h
          exact BufferedFWrite_error hw
        | ok s2 =>
          rw [hw] at h
          exact ih s2 h

/-- The only way `DoTrack` ends with "Unexpected mode!" is its mode dispatch, which knows
seven modes. -/
theorem DoTrack_unexpected_iff (t : Track) (s : IOState) :
    DoTrack t s = .error .unexpectedMode ↔
      ¬ (t.mode = MODE_AUDIO ∨ t.mode = MODE_AUDIOSUB ∨ t.mode = MODE1_2352 ∨
        t.mode = MODE1_2048 ∨ t.mode = MODE1_2448 ∨ t.mode = MODE2_2352 ∨
        t.mode = MODE2_2336) := by
  constructor
  · intro h hm
    unfold DoTrack at h
    rw [if_neg (not_not.mpr hm)] at h
    dsimp only at h
    by_cases hofs : t.startOfs < 0
    · rw [if_pos hofs] at h
      cases h
    · rw [if_neg hofs] at h
      split at h
      · rename_i e he
        cases h
        rcases copyLoop_error _ _ _ _ he with h' | h' <;> cases h'
      · unfold FlushBuffers at h
        cases h
  · intro hm
    unfold DoTrack
    rw [if_pos hm]

theorem normalise_error (r i : Nat) (tbl : Table) (e : Err)
    (h : normalise r i tbl = .error e) : e = .index0AfterIndex1 := by
  induction r generalizing i tbl with
  | zero => cases h
  | succ r ih =>
    rw [normalise] at h
    split_ifs at h
    · cases h; rfl
    · exact ih _ _ h

theorem keepPregap_false {opts : CommandlineOptions} {t : Track}
    (h : keepPregap opts t = .ok false) : opts.noGaps = true ∨ opts.autoGaps = true := by
  by_contra hc
  have h1 : opts.autoGaps = false ∨ opts.noGaps = true := by
    cases ha : opts.autoGaps
    · exact Or.inl rfl
    · exact absurd (Or.inr ha) hc
  have h2 : opts.noGaps = false := by
    cases hg : opts.noGaps
    · rfl
    · exact absurd (Or.inl hg) hc
  rw [keepPregap_noauto h1, h2] at h
  cases h

/-- The first half of a round when no 32-bit product wraps: the start offset of the track is
the running offset it leaves, which lies `idx1 - idx0` sectors after the one it found, for
the `idx1` it leaves in the track. -/
theorem pregapStep_offset {opts : CommandlineOptions} {i : Nat} {tbl tbl' : Table}
    {ofs ofs' : Int} (h : pregapStep opts i tbl ofs = .ok (tbl', ofs')) (S : Nat)
    (hS : (tbl i).sectorSize = S) (h0 : 0 ≤ (tbl i).idx0) (h01 : (tbl i).idx0 ≤ (tbl i).idx1)
    (h1 : (tbl i).idx1 ≤ 755040) (hb : (tbl i).idx1 * S < 4294967296) :
    (tbl' i).startOfs = ofs' ∧ ofs' = ofs + ((tbl' i).idx1 - (tbl i).idx0) * S ∧
    ((opts.noGaps = true ∨ opts.allPostGaps = true) → (tbl' i).idx1 = (tbl i).idx1) ∧
    (opts.noGaps = false → opts.allPostGaps = false → opts.autoGaps = false →
      (tbl' i).idx1 = (tbl i).idx0) := by
  have hw : wrapU32 ((tbl i).idx1 - (tbl i).idx0) = (tbl i).idx1 - (tbl i).idx0 :=
    wrapU32_of_range _ (by omega) (by omega)
  have hm0 : 0 ≤ (tbl i).idx0 * (S : Int) := Int.mul_nonneg h0 (Int.ofNat_nonneg _)
  have hm1 : (tbl i).idx0 * (S : Int) ≤ (tbl i).idx1 * (S : Int) :=
    Int.mul_le_mul_of_nonneg_right h01 (Int.ofNat_nonneg _)
  have hsub : ((tbl i).idx1 - (tbl i).idx0) * (S : Int) =
      (tbl i).idx1 * (S : Int) - (tbl i).idx0 * (S : Int) := Int.sub_mul _ _ _
  have hw2 : wrapU32 (((tbl i).idx1 - (tbl i).idx0) * (S : Int)) =
      ((tbl i).idx1 - (tbl i).idx0) * (S : Int) :=
    wrapU32_of_range _ (by omega) (by omega)
  rcases pregapStep_cases h with ⟨hz, rfl, rfl⟩ | ⟨_, _, ha, rfl, rfl⟩ | ⟨_, hk, ha, rfl, rfl⟩ |
    ⟨_, hk, rfl, rfl⟩
  · rw [hw] at hz
    have e : (tbl i).idx1 = (tbl i).idx0 := by omega
    refine ⟨by simp, ?_, fun _ => by simp, fun _ _ _ => by simpa using e⟩
    rw [setStartOfs_idx1, e, Int.sub_self, Int.zero_mul, Int.add_zero]
  · refine ⟨by simp, ?_, fun _ => by simp, fun _ hp _ => ?_⟩
    · rw [setStartOfs_idx1, growPrevious_idx1, setStartOfs_idx1, hw, hS, hw2]
    · rw [hp] at ha
      cases ha
  · refine ⟨by simp, ?_, fun hor => ?_, fun _ _ _ => by simp⟩
    · rw [setIdx1_idx1, if_pos rfl, Int.sub_self, Int.zero_mul, Int.add_zero]
    · have hg := keepPregap_true hk
      rcases hor with hg' | hp
      · rw [hg] at hg'
        cases hg'
      · rw [hp] at ha
        cases ha
  · refine ⟨by simp, ?_, fun _ => by simp, fun hg _ hauto => ?_⟩
    · rw [setStartOfs_idx1, setStartOfs_idx1, hw, hS, hw2]
    · rcases keepPregap_false hk with h' | h'
      · rw [hg] at h'
        cases h'
      · rw [hauto] at h'
        cases h'

/-- A whole round for a track followed by a track of the same file, when no 32-bit product
wraps: the running offset advances from `idx0` of the track to `idx0` of the next one. -/
theorem geomStep_offset {opts : CommandlineOptions} {n i : Nat} {tbl tbl1 : Table}
    {ofs ofs1 : Int} (h : geomStep opts n i tbl ofs = .ok (tbl1, ofs1)) (S : Nat)
    (hS : (tbl i).sectorSize = S) (h0 : 0 ≤ (tbl i).idx0) (h01 : (tbl i).idx0 ≤ (tbl i).idx1)
    (h1 : (tbl i).idx1 ≤ 755040) (hb : (tbl i).idx1 * S < 4294967296) :
    (tbl1 i).startOfs = ofs + ((tbl1 i).idx1 - (tbl i).idx0) * S ∧
    ((opts.noGaps = true ∨ opts.allPostGaps = true) → (tbl1 i).idx1 = (tbl i).idx1) ∧
    (opts.noGaps = false → opts.allPostGaps = false → opts.autoGaps = false →
      (tbl1 i).idx1 = (tbl i).idx0) ∧
    (¬ (i + 1 = n ∨ (tbl i).sSrcFileName ≠ (tbl (i + 1)).sSrcFileName) →
      (tbl (i + 1)).idx0 ≤ 755040 → (tbl (i + 1)).idx0 * S < 4294967296 →
      ofs1 = ofs + ((tbl (i + 1)).idx0 - (tbl i).idx0) * S) := by
  obtain ⟨tblp, ofsp, hp, hsp⟩ := geomStep_split h
  obtain ⟨p1, p2, p3, p4⟩ := pregapStep_offset hp S hS h0 h01 h1 hb
  obtain ⟨k1, k2⟩ := spanStep_keeps hsp i
  have sp := fun j => pregapStep_sameIn hp j
  rw [k1, k2, p1]
  refine ⟨p2, p3, p4, fun hnl hn hbn => ?_⟩
  have hnl' : ¬ (i + 1 = n ∨ (tblp i).sSrcFileName ≠ (tblp (i + 1)).sSrcFileName) := by
    rw [(sp i).sSrcFileName, (sp (i + 1)).sSrcFileName]
    exact hnl
  have hidx : (tblp i).idx1 = (tbl i).idx1 ∨ (tblp i).idx1 = (tbl i).idx0 := by
    rcases pregapStep_cases hp with ⟨_, rfl, rfl⟩ | ⟨_, _, _, rfl, rfl⟩ | ⟨_, _, _, rfl, rfl⟩ |
      ⟨_, _, rfl, rfl⟩ <;> simp
  rcases spanStep_cases hsp with ⟨hl, _⟩ | ⟨_, hle, rfl, _⟩
  · exact absurd hl hnl'
  · rw [(sp (i + 1)).idx0] at hle ⊢
    rw [(sp i).sectorSize, hS]
    have hr0 : 0 ≤ (tbl (i + 1)).idx0 - (tblp i).idx1 := by omega
    have hr1 : 0 ≤ (tblp i).idx1 := by rcases hidx with e | e <;> omega
    rw [wrapI32_of_range _ (by omega) (by omega)]
    have hm0 : 0 ≤ (tblp i).idx1 * (S : Int) := Int.mul_nonneg hr1 (Int.ofNat_nonneg _)
    have hm1 : 0 ≤ ((tbl (i + 1)).idx0 - (tblp i).idx1) * (S : Int) :=
      Int.mul_nonneg hr0 (Int.ofNat_nonneg _)
    have hsub : ((tbl (i + 1)).idx0 - (tblp i).idx1) * (S : Int) =
        (tbl (i + 1)).idx0 * (S : Int) - (tblp i).idx1 * (S : Int) := Int.sub_mul _ _ _
    rw [wrapU32_of_range _ hm1 (by omega), p2]
    ring

/-- The start offsets the geometry loop gives the tracks of one file with one sector size,
when no 32-bit product wraps: each is counted, in sectors, from `idx0` of the track the loop
started with (offset `B` sectors) to the `idx1` the loop leaves in the track. -/
theorem geomLoop_offsets {opts : CommandlineOptions} {n : Nat} (S : Nat) (B : Int) (r : Nat)
    {i : Nat} {tbl F : Table} {ofs : Int} (h : geomLoop opts n r i tbl ofs = .ok F)
    (hir : i + r = n)
    (hfile : ∀ j, i ≤ j → j + 1 < n → (tbl j).sSrcFileName = (tbl (j + 1)).sSrcFileName)
    (hgood : ∀ j, i ≤ j → j < n → (tbl j).sectorSize = S ∧ 0 ≤ (tbl j).idx0 ∧
      (tbl j).idx0 ≤ (tbl j).idx1 ∧ (tbl j).idx1 ≤ 755040 ∧ (tbl j).idx1 * S < 4294967296)
    (hofs : 0 < r → ofs = ((tbl i).idx0 - B) * S) :
    ∀ j, i ≤ j → j < n →
      (F j).startOfs = ((F j).idx1 - B) * S ∧
      ((opts.noGaps = true ∨ opts.allPostGaps = true) → (F j).idx1 = (tbl j).idx1) ∧
      (opts.noGaps = false → opts.allPostGaps = false → opts.autoGaps = false →
        (F j).idx1 = (tbl j).idx0) := by
  induction r generalizing i tbl ofs with
  | zero => intro j h1 h2; omega
  | succ r ih =>
    obtain ⟨tbl1, ofs1, hs, hl⟩ := geomLoop_succ h
    obtain ⟨g1, g2, g3, g4, g5⟩ := hgood i (Nat.le_refl _) (by omega)
    obtain ⟨s1, s2, s3, s4⟩ := geomStep_offset hs S g1 g2 g3 g4 g5
    have hofs0 := hofs (Nat.succ_pos _)
    have same := fun j => geomStep_sameIn hs j
    intro j hj1 hj2
    by_cases hji : j = i
    · subst hji
      obtain ⟨b1, b2⟩ := geomLoop_before r hl j (by omega)
      rw [b1, b2, s1, hofs0]
      exact ⟨by ring, s2, s3⟩
    · have hfile1 : ∀ k, i + 1 ≤ k → k + 1 < n →
          (tbl1 k).sSrcFileName = (tbl1 (k + 1)).sSrcFileName := by
        intro k hk1 hk2
        rw [(same k).sSrcFileName, (same (k + 1)).sSrcFileName]
        exact hfile k (by omega) hk2
      have hgood1 : ∀ k, i + 1 ≤ k → k < n → (tbl1 k).sectorSize = S ∧ 0 ≤ (tbl1 k).idx0 ∧
          (tbl1 k).idx0 ≤ (tbl1 k).idx1 ∧ (tbl1 k).idx1 ≤ 755040 ∧
          (tbl1 k).idx1 * S < 4294967296 := by
        intro k hk1 hk2
        rw [(same k).sectorSize, (same k).idx0, (geomStep_other hs k (by omega)).1]
        exact hgood k (by omega) hk2
      have hofs1 : 0 < r → ofs1 = ((tbl1 (i + 1)).idx0 - B) * S := by
        intro hr
        obtain ⟨n1, n2, n3, n4, n5⟩ := hgood (i + 1) (by omega) (by omega)
        have hnl : ¬ (i + 1 = n ∨ (tbl i).sSrcFileName ≠ (tbl (i + 1)).sSrcFileName) := by
          intro hc
          rcases hc with hc | hc
          · omega
          · exact hc (hfile i (Nat.le_refl _) (by omega))
        have hm : (tbl (i + 1)).idx0 * (S : Int) ≤ (tbl (i + 1)).idx1 * (S : Int) :=
          Int.mul_le_mul_of_nonneg_right n3 (Int.ofNat_nonneg _)
        rw [s4 hnl (by omega) (by omega), hofs0, (same (i + 1)).idx0]
        ring
      obtain ⟨r1, r2, r3⟩ := ih hl (by omega) hfile1 hgood1 hofs1 j (by omega) hj2
      rw [(geomStep_other hs j hji).1] at r2
      rw [(same j).idx0] at r3
      exact ⟨r1, r2, r3⟩

/-! ## Lemmas on `AnalyseTrack` -/

theorem timeIndexAt_eq (buffer : Nat → Nat) (ofs : Nat) :
    timeIndexAt buffer ofs = timeIndex24 buffer ofs := by
  unfold timeIndexAt timeIndex24
  have h1 : buffer (ofs + 13) % 256 < 256 := Nat.mod_lt _ (by decide)
  have h2 : buffer (ofs + 14) % 256 < 2 ^ 8 := Nat.mod_lt _ (by decide)
  generalize buffer (ofs + 12) % 256 = a at *
  generalize buffer (ofs + 13) % 256 = b at *
  generalize buffer (ofs + 14) % 256 = c at *
  have h3 : 2 ^ 8 * b + c < 2 ^ 16 := by
    have e : (2 : Nat) ^ 8 = 256 := by norm_num
    have e' : (2 : Nat) ^ 16 = 65536 := by norm_num
    rw [e] at h2 ⊢
    rw [e']
    omega
  rw [Nat.lor_assoc, Nat.shiftLeft_eq, Nat.shiftLeft_eq, Nat.mul_comm a, Nat.mul_comm b,
    ← Nat.mul_add_lt_is_or h2 b, ← Nat.mul_add_lt_is_or h3 a]
  norm_num
  omega

/-- The test of a round of the candidate loop, in the words of the statement. -/
theorem round_passes_iff (buffer : Nat → Nat) (s : Nat) :
    (¬ bytesAt buffer s 12 ≠ syncPattern ∧
      ¬ (timeIndexAt buffer s ≤ timeIndexAt buffer 0 ∨
        buffer 15 % 256 ≠ buffer (s + 15) % 256)) ↔ qualifies buffer s := by
  unfold qualifies
  rw [timeIndexAt_eq, timeIndexAt_eq]
  constructor
  · rintro ⟨h1, h2⟩
    refine ⟨not_not.mp h1, ?_, ?_⟩
    · by_contra h
      exact h2 (Or.inr h)
    · by_contra h
      exact h2 (Or.inl (by omega))
  · rintro ⟨h1, h2, h3⟩
    refine ⟨not_not.mpr h1, ?_⟩
    rintro (h | h)
    · omega
    · exact h h2

/-- What the candidate loop returns from the size `s0` on: the first size of the grid that
qualifies. -/
theorem candidateLoop_some (buffer : Nat → Nat) (fuel s0 s : Nat)
    (h : candidateLoop buffer fuel s0 = some s) :
    s0 ≤ s ∧ s < 2560 ∧ s % 4 = s0 % 4 ∧ qualifies buffer s ∧
      ∀ s', s0 ≤ s' → s' < s → s' % 4 = s0 % 4 → ¬ qualifies buffer s' := by
  induction fuel generalizing s0 with
  | zero => cases h
  | succ fuel ih =>
    rw [candidateLoop] at h
    by_cases hlt : s0 < 2560
    · rw [if_neg (not_not.mpr hlt)] at h
      by_cases hq : qualifies buffer s0
      · obtain ⟨q1, q2⟩ := (round_passes_iff buffer s0).2 hq
        rw [if_neg q1, if_neg q2] at h
        cases h
        exact ⟨Nat.le_refl _, hlt, rfl, hq, fun s' h1 h2 _ => by omega⟩
      · have hrec : candidateLoop buffer fuel (s0 + 4) = some s := by
          by_cases q1 : bytesAt buffer s0 12 ≠ syncPattern
          · rw [if_pos q1] at h
            exact h
          · rw [if_neg q1] at h
            by_cases q2 : timeIndexAt buffer s0 ≤ timeIndexAt buffer 0 ∨
                buffer 15 % 256 ≠ buffer (s0 + 15) % 256
            · rw [if_pos q2] at h
              exact h
            · exact absurd ((round_passes_iff buffer s0).1 ⟨q1, q2⟩) hq
        obtain ⟨i1, i2, i3, i4, i5⟩ := ih _ hrec
        refine ⟨by omega, i2, by omega, i4, fun s' h1 h2 h3 => ?_⟩
        by_cases e : s' = s0
        · rw [e]
          exact hq
        · exact i5 s' (by omega) h2 (by omega)
    · rw [if_pos hlt] at h
      cases h

theorem candidateLoop_none (buffer : Nat → Nat) (fuel s0 : Nat) (hfuel : 2560 < s0 + 4 * fuel)
    (h : candidateLoop buffer fuel s0 = none) :
    ∀ s', s0 ≤ s' → s' < 2560 → s' % 4 = s0 % 4 → ¬ qualifies buffer s' := by
  induction fuel generalizing s0 with
  | zero => intro s' h1 h2; omega
  | succ fuel ih =>
    rw [candidateLoop] at h
    by_cases hlt : s0 < 2560
    · rw [if_neg (not_not.mpr hlt)] at h
      by_cases hq : qualifies buffer s0
      · obtain ⟨q1, q2⟩ := (round_passes_iff buffer s0).2 hq
        rw [if_neg q1, if_neg q2] at h
        cases h
      · have hrec : candidateLoop buffer fuel (s0 + 4) = none := by
          by_cases q1 : bytesAt buffer s0 12 ≠ syncPattern
          · rw [if_pos q1] at h
            exact h
          · rw [if_neg q1] at h
            by_cases q2 : timeIndexAt buffer s0 ≤ timeIndexAt buffer 0 ∨
                buffer 15 % 256 ≠ buffer (s0 + 15) % 256
            · rw [if_pos q2] at h
              exact h
            · exact absurd ((round_passes_iff buffer s0).1 ⟨q1, q2⟩) hq
        intro s' h1 h2 h3
        by_cases e : s' = s0
        · rw [e]
          exact hq
        · exact ih _ (by omega) hrec s' (by omega) h2 (by omega)
    · intro s' h1 h2
      omega

/-- The search of `AnalyseTrack` returns the first candidate that qualifies, and nothing when
no candidate qualifies. -/
theorem candidateLoop_first (buffer : Nat → Nat) :
    (∀ s, isCandidate s → qualifies buffer s →
      (∀ s', isCandidate s' → s' < s → ¬ qualifies buffer s') →
      candidateLoop buffer 125 2064 = some s) ∧
    ((∀ s, isCandidate s → ¬ qualifies buffer s) → candidateLoop buffer 125 2064 = none) := by
  constructor
  · intro s hc hq hfirst
    cases h : candidateLoop buffer 125 2064 with
    | none =>
      exact absurd hq (candidateLoop_none buffer 125 2064 (by decide) h s hc.1 hc.2.1
        (by have := hc.2.2; omega))
    | some s2 =>
      obtain ⟨i1, i2, i3, i4, i5⟩ := candidateLoop_some buffer 125 2064 s2 h
      have hc2 : isCandidate s2 := ⟨i1, i2, by omega⟩
      have h1 : ¬ s2 < s := fun hlt => hfirst s2 hc2 hlt i4
      have h2 : ¬ s < s2 := fun hlt => i5 s hc.1 hlt (by have := hc.2.2; omega) hq
      have e : s2 = s := by omega
      rw [e]
  · intro hnone
    cases h : candidateLoop buffer 125 2064 with
    | none => rfl
    | some s2 =>
      obtain ⟨i1, i2, i3, i4, _⟩ := candidateLoop_some buffer 125 2064 s2 h
      exact absurd i4 (hnone s2 ⟨i1, i2, by omega⟩)

/-- The loop that counts sync sectors ends when the file is small enough for `isotrackbytes`
not to wrap around. -/
theorem syncRun_returns (f : SrcFile) (readpos s : Nat) (hs0 : 0 < s) (hs : s ≤ 2560)
    (hsize : f.size + 2560 ≤ 4294967296) (fuel x n : Nat)
    (hfuel : f.size ≤ readpos + x + fuel) :
    ∃ r, syncRun f readpos s (fuel + 1) x n = some r := by
  induction fuel generalizing x n with
  | zero =>
    rw [syncRun, if_pos (by omega)]
    exact ⟨_, rfl⟩
  | succ fuel ih =>
    rw [syncRun]
    by_cases h1 : readpos + x + 12 > f.size
    · rw [if_pos h1]
      exact ⟨_, rfl⟩
    · rw [if_neg h1]
      by_cases h2 : bytesAt f.byte (readpos + x) 12 ≠ syncPattern
      · rw [if_pos h2]
        exact ⟨_, rfl⟩
      · rw [if_neg h2, Nat.mod_eq_of_lt (by omega)]
        exact ih _ _ (by omega)

theorem bytesAt_12 (b : Nat → Nat) (s : Nat) :
    bytesAt b s 12 = [b (s + 0) % 256, b (s + 1) % 256, b (s + 2) % 256, b (s + 3) % 256,
      b (s + 4) % 256, b (s + 5) % 256, b (s + 6) % 256, b (s + 7) % 256, b (s + 8) % 256,
      b (s + 9) % 256, b (s + 10) % 256, b (s + 11) % 256] := rfl

theorem CheckIsoHeader_ne_zero (buffer : Nat → Nat) (ofs : Nat) :
    CheckIsoHeader buffer ofs 0 ≠ 0 ↔ isoFound buffer ofs := by
  unfold CheckIsoHeader isoFound isoAt blockCount
  by_cases h : bytesAt buffer ofs 8 = isoVolumeDescriptor
  · rw [if_pos h]
    exact ⟨fun h' => ⟨h, h'⟩, fun h' => h'.2⟩
  · rw [if_neg h]
    exact ⟨fun h' => absurd rfl h', fun h' => absurd h'.1 h⟩

/-- The alignment loop while `remaining` does not wrap around: it runs `c` rounds when the
size left after `c` sectors is the first one that is 0 or a multiple of 2352. -/
theorem alignLoop_run (s rem0 c : Nat) (hs : s < 4294967296) (hr0 : rem0 < 4294967296)
    (hc : c ≤ 147) (hrem : c * s ≤ rem0)
    (hnot : ∀ k, k < c → rem0 - k * s > 0 ∧ (rem0 - k * s) % SIZERAW ≠ 0)
    (hstop : rem0 - c * s = 0 ∨ (rem0 - c * s) % SIZERAW = 0) (d : Nat) :
    ∀ k, k + d = c → ∀ fuel, d < fuel → alignLoop s fuel (rem0 - k * s) k = (rem0 - c * s, c) := by
  induction d with
  | zero =>
    intro k hk fuel hfuel
    obtain ⟨fuel, rfl⟩ : ∃ n, fuel = n + 1 := ⟨fuel - 1, by omega⟩
    have e : k = c := by omega
    subst e
    rw [alignLoop, if_neg (by omega)]
  | succ d ih =>
    intro k hk fuel hfuel
    obtain ⟨fuel, rfl⟩ : ∃ n, fuel = n + 1 := ⟨fuel - 1, by omega⟩
    obtain ⟨n1, n2⟩ := hnot k (by omega)
    have hmul : (k + 1) * s = k * s + s := Nat.succ_mul k s
    have hle : (k + 1) * s ≤ c * s := Nat.mul_le_mul_right s (by omega)
    have hnext : (rem0 - k * s + 4294967296 - s % 4294967296) % 4294967296 =
        rem0 - (k + 1) * s := by
      rw [Nat.mod_eq_of_lt hs, hmul]
      omega
    rw [alignLoop, if_pos ⟨by omega, n1, n2⟩, hnext]
    exact ih (k + 1) (by omega) fuel (by omega)

theorem alignLoop_count (s rem0 c : Nat) (hs : s < 4294967296) (hr0 : rem0 < 4294967296)
    (hc : c ≤ 147) (hrem : c * s ≤ rem0)
    (hnot : ∀ k, k < c → rem0 - k * s > 0 ∧ (rem0 - k * s) % SIZERAW ≠ 0)
    (hstop : rem0 - c * s = 0 ∨ (rem0 - c * s) % SIZERAW = 0) :
    alignLoop s 149 rem0 0 = (rem0 - c * s, c) := by
  have h := alignLoop_run s rem0 c hs hr0 hc hrem hnot hstop c 0 (Nat.zero_add _) 149
    (by omega)
  rw [Nat.zero_mul, Nat.sub_zero] at h
  exact h

/-! ## Lemmas on what `DoTrack` leaves unchanged -/

theorem takeRecord_frame {ss : Nat} {s s' : IOState} {o : Option Nat}
    (h : takeRecord ss s = .ok (o, s')) : s'.bin = s.bin ∧ s'.writePos = s.writePos := by
  unfold takeRecord at h
  dsimp only at h
  split_ifs at h <;> cases h <;> exact ⟨rfl, rfl⟩

theorem BufferedFRead_frame {ss : Nat} {s s' : IOState} {o : Option Nat}
    (h : BufferedFRead ss s = .ok (o, s')) :
    s'.bin.file = s.bin.file ∧ s'.writePos = s.writePos := by
  unfold BufferedFRead at h
  dsimp only at h
  split_ifs at h
  · cases h
    exact ⟨rfl, rfl⟩
  · obtain ⟨h1, h2⟩ := takeRecord_frame h
    exact ⟨by rw [h1]; rfl, by rw [h2]; rfl⟩
  · obtain ⟨h1, h2⟩ := takeRecord_frame h
    exact ⟨by rw [h1], h2⟩

theorem BufferedFWrite_frame {src size : Nat} {s s' : IOState}
    (h : BufferedFWrite false src size s = .ok s') :
    s'.bin = s.bin ∧ s'.writePos = s.writePos := by
  unfold BufferedFWrite at h
  by_cases hfull : s.outBuf.length + size > OUTBUF_SIZE
  · rw [if_pos hfull] at h
    unfold flushFull at h
    by_cases hem : s.outBuf = []
    · rw [if_pos hem] at h
      cases h
    · rw [if_neg hem] at h
      simp only [Bool.false_eq_true, if_false] at h
      split_ifs at h
      cases h
      exact ⟨rfl, rfl⟩
  · rw [if_neg hfull] at h
    dsimp only at h
    split_ifs at h
    cases h
    exact ⟨rfl, rfl⟩

theorem copyLoop_frame (t : Track) (n : Nat) (s s' : IOState)
    (h : copyLoop t n s = .ok s') : s'.bin.file = s.bin.file ∧ s'.writePos = s.writePos := by
  induction n generalizing s with
  | zero => cases h; exact ⟨rfl, rfl⟩
  | succ n ih =>
    rw [copyLoop] at h
    cases hr : BufferedFRead t.sectorSize s with
    | error e =>
      rw [hr] at h
      cases h
    | ok p =>
      obtain ⟨o, s1⟩ := p
      obtain ⟨f1, f2⟩ := BufferedFRead_frame hr
      rw [hr] at h
      cases o with
      | none =>
        cases h
        exact ⟨f1, f2⟩
      | some buffer =>
        dsimp only at h
        cases hw : BufferedFWrite false (buffer + t.predata) (datasize t) s1 with
        | error e =>
          rw [hw] at h
          cases h
        | ok s2 =>
          rw [hw] at h
          obtain ⟨g1, g2⟩ := BufferedFWrite_frame hw
          obtain ⟨i1, i2⟩ := ih s2 h
          exact ⟨by rw [i1, g1, f1], by rw [i2, g2, f2]⟩

/-- `DoTrack` writes nothing into the file it reads and leaves `writePos` as it is: the
output goes to the file opened in line 380. -/
theorem DoTrack_frame (t : Track) (s s' : IOState) (h : DoTrack t s = .ok s') :
    s'.bin.file = t.fdSrcFile ∧ s'.writePos = s.writePos := by
  unfold DoTrack at h
  by_cases hm : t.mode = MODE_AUDIO ∨ t.mode = MODE_AUDIOSUB ∨ t.mode = MODE1_2352 ∨
      t.mode = MODE1_2048 ∨ t.mode = MODE1_2448 ∨ t.mode = MODE2_2352 ∨ t.mode = MODE2_2336
  · rw [if_neg (not_not.mpr hm)] at h
    dsimp only at h
    by_cases hofs : t.startOfs < 0
    · rw [if_pos hofs] at h
      cases h
    · rw [if_neg hofs] at h
      split at h
      · cases h
      · rename_i s1 h1
        obtain ⟨f1, f2⟩ := copyLoop_frame _ _ _ _ h1
        unfold FlushBuffers at h
        simp only [Bool.false_eq_true, if_false] at h
        cases h
        exact ⟨f1, f2⟩
  · rw [if_pos hm] at h
    cases h

/-! ## Lemmas on the buffer of the index texts -/

theorem fmtD_length : ∀ d, d < 26 → (fmtD d).length = if d < 10 then 1 else 2 := by
  decide

/-- The text of `TimeIndex` has 8 characters when the minute, a `uint8_t`, is below 100, and
9 characters otherwise. -/
theorem TimeIndex_length (n : Nat) :
    (TimeIndex n).length = if n % 4294967296 / 4500 % 256 < 100 then 8 else 9 := by
  have hm : n % 4294967296 / 4500 % 256 < 256 := Nat.mod_lt _ (by decide)
  show (fmtD (n % 4294967296 / 4500 % 256 / 10) ++ fmtD (n % 4294967296 / 4500 % 256 % 10)
      ++ [58] ++ fmtD (n % 4294967296 / 75 % 60 % 256 / 10)
      ++ fmtD (n % 4294967296 / 75 % 60 % 256 % 10) ++ [58]
      ++ fmtD (n % 4294967296 % 75 % 256 / 10) ++ fmtD (n % 4294967296 % 75 % 256 % 10)).length
    = _
  simp only [List.length_append, List.length_singleton]
  rw [fmtD_length _ (by omega), fmtD_length (n % 4294967296 / 4500 % 256 % 10) (by omega),
    fmtD_length (n % 4294967296 / 75 % 60 % 256 / 10) (by omega),
    fmtD_length (n % 4294967296 / 75 % 60 % 256 % 10) (by omega),
    fmtD_length (n % 4294967296 % 75 % 256 / 10) (by omega),
    fmtD_length (n % 4294967296 % 75 % 256 % 10) (by omega)]
  rw [if_pos (by omega : n % 4294967296 / 4500 % 256 % 10 < 10),
    if_pos (by omega : n % 4294967296 / 75 % 60 % 256 / 10 < 10),
    if_pos (by omega : n % 4294967296 / 75 % 60 % 256 % 10 < 10),
    if_pos (by omega : n % 4294967296 % 75 % 256 / 10 < 10),
    if_pos (by omega : n % 4294967296 % 75 % 256 % 10 < 10)]
  by_cases h : n % 4294967296 / 4500 % 256 < 100
  · rw [if_pos h, if_pos (by omega)]
  · rw [if_neg h, if_neg (by omega)]

/-- The text of `TimeIndex` fits the buffer `indextxt` exactly when the minute, a `uint8_t`,
is below 100. -/
theorem indexFits_iff (n : Nat) : indexFits n ↔ n % 4294967296 / 4500 % 256 < 100 := by
  unfold indexFits
  rw [TimeIndex_length]
  split_ifs with h
  · exact ⟨fun _ => h, fun _ => by decide⟩
  · exact ⟨fun h' => absurd h' (by decide), fun h' => absurd h' h⟩

theorem indexFits_of_lt {n : Nat} (h : n < 450000) : indexFits n := by
  rw [indexFits_iff]
  omega

theorem indexText_fits {sector : Nat} (h : indexFits sector) :
    indexText sector = .ok (TimeIndex sector) := if_pos h

theorem indexText_overrun {sector : Nat} (h : ¬ indexFits sector) :
    indexText sector = .error .tableOverflow := if_neg h

/-- A round of the splitting loop whose texts fit the buffer `indextxt`. -/
theorem splitStep_fits {opts : CommandlineOptions} {rms samplehits : Nat} {st : SplitState}
    (modetxt : List Nat) (h : stepFits opts rms samplehits st) :
    splitStep opts modetxt rms samplehits st =
      .ok (splitNext opts modetxt rms samplehits st) := by
  unfold splitStep splitNext
  by_cases hl : rms > limitSquared opts ∧ samplehits > 120
  · rw [if_pos hl, if_pos hl]
    unfold loudStep loudNext
    by_cases hg : st.gapsectors = 0
    · rw [if_pos hg, if_pos hg]
    · rw [if_neg hg, if_neg hg]
      by_cases hw : st.gapsectors ≥ opts.splitGapLength
      · obtain ⟨f0, f1⟩ := h hl hg hw
        rw [if_pos hw, if_pos hw]
        unfold splitText
        rw [indexText_fits f0, indexText_fits f1]
        rfl
      · rw [if_neg hw, if_neg hw]
  · rw [if_neg hl, if_neg hl]

/-- A round of the splitting loop that writes a text beyond the buffer `indextxt`. -/
theorem splitStep_overrun {opts : CommandlineOptions} {rms samplehits : Nat} {st : SplitState}
    (modetxt : List Nat) (h : ¬ stepFits opts rms samplehits st) :
    splitStep opts modetxt rms samplehits st = .error .tableOverflow := by
  unfold stepFits at h
  push_neg at h
  obtain ⟨hl, hg, hw, hf⟩ := h
  unfold splitStep
  rw [if_pos hl]
  unfold loudStep
  rw [if_neg hg, if_pos hw]
  unfold splitText
  by_cases f0 : indexFits st.lowestRMSsector0
  · rw [indexText_fits f0, indexText_overrun (hf f0)]
  · rw [indexText_overrun f0]

/-- The splitting loop on the `m` sectors left in the file, when every round stays inside the
buffer `indextxt`: it applies its body to the sectors in turn and ends at the end of the
file. -/
theorem splitLoop_run (opts : CommandlineOptions) (modetxt : List Nat) (ss o : Nat)
    (h1 : SIZERAW ≤ ss) (h2 : ss ≤ INBUF_SIZE) (m : Nat) (j b fuel : Nat) (s : IOState)
    (st : SplitState) (hinv : RecInv ss o j b s)
    (hin : ∀ i, i < m → o + (j + i) * ss < s.bin.file.size)
    (hend : s.bin.file.size ≤ o + (j + m) * ss) (hfuel : m < fuel)
    (hfit : ∀ i, i < m → stepFits opts (volume opts s.bin.file o ss (j + i))
      (sampleHits opts s.bin.file o ss (j + i)) (splitFold opts modetxt s.bin.file o ss j i st)) :
    ∃ s', splitLoop opts modetxt ss fuel s st =
      .ok (s', splitFold opts modetxt s.bin.file o ss j m st) := by
  have h0 : 0 < ss := by simp only [SIZERAW] at h1; omega
  induction m generalizing j b fuel s st with
  | zero =>
    obtain ⟨fuel, rfl⟩ : ∃ f', fuel = f' + 1 := ⟨fuel - 1, by omega⟩
    obtain ⟨s1, hr, _⟩ := BufferedFRead_none hinv h0 hend
    rw [splitLoop, hr]
    exact ⟨s1, rfl⟩
  | succ m ih =>
    obtain ⟨fuel, rfl⟩ : ∃ f', fuel = f' + 1 := ⟨fuel - 1, by omega⟩
    obtain ⟨ptr, s1, b1, hr, inv1, hrec, _, f1, _⟩ :=
      BufferedFRead_some hinv h0 h2 (hin 0 (by omega))
    have hstats : sectorStats (limitSquared opts) (fun i => s1.inBuf (ptr + i)) =
        sectorStats (limitSquared opts) (sectorBuf s.bin.file o ss j) := by
      apply sectorStats_congr
      intro i hi
      exact hrec i (by omega)
    have hstep : splitStep opts modetxt
        (sectorStats (limitSquared opts) (sectorBuf s.bin.file o ss j)).1
        (sectorStats (limitSquared opts) (sectorBuf s.bin.file o ss j)).2 st =
        .ok (splitNext opts modetxt (volume opts s.bin.file o ss j)
          (sampleHits opts s.bin.file o ss j) st) := splitStep_fits modetxt (hfit 0 (by omega))
    rw [splitLoop, hr]
    dsimp only
    rw [hstats, hstep]
    dsimp only
    obtain ⟨s2, h3⟩ := ih (j + 1) b1 fuel s1
      (splitNext opts modetxt (volume opts s.bin.file o ss j)
        (sampleHits opts s.bin.file o ss j) st) inv1
      (by
        intro i hi
        rw [f1]
        have := hin (i + 1) (by omega)
        rw [show j + 1 + i = j + (i + 1) by omega]
        exact this)
      (by
        rw [f1, show j + 1 + m = j + (m + 1) by omega]
        exact hend)
      (by omega)
      (by
        intro i hi
        rw [f1, show j + 1 + i = j + (i + 1) by omega]
        exact hfit (i + 1) (by omega))
    rw [h3, f1]
    exact ⟨s2, rfl⟩

/-- The splitting loop when a round writes a text beyond the buffer `indextxt`. -/
theorem splitLoop_overrun (opts : CommandlineOptions) (modetxt : List Nat) (ss o : Nat)
    (h1 : SIZERAW ≤ ss) (h2 : ss ≤ INBUF_SIZE) (m : Nat) (j b fuel : Nat) (s : IOState)
    (st : SplitState) (hinv : RecInv ss o j b s)
    (hin : ∀ i, i < m → o + (j + i) * ss < s.bin.file.size) (hfuel : m < fuel)
    (hbad : ∃ i, i < m ∧ ¬ stepFits opts (volume opts s.bin.file o ss (j + i))
      (sampleHits opts s.bin.file o ss (j + i)) (splitFold opts modetxt s.bin.file o ss j i st)) :
    splitLoop opts modetxt ss fuel s st = .error .tableOverflow := by
  have h0 : 0 < ss := by simp only [SIZERAW] at h1; omega
  induction m generalizing j b fuel s st with
  | zero =>
    obtain ⟨i, hi, -⟩ := hbad
    omega
  | succ m ih =>
    obtain ⟨fuel, rfl⟩ : ∃ f', fuel = f' + 1 := ⟨fuel - 1, by omega⟩
    obtain ⟨ptr, s1, b1, hr, inv1, hrec, _, f1, _⟩ :=
      BufferedFRead_some hinv h0 h2 (hin 0 (by omega))
    have hstats : sectorStats (limitSquared opts) (fun i => s1.inBuf (ptr + i)) =
        sectorStats (limitSquared opts) (sectorBuf s.bin.file o ss j) := by
      apply sectorStats_congr
      intro i hi
      exact hrec i (by omega)
    rw [splitLoop, hr]
    dsimp only
    rw [hstats]
    by_cases hf : stepFits opts (volume opts s.bin.file o ss j)
        (sampleHits opts s.bin.file o ss j) st
    · have hstep : splitStep opts modetxt
          (sectorStats (limitSquared opts) (sectorBuf s.bin.file o ss j)).1
          (sectorStats (limitSquared opts) (sectorBuf s.bin.file o ss j)).2 st =
          .ok (splitNext opts modetxt (volume opts s.bin.file o ss j)
            (sampleHits opts s.bin.file o ss j) st) := splitStep_fits modetxt hf
      rw [hstep]
      dsimp only
      obtain ⟨i, hi, hbadi⟩ := hbad
      obtain ⟨i, rfl⟩ : ∃ i', i = i' + 1 := by
        cases i with
        | zero => exact absurd hf hbadi
        | succ i' => exact ⟨i', rfl⟩
      exact ih (j + 1) b1 fuel s1 _ inv1
        (by
          intro k hk
          rw [f1]
          have := hin (k + 1) (by omega)
          rw [show j + 1 + k = j + (k + 1) by omega]
          exact this)
        (by omega)
        ⟨i, by omega, by
          rw [f1, show j + 1 + i = j + (i + 1) by omega]
          exact hbadi⟩
    · have hstep : splitStep opts modetxt
          (sectorStats (limitSquared opts) (sectorBuf s.bin.file o ss j)).1
          (sectorStats (limitSquared opts) (sectorBuf s.bin.file o ss j)).2 st =
          .error .tableOverflow := splitStep_overrun modetxt hf
      rw [hstep]

/-! ## Lemmas on the boundaries of the splitting loop -/

theorem boundariesText_append (modetxt : List Nat) (bs : List (Nat × Nat)) (t : Int)
    (x : Nat × Nat) :
    boundariesText modetxt t (bs ++ [x]) =
      boundariesText modetxt t bs ++ boundaryText (t + bs.length + 1) modetxt x.1 x.2 := by
  induction bs generalizing t with
  | nil =>
    show boundaryText (t + 1) modetxt x.1 x.2 ++ [] = [] ++ boundaryText (t + (0 : Nat) + 1) modetxt _ _
    rw [List.append_nil, List.nil_append]
    congr 1
    omega
  | cons b r ih =>
    show boundaryText (t + 1) modetxt b.1 b.2 ++ boundariesText modetxt (t + 1) (r ++ [x]) =
      boundaryText (t + 1) modetxt b.1 b.2 ++ boundariesText modetxt (t + 1) r ++ _
    rw [ih, List.append_assoc]
    congr 3
    rw [List.length_cons]
    push_cast
    omega

theorem splitFold_one (opts : CommandlineOptions) (modetxt : List Nat) (f : SrcFile)
    (o ss j : Nat) (st : SplitState) :
    splitFold opts modetxt f o ss j 1 st =
      splitNext opts modetxt (volume opts f o ss j) (sampleHits opts f o ss j) st := rfl

theorem splitFold_succ (opts : CommandlineOptions) (modetxt : List Nat) (f : SrcFile)
    (o ss n : Nat) (st : SplitState) :
    splitFold opts modetxt f o ss 0 (n + 1) st =
      splitNext opts modetxt (volume opts f o ss n) (sampleHits opts f o ss n)
        (splitFold opts modetxt f o ss 0 n st) := by
  rw [splitFold_add opts modetxt f o ss n 1 0 st, Nat.zero_add, splitFold_one]

theorem inQuietRun_mono {opts : CommandlineOptions} {f : SrcFile} {o ss S n : Nat}
    {x : Nat × Nat} (h : inQuietRun opts f o ss S n x) (n' : Nat) (hn : n ≤ n') :
    inQuietRun opts f o ss S n' x := by
  obtain ⟨p, g, h1, h2, h3, h4, h5⟩ := h
  exact ⟨p, g, h1, h2, h3, by omega, h5⟩

theorem GapInv.retag {opts : CommandlineOptions} {f : SrcFile} {o ss a S : Nat}
    {c0 : List Nat} {t0 : Int} {m j0 j1 : Nat} {st : SplitState}
    (G : GapInv opts f o ss a S c0 t0 m j0 j1 st) (S' : Nat) (hS : S = S') :
    GapInv opts f o ss a S' st.cue st.track m j0 j1 st := by
  subst hS
  exact ⟨G.gap, G.sector, rfl, rfl, G.le, G.lt, G.s0, G.s1, G.low, G.same, G.least, G.first,
    G.last⟩

theorem boundsFit_nil : boundsFit [] := fun _ hx => absurd hx (List.not_mem_nil _)

theorem boundsFit_append (bs : List (Nat × Nat)) (x : Nat × Nat) :
    boundsFit (bs ++ [x]) ↔ boundsFit bs ∧ (indexFits x.1 ∧ indexFits x.2) := by
  constructor
  · intro h
    exact ⟨fun y hy => h y (List.mem_append_left _ hy),
      h x (List.mem_append_right _ (List.mem_singleton_self _))⟩
  · rintro ⟨h1, h2⟩ y hy
    rcases List.mem_append.1 hy with hy | hy
    · exact h1 y hy
    · rw [List.mem_singleton] at hy
      subst hy
      exact h2

/-- A round of the splitting loop keeps the invariant of the boundaries; the texts of the
boundaries fit the buffer `indextxt` exactly when they did before and the round stays inside
it. -/
theorem BoundInv.step {opts : CommandlineOptions} {modetxt : List Nat} {f : SrcFile}
    {o ss S : Nat} {c0 : List Nat} {t0 : Int} {n : Nat} {bs : List (Nat × Nat)} {q : Nat}
    {st : SplitState} (inv : BoundInv opts modetxt f o ss S c0 t0 n bs q st)
    (hsec : S + n + 1 < 4294967296)
    (ht : -2147483648 ≤ t0 + 1 ∧ t0 + ((n + 1) / 2 : Nat) < 2147483648) :
    ∃ bs' q', BoundInv opts modetxt f o ss S c0 t0 (n + 1) bs' q'
        (splitNext opts modetxt (volume opts f o ss n) (sampleHits opts f o ss n) st) ∧
      (boundsFit bs' ↔ boundsFit bs ∧
        stepFits opts (volume opts f o ss n) (sampleHits opts f o ss n) st) := by
  have hcount := inv.count
  have htrack := inv.track
  have hqle := inv.qle
  by_cases hl : isLoud opts f o ss n
  · rcases inv.phase with ⟨hq, hg⟩ | ⟨m, j0, j1, hm, hqm, hquiet, G⟩
    · -- a loud sector outside a gap
      have e := splitFold_loud opts modetxt f o ss 1 n st
        (fun k h1 h2 => by
          have : k = n := by omega
          rw [this]
          exact hl) hg (by rw [inv.sector]; omega)
      rw [splitFold_one] at e
      rw [e]
      refine ⟨bs, n + 1, ⟨inv.cue, inv.track, by omega, ?_, ?_, inv.ordered, ?_, le_refl _,
        Or.inr hl, Or.inl ⟨rfl, hg⟩⟩,
        ⟨fun h => ⟨h, fun _ hne => absurd hg hne⟩, fun h => h.1⟩⟩
      · show st.sector + 1 = S + (n + 1)
        rw [inv.sector]
        omega
      · exact fun x hx => inQuietRun_mono (inv.runs x hx) _ (by omega)
      · intro x hx
        have h1 := inv.below x hx
        have h2 := inv.qle
        omega
    · -- a loud sector ends a gap
      have hlen : (bs.length : Int) + 1 ≤ (((n + 1) / 2 : Nat) : Int) := by omega
      obtain ⟨r1, r2, r3, r4⟩ := loud_after_gap G n hl modetxt (by omega) (by omega)
      by_cases hw : opts.splitGapLength ≤ m
      · obtain ⟨r5, r6⟩ := r3 hw
        have hfit : stepFits opts (volume opts f o ss n) (sampleHits opts f o ss n) st ↔
            indexFits (S + q + j0) ∧ indexFits (S + q + j1) := by
          unfold stepFits
          rw [G.gap, G.s0, G.s1]
          exact ⟨fun h => h hl (by omega) hw, fun h _ _ _ => h⟩
        refine ⟨bs ++ [(S + q + j0, S + q + j1)], n + 1,
          ⟨?_, ?_, ?_, ?_, ?_, ?_, ?_, le_refl _, Or.inr hl, Or.inl ⟨rfl, r1⟩⟩, ?_⟩
        · rw [r5, inv.cue, boundariesText_append, List.append_assoc, inv.track]
        · rw [r6, inv.track, List.length_append, List.length_singleton]
          push_cast
          omega
        · rw [List.length_append, List.length_singleton]
          omega
        · rw [r2]
          omega
        · intro x hx
          rcases List.mem_append.1 hx with hx | hx
          · exact inQuietRun_mono (inv.runs x hx) _ (by omega)
          · rw [List.mem_singleton] at hx
            subst hx
            have g1 := G.le
            have g2 := G.lt
            exact ⟨q, m, inv.edge, fun k h1 h2 => hquiet k h1 (by omega),
              by rw [hqm]; exact hl, by omega, hw, by dsimp only; omega,
              by dsimp only; omega, by dsimp only; omega⟩
        · rw [List.pairwise_append]
          refine ⟨inv.ordered, List.pairwise_singleton _ _, ?_⟩
          intro x hx y hy
          rw [List.mem_singleton] at hy
          subst hy
          have := inv.below x hx
          dsimp only
          omega
        · intro x hx
          rcases List.mem_append.1 hx with hx | hx
          · have h1 := inv.below x hx
            have h2 := inv.qle
            omega
          · rw [List.mem_singleton] at hx
            subst hx
            have g2 := G.lt
            dsimp only
            omega
        · rw [boundsFit_append, hfit]
      · obtain ⟨r5, r6⟩ := r4 (by omega)
        refine ⟨bs, n + 1, ⟨by rw [r5]; exact inv.cue, by rw [r6]; exact inv.track, by omega,
          by rw [r2]; omega, ?_, inv.ordered, ?_, le_refl _, Or.inr hl, Or.inl ⟨rfl, r1⟩⟩,
          ⟨fun h => ⟨h, fun _ _ hge => absurd (G.gap ▸ hge) hw⟩, fun h => h.1⟩⟩
        · exact fun x hx => inQuietRun_mono (inv.runs x hx) _ (by omega)
        · intro x hx
          have h1 := inv.below x hx
          have h2 := inv.qle
          omega
  · have hfit : stepFits opts (volume opts f o ss n) (sampleHits opts f o ss n) st :=
      fun hl' => absurd hl' hl
    rcases inv.phase with ⟨hq, hg⟩ | ⟨m, j0, j1, hm, hqm, hquiet, G⟩
    · -- a sector that is not loud begins a gap
      have G := quiet_first hl modetxt st hg (by rw [inv.sector]; omega)
      subst hq
      refine ⟨bs, q, ⟨by rw [G.cue]; exact inv.cue, by rw [G.track]; exact inv.track,
        by omega, by rw [G.sector, inv.sector]; omega, ?_, inv.ordered, inv.below, by omega,
        inv.edge, Or.inr ⟨1, 0, 0, by decide, rfl, ?_, G.retag _ inv.sector⟩⟩,
        ⟨fun h => ⟨h, hfit⟩, fun h => h.1⟩⟩
      · exact fun x hx => inQuietRun_mono (inv.runs x hx) _ (by omega)
      · intro k h1 h2
        have : k = q := by omega
        rw [this]
        exact hl
    · -- a sector that is not loud inside a gap
      obtain ⟨j0', j1', G'⟩ := quiet_next G (by rw [hqm]; exact hl) modetxt (by omega)
      rw [hqm] at G'
      refine ⟨bs, q, ⟨by rw [G'.cue]; exact inv.cue, by rw [G'.track]; exact inv.track,
        by omega, ?_, ?_, inv.ordered, inv.below, by omega, inv.edge,
        Or.inr ⟨m + 1, j0', j1', by omega, by omega, ?_, G'.retag _ rfl⟩⟩,
        ⟨fun h => ⟨h, hfit⟩, fun h => h.1⟩⟩
      · rw [G'.sector]
        omega
      · exact fun x hx => inQuietRun_mono (inv.runs x hx) _ (by omega)
      · intro k h1 h2
        by_cases hk : k < n
        · exact hquiet k h1 hk
        · have : k = n := by omega
          rw [this]
          exact hl

/-- The rounds of the splitting loop on the first `n` sectors of a stream, begun outside a
gap: the invariant of the boundaries holds, and the texts of the boundaries fit the buffer
`indextxt` exactly when every round stays inside it. -/
theorem splitFold_bounds (opts : CommandlineOptions) (modetxt : List Nat) (f : SrcFile)
    (o ss : Nat) (st : SplitState) (hg : st.gapsectors = 0) (n : Nat)
    (hsec : st.sector + n < 4294967296)
    (ht : -2147483648 ≤ st.track + 1 ∧ st.track + (n / 2 : Nat) < 2147483648) :
    ∃ bs q, BoundInv opts modetxt f o ss st.sector st.cue st.track n bs q
        (splitFold opts modetxt f o ss 0 n st) ∧
      (boundsFit bs ↔ ∀ i, i < n → stepFits opts (volume opts f o ss i)
        (sampleHits opts f o ss i) (splitFold opts modetxt f o ss 0 i st)) := by
  induction n with
  | zero =>
    exact ⟨[], 0, ⟨(List.append_nil _).symm, (by
        show st.track = st.track + ((0 : Nat) : Int)
        omega), le_refl _, rfl,
      fun x hx => absurd hx (List.not_mem_nil _), List.Pairwise.nil,
      fun x hx => absurd hx (List.not_mem_nil _), le_refl _, Or.inl rfl, Or.inl ⟨rfl, hg⟩⟩,
      ⟨fun _ i hi => absurd hi (Nat.not_lt_zero _), fun _ => boundsFit_nil⟩⟩
  | succ n ih =>
    obtain ⟨bs, q, inv, hiff⟩ := ih (by omega) ⟨ht.1, by have := ht.2; omega⟩
    obtain ⟨bs', q', inv', hiff'⟩ := inv.step (by omega) ht
    rw [splitFold_succ]
    refine ⟨bs', q', inv', ?_⟩
    rw [hiff', hiff]
    constructor
    · rintro ⟨h1, h2⟩ i hi
      by_cases hin : i < n
      · exact h1 i hin
      · have : i = n := by omega
        subst this
        exact h2
    · intro h
      exact ⟨fun i hi => h i (by omega), h n (by omega)⟩

theorem records_of_size (size o ss : Nat) (h0 : 0 < ss) :
    (∀ i, i < (size - o + ss - 1) / ss → o + (0 + i) * ss < size) ∧
    size ≤ o + (0 + (size - o + ss - 1) / ss) * ss := by
  have e1 := Nat.div_add_mod (size - o + ss - 1) ss
  have e2 := Nat.mod_lt (size - o + ss - 1) h0
  have e3 : ss * ((size - o + ss - 1) / ss) = (size - o + ss - 1) / ss * ss := Nat.mul_comm _ _
  constructor
  · intro i hi
    have e4 : (i + 1) * ss ≤ (size - o + ss - 1) / ss * ss := Nat.mul_le_mul_right _ hi
    rw [Nat.succ_mul] at e4
    rw [Nat.zero_add]
    omega
  · rw [Nat.zero_add]
    omega

theorem timeSector_TimeIndex (n : Nat) (hn : n < 450000) : timeSector (TimeIndex n) = n := by
  rw [TimeIndex_text n hn]
  unfold timeSector
  simp only [timeText, List.getD_cons_zero, List.getD_cons_succ]
  rw [packDigits_digits _ _ (by omega) (by omega), packDigits_digits _ _ (by omega) (by omega),
    packDigits_digits _ _ (by omega) (by omega)]
  rw [SectorIndex_bcd _ _ _ (by omega) (by omega) (by omega)]
  omega

/-- The rounds of the splitting loop over a stream of `a` loud, `g ≥ 1` non-loud and `b ≥ 1`
loud sectors, with sector numbers below `2^32`: the sectors of the boundary, what is written
when the texts fit the buffer `indextxt`, and when every round stays inside it. -/
theorem splitFold_gap_fits (opts : CommandlineOptions) (modetxt : List Nat) (f : SrcFile)
    (o ss a g b : Nat) (st : SplitState) (hg : 1 ≤ g) (hb : 1 ≤ b)
    (hA : ∀ k, k < a → isLoud opts f o ss k)
    (hG : ∀ k, a ≤ k → k < a + g → ¬ isLoud opts f o ss k)
    (hB : ∀ k, a + g ≤ k → k < a + g + b → isLoud opts f o ss k)
    (hst : st.gapsectors = 0) (hsec : st.sector + a + g + b < 4294967296)
    (ht : -2147483648 ≤ st.track + 1 ∧ st.track + 1 < 2147483648) :
    ∃ j0 j1, j0 ≤ j1 ∧ j1 < g ∧
      (∀ j, j < g → volume opts f o ss (a + j0) ≤ volume opts f o ss (a + j)) ∧
      volume opts f o ss (a + j1) = volume opts f o ss (a + j0) ∧
      (∀ j, j < j0 → volume opts f o ss (a + j0) < volume opts f o ss (a + j)) ∧
      (∀ j, j1 < j → j < g → volume opts f o ss (a + j0) < volume opts f o ss (a + j)) ∧
      (opts.splitGapLength ≤ g →
        (splitFold opts modetxt f o ss 0 (a + g + b) st).cue =
          st.cue ++ boundaryText (st.track + 1) modetxt (st.sector + a + j0)
            (st.sector + a + j1) ∧
        (splitFold opts modetxt f o ss 0 (a + g + b) st).track = st.track + 1) ∧
      (g < opts.splitGapLength →
        (splitFold opts modetxt f o ss 0 (a + g + b) st).cue = st.cue ∧
        (splitFold opts modetxt f o ss 0 (a + g + b) st).track = st.track) ∧
      ((∀ i, i < a + g + b → stepFits opts (volume opts f o ss i) (sampleHits opts f o ss i)
          (splitFold opts modetxt f o ss 0 i st)) ↔
        (opts.splitGapLength ≤ g →
          indexFits (st.sector + a + j0) ∧ indexFits (st.sector + a + j1))) := by
  obtain ⟨g, rfl⟩ : ∃ g', g = g' + 1 := ⟨g - 1, by omega⟩
  obtain ⟨b, rfl⟩ : ∃ b', b = b' + 1 := ⟨b - 1, by omega⟩
  -- the loud sectors before the gap
  have h1 : ∀ i, i ≤ a → splitFold opts modetxt f o ss 0 i st =
      { st with sector := st.sector + i } := fun i hi =>
    splitFold_loud opts modetxt f o ss i 0 st (fun k _ h => hA k (by omega)) hst (by omega)
  -- the first sector of the gap
  have h2 := quiet_first (hG a (Nat.le_refl _) (by omega)) modetxt
    { st with sector := st.sector + a } hst (by show st.sector + a + 1 < _; omega)
  -- the rest of the gap
  obtain ⟨j0, j1, h3⟩ := splitFold_gap opts modetxt f o ss a (st.sector + a) st.cue st.track
    g 1 0 0 _ h2 (fun k h h' => hG k (by omega) (by omega)) (by omega)
  -- the loud sector that ends the gap
  have e1 : 1 + g = g + 1 := Nat.add_comm _ _
  rw [e1] at h3
  obtain ⟨k1, k2, k3, k4⟩ := loud_after_gap h3 (a + (g + 1))
    (hB _ (by omega) (by omega)) modetxt (by omega) ht
  -- the state when the gap ends
  have hgap : splitFold opts modetxt f o ss 0 (a + (g + 1)) st =
      splitFold opts modetxt f o ss (a + 1) g
        (splitNext opts modetxt (volume opts f o ss a) (sampleHits opts f o ss a)
          { st with sector := st.sector + a }) := by
    rw [splitFold_add opts modetxt f o ss a (g + 1) 0 st, h1 a (le_refl _), Nat.zero_add,
      e1.symm, splitFold_add opts modetxt f o ss 1 g a]
    rfl
  -- the loud sectors after it
  have hafter : ∀ k, k ≤ b → splitFold opts modetxt f o ss 0 (a + (g + 1) + (1 + k)) st =
      { splitNext opts modetxt (volume opts f o ss (a + (g + 1)))
          (sampleHits opts f o ss (a + (g + 1)))
          (splitFold opts modetxt f o ss (a + 1) g
            (splitNext opts modetxt (volume opts f o ss a) (sampleHits opts f o ss a)
              { st with sector := st.sector + a })) with
        sector := (splitNext opts modetxt (volume opts f o ss (a + (g + 1)))
          (sampleHits opts f o ss (a + (g + 1)))
          (splitFold opts modetxt f o ss (a + 1) g
            (splitNext opts modetxt (volume opts f o ss a) (sampleHits opts f o ss a)
              { st with sector := st.sector + a }))).sector + k } := by
    intro k hk
    rw [splitFold_add opts modetxt f o ss (a + (g + 1)) (1 + k) 0 st, hgap, Nat.zero_add,
      splitFold_add opts modetxt f o ss 1 k (a + (g + 1)), splitFold_one]
    exact splitFold_loud opts modetxt f o ss k (a + (g + 1) + 1) _
      (fun k' h h' => hB k' (by omega) (by omega)) k1 (by rw [k2]; omega)
  have hall : a + (g + 1) + (b + 1) = a + (g + 1) + (1 + b) := by omega
  refine ⟨j0, j1, h3.le, h3.lt, h3.least, h3.same, h3.first, h3.last, ?_, ?_, ?_⟩
  · intro hw
    rw [hall, hafter b (le_refl _)]
    exact k3 hw
  · intro hw
    rw [hall, hafter b (le_refl _)]
    exact k4 hw
  · constructor
    · intro h hw
      have hstep := h (a + (g + 1)) (by omega)
      rw [hgap] at hstep
      have := hstep (hB _ (by omega) (by omega)) (by rw [h3.gap]; omega)
        (by rw [h3.gap]; exact hw)
      rw [h3.s0, h3.s1] at this
      exact this
    · intro h i hi
      by_cases c1 : i ≤ a
      · intro _ hne
        rw [h1 i c1] at hne
        exact absurd hst hne
      · by_cases c2 : i < a + (g + 1)
        · exact fun hl => absurd hl (hG i (by omega) c2)
        · by_cases c3 : i = a + (g + 1)
          · subst c3
            rw [hgap]
            intro _ _ hw
            rw [h3.gap] at hw
            rw [h3.s0, h3.s1]
            exact h hw
          · obtain ⟨k, rfl⟩ : ∃ k, i = a + (g + 1) + (1 + k) :=
              ⟨i - (a + (g + 1)) - 1, by omega⟩
            intro _ hne
            rw [hafter k (by omega)] at hne
            exact absurd k1 hne

theorem records_exact (size o ss m : Nat) (h0 : 0 < ss) (hsize : size = o + m * ss) :
    (∀ i, i < m → o + (0 + i) * ss < size) ∧ size ≤ o + (0 + m) * ss := by
  subst hsize
  constructor
  · intro i hi
    have e : (i + 1) * ss ≤ m * ss := Nat.mul_le_mul_right _ hi
    rw [Nat.succ_mul] at e
    rw [Nat.zero_add]
    omega
  · rw [Nat.zero_add]

/-- The splitting loop on a stream of `a` loud, `g ≥ 1` non-loud and `b ≥ 1` loud sectors,
with sector numbers below `2^32`. -/
theorem splitLoop_one_gap (opts : CommandlineOptions) (modetxt : List Nat)
    (ss o a g b fuel : Nat) (s : IOState) (st : SplitState)
    (h1 : SIZERAW ≤ ss) (h2 : ss ≤ INBUF_SIZE)
    (hr : s.inBufReadIndex = 0) (hw : s.inBufWriteIndex = 0) (hp : s.bin.pos = o)
    (hsize : s.bin.file.size = o + (a + g + b) * ss) (hfuel : a + g + b < fuel)
    (hg : 1 ≤ g) (hb : 1 ≤ b)
    (hA : ∀ k, k < a → isLoud opts s.bin.file o ss k)
    (hG : ∀ k, a ≤ k → k < a + g → ¬ isLoud opts s.bin.file o ss k)
    (hB : ∀ k, a + g ≤ k → k < a + g + b → isLoud opts s.bin.file o ss k)
    (hst : st.gapsectors = 0) (hsec : st.sector + a + g + b < 4294967296)
    (ht : -2147483648 ≤ st.track + 1 ∧ st.track + 1 < 2147483648) :
    ∃ j0 j1, j0 ≤ j1 ∧ j1 < g ∧
      (∀ j, j < g →
        volume opts s.bin.file o ss (a + j0) ≤ volume opts s.bin.file o ss (a + j)) ∧
      volume opts s.bin.file o ss (a + j1) = volume opts s.bin.file o ss (a + j0) ∧
      (∀ j, j < j0 →
        volume opts s.bin.file o ss (a + j0) < volume opts s.bin.file o ss (a + j)) ∧
      (∀ j, j1 < j → j < g →
        volume opts s.bin.file o ss (a + j0) < volume opts s.bin.file o ss (a + j)) ∧
      (g < opts.splitGapLength →
        ∃ s' st', splitLoop opts modetxt ss fuel s st = .ok (s', st') ∧
          st'.cue = st.cue ∧ st'.track = st.track) ∧
      (opts.splitGapLength ≤ g →
        indexFits (st.sector + a + j0) → indexFits (st.sector + a + j1) →
        ∃ s' st', splitLoop opts modetxt ss fuel s st = .ok (s', st') ∧
          st'.cue = st.cue ++ boundaryText (st.track + 1) modetxt (st.sector + a + j0)
            (st.sector + a + j1) ∧
          st'.track = st.track + 1) ∧
      (opts.splitGapLength ≤ g →
        ¬ (indexFits (st.sector + a + j0) ∧ indexFits (st.sector + a + j1)) →
        splitLoop opts modetxt ss fuel s st = .error .tableOverflow) := by
  have h0 : 0 < ss := by simp only [SIZERAW] at h1; omega
  obtain ⟨r1, r2⟩ := records_exact s.bin.file.size o ss (a + g + b) h0 hsize
  obtain ⟨j0, j1, k1, k2, k3, k4, k5, k6, k7, k8, k9⟩ :=
    splitFold_gap_fits opts modetxt s.bin.file o ss a g b st hg hb hA hG hB hst hsec ht
  have hrun : (∀ i, i < a + g + b → stepFits opts (volume opts s.bin.file o ss i)
      (sampleHits opts s.bin.file o ss i) (splitFold opts modetxt s.bin.file o ss 0 i st)) →
      ∃ s', splitLoop opts modetxt ss fuel s st =
        .ok (s', splitFold opts modetxt s.bin.file o ss 0 (a + g + b) st) := fun hfit =>
    splitLoop_run opts modetxt ss o h1 h2 (a + g + b) 0 o fuel s st
      (RecInv.start ss o s hr hw hp) r1 r2 hfuel
      (fun i hi => by rw [Nat.zero_add]; exact hfit i hi)
  refine ⟨j0, j1, k1, k2, k3, k4, k5, k6, ?_, ?_, ?_⟩
  · intro hlt
    obtain ⟨s', hs'⟩ := hrun (k9.2 (fun hge => absurd hge (by omega)))
    exact ⟨s', _, hs', k8 hlt⟩
  · intro hge f0 f1
    obtain ⟨s', hs'⟩ := hrun (k9.2 (fun _ => ⟨f0, f1⟩))
    exact ⟨s', _, hs', k7 hge⟩
  · intro hge hnf
    have hbad : ¬ ∀ i, i < a + g + b → stepFits opts (volume opts s.bin.file o ss i)
        (sampleHits opts s.bin.file o ss i) (splitFold opts modetxt s.bin.file o ss 0 i st) :=
      fun hall => hnf (k9.1 hall hge)
    push_neg at hbad
    obtain ⟨i, hi, hbadi⟩ := hbad
    exact splitLoop_overrun opts modetxt ss o h1 h2 (a + g + b) 0 o fuel s st
      (RecInv.start ss o s hr hw hp) r1 hfuel ⟨i, hi, by rw [Nat.zero_add]; exact hbadi⟩

/-- The sectors outside the gap of `gapImage` are loud for the default limit. -/
theorem gapImage_loud (a g b k : Nat) (hk : k < a ∨ a + g ≤ k) (hk' : k < a + g + b) :
    isLoud defaultOptions (gapImage a g b) 0 2352 k :=
  isLoud_127 _ _ _ _ (fun p hp => by
    have e : (k + 1) * 2352 ≤ (a + g + b) * 2352 := Nat.mul_le_mul_right _ hk'
    rw [Nat.succ_mul] at e
    unfold recByte gapImage
    dsimp only
    rw [if_pos (by omega), if_neg]
    rintro ⟨c1, c2⟩
    rcases hk with hk | hk
    · have e : (k + 1) * 2352 ≤ a * 2352 := Nat.mul_le_mul_right _ hk
      rw [Nat.succ_mul] at e
      omega
    · have e : (a + g) * 2352 ≤ k * 2352 := Nat.mul_le_mul_right _ hk
      omega)

/-- The sectors of the gap of `gapImage` have the volume value 0 and are not loud. -/
theorem gapImage_quiet (opts : CommandlineOptions) (a g b k : Nat) (h1 : a ≤ k)
    (h2 : k < a + g) :
    volume opts (gapImage a g b) 0 2352 k = 0 ∧ ¬ isLoud opts (gapImage a g b) 0 2352 k :=
  volume_0 _ _ _ _ _ (fun p hp => by
    have e1 : (k + 1) * 2352 ≤ (a + g) * 2352 := Nat.mul_le_mul_right _ h2
    have e2 : a * 2352 ≤ k * 2352 := Nat.mul_le_mul_right _ h1
    rw [Nat.succ_mul] at e1
    unfold recByte gapImage
    dsimp only
    split_ifs <;> first | rfl | omega)

/-- The splitting loop on `gapImage` with the default limit 80 and gap width 48, for a gap of
at least 48 sectors: one boundary, from the first to the last sector of the gap, when the
texts of both fit the buffer `indextxt`. -/
theorem gapImage_split (a g b : Nat) (hg : 48 ≤ g) (hb : 1 ≤ b)
    (hsec : a + g + b < 4294967296) :
    (indexFits a → indexFits (a + (g - 1)) →
      ∃ s' st', splitLoop defaultOptions (bytes "AUDIO") 2352 (a + g + b + 1)
          (ioStart (gapImage a g b)) stC20 = .ok (s', st') ∧
        st'.cue = boundaryText 1 (bytes "AUDIO") a (a + (g - 1)) ∧ st'.track = 1) ∧
    (¬ (indexFits a ∧ indexFits (a + (g - 1))) →
      splitLoop defaultOptions (bytes "AUDIO") 2352 (a + g + b + 1)
        (ioStart (gapImage a g b)) stC20 = .error .tableOverflow) := by
  have hw : defaultOptions.splitGapLength ≤ g := hg
  have hG := fun k h1 h2 => gapImage_quiet defaultOptions a g b k h1 h2
  obtain ⟨j0, j1, h01, h1g, -, -, hfirst, hlast, -, hok, herr⟩ :=
    splitLoop_one_gap defaultOptions (bytes "AUDIO") 2352 0 a g b (a + g + b + 1)
      (ioStart (gapImage a g b)) stC20 (by decide) (by decide) rfl rfl rfl
      (by show (a + g + b) * 2352 = 0 + (a + g + b) * 2352; omega) (by omega) (by omega) hb
      (fun k hk => gapImage_loud a g b k (Or.inl hk) (by omega))
      (fun k h1 h2 => (hG k h1 h2).2)
      (fun k h1 h2 => gapImage_loud a g b k (Or.inr h1) h2) rfl
      (by show 0 + a + g + b < 4294967296; omega) (by decide)
  have e0 : j0 = 0 := by
    by_contra hne
    have h : volume defaultOptions (gapImage a g b) 0 2352 (a + j0) <
        volume defaultOptions (gapImage a g b) 0 2352 (a + 0) := hfirst 0 (by omega)
    rw [(hG (a + j0) (by omega) (by omega)).1, (hG (a + 0) (by omega) (by omega)).1] at h
    exact absurd h (by decide)
  have e1 : j1 = g - 1 := by
    by_contra hne
    have h : volume defaultOptions (gapImage a g b) 0 2352 (a + j0) <
        volume defaultOptions (gapImage a g b) 0 2352 (a + (g - 1)) :=
      hlast (g - 1) (by omega) (by omega)
    rw [(hG (a + j0) (by omega) (by omega)).1, (hG (a + (g - 1)) (by omega) (by omega)).1]
      at h
    exact absurd h (by decide)
  subst e0 e1
  have s0 : stC20.sector + a + 0 = a := by show 0 + a + 0 = a; omega
  have s1 : stC20.sector + a + (g - 1) = a + (g - 1) := by
    show 0 + a + (g - 1) = a + (g - 1)
    omega
  rw [s0, s1] at hok herr
  constructor
  · intro f0 f1
    obtain ⟨s', st', r1, r2, r3⟩ := hok hw f0 f1
    exact ⟨s', st', r1, r2, r3⟩
  · exact herr hw

/-- The splitting loop on the `n` sectors left in the file, begun outside a gap, when the
sector counter stays below `2^32` and the track counter below `2^31`: the boundaries the
sectors give, what is written when their texts fit the buffer `indextxt`, and the overrun
when they do not. -/
theorem splitLoop_boundaries (opts : CommandlineOptions) (modetxt : List Nat)
    (ss fuel n : Nat) (s : IOState) (st : SplitState)
    (h1 : SIZERAW ≤ ss) (h2 : ss ≤ INBUF_SIZE)
    (hr : s.inBufReadIndex = 0) (hw : s.inBufWriteIndex = 0)
    (hn : n = (s.bin.file.size - s.bin.pos + ss - 1) / ss) (hfuel : n < fuel)
    (hg : st.gapsectors = 0) (hsec : st.sector + n < 4294967296)
    (ht0 : 0 ≤ st.track) (ht : st.track + (n / 2 : Nat) < 2147483648) :
    ∃ bs : List (Nat × Nat),
      bs.Pairwise (fun x y => x.2 < y.1) ∧
      (∀ x ∈ bs, inQuietRun opts s.bin.file s.bin.pos ss st.sector n x) ∧
      (boundsFit bs →
        ∃ s' st', splitLoop opts modetxt ss fuel s st = .ok (s', st') ∧
          st'.cue = st.cue ++ boundariesText modetxt st.track bs ∧
          st'.track = st.track + bs.length) ∧
      (¬ boundsFit bs → splitLoop opts modetxt ss fuel s st = .error .tableOverflow) ∧
      (st.sector + n ≤ 450000 → boundsFit bs) := by
  have h0 : 0 < ss := by simp only [SIZERAW] at h1; omega
  obtain ⟨r1, r2⟩ := records_of_size s.bin.file.size s.bin.pos ss h0
  rw [← hn] at r1 r2
  obtain ⟨bs, q, inv, hiff⟩ := splitFold_bounds opts modetxt s.bin.file s.bin.pos ss st hg n
    hsec ⟨by omega, ht⟩
  refine ⟨bs, inv.ordered, inv.runs, ?_, ?_, ?_⟩
  · intro hfit
    obtain ⟨s', hs'⟩ := splitLoop_run opts modetxt ss s.bin.pos h1 h2 n 0 s.bin.pos fuel s st
      (RecInv.start ss s.bin.pos s hr hw rfl) r1 r2 hfuel
      (fun i hi => by rw [Nat.zero_add]; exact hiff.1 hfit i hi)
    exact ⟨s', _, hs', inv.cue, inv.track⟩
  · intro hnf
    have hbad : ¬ ∀ i, i < n → stepFits opts (volume opts s.bin.file s.bin.pos ss i)
        (sampleHits opts s.bin.file s.bin.pos ss i)
        (splitFold opts modetxt s.bin.file s.bin.pos ss 0 i st) := fun hall => hnf (hiff.2 hall)
    push_neg at hbad
    obtain ⟨i, hi, hbadi⟩ := hbad
    exact splitLoop_overrun opts modetxt ss s.bin.pos h1 h2 n 0 s.bin.pos fuel s st
      (RecInv.start ss s.bin.pos s hr hw rfl) r1 hfuel
      ⟨i, hi, by rw [Nat.zero_add]; exact hbadi⟩
  · intro h450 x hx
    obtain ⟨p, g, -, -, -, c1, -, -, c2, c3⟩ := inv.runs x hx
    exact ⟨indexFits_of_lt (by omega), indexFits_of_lt (by omega)⟩

/-! ## Lemmas on the labels written by `CueFromBin` -/

theorem syncLabel_mode12 : ∀ k, k < 124 →
    labelParse (syncLabel 1 (2064 + 4 * k)) (2064 + 4 * k) ∧
    labelParse (syncLabel 2 (2064 + 4 * k)) (2064 + 4 * k) := by
  decide!

theorem fmtD_candidate : ∀ k, k < 124 → 0 ∉ fmtD (2064 + 4 * k) := by
  decide!

theorem fmtD_byte : ∀ b, b < 256 → b = 1 ∨ b = 2 ∨ otherByte b := by
  decide!

theorem audioLabel_check : ∀ k, k < 52 → audioParse (4 * k) := by
  decide!

theorem fixedLabel_check :
    labelParse (bytes "MODE1/2048") 2048 ∧ labelParse (bytes "MODE2/2336") 2336 := by
  decide!

theorem parseMode_MODE (X : List Nat) (h1 : X.take 2 ≠ [49, 47]) (h2 : X.take 2 ≠ [50, 47]) :
    parseMode (bytes "MODE" ++ X) = none := by
  rw [parseMode_none_iff]
  unfold listedPrefix
  have hb : bytes "MODE" = [77, 79, 68, 69] := rfl
  have e0 : bytes "AUDIO" = [65, 85, 68, 73, 79] := rfl
  have e1 : bytes "MODE1/2352" = [77, 79, 68, 69] ++ ([49, 47] ++ [50, 51, 53, 50]) := rfl
  have e2 : bytes "MODE1/2048" = [77, 79, 68, 69] ++ ([49, 47] ++ [50, 48, 52, 56]) := rfl
  have e3 : bytes "MODE1/2448" = [77, 79, 68, 69] ++ ([49, 47] ++ [50, 52, 52, 56]) := rfl
  have e4 : bytes "MODE2/2352" = [77, 79, 68, 69] ++ ([50, 47] ++ [50, 51, 53, 50]) := rfl
  have e5 : bytes "MODE2/2336" = [77, 79, 68, 69] ++ ([50, 47] ++ [50, 51, 51, 54]) := rfl
  have e6 : bytes "MODE2/2448" = [77, 79, 68, 69] ++ ([50, 47] ++ [50, 52, 52, 56]) := rfl
  have key : ∀ (p t : List Nat), p.length = 2 → ([77, 79, 68, 69] ++ (p ++ t)) <+:
      ([77, 79, 68, 69] ++ X) → X.take 2 = p := by
    intro p t hp h
    rw [List.prefix_append_right_inj] at h
    obtain ⟨r, hr⟩ := h
    rw [← hr, List.append_assoc, List.take_append_of_le_length (by omega)]
    rw [← hp, List.take_length]
  rw [hb, e0, e1, e2, e3, e4, e5, e6]
  rintro (h | h | h | h | h | h | h)
  · obtain ⟨r, hr⟩ := h
    simp at hr
  · exact h1 (key _ _ rfl h)
  · exact h1 (key _ _ rfl h)
  · exact h1 (key _ _ rfl h)
  · exact h2 (key _ _ rfl h)
  · exact h2 (key _ _ rfl h)
  · exact h2 (key _ _ rfl h)

theorem take2_after (d : List Nat) (hd : d ≠ []) (r : List Nat) :
    (d ++ 47 :: r).take 2 = (d ++ [47]).take 2 := by
  match d, hd with
  | [x], _ => rfl
  | x :: y :: t, _ => rfl

theorem dataLabels_take {X : List Nat} (h : bytes "MODE" ++ X ∈ dataLabels) :
    X.take 2 = [49, 47] ∨ X.take 2 = [50, 47] := by
  have hb : bytes "MODE" = [77, 79, 68, 69] := rfl
  have e1 : bytes "MODE1/2352" = [77, 79, 68, 69] ++ [49, 47, 50, 51, 53, 50] := rfl
  have e2 : bytes "MODE1/2048" = [77, 79, 68, 69] ++ [49, 47, 50, 48, 52, 56] := rfl
  have e3 : bytes "MODE1/2448" = [77, 79, 68, 69] ++ [49, 47, 50, 52, 52, 56] := rfl
  have e4 : bytes "MODE2/2352" = [77, 79, 68, 69] ++ [50, 47, 50, 51, 53, 50] := rfl
  have e5 : bytes "MODE2/2336" = [77, 79, 68, 69] ++ [50, 47, 50, 51, 51, 54] := rfl
  have e6 : bytes "MODE2/2448" = [77, 79, 68, 69] ++ [50, 47, 50, 52, 52, 56] := rfl
  unfold dataLabels at h
  rw [hb, e1, e2, e3, e4, e5, e6] at h
  simp only [List.mem_cons, List.append_cancel_left_eq, List.mem_nil_iff, or_false] at h
  rcases h with h | h | h | h | h | h <;> rw [h] <;> simp

theorem syncLabel_check (b s : Nat) (hb : b < 256) (hs : isCandidate s) :
    labelParse (syncLabel b s) s := by
  obtain ⟨c1, c2, c3⟩ := hs
  obtain ⟨k, hk, rfl⟩ : ∃ k, k < 124 ∧ s = 2064 + 4 * k := ⟨(s - 2064) / 4, by omega, by omega⟩
  rcases fmtD_byte b hb with rfl | rfl | ⟨o1, o2, o3, o4⟩
  · exact (syncLabel_mode12 k hk).1
  · exact (syncLabel_mode12 k hk).2
  · have hX : syncLabel b (2064 + 4 * k) ++ [10] =
        bytes "MODE" ++ (fmtD b ++ 47 :: (fmtD (2064 + 4 * k) ++ [10])) := by
      simp [syncLabel, bytes, List.append_assoc]
    have hY : syncLabel b (2064 + 4 * k) =
        bytes "MODE" ++ (fmtD b ++ 47 :: fmtD (2064 + 4 * k)) := by
      simp [syncLabel, bytes, List.append_assoc]
    have hnone : parseMode (syncLabel b (2064 + 4 * k) ++ [10]) = none := by
      rw [hX]
      apply parseMode_MODE <;> rw [take2_after _ o3] <;> assumption
    have hnot : syncLabel b (2064 + 4 * k) ∉ dataLabels := by
      intro h
      rw [hY] at h
      rcases dataLabels_take h with h | h <;> rw [take2_after _ o3] at h
      · exact o1 h
      · exact o2 h
    refine ⟨?_, ?_, fun h => absurd h hnot, fun _ => hnone⟩
    · have h0 : ∀ x ∈ syncLabel b (2064 + 4 * k) ++ [10], x ≠ 0 := by
        intro x hx
        rw [hX] at hx
        simp only [List.mem_append, List.mem_cons, List.mem_singleton, List.mem_nil_iff,
          or_false] at hx
        rcases hx with h | h | h | h | h
        · have : x ∈ bytes "MODE" := h
          revert x
          decide
        · rintro rfl; exact o4 h
        · omega
        · rintro rfl; exact fmtD_candidate k hk h
        · omega
      have e := cstr_append _ [] h0
      rw [List.append_nil] at e
      exact e.trans (List.append_nil _)
    · rw [hX]
      simp [bytes]

theorem AnalyseTrack_label {fuel : Nat} {f : SrcFile} {readpos : Nat} {A : Analysis}
    (h : AnalyseTrack fuel f readpos 0 = .ok A) :
    (A.isotracksectors ≠ 0 →
      (A.modetxt = bytes "MODE1/2048" ∧ A.sectorsize = 2048) ∨
      (A.modetxt = bytes "MODE2/2336" ∧ A.sectorsize = 2336) ∨
      ∃ b, b < 256 ∧ isCandidate A.sectorsize ∧ A.modetxt = syncLabel b A.sectorsize) ∧
    ∃ k, k < 52 ∧ A.subchanbytes = 4 * k := by
  unfold AnalyseTrack at h
  by_cases h0 : readpos + 50000 > f.size
  · rw [if_pos h0] at h
    cases h
  rw [if_neg h0] at h
  dsimp only at h
  by_cases hs : bytesAt (fun k => f.byte (readpos + k)) 0 12 = syncPattern
  · rw [if_pos hs] at h
    cases hc : candidateLoop (fun k => f.byte (readpos + k)) 125 2064 with
    | none =>
      rw [hc] at h
      injection h with h
      subst h
      exact ⟨fun hne => absurd rfl hne, 0, by decide, rfl⟩
    | some s =>
      rw [hc] at h
      dsimp only at h
      obtain ⟨c1, c2, c3, -, -⟩ := candidateLoop_some _ _ _ _ hc
      have hcand : isCandidate s := ⟨c1, c2, by omega⟩
      split at h
      · cases h
      · rename_i ib is hrun
        injection h with h
        subst h
        refine ⟨fun _ => Or.inr (Or.inr ⟨_, Nat.mod_lt _ (by decide), hcand, rfl⟩), ?_⟩
        show ∃ k, k < 52 ∧ subchanAfter _ s 0 = 4 * k
        unfold subchanAfter
        simp only [SIZERAW]
        split_ifs
        · exact ⟨0, by decide, rfl⟩
        · exact ⟨0, by decide, rfl⟩
        · exact ⟨(s - 2352) / 4, by omega, by omega⟩
        · exact ⟨0, by decide, rfl⟩
  · rw [if_neg hs] at h
    by_cases i1 : CheckIsoHeader (fun k => f.byte (readpos + k)) 0x8000 0 ≠ 0
    · rw [if_pos i1] at h
      dsimp only at h
      rw [if_pos i1] at h
      injection h with h
      subst h
      exact ⟨fun _ => Or.inl ⟨rfl, rfl⟩, 0, by decide, rfl⟩
    · rw [if_neg i1] at h
      by_cases i2 : CheckIsoHeader (fun k => f.byte (readpos + k)) 0x9208 0 ≠ 0
      · rw [if_pos i2] at h
        dsimp only at h
        rw [if_pos i2] at h
        injection h with h
        subst h
        exact ⟨fun _ => Or.inr (Or.inl ⟨rfl, rfl⟩), 0, by decide, rfl⟩
      · rw [if_neg i2] at h
        by_cases i3 : bytesAt (fun k => f.byte (readpos + k)) 0x8000 8 = udfVolumeDescriptor
        · rw [if_pos i3] at h
          dsimp only at h
          split_ifs at h
          · injection h with h
            subst h
            exact ⟨fun _ => Or.inl ⟨rfl, rfl⟩, 0, by decide, rfl⟩
          · injection h with h
            subst h
            exact ⟨fun _ => Or.inl ⟨rfl, rfl⟩, 0, by decide, rfl⟩
        · rw [if_neg i3] at h
          dsimp only at h
          rw [if_neg (by decide)] at h
          injection h with h
          subst h
          exact ⟨fun hne => absurd rfl hne, 0, by decide, rfl⟩

theorem trackLine_sectorSize (fs : FileSys) (st : CueState) (pre : List Nat) (a : Nat)
    (digits : List Nat) (c b : Nat) (dt : List Nat) (fd : SrcFile) (m : Nat)
    (hpre : ∀ x ∈ pre, x = 32 ∨ x = 10 ∨ x = 13)
    (hdig : ∀ x ∈ digits, 48 ≤ x ∧ x ≤ 57) (hne : digits ≠ [])
    (hc0 : c ≠ 0) (hc : ¬ (48 ≤ c ∧ c ≤ 57)) (hdt : dt.head? ≠ some 32)
    (hn : st.nTracks < MAXIMUM_TRACK_NUMBERS) (haf : st.activefile ≠ [])
    (hfd : fs st.activefile = some fd)
    (hlen : (cutExt st.activefile).length + digits.length + 5 < 264)
    (hm : parseMode (cstr dt) = some m) :
    ∃ st', ParseCueLine fs (trackLine pre a digits c b dt) st = .ok st' ∧
      (st'.tracks st.nTracks).mode = m ∧
      (m = MODE_AUDIOSUB → (st'.tracks st.nTracks).sectorSize =
        (wrapU32 (strtol10 ((cstr dt).drop 6))).toNat) ∧
      (m ≠ MODE_AUDIOSUB → (st'.tracks st.nTracks).sectorSize = sizeOfMode m) := by
  have hfront : ∀ x ∈ List.replicate a 32 ++ digits ++ [c] ++ List.replicate b 32, x ≠ 0 := by
    intro x hx
    simp only [List.mem_append, List.mem_replicate, List.mem_singleton] at hx
    rcases hx with ((h | h) | h) | h
    · omega
    · have := hdig x h; omega
    · omega
    · omega
  have hline : ParseCueLine fs (trackLine pre a digits c b dt) st =
      parseTrack fs (List.replicate a 32 ++ (digits ++ c :: (List.replicate b 32 ++ cstr dt)))
        st := by
    have e : trackLine pre a digits c b dt = pre ++ bytes "TRACK " ++
        (List.replicate a 32 ++ digits ++ [c] ++ List.replicate b 32 ++ dt) := by
      simp [trackLine, List.append_assoc]
    rw [e, ParseCueLine_TRACK fs st pre _ hpre, cstr_append _ _ hfront]
    simp [List.append_assoc]
  rw [hline, parseTrack_shape fs st a digits c b (cstr dt) fd hdig hne hc (cstr_head dt hdt)
    hn haf hfd, hm]
  have hname : ¬ (trackName (applyMode (newTrack (st.tracks st.nTracks) fd st.activefile
      (readNum (digits ++ c :: (List.replicate b 32 ++ cstr dt)) 0).1 m) (cstr dt))
      digits).length ≥ 264 := by
    unfold trackName
    rw [applyMode_sSrcFileName]
    have e1 : (bytes "-").length = 1 := rfl
    have e2 : (bytes ".wav").length = 4 := rfl
    have e3 : (bytes ".iso").length = 4 := rfl
    simp only [newTrack, List.length_append, e1]
    split_ifs <;> simp only [e2, e3] <;> omega
  dsimp only
  rw [if_neg hname]
  obtain ⟨f1, f2, f3⟩ := applyMode_fields (st.tracks st.nTracks) fd st.activefile
    (readNum (digits ++ c :: (List.replicate b 32 ++ cstr dt)) 0).1 m (cstr dt)
  refine ⟨_, rfl, ?_, ?_, ?_⟩
  · show (setTrack _ _ _ _).mode = m
    rw [setTrack_same]
    exact f1
  · intro h
    show (setTrack _ _ _ _).sectorSize = _
    rw [setTrack_same]
    exact (f2 h).1
  · intro h
    show (setTrack _ _ _ _).sectorSize = _
    rw [setTrack_same]
    exact (f3 h).1

theorem writtenTrackLine (digits label : List Nat) :
    bytes "  TRACK " ++ digits ++ bytes " " ++ label ++ bytes "\n" =
      trackLine [32, 32] 0 digits 32 0 (label ++ [10]) := by
  have e1 : bytes "  TRACK " = [32, 32] ++ bytes "TRACK " := rfl
  have e2 : bytes " " = [32] := rfl
  have e3 : bytes "\n" = [10] := rfl
  rw [e1, e2, e3]
  simp [trackLine, List.append_assoc]

theorem dataLabel_line (fs : FileSys) (st : CueState) (digits : List Nat) (fd : SrcFile)
    (l : List Nat) (s : Nat) (hl : labelParse l s)
    (hdig : ∀ x ∈ digits, 48 ≤ x ∧ x ≤ 57) (hne : digits ≠ [])
    (hn : st.nTracks < MAXIMUM_TRACK_NUMBERS) (haf : st.activefile ≠ [])
    (hfd : fs st.activefile = some fd)
    (hlen : (cutExt st.activefile).length + digits.length + 5 < 264) :
    (l ∈ dataLabels →
      ∃ st', ParseCueLine fs (bytes "  TRACK " ++ digits ++ bytes " " ++ l ++ bytes "\n") st
          = .ok st' ∧ (st'.tracks st.nTracks).sectorSize = s) ∧
    (l ∉ dataLabels →
      ParseCueLine fs (bytes "  TRACK " ++ digits ++ bytes " " ++ l ++ bytes "\n") st
        = .error .unknownMode) := by
  obtain ⟨p1, p2, p3, p4⟩ := hl
  rw [writtenTrackLine]
  constructor
  · intro hin
    obtain ⟨q1, q2⟩ := p3 hin
    cases hm : parseMode (l ++ [10]) with
    | none => rw [hm] at q1; cases q1
    | some m =>
      rw [hm] at q1 q2
      obtain ⟨st', r1, -, -, r4⟩ := trackLine_sectorSize fs st [32, 32] 0 digits 32 0
        (l ++ [10]) fd m (by decide) hdig hne (by decide) (by decide) p2 hn haf hfd hlen
        (by rw [p1]; exact hm)
      refine ⟨st', r1, ?_⟩
      rw [r4 (fun h => q2 (by rw [h]))]
      injection q1
  · intro hnot
    have hnl : ¬ listedPrefix (cstr (l ++ [10])) := by
      rw [← parseMode_none_iff, p1]
      exact p4 hnot
    exact (trackLine_parse fs st [32, 32] 0 digits 32 0 (l ++ [10]) fd (by decide) hdig hne
      (by decide) (by decide) p2 hn haf hfd hlen).1 hnl

theorem audioLabel_line (fs : FileSys) (st : CueState) (digits : List Nat) (fd : SrcFile)
    (n : Nat) (hp : audioParse n)
    (hdig : ∀ x ∈ digits, 48 ≤ x ∧ x ≤ 57) (hne : digits ≠ [])
    (hn : st.nTracks < MAXIMUM_TRACK_NUMBERS) (haf : st.activefile ≠ [])
    (hfd : fs st.activefile = some fd)
    (hlen : (cutExt st.activefile).length + digits.length + 5 < 264) :
    ∃ st', ParseCueLine fs
        (bytes "  TRACK " ++ digits ++ bytes " " ++ audioLabel n ++ bytes "\n") st = .ok st' ∧
      (st'.tracks st.nTracks).sectorSize = audioSectorSize n := by
  obtain ⟨p1, p2, p3, p4⟩ := hp
  rw [writtenTrackLine]
  obtain ⟨st', r1, -, r3, r4⟩ := trackLine_sectorSize fs st [32, 32] 0 digits 32 0
    (audioLabel n ++ [10]) fd _ (by decide) hdig hne (by decide) (by decide) p2 hn haf hfd hlen
    (by rw [p1]; exact p3)
  refine ⟨st', r1, ?_⟩
  by_cases h0 : n = 0
  · subst h0
    rw [r4 (by decide)]
    decide
  · rw [if_neg h0] at r3
    rw [r3 rfl, p1]
    exact p4 h0

/-! ## Lemmas on the overlap of consecutive tracks -/

theorem growPrevious_prev_cases (tbl : Table) (i : Nat) (ofs pg : Int) :
    (growPrevious tbl (i + 1) ofs pg i).totalSectors = (tbl i).totalSectors ∨
    (isAudio (tbl i) ∧
      (growPrevious tbl (i + 1) ofs pg i).totalSectors = wrapI32 ((tbl i).totalSectors + pg)) := by
  unfold growPrevious
  split_ifs with h
  · right
    refine ⟨?_, by simp⟩
    have := h.2.2
    simp only [Nat.add_sub_cancel] at this
    exact this
  · left
    rfl

/-- The first half of the round of track `i + 1`, seen from track `i`, when no 32-bit product
wraps: either the span of track `i` is left as it is and the running offset does not go
back, or the pregap of track `i + 1` is added to the span of track `i` and the running
offset advances by the pregap in sectors of track `i + 1`. -/
theorem pregapStep_prev_exact {opts : CommandlineOptions} {i : Nat} {tbl1 tblq : Table}
    {ofs1 ofsq : Int} (h : pregapStep opts (i + 1) tbl1 ofs1 = .ok (tblq, ofsq))
    (hts0 : 0 ≤ (tbl1 i).totalSectors) (hts1 : (tbl1 i).totalSectors ≤ 755040)
    (h0 : 0 ≤ (tbl1 (i + 1)).idx0) (h01 : (tbl1 (i + 1)).idx0 ≤ (tbl1 (i + 1)).idx1)
    (h1 : (tbl1 (i + 1)).idx1 ≤ 755040)
    (hss2 : (tbl1 (i + 1)).sectorSize ≤ 5688) :
    (tblq i).startOfs = (tbl1 i).startOfs ∧ (tblq (i + 1)).startOfs = ofsq ∧
    (((tblq i).totalSectors = (tbl1 i).totalSectors ∧ ofs1 ≤ ofsq) ∨
     (opts.noGaps = false ∧ opts.allPostGaps = true ∧ isAudio (tbl1 i) ∧
      (tbl1 (i + 1)).idx0 < (tbl1 (i + 1)).idx1 ∧
      (tblq (i + 1)).idx1 = (tbl1 (i + 1)).idx1 ∧
      (tblq i).totalSectors =
        (tbl1 i).totalSectors + ((tbl1 (i + 1)).idx1 - (tbl1 (i + 1)).idx0) ∧
      ofsq = ofs1 + ((tbl1 (i + 1)).idx1 - (tbl1 (i + 1)).idx0) *
        ((tbl1 (i + 1)).sectorSize : Int))) := by
  have hpg0 : 0 ≤ (tbl1 (i + 1)).idx1 - (tbl1 (i + 1)).idx0 := by omega
  have hpg1 : (tbl1 (i + 1)).idx1 - (tbl1 (i + 1)).idx0 ≤ 755040 := by omega
  have hpg : wrapU32 ((tbl1 (i + 1)).idx1 - (tbl1 (i + 1)).idx0)
      = (tbl1 (i + 1)).idx1 - (tbl1 (i + 1)).idx0 := wrapU32_of_range _ hpg0 (by omega)
  have hm := mul_bound _ ((tbl1 (i + 1)).sectorSize : Int) hpg0 hpg1 (by omega) (by omega)
  have hne : i ≠ i + 1 := by omega
  rcases pregapStep_cases h with ⟨_, rfl, rfl⟩ | ⟨hp, hk, hall, rfl, rfl⟩ |
    ⟨_, _, _, rfl, rfl⟩ | ⟨_, _, rfl, rfl⟩
  · refine ⟨by simp [hne], by simp, Or.inl ⟨by simp [hne], le_refl _⟩⟩
  · rw [hpg] at hp ⊢
    rw [wrapU32_of_range _ hm.1 hm.2]
    refine ⟨by simp [hne], by simp, ?_⟩
    simp only [setStartOfs_totalSectors]
    rcases growPrevious_prev_cases (setStartOfs tbl1 (i + 1) ofs1) i ofs1
      ((tbl1 (i + 1)).idx1 - (tbl1 (i + 1)).idx0) with hg | ⟨ha, hg⟩
    · left
      rw [hg]
      simp only [setStartOfs_totalSectors]
      exact ⟨trivial, by omega⟩
    · right
      rw [hg]
      simp only [setStartOfs_totalSectors]
      rw [wrapI32_of_range _ (by omega) (by omega)]
      refine ⟨keepPregap_true hk, hall, ?_, by omega, by simp, rfl, trivial⟩
      unfold isAudio at ha ⊢
      simpa using ha
  · refine ⟨by simp [hne], by simp, Or.inl ⟨by simp [hne], le_refl _⟩⟩
  · have := wrapU32_nonneg
      (wrapU32 ((tbl1 (i + 1)).idx1 - (tbl1 (i + 1)).idx0) * ((tbl1 (i + 1)).sectorSize : Int))
    refine ⟨by simp [hne], by simp, Or.inl ⟨by simp [hne], by omega⟩⟩

/-- Two consecutive tracks of the same file after the geometry loop, when no 32-bit product
wraps: either the span of track `i` ends at `idx0` of track `i + 1` and the two tracks do not
overlap, or the pregap of track `i + 1` was added to track `i` (postgap conversion on an
audio track), and the end of track `i` differs from the start of track `i + 1` by the pregap
times the difference of the two sector sizes. -/
theorem geomLoop_overlap {opts : CommandlineOptions} {n : Nat} (r : Nat) {i0 : Nat}
    {tbl F : Table} {ofs : Int} (h : geomLoop opts n r i0 tbl ofs = .ok F)
    (i : Nat) (hi1 : i0 ≤ i) (hi2 : i + 1 < i0 + r) (hn : i + 1 ≠ n)
    (hname : (tbl i).sSrcFileName = (tbl (i + 1)).sSrcFileName)
    (ha0 : 0 ≤ (tbl i).idx0) (ha1 : 0 ≤ (tbl i).idx1)
    (hb0 : 0 ≤ (tbl (i + 1)).idx0) (hb01 : (tbl (i + 1)).idx0 ≤ (tbl (i + 1)).idx1)
    (hb1 : (tbl (i + 1)).idx1 ≤ 755040)
    (hss1 : (tbl i).sectorSize ≤ 5688)
    (hss2 : (tbl (i + 1)).sectorSize ≤ 5688) :
    ((F i).totalSectors = (F (i + 1)).idx0 - (F i).idx1 ∧
      (F i).startOfs + (F i).totalSectors * (F i).sectorSize ≤ (F (i + 1)).startOfs) ∨
    (opts.noGaps = false ∧ opts.allPostGaps = true ∧ isAudio (F i) ∧
      (F (i + 1)).idx0 < (F (i + 1)).idx1 ∧
      (F i).totalSectors = (F (i + 1)).idx1 - (F i).idx1 ∧
      (F i).startOfs + (F i).totalSectors * (F i).sectorSize = (F (i + 1)).startOfs +
        ((F (i + 1)).idx1 - (F (i + 1)).idx0) *
          (((F i).sectorSize : Int) - ((F (i + 1)).sectorSize : Int))) := by
  induction r generalizing i0 tbl ofs with
  | zero => omega
  | succ r ih =>
    obtain ⟨tbl1, ofs1, hs, hl⟩ := geomLoop_succ h
    by_cases hi : i = i0
    · subst hi
      cases r with
      | zero => omega
      | succ r =>
        obtain ⟨tbl2, ofs2, hs2, hl2⟩ := geomLoop_succ hl
        have hnl : ¬ (i + 1 = n ∨ (tbl i).sSrcFileName ≠ (tbl (i + 1)).sSrcFileName) := by
          simp [hn, hname]
        obtain ⟨t0, t1, hofs⟩ := geomStep_nonlast hs hnl ha0 ha1 (by omega) hss1
        obtain ⟨s1, s2, -⟩ := geomStep_span hs hnl
        have e1 : tbl1 (i + 1) = tbl (i + 1) := geomStep_far hs (i + 1) (by omega) (by omega)
        have e2 : (tbl1 i).sectorSize = (tbl i).sectorSize := (geomStep_sameIn hs i).sectorSize
        have hspan : (tbl1 i).totalSectors = (tbl (i + 1)).idx0 - (tbl1 i).idx1 := by
          have := geomStep_idx1 hs
          rw [s2, wrapI32_of_range _ (by omega) (by omega)]
        obtain ⟨tblq, ofsq, hp2, hsp2⟩ := geomStep_split hs2
        obtain ⟨q1, q2, q3⟩ := pregapStep_prev_exact hp2 t0 t1 (by rw [e1]; exact hb0)
          (by rw [e1]; exact hb01) (by rw [e1]; exact hb1) (by rw [e1]; exact hss2)
        have f1 : F i = tbl2 i := geomLoop_far r hl2 i (by omega)
        have f2 : tbl2 i = tblq i := spanStep_far hsp2 i (by omega)
        have f3 := geomLoop_before r hl2 (i + 1) (by omega)
        have f4 := spanStep_keeps hsp2 (i + 1)
        have f5 : (tblq i).sectorSize = (tbl1 i).sectorSize := (pregapStep_sameIn hp2 i).sectorSize
        have f6 : (F (i + 1)).idx0 = (tbl (i + 1)).idx0 := (geomLoop_sameIn _ h (i + 1)).idx0
        have f7 : (F (i + 1)).sectorSize = (tbl (i + 1)).sectorSize :=
          (geomLoop_sameIn _ h (i + 1)).sectorSize
        have f8 : (tblq i).idx1 = (tbl1 i).idx1 := (geomStep_prev_span hs2).1 ▸ by
          rw [← f2]
        have f9 : (tblq i).mode = (tbl1 i).mode := (pregapStep_sameIn hp2 i).mode
        rw [f3.2, f4.1, q2, f1, f2, f5, q1, f6, f7, e2, f3.1, f4.2, f8]
        rcases q3 with ⟨g1, g2⟩ | ⟨g1, g2, g3, g4, g5, g6, g7⟩
        · left
          rw [g1]
          exact ⟨hspan, by omega⟩
        · right
          rw [e1] at g4 g5 g6 g7
          rw [g5, g6]
          refine ⟨g1, g2, ?_, g4, by omega, ?_⟩
          · unfold isAudio at g3 ⊢
            rw [f9]
            exact g3
          · rw [g7, hofs, Int.add_mul, Int.mul_sub]
            omega
    · have e1 : tbl1 i = tbl i := geomStep_far hs i (by omega) (by omega)
      have e2 : tbl1 (i + 1) = tbl (i + 1) := geomStep_far hs (i + 1) (by omega) (by omega)
      exact ih hl (by omega) (by omega) (by rw [e1, e2]; exact hname) (by rw [e1]; exact ha0)
        (by rw [e1]; exact ha1) (by rw [e2]; exact hb0) (by rw [e2]; exact hb01)
        (by rw [e2]; exact hb1) (by rw [e1]; exact hss1) (by rw [e2]; exact hss2)

/-! ## Lemmas on what an `INDEX` line sets -/

/-- An `INDEX` line with the time `mm:ss:ff` on the active track `k`: the index it names is
set to the sector of the time, the other index too when it is unset (`-1`), and the other
entries of the table are left as they are. -/
theorem indexLine_sets (fs : FileSys) (st : CueState) (k : Nat) (pre : List Nat)
    (a z i b m s f : Nat) (rest : List Nat)
    (hpre : ∀ x ∈ pre, x = 32 ∨ x = 10 ∨ x = 13) (hk : st.track = some k) (hi : i ≤ 1)
    (hm : m < 100) (hs : s < 100) (hf : f < 100)
    (haudio : i = 0 → isAudio (st.tracks k)) :
    ∃ st', ParseCueLine fs (indexLine pre a z i b m s f rest) st = .ok st' ∧
      (i = 0 → (st'.tracks k).idx0 = (((m * 60 + s) * 75 + f : Nat) : Int) ∧
        (st'.tracks k).idx1 = (if (st.tracks k).idx1 = -1 then (((m * 60 + s) * 75 + f : Nat) : Int)
          else (st.tracks k).idx1)) ∧
      (i = 1 → (st'.tracks k).idx1 = (((m * 60 + s) * 75 + f : Nat) : Int) ∧
        (st'.tracks k).idx0 = (if (st.tracks k).idx0 = -1 then (((m * 60 + s) * 75 + f : Nat) : Int)
          else (st.tracks k).idx0)) ∧
      ∀ j, j ≠ k → st'.tracks j = st.tracks j := by
  rw [ParseCueLine_indexLine fs st pre a z i b m s f rest hpre,
    parseIndex_time st k hk a z i b m s f (cstr rest) hi hm hs hf]
  dsimp only
  by_cases h0 : i = 0
  · have hmode : ¬ ((st.tracks k).mode ≠ MODE_AUDIO ∧ (st.tracks k).mode ≠ MODE_AUDIOSUB) := by
      rcases haudio h0 with h | h <;> simp [h]
    simp only [h0, if_true, hmode, if_false]
    refine ⟨_, rfl, fun _ => ⟨by simp [setTrack], by simp [setTrack]⟩, (fun h => by cases h),
      fun j hj => setTrack_other _ _ _ _ hj⟩
  · simp only [h0, if_false]
    refine ⟨_, rfl, fun h => h.elim, fun _ => ⟨by simp [setTrack], by simp [setTrack]⟩,
      fun j hj => setTrack_other _ _ _ _ hj⟩

/-! ## Lemmas on the sector size of an `AUDIO/<n>` track -/

theorem digitsValue_append (ds : List Nat) (hd : ∀ x ∈ ds, 48 ≤ x ∧ x ≤ 57) (rest : List Nat)
    (hr : ∀ x, rest.head? = some x → ¬ (48 ≤ x ∧ x ≤ 57)) (acc : Nat) :
    digitsValue (ds ++ rest) acc = digitsValue ds acc := by
  induction ds generalizing acc with
  | nil =>
    cases rest with
    | nil => rfl
    | cons x r =>
      show digitsValue (x :: r) acc = acc
      unfold digitsValue
      rw [if_neg (hr x rfl)]
  | cons d t ih =>
    have hdd := hd d (List.mem_cons_self _ _)
    show digitsValue (d :: (t ++ rest)) acc = digitsValue (d :: t) acc
    unfold digitsValue
    rw [if_pos hdd, if_pos hdd]
    exact ih (fun x hx => hd x (List.mem_cons_of_mem _ hx)) _

/-- C library `strtol` on a decimal number: its value, or `LONG_MAX` when that is smaller. -/
theorem strtol10_digits (ds : List Nat) (hd : ∀ x ∈ ds, 48 ≤ x ∧ x ≤ 57) (hne : ds ≠ [])
    (rest : List Nat) (hr : ∀ x, rest.head? = some x → ¬ (48 ≤ x ∧ x ≤ 57)) :
    strtol10 (ds ++ rest) = min (digitsValue ds 0 : Int) 9223372036854775807 := by
  obtain ⟨d, t, rfl⟩ : ∃ d t, ds = d :: t := by
    cases ds with
    | nil => exact absurd rfl hne
    | cons d t => exact ⟨d, t, rfl⟩
  have hdd := hd d (List.mem_cons_self _ _)
  have hsp : isspace d = false := by
    unfold isspace
    simp only [decide_eq_false_iff_not]
    omega
  have e : (d :: t ++ rest).dropWhile isspace = d :: (t ++ rest) := by
    show List.dropWhile isspace (d :: (t ++ rest)) = _
    rw [List.dropWhile_cons, hsp]
    rfl
  unfold strtol10
  rw [e]
  have h45 : d ≠ 45 := by omega
  have h43 : d ≠ 43 := by omega
  have key := digitsValue_append (d :: t) hd rest hr 0
  split
  · rename_i heq
    injection heq with h1 _
    exact absurd h1 h45
  · rename_i heq
    injection heq with h1 _
    exact absurd h1 h43
  · rw [← key]
    rfl

/-- A `TRACK` line with the datatype `AUDIO/<n>`, `n` a decimal number: the track is made
with the sector size `min(n, 2^63 - 1) mod 2^32`. -/
theorem audioLine_sectorSize (fs : FileSys) (st : CueState) (pre : List Nat) (a : Nat)
    (digits : List Nat) (c b : Nat) (ds rest : List Nat) (fd : SrcFile)
    (hpre : ∀ x ∈ pre, x = 32 ∨ x = 10 ∨ x = 13)
    (hdig : ∀ x ∈ digits, 48 ≤ x ∧ x ≤ 57) (hne : digits ≠ [])
    (hc0 : c ≠ 0) (hc : ¬ (48 ≤ c ∧ c ≤ 57))
    (hn : st.nTracks < MAXIMUM_TRACK_NUMBERS) (haf : st.activefile ≠ [])
    (hfd : fs st.activefile = some fd)
    (hlen : (cutExt st.activefile).length + digits.length + 5 < 264)
    (hds : ∀ x ∈ ds, 48 ≤ x ∧ x ≤ 57) (hdne : ds ≠ [])
    (hr : ∀ x, (cstr rest).head? = some x → ¬ (48 ≤ x ∧ x ≤ 57)) :
    ∃ st', ParseCueLine fs (trackLine pre a digits c b (bytes "AUDIO/" ++ ds ++ rest)) st
        = .ok st' ∧
      (st'.tracks st.nTracks).mode = MODE_AUDIOSUB ∧
      (st'.tracks st.nTracks).sectorSize =
        min (digitsValue ds 0) 9223372036854775807 % 4294967296 := by
  have hfront : ∀ x ∈ bytes "AUDIO/" ++ ds, x ≠ 0 := by
    intro x hx
    rcases List.mem_append.1 hx with h | h
    · have h6 : ∀ y ∈ bytes "AUDIO/", y ≠ 0 := by decide
      exact h6 x h
    · have := hds x h
      omega
  have hcs : cstr (bytes "AUDIO/" ++ ds ++ rest) = bytes "AUDIO/" ++ (ds ++ cstr rest) := by
    rw [cstr_append _ _ hfront, List.append_assoc]
  obtain ⟨st', r1, r2, r3, -⟩ := trackLine_sectorSize fs st pre a digits c b
    (bytes "AUDIO/" ++ ds ++ rest) fd MODE_AUDIOSUB hpre hdig hne hc0 hc
    (by rw [List.append_assoc]; exact (by simp [bytes])) hn haf hfd hlen
    (by rw [hcs]; exact (parseMode_begins _).1)
  refine ⟨st', r1, r2, ?_⟩
  rw [r3 rfl, hcs]
  have e6 : (bytes "AUDIO/" ++ (ds ++ cstr rest)).drop 6 = ds ++ cstr rest := rfl
  rw [e6, strtol10_digits ds hds hdne _ hr]
  unfold wrapU32
  have h : (min (digitsValue ds 0 : Int) 9223372036854775807) =
      ((min (digitsValue ds 0) 9223372036854775807 : Nat) : Int) := by
    push_cast
    rfl
  rw [h]
  omega

/-! ## Lemmas on the counting loop of `AnalyseTrack` -/

theorem descriptorBytes_lt (buffer : Nat → Nat) (s : Nat) :
    descriptorBytes buffer s < 4294967296 := by
  unfold descriptorBytes
  split_ifs <;> first | exact Nat.mod_lt _ (by decide) | decide

/-- The counting loop returns within `fuel` rounds exactly when one of the first `fuel`
offsets it visits, `x + k * s` modulo `2^32`, is one at which it is left. -/
theorem syncRun_some_iff (f : SrcFile) (readpos s : Nat) (fuel x n : Nat)
    (hx : x < 4294967296) :
    (∃ r, syncRun f readpos s fuel x n = some r) ↔
      ∃ k, k < fuel ∧ countingStops f readpos ((x + k * s) % 4294967296) := by
  induction fuel generalizing x n with
  | zero =>
    constructor
    · rintro ⟨r, h⟩
      cases h
    · rintro ⟨k, hk, _⟩
      omega
  | succ fuel ih =>
    rw [syncRun]
    by_cases h1 : readpos + x + 12 > f.size
    · rw [if_pos h1]
      refine ⟨fun _ => ⟨0, by omega, ?_⟩, fun _ => ⟨_, rfl⟩⟩
      rw [Nat.zero_mul, Nat.add_zero, Nat.mod_eq_of_lt hx]
      exact Or.inl h1
    · rw [if_neg h1]
      by_cases h2 : bytesAt f.byte (readpos + x) 12 ≠ syncPattern
      · rw [if_pos h2]
        refine ⟨fun _ => ⟨0, by omega, ?_⟩, fun _ => ⟨_, rfl⟩⟩
        rw [Nat.zero_mul, Nat.add_zero, Nat.mod_eq_of_lt hx]
        exact Or.inr h2
      · rw [if_neg h2, ih _ _ (Nat.mod_lt _ (by decide))]
        have hstep : ∀ k, ((x + s) % 4294967296 + k * s) % 4294967296 =
            (x + (k + 1) * s) % 4294967296 := by
          intro k
          rw [Nat.succ_mul]
          omega
        constructor
        · rintro ⟨k, hk, hst⟩
          exact ⟨k + 1, by omega, by rw [← hstep]; exact hst⟩
        · rintro ⟨k, hk, hst⟩
          cases k with
          | zero =>
            rw [Nat.zero_mul, Nat.add_zero, Nat.mod_eq_of_lt hx] at hst
            rcases hst with h | h
            · exact absurd h h1
            · exact absurd h h2
          | succ k => exact ⟨k, by omega, by rw [hstep]; exact hst⟩

/-- `AnalyseTrack` on a window with sync pattern in which the sector size `s` is found: the
result is that of the counting loop. -/
theorem AnalyseTrack_sync (fuel : Nat) (f : SrcFile) (readpos subchanbytes s : Nat)
    (hwin : readpos + 50000 ≤ f.size)
    (hsync : bytesAt (window f readpos) 0 12 = syncPattern)
    (hloop : candidateLoop (window f readpos) 125 2064 = some s) :
    AnalyseTrack fuel f readpos subchanbytes =
      match syncRun f readpos s fuel (descriptorBytes (window f readpos) s)
          (CheckIsoHeader (window f readpos)
            (s * 16 + (if window f readpos 15 % 256 = 1 then 16 else 24)) 0) with
      | none => .error .outOfFuel
      | some (isotrackbytes, isotracksectors) =>
        .ok { modetxt := bytes "MODE" ++ fmtD (f.byte (readpos + 15) % 256) ++ bytes "/"
                ++ fmtD s,
              isotracksectors := isotracksectors,
              subchanbytes := subchanAfter
                (((f.size : Int) - readpos - isotrackbytes) % 4294967296).toNat s subchanbytes,
              sectorsize := s, isotrackbytes := isotrackbytes } := by
  have hsync' : bytesAt (fun k => f.byte (readpos + k)) 0 12 = syncPattern := hsync
  have hloop' : candidateLoop (fun k => f.byte (readpos + k)) 125 2064 = some s := hloop
  unfold AnalyseTrack
  rw [if_neg (by omega)]
  dsimp only
  rw [if_pos hsync', hloop']
  rfl

theorem AnalyseTrack_sync_cases (fuel : Nat) (f : SrcFile) (readpos subchanbytes s : Nat)
    (hwin : readpos + 50000 ≤ f.size)
    (hsync : bytesAt (window f readpos) 0 12 = syncPattern)
    (hloop : candidateLoop (window f readpos) 125 2064 = some s) :
    ((∀ a, AnalyseTrack fuel f readpos subchanbytes = .ok a → a.sectorsize = s ∧
        a.modetxt = bytes "MODE" ++ fmtD (f.byte (readpos + 15) % 256) ++ bytes "/" ++ fmtD s) ∧
     ((∃ a, AnalyseTrack fuel f readpos subchanbytes = .ok a) ↔
        ∃ k, k < fuel ∧ countingStops f readpos
          ((descriptorBytes (window f readpos) s + k * s) % 4294967296)) ∧
     ((¬ ∃ a, AnalyseTrack fuel f readpos subchanbytes = .ok a) →
        AnalyseTrack fuel f readpos subchanbytes = .error .outOfFuel)) := by
  rw [AnalyseTrack_sync fuel f readpos subchanbytes s hwin hsync hloop]
  rw [← syncRun_some_iff f readpos s fuel _
    (CheckIsoHeader (window f readpos)
      (s * 16 + (if window f readpos 15 % 256 = 1 then 16 else 24)) 0)
    (descriptorBytes_lt _ _)]
  cases hrun : syncRun f readpos s fuel (descriptorBytes (window f readpos) s)
      (CheckIsoHeader (window f readpos)
        (s * 16 + (if window f readpos 15 % 256 = 1 then 16 else 24)) 0) with
  | none =>
    refine ⟨(fun a h => by cases h), ⟨?_, ?_⟩, fun _ => rfl⟩
    · rintro ⟨a, h⟩
      cases h
    · rintro ⟨r, h⟩
      cases h
  | some r =>
    obtain ⟨ib, is⟩ := r
    refine ⟨?_, ⟨fun _ => ⟨_, rfl⟩, fun _ => ⟨_, rfl⟩⟩, fun h => absurd ⟨_, rfl⟩ h⟩
    intro a h
    dsimp only at h
    injection h with h
    subst h
    exact ⟨rfl, rfl⟩

/-- In the file of sync patterns the counting loop is never left. -/
theorem countingStops_never (p : Nat) (hp : p < 4294967296) (h16 : p % 16 = 0) :
    ¬ countingStops fileC23x 0 p := by
  unfold countingStops
  rw [bytesAt_12]
  have hsz : fileC23x.size = 4294967296 + 2064 := rfl
  have hb : ∀ q, fileC23x.byte q =
      (if q % 16 = 0 ∨ q % 16 = 11 then 0 else if q % 16 < 12 then 255
        else if q % 16 = 15 then 1 else if q = 2078 then 1 else 0) := fun q => rfl
  rintro (h | h)
  · omega
  · apply h
    simp only [hb, syncPattern]
    have e : ∀ j, j < 12 → (0 + p + j) % 16 = j := by
      intro j hj
      omega
    rw [e 0 (by decide), e 1 (by decide), e 2 (by decide), e 3 (by decide), e 4 (by decide),
      e 5 (by decide), e 6 (by decide), e 7 (by decide), e 8 (by decide), e 9 (by decide),
      e 10 (by decide), e 11 (by decide)]
    rfl

/-! ## Claims -/

/-- C1: for minute `m < 100`, second `s < 60`, frame `f < 75`, each packed as a BCD byte,
`TimeIndex (SectorIndex m s f)` is exactly the 8-character text `mm:ss:ff`; and for every
sector index `n < 450000`, `SectorIndex` of the BCD-packed digit pairs of the text
`TimeIndex n` is `n`. -/
theorem C1_sectorIndex_timeIndex_inverse :
    (∀ m s f : Nat, m < 100 → s < 60 → f < 75 →
      TimeIndex (SectorIndex (toBCD m) (toBCD s) (toBCD f)) = timeText m s f) ∧
    (∀ n : Nat, n < 450000 →
      (TimeIndex n).length = 8 ∧
      SectorIndex (packDigits ((TimeIndex n).getD 0 0) ((TimeIndex n).getD 1 0))
        (packDigits ((TimeIndex n).getD 3 0) ((TimeIndex n).getD 4 0))
        (packDigits ((TimeIndex n).getD 6 0) ((TimeIndex n).getD 7 0)) = n) := by
  constructor
  · intro m s f hm hs hf
    rw [SectorIndex_bcd m s f hm (by omega) (by omega)]
    rw [TimeIndex_text _ (by omega)]
    have e1 : ((m * 60 + s) * 75 + f) / 4500 = m := by omega
    have e2 : ((m * 60 + s) * 75 + f) / 75 % 60 = s := by omega
    have e3 : ((m * 60 + s) * 75 + f) % 75 = f := by omega
    rw [e1, e2, e3]
  · intro n hn
    rw [TimeIndex_text n hn]
    refine ⟨rfl, ?_⟩
    simp only [timeText, List.getD_cons_zero, List.getD_cons_succ]
    rw [packDigits_digits _ _ (by omega) (by omega), packDigits_digits _ _ (by omega) (by omega),
      packDigits_digits _ _ (by omega) (by omega)]
    rw [SectorIndex_bcd _ _ _ (by omega) (by omega) (by omega)]
    omega

/-- C1 at 12:34:56 (sector 56606) and at sector index 200. -/
theorem C1_witness :
    TimeIndex (SectorIndex (toBCD 12) (toBCD 34) (toBCD 56)) = timeText 12 34 56 ∧
    SectorIndex (packDigits ((TimeIndex 200).getD 0 0) ((TimeIndex 200).getD 1 0))
        (packDigits ((TimeIndex 200).getD 3 0) ((TimeIndex 200).getD 4 0))
        (packDigits ((TimeIndex 200).getD 6 0) ((TimeIndex 200).getD 7 0)) = 200 :=
  ⟨C1_sectorIndex_timeIndex_inverse.1 12 34 56 (by decide) (by decide) (by decide),
   (C1_sectorIndex_timeIndex_inverse.2 200 (by decide)).2⟩

/-- C2: for every `INDEX` line whose time field is three two-digit numbers `mm:ss:ff`
(index number 0 or 1, any leading white space, any amount of spaces and leading zeros, any
text after the time), `ParseCueLine` succeeds on an active track (an audio track for index 0)
and stores the sector index `((mm*60)+ss)*75+ff`: in `idx0` for index 0, in `idx1` for
index 1. -/
theorem C2_index_time_to_sector (fs : FileSys) (st : CueState) (k : Nat) (pre : List Nat)
    (a z i b m s f : Nat) (rest : List Nat)
    (hpre : ∀ x ∈ pre, x = 32 ∨ x = 10 ∨ x = 13) (hk : st.track = some k) (hi : i ≤ 1)
    (hm : m < 100) (hs : s < 100) (hf : f < 100)
    (haudio : i = 0 → (st.tracks k).mode = MODE_AUDIO ∨ (st.tracks k).mode = MODE_AUDIOSUB) :
    ∃ st', ParseCueLine fs (indexLine pre a z i b m s f rest) st = .ok st' ∧
      (if i = 0 then (st'.tracks k).idx0 else (st'.tracks k).idx1)
        = (((m * 60) + s) * 75 + f : Nat) := by
  rw [ParseCueLine_indexLine fs st pre a z i b m s f rest hpre,
    parseIndex_time st k hk a z i b m s f (cstr rest) hi hm hs hf]
  dsimp only
  by_cases h0 : i = 0
  · have hmode : ¬ ((st.tracks k).mode ≠ MODE_AUDIO ∧ (st.tracks k).mode ≠ MODE_AUDIOSUB) := by
      rcases haudio h0 with h | h <;> simp [h]
    simp only [h0, if_true, hmode, if_false]
    exact ⟨_, rfl, by simp [setTrack]⟩
  · simp only [h0, if_false]
    exact ⟨_, rfl, by simp [setTrack]⟩

/-- The line `    INDEX 01 00:02:50` gives sector 200. -/
theorem C2_witness_00_02_50 :
    indexLine (bytes "    ") 0 1 1 0 0 2 50 [10] = bytes "    INDEX 01 00:02:50\n" ∧
    ∃ st', ParseCueLine (fun _ => none) (bytes "    INDEX 01 00:02:50\n") stOneTrack = .ok st' ∧
      (st'.tracks 0).idx1 = 200 :=
  ⟨rfl, C2_index_time_to_sector (fun _ => none) stOneTrack 0 (bytes "    ") 0 1 1 0 0 2 50 [10]
    (by decide) rfl (by decide) (by decide) (by decide) (by decide) (by decide)⟩

/-- C3 (amended): for every `N < 2^31`, the sheet with one `FILE`, `TRACK 01 MODE1/2048` and
`INDEX 01 00:00:00` over a source file of exactly `2048 * N` bytes is resolved by
`IsoFromCue`, under every setting of the options, to one track with `startOfs = 0` and
`totalSectors = N`. -/
theorem C3_single_mode1_2048_track (N : Nat) (hN : N < 2147483648) (opts : CommandlineOptions)
    (fs : FileSys) (f : SrcFile) (h : fs (bytes "a.bin") = some f) (hsz : f.size = 2048 * N) :
    ∃ tbl, IsoFromCue fs opts sheetC3 = .ok (tbl, 1) ∧ (tbl 0).startOfs = 0 ∧
      (tbl 0).totalSectors = N := by
  obtain ⟨tbl, hp, h0, h1, hss, hfd, _⟩ := ParseCue_sheetC3 fs f h
  obtain ⟨tbl', hg, hs0, hts, hend⟩ := geometryPass_one opts tbl h0 h1 (by omega)
  refine ⟨tbl', ?_, hs0, ?_⟩
  · simp only [IsoFromCue, hp, hg, overburnStep, hend]
    by_cases hb : opts.noOverburn = true <;> simp [hb]
  · rw [hts, hfd, hsz, hss]
    unfold wrapI32
    push_cast
    omega

/-- C3 at a file of 10 sectors, default options. -/
theorem C3_witness :
    ∃ tbl, IsoFromCue (fsOne ⟨2048 * 10, fun _ => 0⟩) defaultOptions sheetC3 = .ok (tbl, 1) ∧
      (tbl 0).startOfs = 0 ∧ (tbl 0).totalSectors = (10 : Nat) :=
  C3_single_mode1_2048_track 10 (by decide) defaultOptions (fsOne ⟨2048 * 10, fun _ => 0⟩)
    ⟨2048 * 10, fun _ => 0⟩ rfl rfl

set_option maxRecDepth 100000 in
/-- C3 as stated fails at `N = 2^31`: over a file of `2048 * 2^31` bytes the `int32_t` field
`totalSectors` receives `-2^31`. -/
theorem C3_counterexample :
    ∃ tbl, IsoFromCue (fsOne ⟨2048 * 2147483648, fun _ => 0⟩) defaultOptions sheetC3
        = .ok (tbl, 1) ∧
      (tbl 0).totalSectors = -2147483648 ∧ (tbl 0).totalSectors ≠ (2147483648 : Nat) :=
  ⟨_, rfl, rfl, by decide⟩

set_option maxRecDepth 100000 in
/-- C4: on the sheet of scenario 2 (track 1 `INDEX 01 00:02:00`, track 2 `INDEX 00 00:10:00`
and `INDEX 01 00:10:20`, default options) track 1 gets `totalSectors = 620`, but track 2 gets
`startOfs = 620 * 2352`, not the byte offset `770 * 2352` of sector 770: the running offset
starts at 0 with the first track whatever its index. -/
theorem C4_postgap_scenario_eval :
    ∃ tbl, IsoFromCue (fsOne ⟨2352 * 1000, fun _ => 0⟩) defaultOptions sheetC4 = .ok (tbl, 2) ∧
      (tbl 0).idx1 = 150 ∧ (tbl 1).idx0 = 750 ∧ (tbl 1).idx1 = 770 ∧
      (tbl 0).totalSectors = 620 ∧ (tbl 1).startOfs = 620 * 2352 ∧
      (tbl 1).startOfs ≠ 770 * 2352 :=
  ⟨_, rfl, rfl, rfl, rfl, rfl, rfl, by decide⟩

/-- C6 (amended): after an accepted geometry pass, every track that is the last of its source
file and whose file holds fewer than `2^31` sectors of the track's size ends inside the file
and leaves less than one sector unaccounted for,
`0 ≤ fileSize - (startOfs + totalSectors * sectorSize) < sectorSize`; and the span step of
such a track fails only when the file ends before the running offset (or the sector size is
0), never because the length is not a multiple of the sector size. -/
theorem C6_last_track_fits_file :
    (∀ (opts : CommandlineOptions) (tbl : Table) (n : Nat) (F : Table),
      geometryPass opts tbl n = .ok F → ∀ i, i < n →
      (i + 1 = n ∨ (F i).sSrcFileName ≠ (F (i + 1)).sSrcFileName) →
      ((F i).fdSrcFile.size : Int) / (F i).sectorSize < 2147483648 →
      0 ≤ ((F i).fdSrcFile.size : Int)
            - ((F i).startOfs + (F i).totalSectors * (F i).sectorSize) ∧
      ((F i).fdSrcFile.size : Int)
            - ((F i).startOfs + (F i).totalSectors * (F i).sectorSize) < (F i).sectorSize) ∧
    (∀ (n i : Nat) (tbl : Table) (ofs : Int),
      (i + 1 = n ∨ (tbl i).sSrcFileName ≠ (tbl (i + 1)).sSrcFileName) →
      ofs ≤ (tbl i).fdSrcFile.size → (tbl i).sectorSize ≠ 0 →
      ∃ tbl', spanStep n i tbl ofs = .ok (tbl', 0)) := by
  constructor
  · intro opts tbl n F h i hi hlast hsz
    obtain ⟨_, N, _, hl⟩ := geometryPass_split h
    exact geomLoop_last_track n hl (le_refl _) i (by omega) (by omega) hlast hsz
  · intro n i tbl ofs hlast hofs hss
    have h1 : ¬ (((tbl i).fdSrcFile.size : Int) - ofs < 0) := by omega
    unfold spanStep
    simp only [hlast, if_true, h1, if_false, hss]
    exact ⟨_, rfl⟩

set_option maxRecDepth 100000 in
/-- C6 on a single track over a file of 23525 bytes: accepted, 10 sectors, 5 bytes left. -/
theorem C6_witness :
    ∃ F, geometryPass defaultOptions tblOdd 1 = .ok F ∧
      (0 ≤ ((F 0).fdSrcFile.size : Int)
            - ((F 0).startOfs + (F 0).totalSectors * (F 0).sectorSize) ∧
      ((F 0).fdSrcFile.size : Int)
            - ((F 0).startOfs + (F 0).totalSectors * (F 0).sectorSize) < (F 0).sectorSize) ∧
      ∃ tbl', spanStep 1 0 tblOdd 0 = .ok (tbl', 0) := by
  refine ⟨_, rfl, ?_, ?_⟩
  · exact C6_last_track_fits_file.1 defaultOptions tblOdd 1 _ rfl 0 (by decide) (Or.inl rfl)
      (by decide)
  · exact C6_last_track_fits_file.2 1 0 tblOdd 0 (Or.inl rfl) (by decide) (by decide)

set_option maxRecDepth 100000 in
/-- C6 as stated fails over a file of `2048 * 2^31` bytes: the sheet of scenario 1 is
accepted, `totalSectors` is `-2^31`, and the bytes after the track's computed end are not
fewer than one sector. -/
theorem C6_counterexample :
    ∃ tbl, IsoFromCue (fsOne ⟨2048 * 2147483648, fun _ => 0⟩) defaultOptions sheetC3
        = .ok (tbl, 1) ∧
      ¬ (((tbl 0).fdSrcFile.size : Int)
            - ((tbl 0).startOfs + (tbl 0).totalSectors * (tbl 0).sectorSize)
          < (tbl 0).sectorSize) :=
  ⟨_, rfl, by decide⟩

/-- C7: when the geometry pass of `IsoFromCue` (normalisation and the offset/span loop)
succeeds and is run again on the table it left behind, with the same options and files, it
succeeds and leaves that table as it is: every track keeps its `startOfs` and `totalSectors`
(and every other field). -/
theorem C7_geometry_pass_idempotent (opts : CommandlineOptions) (tbl F : Table) (n : Nat)
    (h : geometryPass opts tbl n = .ok F) : geometryPass opts F n = .ok F := by
  obtain ⟨hn, N, hN, hl⟩ := geometryPass_split h
  obtain ⟨hspec, hord⟩ := normalise_spec n hN
  have sF := fun j => geomLoop_sameIn n hl j
  have hFn : F n = (setIdx0 (setIdx1 N n 0) n 0) n := geomLoop_far n hl n (by omega)
  have hidx : ∀ j, j < n → 0 ≤ (F j).idx0 ∧ (F j).idx0 ≤ (F j).idx1 := by
    intro j hj
    have hne : j ≠ n := by omega
    have ho := hord j (by omega) (by omega)
    have hNj : N j = normTrack (tbl j) := by
      rw [hspec j]
      simp [hj]
    have e0 : (F j).idx0 = (normTrack (tbl j)).idx0 := by
      rw [(sF j).idx0]
      simp [hne, hNj]
    have e1 : (F j).idx1 = (normTrack (tbl j)).idx1 ∨ (F j).idx1 = (normTrack (tbl j)).idx0 := by
      rcases geomLoop_idx1 n hl j with hx | hx
      · left; rw [hx]; simp [hne, hNj]
      · right; rw [hx]; simp [hne, hNj]
    have hnn : 0 ≤ (normTrack (tbl j)).idx0 := by
      simp only [normTrack_idx0]
      split_ifs <;> omega
    rcases e1 with e1 | e1 <;> omega
  unfold geometryPass
  rw [normalise_id n 0 F (fun j _ hj => hidx j (by omega))]
  have hc : ¬ (n ≥ MAXIMUM_TRACK_NUMBERS) := by omega
  simp only [hc, if_false]
  rw [setIdx_end_id F n (by rw [hFn]; simp) (by rw [hFn]; simp)]
  exact geomLoop_rerun n hl (by omega) F (fun j hj => geomLoop_far n hl j (by omega))
    (fun j _ _ => ⟨sF j, rfl⟩)

set_option maxRecDepth 100000 in
/-- C7 on the sheet of scenario 2, default options. -/
theorem C7_witness :
    ParseCue (fsOne ⟨2352 * 1000, fun _ => 0⟩) sheetC4 = .ok (tblC4, 2) ∧
    ∃ F, geometryPass defaultOptions tblC4 2 = .ok F ∧ (F 1).startOfs = 1458240 ∧
      geometryPass defaultOptions F 2 = .ok F := by
  refine ⟨rfl, ?_⟩
  have h : ∃ F, geometryPass defaultOptions tblC4 2 = .ok F ∧ (F 1).startOfs = 1458240 :=
    ⟨_, rfl, rfl⟩
  obtain ⟨F, hF, hs⟩ := h
  exact ⟨F, hF, hs, C7_geometry_pass_idempotent defaultOptions tblC4 F 2 hF⟩

/-- C8: when every track has `idx0` equal to `idx1`, the geometry pass of `IsoFromCue` gives
the same result (the same `startOfs`, `totalSectors`, `idx1` and every other field of every
track, or the same error) whatever the options: no pregap policy has any effect. -/
theorem C8_zero_pregap_policy_independent (opts1 opts2 : CommandlineOptions) (tbl : Table)
    (n : Nat) (h : ∀ i, i < n → (tbl i).idx0 = (tbl i).idx1) :
    geometryPass opts1 tbl n = geometryPass opts2 tbl n := by
  unfold geometryPass
  cases hN : normalise n 0 tbl with
  | error e => rfl
  | ok N =>
    dsimp only
    split_ifs with hc
    · rfl
    · apply geomLoop_policy_indep
      intro j _ hj
      have hj' : j ≠ n := by omega
      have := (normalise_spec n hN).1 j
      simp only [setIdx0_idx0, setIdx0_idx1, setIdx1_idx0, setIdx1_idx1, hj', if_false]
      rw [this]
      have c : 0 ≤ j ∧ j < 0 + n := by omega
      simp only [c, and_self, if_true, normTrack_idx0, normTrack_idx1, h j (by omega)]

/-- C8 on a one-track table, default options against `-n`. -/
theorem C8_witness :
    geometryPass defaultOptions tblOdd 1
      = geometryPass { defaultOptions with noGaps := true } tblOdd 1 :=
  C8_zero_pregap_policy_independent defaultOptions { defaultOptions with noGaps := true }
    tblOdd 1 (fun _ _ => rfl)

set_option maxRecDepth 100000 in
/-- C9: with overburn exclusion requested and one audio track of 400000 sectors (more than
334873), `IsoFromCue` ends with one track: no trailing track is added.  The test of line 866
reads `tracks[nTracks].idx0`, which line 782 has set to 0. -/
theorem C9_overburn_eval :
    ∃ tbl, IsoFromCue (fsOne ⟨2352 * 400000, fun _ => 0⟩)
        { defaultOptions with noOverburn := true } sheetC9 = .ok (tbl, 1) ∧
      (tbl 0).totalSectors = 400000 ∧ (tbl 0).totalSectors > CD74_MAX_SECTORS :=
  ⟨_, rfl, rfl, by decide⟩

/-- C10 (amended): under the auto-detect policy (`autoGaps` set, `noGaps` not), for a track
with a non-empty pregap that lies inside its file, the round of the geometry loop treats the
pregap as the save policy does exactly when `CheckGaps` counts more than 294 non-zero 32-bit
words in the pregap sectors (294 is `SIZERAW >> 3`, half of the 588 words of a raw sector),
and as the discard policy does otherwise. -/
theorem C10_auto_gap_threshold (opts : CommandlineOptions) (i : Nat) (tbl : Table) (ofs : Int)
    (hauto : opts.autoGaps = true) (hno : opts.noGaps = false) (hofs : 0 ≤ ofs)
    (hlt : (tbl i).idx0 < (tbl i).idx1) (hhi : (tbl i).idx1 - (tbl i).idx0 ≤ 755040)
    (hss : 2352 ≤ (tbl i).sectorSize)
    (hfit : ofs + ((tbl i).idx1 - (tbl i).idx0) * (tbl i).sectorSize ≤ (tbl i).fdSrcFile.size) :
    pregapStep opts i tbl ofs =
      if 294 < gapWordCount (tbl i).fdSrcFile (tbl i).sectorSize
          ((tbl i).idx1 - (tbl i).idx0).toNat ofs.toNat
      then pregapStep { opts with autoGaps := false } i tbl ofs
      else pregapStep { opts with noGaps := true } i tbl ofs := by
  have hck := CheckGaps_eq (setStartOfs tbl i ofs i) (by simpa using hofs) (by simpa using hss)
    (by simp; omega) (by simpa using hhi) (by simpa using hfit)
  simp only [setStartOfs_fdSrcFile, setStartOfs_sectorSize, setStartOfs_idx1, setStartOfs_idx0,
    setStartOfs_startOfs, if_true] at hck
  have hpg : wrapU32 ((tbl i).idx1 - (tbl i).idx0) ≠ 0 := by
    unfold wrapU32
    omega
  unfold pregapStep
  simp only [setStartOfs_idx1, setStartOfs_idx0, hpg, ne_eq, not_false_eq_true, if_true,
    keepPregap, hauto, hno, hck, Bool.false_eq_true, if_false, Bool.not_true, Bool.not_false]
  by_cases hc : 294 < gapWordCount (tbl i).fdSrcFile (tbl i).sectorSize
      ((tbl i).idx1 - (tbl i).idx0).toNat ofs.toNat
  · simp [hc]
  · simp [hc]

/-- C10 on a pregap of one sector that holds 100 non-zero words. -/
theorem C10_witness :
    pregapStep optsAuto 1 tblC10 23520 =
      if 294 < gapWordCount (tblC10 1).fdSrcFile (tblC10 1).sectorSize
          ((tblC10 1).idx1 - (tblC10 1).idx0).toNat (23520 : Int).toNat
      then pregapStep { optsAuto with autoGaps := false } 1 tblC10 23520
      else pregapStep { optsAuto with noGaps := true } 1 tblC10 23520 :=
  C10_auto_gap_threshold optsAuto 1 tblC10 23520 rfl rfl (by decide) (by decide) (by decide)
    (by decide) (by decide)

set_option maxRecDepth 1000000 in
/-- C10 as stated fails on a pregap of one sector with 100 non-zero words: 100 is more than
one eighth of 588, yet under `-a` the pregap is discarded (track 1 keeps 10 sectors, as under
`-n`), where the save policy gives track 1 the 11th sector. -/
theorem C10_counterexample :
    gapWordCount fileC10 2352 1 23520 = 100 ∧ 588 < 8 * gapWordCount fileC10 2352 1 23520 ∧
    (∃ tbl, IsoFromCue (fsOne fileC10) optsAuto sheetC10 = .ok (tbl, 2) ∧
        (tbl 1).idx0 = 10 ∧ (tbl 1).idx1 = 11 ∧ (tbl 0).totalSectors = 10) ∧
    (∃ tbl, IsoFromCue (fsOne fileC10) { defaultOptions with noGaps := true } sheetC10
        = .ok (tbl, 2) ∧ (tbl 0).totalSectors = 10) ∧
    (∃ tbl, IsoFromCue (fsOne fileC10) defaultOptions sheetC10
        = .ok (tbl, 2) ∧ (tbl 0).totalSectors = 11) :=
  ⟨by decide, by decide, ⟨_, rfl, rfl, rfl, rfl⟩, ⟨_, rfl, rfl⟩, ⟨_, rfl, rfl⟩⟩

/-- C12 (amended).  A `TRACK` line makes an entry with both indices unset (`-1`); only an
`INDEX` line changes the indices of an entry, that of the active track: it sets the index it
names to the sector of its time, and the other index too when that one is unset; every other
accepted line leaves the indices of every entry as they are.  So after the parse the two
indices of a track are `-1` together, when no `INDEX` line of the track was accepted, or set
together, and an index that no `INDEX` line specified has the value of the first `INDEX` line
of the track.  The normalisation step of `IsoFromCue` makes both indices 0 in the first case
and keeps both in the second; a track that passes it has `0 ≤ idx0 ≤ idx1`. -/
theorem C12_indices_after_normalisation (fs : FileSys) (content : List Nat) (tbl N : Table)
    (n j : Nat) (hp : ParseCue fs content = .ok (tbl, n)) (hn : normalise n 0 tbl = .ok N)
    (hj : j < n) :
    (((tbl j).idx0 = -1 ∧ (tbl j).idx1 = -1 ∧ (N j).idx0 = 0 ∧ (N j).idx1 = 0) ∨
      (0 ≤ (tbl j).idx0 ∧ 0 ≤ (tbl j).idx1 ∧ (N j).idx0 = (tbl j).idx0 ∧
        (N j).idx1 = (tbl j).idx1)) ∧
    0 ≤ (N j).idx0 ∧ (N j).idx0 ≤ (N j).idx1 ∧
    (∀ (line : List Nat) (st st' : CueState) (k : Nat), ParseCueLine fs line st = .ok st' →
      ((st'.tracks k).idx0 = (st.tracks k).idx0 ∧ (st'.tracks k).idx1 = (st.tracks k).idx1) ∨
      (k = st.nTracks ∧ st'.nTracks = st.nTracks + 1 ∧ (st'.tracks k).idx0 = -1 ∧
        (st'.tracks k).idx1 = -1) ∨
      (st.track = some k ∧ ∃ v : Int, 0 ≤ v ∧
        (((st'.tracks k).idx0 = v ∧
            (st'.tracks k).idx1 = (if (st.tracks k).idx1 = -1 then v else (st.tracks k).idx1)) ∨
         ((st'.tracks k).idx1 = v ∧
            (st'.tracks k).idx0 =
              (if (st.tracks k).idx0 = -1 then v else (st.tracks k).idx0))))) ∧
    (∀ (st : CueState) (k : Nat) (pre : List Nat) (a z i b m s f : Nat) (rest : List Nat),
      (∀ x ∈ pre, x = 32 ∨ x = 10 ∨ x = 13) → st.track = some k → i ≤ 1 →
      m < 100 → s < 100 → f < 100 → (i = 0 → isAudio (st.tracks k)) →
      ∃ st', ParseCueLine fs (indexLine pre a z i b m s f rest) st = .ok st' ∧
        (i = 0 → (st'.tracks k).idx0 = (((m * 60 + s) * 75 + f : Nat) : Int) ∧
          (st'.tracks k).idx1 =
            (if (st.tracks k).idx1 = -1 then (((m * 60 + s) * 75 + f : Nat) : Int)
              else (st.tracks k).idx1)) ∧
        (i = 1 → (st'.tracks k).idx1 = (((m * 60 + s) * 75 + f : Nat) : Int) ∧
          (st'.tracks k).idx0 =
            (if (st.tracks k).idx0 = -1 then (((m * 60 + s) * 75 + f : Nat) : Int)
              else (st.tracks k).idx0)) ∧
        ∀ j, j ≠ k → st'.tracks j = st.tracks j) := by
  obtain ⟨h1, h2⟩ := normalise_spec n hn
  have hN : N j = normTrack (tbl j) := by
    rw [h1 j, if_pos ⟨Nat.zero_le j, by omega⟩]
  have hle := h2 j (Nat.zero_le j) (by omega)
  have hpair := ParseCue_paired hp j
  have e0 : (normTrack (tbl j)).idx0 = if (tbl j).idx0 < 0 then 0 else (tbl j).idx0 := by
    unfold normTrack; dsimp only; split_ifs <;> rfl
  have e1 : (normTrack (tbl j)).idx1 = if (tbl j).idx1 < 0 then 0 else (tbl j).idx1 := by
    unfold normTrack; dsimp only; split_ifs <;> rfl
  rw [e0, e1] at hle
  rw [hN, e0, e1]
  refine ⟨?_, ?_, ?_, fun line st st' k h => ParseCueLine_idx h k,
    fun st k pre a z i b m s f rest hpre hk hi hm hs hf ha =>
      indexLine_sets fs st k pre a z i b m s f rest hpre hk hi hm hs hf ha⟩
  · rcases hpair with ⟨a, b⟩ | ⟨a, b⟩
    · refine Or.inl ⟨a, b, ?_, ?_⟩ <;> simp [a, b]
    · have a' : ¬ (tbl j).idx0 < 0 := by omega
      have b' : ¬ (tbl j).idx1 < 0 := by omega
      rw [if_neg a', if_neg b']
      exact Or.inr ⟨a, b, rfl, rfl⟩
  · split_ifs <;> omega
  · exact hle

/-- C12, witness: the sheet with one `INDEX 01 00:02:00` line. -/
theorem C12_witness :
    ∃ tbl N, ParseCue (fsOne ⟨2352 * 1000, fun _ => 0⟩) sheetC12 = .ok (tbl, 1) ∧
      normalise 1 0 tbl = .ok N ∧ (N 0).idx0 = 150 ∧ (N 0).idx1 = 150 ∧
      ((((tbl 0).idx0 = -1 ∧ (tbl 0).idx1 = -1 ∧ (N 0).idx0 = 0 ∧ (N 0).idx1 = 0) ∨
        (0 ≤ (tbl 0).idx0 ∧ 0 ≤ (tbl 0).idx1 ∧ (N 0).idx0 = (tbl 0).idx0 ∧
          (N 0).idx1 = (tbl 0).idx1)) ∧
      0 ≤ (N 0).idx0 ∧ (N 0).idx0 ≤ (N 0).idx1) := by
  have h := C12_indices_after_normalisation (fsOne ⟨2352 * 1000, fun _ => 0⟩) sheetC12 _ _ 1 0
    rfl rfl (by decide)
  exact ⟨_, _, rfl, rfl, rfl, rfl, h.1, h.2.1, h.2.2.1⟩

/-- C12, counterexample: in the sheet whose track has only the line `INDEX 01 00:02:00`, no
`INDEX` line specifies `idx0`, and after normalisation `idx0` is 150, not 0. -/
theorem C12_counterexample :
    ∃ tbl N, ParseCue (fsOne ⟨2352 * 1000, fun _ => 0⟩) sheetC12 = .ok (tbl, 1) ∧
      normalise 1 0 tbl = .ok N ∧ (N 0).idx0 = 150 ∧ (N 0).idx0 ≠ 0 :=
  ⟨_, _, rfl, rfl, rfl, by decide⟩

/-- C13 (amended).  The datatype text of a `TRACK` line is compared by prefix.  For a
`TRACK` line with a track number, read when a file is active and can be opened, the table has
room and the output name fits its buffer: when the datatype text does not begin with one of
AUDIO, MODE1/2352, MODE1/2048, MODE1/2448, MODE2/2352, MODE2/2336, MODE2/2448, `ParseCueLine`
fails with the unknown-mode error; when it begins with one of them, `ParseCueLine` creates a
track whose mode is the one named (AUDIO followed by `/` being the mode of `AUDIO/<n>`),
whatever follows the name. -/
theorem C13_track_datatype (fs : FileSys) (st : CueState) (pre : List Nat) (a : Nat)
    (digits : List Nat) (c b : Nat) (dt : List Nat) (fd : SrcFile)
    (hpre : ∀ x ∈ pre, x = 32 ∨ x = 10 ∨ x = 13)
    (hdig : ∀ x ∈ digits, 48 ≤ x ∧ x ≤ 57) (hne : digits ≠ [])
    (hc0 : c ≠ 0) (hc : ¬ (48 ≤ c ∧ c ≤ 57)) (hdt : dt.head? ≠ some 32)
    (hn : st.nTracks < MAXIMUM_TRACK_NUMBERS) (haf : st.activefile ≠ [])
    (hfd : fs st.activefile = some fd)
    (hlen : (cutExt st.activefile).length + digits.length + 5 < 264) :
    (¬ listedPrefix (cstr dt) →
      ParseCueLine fs (trackLine pre a digits c b dt) st = .error .unknownMode) ∧
    (listedPrefix (cstr dt) →
      ∃ st' m, ParseCueLine fs (trackLine pre a digits c b dt) st = .ok st' ∧
        st'.nTracks = st.nTracks + 1 ∧ st'.track = some st.nTracks ∧
        (st'.tracks st.nTracks).mode = m ∧ modeMatches m (cstr dt)) :=
  trackLine_parse fs st pre a digits c b dt fd hpre hdig hne hc0 hc hdt hn haf hfd hlen

/-- C13, witness: the line `  TRACK 01 MODE2/2448` after `FILE "a.bin"`. -/
theorem C13_witness :
    (¬ listedPrefix (cstr (bytes "MODE2/2448\n")) →
      ParseCueLine (fsOne ⟨0, fun _ => 0⟩)
        (trackLine (bytes "  ") 0 (bytes "01") 32 0 (bytes "MODE2/2448\n")) stFile =
          .error .unknownMode) ∧
    (listedPrefix (cstr (bytes "MODE2/2448\n")) →
      ∃ st' m, ParseCueLine (fsOne ⟨0, fun _ => 0⟩)
        (trackLine (bytes "  ") 0 (bytes "01") 32 0 (bytes "MODE2/2448\n")) stFile = .ok st' ∧
        st'.nTracks = stFile.nTracks + 1 ∧ st'.track = some stFile.nTracks ∧
        (st'.tracks stFile.nTracks).mode = m ∧ modeMatches m (cstr (bytes "MODE2/2448\n"))) :=
  C13_track_datatype (fsOne ⟨0, fun _ => 0⟩) stFile (bytes "  ") 0 (bytes "01") 32 0
    (bytes "MODE2/2448\n") ⟨0, fun _ => 0⟩ (by decide) (by decide) (by decide) (by decide)
    (by decide) (by decide) (by decide) (by decide) rfl (by decide)

/-- C13, counterexample: the datatype texts `AUDIOX` and `MODE1/2352abc` are none of the
eight listed ones, and `ParseCueLine` creates an AUDIO and a MODE1/2352 track for them. -/
theorem C13_counterexample :
    (∃ st', ParseCueLine (fsOne ⟨0, fun _ => 0⟩) (bytes "  TRACK 01 AUDIOX\n") stFile =
        .ok st' ∧ st'.nTracks = 1 ∧ (st'.tracks 0).mode = MODE_AUDIO) ∧
    (∃ st', ParseCueLine (fsOne ⟨0, fun _ => 0⟩) (bytes "  TRACK 01 MODE1/2352abc\n") stFile =
        .ok st' ∧ st'.nTracks = 1 ∧ (st'.tracks 0).mode = MODE1_2352) :=
  ⟨⟨_, rfl, rfl, rfl⟩, ⟨_, rfl, rfl, rfl⟩⟩

/-- C14 (amended).  For every track of a parsed sheet: the sector size is below `2^32` and
`predata + postdata ≤ sectorSize`;
in each of the six MODE1/MODE2 modes the sector size is positive and the payload size
`sectorSize - predata - postdata` (the `datasize` of `DoTrack`) is 2048; for AUDIO the sector
size and the payload are 2352; for AUDIO/<n> the payload is 2352 only when the sector size is
at least 2352: it is the whole sector when the size is smaller.  The sector size of an
AUDIO/<n> track is what `strtol` reads after the slash, converted to `uint32_t`: on a `TRACK`
line with the datatype `AUDIO/` followed by a decimal number `n` it is
`min(n, 2^63 - 1) mod 2^32` (possibly 0). -/
theorem C14_track_layout (fs : FileSys) (content : List Nat) (tbl : Table) (n j : Nat)
    (hp : ParseCue fs content = .ok (tbl, n)) (hj : j < n) :
    ((tbl j).sectorSize < 4294967296 ∧
    (tbl j).predata + (tbl j).postdata ≤ (tbl j).sectorSize ∧
    (((tbl j).mode = MODE1_2352 ∨ (tbl j).mode = MODE1_2048 ∨ (tbl j).mode = MODE1_2448 ∨
        (tbl j).mode = MODE2_2352 ∨ (tbl j).mode = MODE2_2336 ∨ (tbl j).mode = MODE2_2448) →
      0 < (tbl j).sectorSize ∧ datasize (tbl j) = 2048) ∧
    ((tbl j).mode = MODE_AUDIO → (tbl j).sectorSize = 2352 ∧ datasize (tbl j) = 2352) ∧
    ((tbl j).mode = MODE_AUDIOSUB → (tbl j).predata = 0 ∧
      datasize (tbl j) = min (tbl j).sectorSize 2352) ∧
    ((tbl j).mode = MODE_AUDIO ∨ (tbl j).mode = MODE_AUDIOSUB ∨ (tbl j).mode = MODE1_2352 ∨
      (tbl j).mode = MODE1_2048 ∨ (tbl j).mode = MODE1_2448 ∨ (tbl j).mode = MODE2_2352 ∨
      (tbl j).mode = MODE2_2336 ∨ (tbl j).mode = MODE2_2448)) ∧
    (∀ (st : CueState) (pre : List Nat) (a : Nat) (digits : List Nat) (c b : Nat)
      (ds rest : List Nat) (fd : SrcFile),
      (∀ x ∈ pre, x = 32 ∨ x = 10 ∨ x = 13) →
      (∀ x ∈ digits, 48 ≤ x ∧ x ≤ 57) → digits ≠ [] → c ≠ 0 → ¬ (48 ≤ c ∧ c ≤ 57) →
      st.nTracks < MAXIMUM_TRACK_NUMBERS → st.activefile ≠ [] →
      fs st.activefile = some fd →
      (cutExt st.activefile).length + digits.length + 5 < 264 →
      (∀ x ∈ ds, 48 ≤ x ∧ x ≤ 57) → ds ≠ [] →
      (∀ x, (cstr rest).head? = some x → ¬ (48 ≤ x ∧ x ≤ 57)) →
      ∃ st', ParseCueLine fs (trackLine pre a digits c b (bytes "AUDIO/" ++ ds ++ rest)) st
          = .ok st' ∧
        (st'.tracks st.nTracks).mode = MODE_AUDIOSUB ∧
        (st'.tracks st.nTracks).sectorSize =
          min (digitsValue ds 0) 9223372036854775807 % 4294967296) :=
  ⟨ParseCue_layout hp j hj,
    fun st pre a digits c b ds rest fd hpre hdig hne hc0 hc hn haf hfd hlen hds hdne hr =>
      audioLine_sectorSize fs st pre a digits c b ds rest fd hpre hdig hne hc0 hc hn haf hfd
        hlen hds hdne hr⟩

/-- C14, witness: the `MODE1/2048` track of the sheet of scenario 1, and the line
`TRACK 01 AUDIO/9223372036854775808`, which makes a track with sectors of `2^32 - 1` bytes. -/
theorem C14_witness :
    (∃ tbl, ParseCue (fsOne ⟨2048 * 10, fun _ => 0⟩) sheetC3 = .ok (tbl, 1) ∧
      (tbl 0).mode = MODE1_2048 ∧ 0 < (tbl 0).sectorSize ∧ datasize (tbl 0) = 2048) ∧
    ∃ st', ParseCueLine (fsOne ⟨2048 * 10, fun _ => 0⟩)
        (bytes "  TRACK 01 AUDIO/9223372036854775808\n") stFile = .ok st' ∧
      (st'.tracks 0).mode = MODE_AUDIOSUB ∧ (st'.tracks 0).sectorSize = 4294967295 := by
  have h := C14_track_layout (fsOne ⟨2048 * 10, fun _ => 0⟩) sheetC3 _ 1 0 rfl (by decide)
  obtain ⟨⟨-, -, h3, -⟩, h7⟩ := h
  obtain ⟨st', g1, g2, g3⟩ := h7 stFile (bytes "  ") 0 (bytes "01") 32 0
    (bytes "9223372036854775808") [10] ⟨2048 * 10, fun _ => 0⟩ (by decide) (by decide)
    (by decide) (by decide) (by decide) (by decide) (by decide) rfl (by decide) (by decide)
    (by decide) (by decide)
  exact ⟨⟨_, rfl, rfl, h3 (Or.inr (Or.inl rfl))⟩, st', g1, g2, g3⟩

/-- C14, counterexample: an `AUDIO/100` track has sectors of 100 bytes, all payload, and an
`AUDIO/0` track has sector size 0. -/
theorem C14_counterexample :
    ∃ tbl, ParseCue (fsOne ⟨2352 * 1000, fun _ => 0⟩) sheetC14 = .ok (tbl, 2) ∧
      (tbl 0).mode = MODE_AUDIOSUB ∧ (tbl 0).sectorSize = 100 ∧ datasize (tbl 0) = 100 ∧
      (tbl 1).mode = MODE_AUDIOSUB ∧ (tbl 1).sectorSize = 0 :=
  ⟨_, rfl, rfl, rfl, rfl, rfl, rfl⟩

/-- C15 (amended).  For every `FILE` line `ParseCueLine` computes the base name `fileName`
of the text after the keyword and its spaces: the name text after its last `'/'` or `'\'`,
control characters dropped, where the name text is the text between the quotes for a name in
quotes, the space-terminated word for a word without quotes, and, for a word with a quote
inside, the text before the quote followed by the text up to the closing quote.  The line is a
fatal error exactly when a quote is opened and never closed or the base name is empty;
otherwise the base name becomes the active file name and the active track is cleared. -/
theorem C15_file_line (fs : FileSys) (st : CueState) (pre r : List Nat)
    (hpre : ∀ x ∈ pre, x = 32 ∨ x = 10 ∨ x = 13) :
    (ParseCueLine fs (pre ++ bytes "FILE " ++ r) st =
      match fileName (skipSp (cstr r)) with
      | .error e => .error e
      | .ok nm => .ok { st with activefile := nm, track := none }) ∧
    ((∃ e, ParseCueLine fs (pre ++ bytes "FILE " ++ r) st = .error e) ↔
      ((nameRegion (skipSp (cstr r))).2 = false ∨
        dropCtl (afterLastSep (nameRegion (skipSp (cstr r))).1) = [])) ∧
    (∀ inner tail, skipSp (cstr r) = 34 :: (inner ++ 34 :: tail) → (∀ c ∈ inner, c ≠ 34) →
      nameRegion (skipSp (cstr r)) = (inner, true)) ∧
    (∀ word tail, skipSp (cstr r) = word ++ tail → (∀ c ∈ word, c ≠ 32 ∧ c ≠ 34) →
      (∀ c, tail.head? = some c → c = 32) → nameRegion (skipSp (cstr r)) = (word, true)) := by
  have hline := ParseCueLine_FILE fs st pre r hpre
  rw [parseFile_spec] at hline
  refine ⟨hline, ?_, ?_, ?_⟩
  · rw [hline]
    unfold fileName
    by_cases h1 : (nameRegion (skipSp (cstr r))).2 = false
    · rw [if_pos h1]
      exact ⟨fun _ => Or.inl h1, fun _ => ⟨_, rfl⟩⟩
    · rw [if_neg h1]
      by_cases h2 : dropCtl (afterLastSep (nameRegion (skipSp (cstr r))).1) = []
      · rw [if_pos h2]
        exact ⟨fun _ => Or.inr h2, fun _ => ⟨_, rfl⟩⟩
      · rw [if_neg h2]
        constructor
        · rintro ⟨e, he⟩
          cases he
        · rintro (h | h)
          · exact absurd h h1
          · exact absurd h h2
  · intro inner tail hb hin
    rw [hb]
    exact nameRegion_in_quotes inner tail hin
  · intro word tail hb hw ht
    rw [hb]
    exact nameRegion_word word tail hw ht

/-- C15, witness: the line `FILE "dir/a b.bin" BINARY` makes `a b.bin` the active file and
clears the active track. -/
theorem C15_witness :
    ParseCueLine (fsOne ⟨0, fun _ => 0⟩) (bytes "  " ++ bytes "FILE " ++
        bytes "\"dir/a b.bin\" BINARY\n") stOneTrack =
      .ok { stOneTrack with activefile := bytes "a b.bin", track := none } :=
  (C15_file_line (fsOne ⟨0, fun _ => 0⟩) stOneTrack (bytes "  ")
    (bytes "\"dir/a b.bin\" BINARY\n") (by decide)).1

/-- C15, counterexample: the name `ab"cd"` is neither the text between its quotes (`cd`) nor
its space-terminated word: the active file name becomes `abcd`. -/
theorem C15_counterexample :
    ∃ st', ParseCueLine (fsOne ⟨0, fun _ => 0⟩) (bytes "FILE ab\"cd\" BINARY\n")
        CueState.init = .ok st' ∧
      st'.activefile = bytes "abcd" ∧ st'.activefile ≠ bytes "cd" ∧
      st'.activefile ≠ bytes "ab\"cd\"" :=
  ⟨_, rfl, rfl, by decide, by decide⟩

/-- C16 (amended).  For an `INDEX` line with a time field whose index number `v` (the value
of the digits after the keyword, 0 when there are none) is below `2^31`: `ParseCueLine`
accepts the line exactly when a track is active, `v` is 0 or 1, and `v = 0` only on an AUDIO
or AUDIO/<n> track; with no active track the line is the "INDEX without TRACK" error, with
`v ≥ 2` the unexpected-number error, with `v = 0` on a data-mode track the index-0 error.
When accepted, number 0 sets `idx0` and number 1 sets `idx1` to the sector of the time
field.  A track is active when a `TRACK` line was accepted since the last accepted `FILE`
line (`ParseCueLine_track`). -/
theorem C16_index_line (fs : FileSys) (st : CueState) (pre : List Nat) (a : Nat)
    (digits rest : List Nat)
    (hpre : ∀ x ∈ pre, x = 32 ∨ x = 10 ∨ x = 13)
    (hdig : ∀ x ∈ digits, 48 ≤ x ∧ x ≤ 57)
    (hrest : ∀ c, (cstr rest).head? = some c → ¬ (48 ≤ c ∧ c ≤ 57) ∧ (digits = [] → c ≠ 32))
    (hv : digitsValue digits 0 < 2147483648) (htime : 7 ≤ (skipSp (cstr rest)).length) :
    ((∃ st', ParseCueLine fs (indexLineG pre a digits rest) st = .ok st') ↔
      ∃ k, st.track = some k ∧ digitsValue digits 0 ≤ 1 ∧
        (digitsValue digits 0 = 0 → isAudio (st.tracks k))) ∧
    (st.track = none →
      ParseCueLine fs (indexLineG pre a digits rest) st = .error .indexWithoutTrack) ∧
    (∀ k, st.track = some k → 2 ≤ digitsValue digits 0 →
      ParseCueLine fs (indexLineG pre a digits rest) st = .error .unexpectedIndexNumber) ∧
    (∀ k, st.track = some k → digitsValue digits 0 = 0 → ¬ isAudio (st.tracks k) →
      ParseCueLine fs (indexLineG pre a digits rest) st = .error .index0OnNonAudio) ∧
    (∀ st', ParseCueLine fs (indexLineG pre a digits rest) st = .ok st' →
      ∃ k, st.track = some k ∧
        (digitsValue digits 0 = 0 →
          (st'.tracks k).idx0 = (timeSector (skipSp (cstr rest)) : Nat)) ∧
        (digitsValue digits 0 = 1 →
          (st'.tracks k).idx1 = (timeSector (skipSp (cstr rest)) : Nat))) := by
  have hfront : ∀ x ∈ List.replicate a 32 ++ digits, x ≠ 0 := by
    intro x hx
    simp only [List.mem_append, List.mem_replicate] at hx
    rcases hx with h | h
    · omega
    · have := hdig x h; omega
  have hline : ParseCueLine fs (indexLineG pre a digits rest) st =
      parseIndex (List.replicate a 32 ++ (digits ++ cstr rest)) st := by
    have e : indexLineG pre a digits rest = pre ++ bytes "INDEX " ++
        (List.replicate a 32 ++ digits ++ rest) := by
      simp [indexLineG, List.append_assoc]
    rw [e, ParseCueLine_INDEX fs st pre _ hpre, cstr_append _ _ hfront, List.append_assoc]
  rw [hline, parseIndex_shape st a digits (cstr rest) hdig hrest hv htime]
  cases hk : st.track with
  | none =>
    dsimp only
    refine ⟨?_, fun _ => rfl, ?_, ?_, ?_⟩
    · constructor
      · rintro ⟨st', h⟩; cases h
      · rintro ⟨k, h, _⟩; cases h
    · intro k h; cases h
    · intro k h; cases h
    · intro st' h; cases h
  | some k =>
    dsimp only
    by_cases h2 : 2 ≤ digitsValue digits 0
    · rw [if_pos h2]
      refine ⟨?_, (fun h => by cases h), fun _ _ _ => rfl, ?_, ?_⟩
      · constructor
        · rintro ⟨st', h⟩; cases h
        · rintro ⟨k', _, h, _⟩; omega
      · intro k' _ h0; omega
      · intro st' h; cases h
    · rw [if_neg h2]
      by_cases h0 : digitsValue digits 0 = 0
      · rw [if_pos h0]
        by_cases ha : isAudio (st.tracks k)
        · rw [if_neg (not_not.mpr ha)]
          refine ⟨?_, (fun h => by cases h), fun _ _ h => absurd h h2, ?_, ?_⟩
          · exact ⟨fun _ => ⟨k, rfl, by omega, fun _ => ha⟩, fun _ => ⟨_, rfl⟩⟩
          · intro k' hk' _ hna
            cases hk'
            exact absurd ha hna
          · intro st' h
            cases h
            refine ⟨k, rfl, fun _ => ?_, fun h1 => by omega⟩
            show (setTrack _ _ _ _).idx0 = _
            rw [setTrack_same]
            split_ifs <;> rfl
        · rw [if_pos ha]
          refine ⟨?_, (fun h => by cases h), fun _ _ h => absurd h h2, fun _ _ _ _ => rfl, ?_⟩
          · constructor
            · rintro ⟨st', h⟩; cases h
            · rintro ⟨k', hk', _, h⟩
              cases hk'
              exact absurd (h h0) ha
          · intro st' h; cases h
      · rw [if_neg h0]
        refine ⟨?_, (fun h => by cases h), fun _ _ h => absurd h h2,
          fun _ _ h => absurd h h0, ?_⟩
        · exact ⟨fun _ => ⟨k, rfl, by omega, fun h => absurd h h0⟩, fun _ => ⟨_, rfl⟩⟩
        · intro st' h
          cases h
          refine ⟨k, rfl, fun h => absurd h h0, fun _ => ?_⟩
          show (setTrack _ _ _ _).idx1 = _
          rw [setTrack_same]
          split_ifs <;> rfl

/-- C16, witness: the line `    INDEX 01 00:02:00` on an active AUDIO track. -/
theorem C16_witness :
    ∃ st', ParseCueLine (fsOne ⟨0, fun _ => 0⟩)
        (indexLineG (bytes "    ") 0 (bytes "01") (bytes " 00:02:00\n")) stAudio = .ok st' ∧
      (st'.tracks 0).idx1 = 150 := by
  have h := C16_index_line (fsOne ⟨0, fun _ => 0⟩) stAudio (bytes "    ") 0 (bytes "01")
    (bytes " 00:02:00\n") (by decide) (by decide) (by decide) (by decide) (by decide)
  obtain ⟨st', hst⟩ := h.1.2 ⟨0, rfl, by decide, fun h0 => absurd h0 (by decide)⟩
  obtain ⟨k, hk, _, h1⟩ := h.2.2.2.2 st' hst
  cases hk
  exact ⟨st', hst, h1 rfl⟩

/-- C16, counterexample: on an active AUDIO track the line `INDEX xx 00:02:00`, which has no
index number, is accepted as index 0; and the line `INDEX 2147483648 00:02:00`, whose number
is not below 2, is accepted as index 1, the number being read into an `int32_t`. -/
theorem C16_counterexample :
    (∃ st', ParseCueLine (fsOne ⟨0, fun _ => 0⟩) (bytes "    INDEX xx 00:02:00\n") stAudio =
        .ok st') ∧
    (∃ st', ParseCueLine (fsOne ⟨0, fun _ => 0⟩) (bytes "    INDEX 2147483648 00:02:00\n")
        stAudio = .ok st' ∧ (st'.tracks 0).idx1 = 150) :=
  ⟨⟨_, rfl⟩, ⟨_, rfl, rfl⟩⟩

/-- C17 (amended).  `ParseCueLine` is case-sensitive for the directive keywords: a line whose
keyword is `FILE`, `TRACK` or `INDEX` written in any other letter case than upper case is
not recognised, and the parse state is left as it is, whatever the upper-case form of the line
would do. -/
theorem C17_keywords_case_sensitive (fs : FileSys) (st : CueState) (pre kw' rest : List Nat)
    (kw : String) (hkw : kw = "FILE " ∨ kw = "TRACK " ∨ kw = "INDEX ")
    (hpre : ∀ x ∈ pre, x = 32 ∨ x = 10 ∨ x = 13)
    (hcase : kw'.map upper = bytes kw) (hne : kw' ≠ bytes kw) :
    ParseCueLine fs (pre ++ kw' ++ rest) st = .ok st := by
  rcases hkw with rfl | rfl | rfl
  · rw [bytes_FILE] at hcase hne
    rcases kw' with _ | ⟨c0, _ | ⟨c1, _ | ⟨c2, _ | ⟨c3, _ | ⟨c4, _ | ⟨cx, t⟩⟩⟩⟩⟩⟩ <;>
      simp only [List.map, List.cons.injEq, and_true, reduceCtorEq, and_false] at hcase
    obtain ⟨a0, a1, a2, a3, a4⟩ := hcase
    have b0 := upper_cases a0
    have b1 := upper_cases a1
    have b2 := upper_cases a2
    have b3 := upper_cases a3
    have b4 := upper_cases a4
    have hn : ¬ (c0 = 70 ∧ c1 = 73 ∧ c2 = 76 ∧ c3 = 69 ∧ c4 = 32) := by
      rintro ⟨rfl, rfl, rfl, rfl, rfl⟩
      exact hne rfl
    apply ParseCueLine_ignored fs st pre c0 [c1, c2, c3, c4] rest hpre (by omega)
    · intro x hx
      simp only [List.mem_cons, List.not_mem_nil, or_false] at hx
      omega
    · simp [startsWith, bytes, List.isPrefixOf]
      omega
    · simp [startsWith, bytes, List.isPrefixOf]
      omega
    · simp [startsWith, bytes, List.isPrefixOf]
      omega
  · rw [bytes_TRACK] at hcase hne
    rcases kw' with _ | ⟨c0, _ | ⟨c1, _ | ⟨c2, _ | ⟨c3, _ | ⟨c4, _ | ⟨c5, _ | ⟨cx, t⟩⟩⟩⟩⟩⟩⟩ <;>
      simp only [List.map, List.cons.injEq, and_true, reduceCtorEq, and_false] at hcase
    obtain ⟨a0, a1, a2, a3, a4, a5⟩ := hcase
    have b0 := upper_cases a0
    have b1 := upper_cases a1
    have b2 := upper_cases a2
    have b3 := upper_cases a3
    have b4 := upper_cases a4
    have b5 := upper_cases a5
    have hn : ¬ (c0 = 84 ∧ c1 = 82 ∧ c2 = 65 ∧ c3 = 67 ∧ c4 = 75 ∧ c5 = 32) := by
      rintro ⟨rfl, rfl, rfl, rfl, rfl, rfl⟩
      exact hne rfl
    apply ParseCueLine_ignored fs st pre c0 [c1, c2, c3, c4, c5] rest hpre (by omega)
    · intro x hx
      simp only [List.mem_cons, List.not_mem_nil, or_false] at hx
      omega
    · simp [startsWith, bytes, List.isPrefixOf]
      omega
    · simp [startsWith, bytes, List.isPrefixOf]
      omega
    · simp [startsWith, bytes, List.isPrefixOf]
      omega
  · rw [bytes_INDEX] at hcase hne
    rcases kw' with _ | ⟨c0, _ | ⟨c1, _ | ⟨c2, _ | ⟨c3, _ | ⟨c4, _ | ⟨c5, _ | ⟨cx, t⟩⟩⟩⟩⟩⟩⟩ <;>
      simp only [List.map, List.cons.injEq, and_true, reduceCtorEq, and_false] at hcase
    obtain ⟨a0, a1, a2, a3, a4, a5⟩ := hcase
    have b0 := upper_cases a0
    have b1 := upper_cases a1
    have b2 := upper_cases a2
    have b3 := upper_cases a3
    have b4 := upper_cases a4
    have b5 := upper_cases a5
    have hn : ¬ (c0 = 73 ∧ c1 = 78 ∧ c2 = 68 ∧ c3 = 69 ∧ c4 = 88 ∧ c5 = 32) := by
      rintro ⟨rfl, rfl, rfl, rfl, rfl, rfl⟩
      exact hne rfl
    apply ParseCueLine_ignored fs st pre c0 [c1, c2, c3, c4, c5] rest hpre (by omega)
    · intro x hx
      simp only [List.mem_cons, List.not_mem_nil, or_false] at hx
      omega
    · simp [startsWith, bytes, List.isPrefixOf]
      omega
    · simp [startsWith, bytes, List.isPrefixOf]
      omega
    · simp [startsWith, bytes, List.isPrefixOf]
      omega

/-- C17, witness: the line `  track 01 AUDIO` leaves the state after `FILE "a.bin"` as it
is. -/
theorem C17_witness :
    ParseCueLine (fsOne ⟨0, fun _ => 0⟩) (bytes "  " ++ bytes "track " ++ bytes "01 AUDIO\n")
      stFile = .ok stFile :=
  C17_keywords_case_sensitive (fsOne ⟨0, fun _ => 0⟩) stFile (bytes "  ") (bytes "track ")
    (bytes "01 AUDIO\n") "TRACK " (Or.inr (Or.inl rfl)) (by decide) (by decide) (by decide)

/-- C17, counterexample: after `FILE "a.bin"` the line `  TRACK 01 AUDIO` creates a track,
and the same line with the keyword in lower case does not. -/
theorem C17_counterexample :
    (∃ st', ParseCueLine (fsOne ⟨0, fun _ => 0⟩) (bytes "  TRACK 01 AUDIO\n") stFile = .ok st' ∧
      st'.nTracks = 1) ∧
    (∃ st', ParseCueLine (fsOne ⟨0, fun _ => 0⟩) (bytes "  track 01 AUDIO\n") stFile = .ok st' ∧
      st'.nTracks = 0) :=
  ⟨⟨_, rfl, rfl⟩, ⟨_, rfl, rfl⟩⟩

/-- C18, evaluation at the failing input: for the sheet with one `MODE2/2448` track over a
file of ten sectors of 2448 bytes, `IsoFromCue` yields a track of ten sectors with a payload
of 2048 bytes per sector, and `DoTrack` on it ends with "Unexpected mode!" instead of writing
the 20480 payload bytes.  For the other five data modes `DoTrack_data_output` gives the output
the claim states. -/
theorem C18_mode2_2448_eval :
    ∃ tbl, IsoFromCue (fsOne ⟨2448 * 10, fun _ => 0⟩) defaultOptions sheetC18 = .ok (tbl, 1) ∧
      (tbl 0).mode = MODE2_2448 ∧ (tbl 0).totalSectors = 10 ∧ (tbl 0).startOfs = 0 ∧
      (tbl 0).sectorSize = 2448 ∧ datasize (tbl 0) = 2048 ∧
      DoTrack (tbl 0) IOState.init = .error .unexpectedMode :=
  ⟨_, rfl, rfl, rfl, rfl, rfl, rfl, rfl⟩

/-- C19 (amended).  For every AUDIO or AUDIO/<n> track with the layout `ParseCueLine` gives
it, with a sector size other than 0 or with no sector to copy, and with a start offset that
is not negative, `DoTrack`, entered with the buffers empty, writes a file that begins with
the 44-byte little-endian header "RIFF", data-size + 36, "WAVE", "fmt ", 16, 1, 2, 44100,
176400, 4, 16, "data", data-size, where data-size is `totalSectors * 2352` modulo `2^32`;
the header is followed by the payloads of the sectors copied and by nothing else. -/
theorem C19_wav_header (t : Track) (s : IOState) (haudio : isAudio t) (hlay : layoutOK t)
    (h0 : t.sectorSize ≠ 0 ∨ wrapU32 t.totalSectors = 0) (hofs : 0 ≤ t.startOfs)
    (hr : s.inBufReadIndex = 0) (hw : s.inBufWriteIndex = 0) (hob : s.outBuf = []) :
    ∃ s' K, DoTrack t s = .ok s' ∧ K ≤ (wrapU32 t.totalSectors).toNat ∧
      s'.out = wavHeaderSpec ((t.totalSectors * 2352) % 4294967296).toNat ++
        payloads t t.fdSrcFile t.startOfs.toNat 0 K ∧
      (wavHeaderSpec ((t.totalSectors * 2352) % 4294967296).toNat).length = 44 ∧
      s'.out.length = 44 + K * datasize t := by
  have ha : t.mode = MODE_AUDIO ∨ t.mode = MODE_AUDIOSUB := haudio
  by_cases hz : t.sectorSize = 0
  · have hts : (wrapU32 t.totalSectors).toNat = 0 := by
      rcases h0 with h | h
      · exact absurd hz h
      · rw [h]
        rfl
    have hrun : DoTrack t s = .ok
        { s with out := (wavhead t).objectBytes ++ s.outBuf, outBuf := [],
                 bin := ⟨t.fdSrcFile, t.startOfs.toNat⟩, inBufReadIndex := 0,
                 inBufWriteIndex := 0 } := by
      unfold DoTrack
      rw [if_neg (not_not.mpr (by tauto))]
      dsimp only
      rw [if_neg (by omega), hts, if_pos ha]
      rfl
    refine ⟨_, 0, hrun, Nat.zero_le _, ?_, wavHeaderSpec_length _, ?_⟩
    · show (wavhead t).objectBytes ++ s.outBuf = _
      rw [hob, wavhead_bytes]
      rfl
    · show ((wavhead t).objectBytes ++ s.outBuf).length = _
      rw [hob, wavhead_bytes, List.append_nil, wavHeaderSpec_length]
      omega
  · obtain ⟨hfit, hds⟩ := layoutOK_fit hlay
    obtain ⟨s', K, h1, hK, _, _, hout, _⟩ := DoTrack_spec t s
      (by tauto) hofs hz hfit (Nat.le_trans hds (by decide)) hr hw hob
    rw [if_pos ha, wavhead_bytes] at hout
    refine ⟨s', K, h1, hK, hout, wavHeaderSpec_length _, ?_⟩
    rw [hout, List.length_append, wavHeaderSpec_length, payloads_length]

/-- C19, witness: the audio track of 1000 sectors of the one-track sheet; its header, for
the data size 2352000, is spelled out. -/
theorem C19_witness :
    (∃ s' K, DoTrack (tblC19 0) IOState.init = .ok s' ∧
      K ≤ (wrapU32 (tblC19 0).totalSectors).toNat ∧
      s'.out = wavHeaderSpec (((tblC19 0).totalSectors * 2352) % 4294967296).toNat ++
        payloads (tblC19 0) (tblC19 0).fdSrcFile (tblC19 0).startOfs.toNat 0 K ∧
      (wavHeaderSpec (((tblC19 0).totalSectors * 2352) % 4294967296).toNat).length = 44 ∧
      s'.out.length = 44 + K * datasize (tblC19 0)) ∧
    (tblC19 0).totalSectors = 1000 ∧
    wavHeaderSpec 2352000 =
      [82, 73, 70, 70, 164, 227, 35, 0, 87, 65, 86, 69, 102, 109, 116, 32, 16, 0, 0, 0, 1, 0,
       2, 0, 68, 172, 0, 0, 16, 177, 2, 0, 4, 0, 16, 0, 100, 97, 116, 97, 128, 227, 35, 0] :=
  ⟨C19_wav_header (tblC19 0) IOState.init (Or.inl rfl)
      ⟨by decide, by decide, fun h => absurd h (by decide), fun _ => ⟨rfl, rfl⟩,
        fun h => absurd h (by decide), Or.inl rfl⟩
      (Or.inl (by decide)) (by decide) rfl rfl rfl,
    rfl, by decide⟩

set_option maxRecDepth 100000 in
/-- C19, counterexample: the sheet with `TRACK 01 AUDIO/0` is accepted, and its first track is
an audio track of 10 sectors with the sector size 0; `DoTrack` on it ends in the division by
zero of `BufferedFRead` (`INBUF_SIZE % readsize`), and no complete file is written. -/
theorem C19_counterexample :
    ∃ tbl, IsoFromCue (fsOne ⟨2352 * 1000, fun _ => 0⟩) defaultOptions sheetC19
        = .ok (tbl, 2) ∧
      isAudio (tbl 0) ∧ (tbl 0).sectorSize = 0 ∧ (tbl 0).totalSectors = 10 ∧
      DoTrack (tbl 0) IOState.init = .error .undefinedResult :=
  ⟨_, rfl, Or.inr rfl, rfl, rfl, rfl⟩

/-- C20 (amended): for a stream of `a` loud sectors, `g ≥ 1` non-loud sectors and `b ≥ 1`
loud sectors whose sector numbers stay below `2^32`, the splitting loop of `CueFromBin`
writes nothing when `g` is below the configured gap width.  When `g` reaches the width, the
boundary is that of the earliest and the latest sector of the gap with the gap's lowest
volume value: the loop returns, having written exactly this boundary with the texts of
`TimeIndex` for the two sectors, when both texts fit the buffer `char indextxt[9]`, and it
writes beyond the buffer when one does not.  A text fits exactly when the minute, taken
modulo 256, is below 100; below sector 450000 the text fits and is read back as the
sector. -/
theorem C20_one_gap_one_split (opts : CommandlineOptions) (modetxt : List Nat)
    (ss o a g b fuel : Nat) (s : IOState) (st : SplitState)
    (h1 : SIZERAW ≤ ss) (h2 : ss ≤ INBUF_SIZE)
    (hr : s.inBufReadIndex = 0) (hw : s.inBufWriteIndex = 0) (hp : s.bin.pos = o)
    (hsize : s.bin.file.size = o + (a + g + b) * ss) (hfuel : a + g + b < fuel)
    (hg : 1 ≤ g) (hb : 1 ≤ b)
    (hA : ∀ k, k < a → isLoud opts s.bin.file o ss k)
    (hG : ∀ k, a ≤ k → k < a + g → ¬ isLoud opts s.bin.file o ss k)
    (hB : ∀ k, a + g ≤ k → k < a + g + b → isLoud opts s.bin.file o ss k)
    (hst : st.gapsectors = 0) (hsec : st.sector + a + g + b < 4294967296)
    (ht : -2147483648 ≤ st.track + 1 ∧ st.track + 1 < 2147483648) :
    (∃ j0 j1, j0 ≤ j1 ∧ j1 < g ∧
      (∀ j, j < g →
        volume opts s.bin.file o ss (a + j0) ≤ volume opts s.bin.file o ss (a + j)) ∧
      volume opts s.bin.file o ss (a + j1) = volume opts s.bin.file o ss (a + j0) ∧
      (∀ j, j < j0 →
        volume opts s.bin.file o ss (a + j0) < volume opts s.bin.file o ss (a + j)) ∧
      (∀ j, j1 < j → j < g →
        volume opts s.bin.file o ss (a + j0) < volume opts s.bin.file o ss (a + j)) ∧
      (g < opts.splitGapLength →
        ∃ s' st', splitLoop opts modetxt ss fuel s st = .ok (s', st') ∧
          st'.cue = st.cue ∧ st'.track = st.track) ∧
      (opts.splitGapLength ≤ g →
        indexFits (st.sector + a + j0) → indexFits (st.sector + a + j1) →
        ∃ s' st', splitLoop opts modetxt ss fuel s st = .ok (s', st') ∧
          st'.cue = st.cue ++ boundaryText (st.track + 1) modetxt (st.sector + a + j0)
            (st.sector + a + j1) ∧
          st'.track = st.track + 1) ∧
      (opts.splitGapLength ≤ g →
        ¬ (indexFits (st.sector + a + j0) ∧ indexFits (st.sector + a + j1)) →
        splitLoop opts modetxt ss fuel s st = .error .tableOverflow)) ∧
    (∀ k, indexFits k ↔ k % 4294967296 / 4500 % 256 < 100) ∧
    (∀ k, k < 450000 → indexFits k ∧ timeSector (TimeIndex k) = k) :=
  ⟨splitLoop_one_gap opts modetxt ss o a g b fuel s st h1 h2 hr hw hp hsize hfuel hg hb hA hG
    hB hst hsec ht, indexFits_iff, fun _ hk => ⟨indexFits_of_lt hk, timeSector_TimeIndex _ hk⟩⟩

/-- C20, on the image of 1000 loud, 60 silent and 1000 loud sectors with limit 80 and gap
width 48: one boundary, from sector 1000 (`00:13:25`) to sector 1059 (`00:14:09`). -/
theorem C20_witness :
    defaultOptions.splitGapLength ≤ 60 ∧
    ∃ s' st', splitLoop defaultOptions (bytes "AUDIO") 2352 2061 (ioStart fileC20) stC20
        = .ok (s', st') ∧
      st'.cue = bytes "  TRACK 01 AUDIO\n    INDEX 00 00:13:25\n    INDEX 01 00:14:09\n" ∧
      st'.track = 1 := by
  have hA : ∀ k, k < 1000 → isLoud defaultOptions fileC20 0 2352 k := fun k hk =>
    isLoud_127 _ _ _ _ (fun p hp => by
      unfold recByte fileC20
      dsimp only
      rw [if_pos (by omega), if_neg (by omega)])
  have hG : ∀ k, 1000 ≤ k → k < 1000 + 60 →
      volume defaultOptions fileC20 0 2352 k = 0 ∧ ¬ isLoud defaultOptions fileC20 0 2352 k :=
    fun k h1 h2 => volume_0 _ _ _ _ _ (fun p hp => by
      unfold recByte fileC20
      dsimp only
      rw [if_pos (by omega), if_pos (by omega)])
  have hB : ∀ k, 1000 + 60 ≤ k → k < 1000 + 60 + 1000 →
      isLoud defaultOptions fileC20 0 2352 k := fun k h1 h2 =>
    isLoud_127 _ _ _ _ (fun p hp => by
      unfold recByte fileC20
      dsimp only
      rw [if_pos (by omega), if_neg (by omega)])
  obtain ⟨⟨j0, j1, h01, h1g, -, -, hfirst, hlast, -, hsplit, -⟩, -, hread⟩ :=
    C20_one_gap_one_split defaultOptions (bytes "AUDIO") 2352 0 1000 60 1000 2061
      (ioStart fileC20) stC20 (by decide) (by decide) rfl rfl rfl rfl (by decide) (by decide)
      (by decide) hA (fun k h1 h2 => (hG k h1 h2).2) hB rfl (by decide) (by decide)
  have e0 : j0 = 0 := by
    by_contra hne
    have h : volume defaultOptions fileC20 0 2352 (1000 + j0) <
        volume defaultOptions fileC20 0 2352 (1000 + 0) := hfirst 0 (by omega)
    rw [(hG (1000 + j0) (by omega) (by omega)).1, (hG (1000 + 0) (by omega) (by omega)).1]
      at h
    exact absurd h (by decide)
  have e1 : j1 = 59 := by
    by_contra hne
    have h : volume defaultOptions fileC20 0 2352 (1000 + j0) <
        volume defaultOptions fileC20 0 2352 (1000 + 59) := hlast 59 (by omega) (by omega)
    rw [(hG (1000 + j0) (by omega) (by omega)).1, (hG (1000 + 59) (by omega) (by omega)).1]
      at h
    exact absurd h (by decide)
  subst e0 e1
  obtain ⟨s', st', hrun, hc, htr⟩ := hsplit (by decide) (hread _ (by decide)).1
    (hread _ (by decide)).1
  refine ⟨by decide, s', st', hrun, ?_, htr⟩
  rw [hc]
  decide

/-- C20, counterexample.  A gap of `2^32` silent sectors followed by a loud sector writes no
boundary, though the gap is longer than the width 48: the 32-bit gap counter is back at 0
when the loud sector arrives.  On 450000 loud, 48 silent and one loud sector the texts of the
boundary, `100:00:00` and `100:00:47`, have nine characters and the loop writes beyond the
buffer `char indextxt[9]`.  On 1152010 loud, 60 silent and one loud sector the boundary is
written with the times `00:00:10` and `00:00:69`, those of the sectors 10 and 69, which are
loud: `TimeIndex` keeps the minute in a `uint8_t`. -/
theorem C20_counterexample :
    ((∀ k, k < 4294967296 → ¬ isLoud defaultOptions fileC20x 0 2352 k) ∧
      isLoud defaultOptions fileC20x 0 2352 4294967296 ∧
      defaultOptions.splitGapLength ≤ 4294967296 ∧
      ∃ s' st', splitLoop defaultOptions (bytes "AUDIO") 2352 4294967298 (ioStart fileC20x)
          stC20 = .ok (s', st') ∧
        st'.cue = [] ∧ st'.track = 0) ∧
    (TimeIndex 450000 = bytes "100:00:00" ∧ TimeIndex 450047 = bytes "100:00:47" ∧
      splitLoop defaultOptions (bytes "AUDIO") 2352 450050 (ioStart (gapImage 450000 48 1))
        stC20 = .error .tableOverflow) ∧
    ((∀ k, k < 1152010 → isLoud defaultOptions (gapImage 1152010 60 1) 0 2352 k) ∧
      (∀ k, 1152010 ≤ k → k < 1152070 → ¬ isLoud defaultOptions (gapImage 1152010 60 1) 0 2352 k) ∧
      ∃ s' st', splitLoop defaultOptions (bytes "AUDIO") 2352 1152072
          (ioStart (gapImage 1152010 60 1)) stC20 = .ok (s', st') ∧
        st'.cue = bytes "  TRACK 01 AUDIO\n    INDEX 00 00:00:10\n    INDEX 01 00:00:69\n" ∧
        timeSector (bytes "00:00:10") = 10 ∧ timeSector (bytes "00:00:69") = 69) := by
  have hG : ∀ k, k < 4294967296 → ¬ isLoud defaultOptions fileC20x 0 2352 k :=
    fun k hk => (volume_0 _ _ _ _ _ (fun p hp => by
      unfold recByte fileC20x
      dsimp only
      rw [if_pos (by omega), if_pos (by omega)])).2
  have hB : isLoud defaultOptions fileC20x 0 2352 4294967296 :=
    isLoud_127 _ _ _ _ (fun p hp => by
      unfold recByte fileC20x
      dsimp only
      rw [if_pos (by omega), if_neg (by omega)])
  have hquiet : ∀ i, i ≤ 4294967296 →
      (splitFold defaultOptions (bytes "AUDIO") fileC20x 0 2352 0 i stC20).cue = stC20.cue ∧
      (splitFold defaultOptions (bytes "AUDIO") fileC20x 0 2352 0 i stC20).track =
        stC20.track ∧
      (splitFold defaultOptions (bytes "AUDIO") fileC20x 0 2352 0 i stC20).gapsectors =
        (stC20.gapsectors + i) % 4294967296 := fun i hi =>
    splitFold_quiet_frame defaultOptions (bytes "AUDIO") fileC20x 0 2352 i 0 stC20
      (fun k _ h => hG k (by omega)) (by decide)
  obtain ⟨q1, q2, q3⟩ := hquiet 4294967296 (le_refl _)
  have hgap : (splitFold defaultOptions (bytes "AUDIO") fileC20x 0 2352 0 4294967296
      stC20).gapsectors = 0 := by
    rw [q3]
    decide
  obtain ⟨r1, r2⟩ := records_exact fileC20x.size 0 2352 (4294967296 + 1) (by decide) rfl
  obtain ⟨s', hs'⟩ := splitLoop_run defaultOptions (bytes "AUDIO") 2352 0 (by decide)
    (by decide) (4294967296 + 1) 0 0 4294967298 (ioStart fileC20x) stC20
    (RecInv.start 2352 0 _ rfl rfl rfl) r1 r2 (by decide)
    (fun i hi => by
      rw [Nat.zero_add]
      by_cases c : i < 4294967296
      · exact fun hl => absurd hl (hG i c)
      · have e : i = 4294967296 := by omega
        subst e
        exact fun _ hne => absurd hgap hne)
  have hfold : splitFold defaultOptions (bytes "AUDIO") fileC20x 0 2352 0 (4294967296 + 1)
      stC20 =
      splitNext defaultOptions (bytes "AUDIO") (volume defaultOptions fileC20x 0 2352 4294967296)
        (sampleHits defaultOptions fileC20x 0 2352 4294967296)
        (splitFold defaultOptions (bytes "AUDIO") fileC20x 0 2352 0 4294967296 stC20) := by
    rw [splitFold_add]
    rfl
  have hk := splitNext_loud_nogap hB (bytes "AUDIO") _ hgap
  have f1 : ¬ (indexFits 450000 ∧ indexFits (450000 + (48 - 1))) := by
    rw [indexFits_iff, indexFits_iff]
    decide
  have f2 : indexFits 1152010 := by
    rw [indexFits_iff]
    decide
  have f3 : indexFits (1152010 + (60 - 1)) := by
    rw [indexFits_iff]
    decide
  obtain ⟨s2, st2, w1, w2, -⟩ := (gapImage_split 1152010 60 1 (by decide) (by decide)
    (by decide)).1 f2 f3
  refine ⟨⟨hG, hB, by decide, s', _, hs', ?_, ?_⟩,
    ⟨by decide, by decide,
      (gapImage_split 450000 48 1 (by decide) (by decide) (by decide)).2 f1⟩,
    ⟨fun k hk => gapImage_loud _ _ _ k (Or.inl hk) (by omega),
      fun k h1 h2 => (gapImage_quiet defaultOptions _ _ _ k h1 (by omega)).2,
      s2, st2, w1, ?_, by decide, by decide⟩⟩
  · show (splitFold defaultOptions (bytes "AUDIO") fileC20x 0 2352 0 (4294967296 + 1)
      stC20).cue = []
    rw [hfold, hk.1, q1]
    rfl
  · show (splitFold defaultOptions (bytes "AUDIO") fileC20x 0 2352 0 (4294967296 + 1)
      stC20).track = 0
    rw [hfold, hk.2, q2]
    rfl
  · rw [w2]
    decide

/-- C22: for every sector the splitting loop of `CueFromBin` computes, without overflow of
the 64-bit accumulator, the sum of the squares of the 1176 signed 16-bit little-endian
samples of the first 2352 bytes and the number of samples whose square exceeds the squared
limit; the volume value is that sum divided by 2352, the byte count, not by the sample count
1176: for a sector of bytes 127 the code's value is 532652160, half the mean square
1065304321. -/
theorem C22_volume_divided_by_2352 (opts : CommandlineOptions) (buffer : Nat → Nat) :
    sectorStats (limitSquared opts) buffer =
      (sumSquares buffer / 2352, hitCount (limitSquared opts) buffer) ∧
    limitSquared opts = (opts.splitRmsLimit * opts.splitRmsLimit) % 4294967296 ∧
    sumSquares buffer < 18446744073709551616 ∧
    (sectorStats (limitSquared defaultOptions) bufC22).1 = 532652160 ∧
    sumSquares bufC22 / 1176 = 1065304321 := by
  have e : SIZERAW / 2 = 1176 := by decide
  have hs : ∀ lim buf, sectorStats lim buf = (sumSquares buf / 2352, hitCount lim buf) := by
    intro lim buf
    unfold sectorStats
    rw [e, statsLoop_whole]
  have hb : sumSquares buffer ≤ 0 + 1176 * 4294967295 := by
    have h := statsLoop_sum_le 0 buffer 1176 0 0 0
    rw [statsLoop_whole] at h
    dsimp only at h
    exact h
  have hc : sumSquares bufC22 = 1176 * 1065304321 := by
    have h1 := (statsLoop_whole 0 bufC22).symm.trans
      (statsLoop_const 0 bufC22 127 1176 0 0 0 (fun _ _ _ => rfl)
        (by rw [sampleSquared_127]; decide) (by decide))
    rw [(Prod.mk.inj h1).1, sampleSquared_127, Nat.zero_add]
  refine ⟨hs _ _, limitSquared_eq opts, by omega, ?_, ?_⟩
  · rw [hs, hc]
  · rw [hc]

/-- C23 (amended): for every window of 50000 bytes that begins with the sync pattern, the
search of `AnalyseTrack` stops at the first of the candidates 2064, 2068, ..., 2556 at which
the sync pattern repeats, with the same byte 15 and a greater 24-bit time index, and when
`AnalyseTrack` returns, that is the sector size and the label is `MODE<byte 15>/<size>`.  It
returns exactly when the loop that counts the sectors with sync pattern is left at one of the
offsets it visits, which are taken modulo `2^32`, and runs on otherwise; in a file of at most
`2^32 - 2560` bytes it returns.  When no
candidate qualifies `AnalyseTrack` returns and reports no data region: 0 sectors and the
label `AUDIO`. -/
theorem C23_sync_sector_size (f : SrcFile) (readpos subchanbytes : Nat)
    (hwin : readpos + 50000 ≤ f.size)
    (hsync : bytesAt (window f readpos) 0 12 = syncPattern) :
    (∀ s, isCandidate s → qualifies (window f readpos) s →
      (∀ s', isCandidate s' → s' < s → ¬ qualifies (window f readpos) s') →
      candidateLoop (window f readpos) 125 2064 = some s ∧
      (∀ fuel a, AnalyseTrack fuel f readpos subchanbytes = .ok a → a.sectorsize = s ∧
        a.modetxt = bytes "MODE" ++ fmtD (f.byte (readpos + 15) % 256) ++ bytes "/" ++ fmtD s) ∧
      (∀ fuel, (∃ a, AnalyseTrack fuel f readpos subchanbytes = .ok a) ↔
        ∃ k, k < fuel ∧ countingStops f readpos
          ((descriptorBytes (window f readpos) s + k * s) % 4294967296)) ∧
      (∀ fuel, (¬ ∃ a, AnalyseTrack fuel f readpos subchanbytes = .ok a) →
        AnalyseTrack fuel f readpos subchanbytes = .error .outOfFuel) ∧
      (f.size + 2560 ≤ 4294967296 → ∀ fuel, f.size < fuel →
        ∃ a, AnalyseTrack fuel f readpos subchanbytes = .ok a ∧ a.sectorsize = s ∧
          a.modetxt =
            bytes "MODE" ++ fmtD (f.byte (readpos + 15) % 256) ++ bytes "/" ++ fmtD s)) ∧
    ((∀ s, isCandidate s → ¬ qualifies (window f readpos) s) →
      ∀ fuel, ∃ a, AnalyseTrack fuel f readpos subchanbytes = .ok a ∧ a.isotracksectors = 0 ∧
        a.modetxt = bytes "AUDIO") := by
  obtain ⟨c1, c2⟩ := candidateLoop_first (window f readpos)
  have hsync' : bytesAt (fun k => f.byte (readpos + k)) 0 12 = syncPattern := hsync
  constructor
  · intro s hc hq hfirst
    have hloop : candidateLoop (window f readpos) 125 2064 = some s := c1 s hc hq hfirst
    have hcases := fun fuel =>
      AnalyseTrack_sync_cases fuel f readpos subchanbytes s hwin hsync hloop
    refine ⟨hloop, fun fuel => (hcases fuel).1, fun fuel => (hcases fuel).2.1,
      fun fuel => (hcases fuel).2.2, ?_⟩
    intro hsize fuel hfuel
    obtain ⟨k, rfl⟩ : ∃ k, fuel = k + 1 := ⟨fuel - 1, by omega⟩
    obtain ⟨r, hr⟩ := syncRun_returns f readpos s (by have := hc.1; omega)
      (by have := hc.2.1; omega) hsize k (descriptorBytes (window f readpos) s)
      (CheckIsoHeader (window f readpos)
        (s * 16 + (if window f readpos 15 % 256 = 1 then 16 else 24)) 0) (by omega)
    rw [AnalyseTrack_sync (k + 1) f readpos subchanbytes s hwin hsync hloop, hr]
    exact ⟨_, rfl, rfl, rfl⟩
  · intro hnone fuel
    have hloop : candidateLoop (fun k => f.byte (readpos + k)) 125 2064 = none := c2 hnone
    unfold AnalyseTrack
    rw [if_neg (by omega)]
    dsimp only
    rw [if_pos hsync', hloop]
    exact ⟨_, rfl, rfl, rfl⟩

/-- C23 on the image of raw mode 1 sectors: the size detected is 2352 and the label
`MODE1/2352`. -/
theorem C23_witness :
    ∃ a, AnalyseTrack 70561 fileC23 0 0 = .ok a ∧ a.sectorsize = 2352 ∧
      a.modetxt = bytes "MODE1/2352" := by
  have hfirst : ∀ s', isCandidate s' → s' < 2352 → ¬ qualifies (window fileC23 0) s' := by
    intro s' hc hlt hq
    obtain ⟨c1, -, -⟩ := hc
    have h := hq.1
    rw [bytesAt_12] at h
    have h1 : window fileC23 0 (s' + 1) % 256 = 255 := by
      unfold syncPattern at h
      injection h with _ h
      injection h with h _
    unfold window fileC23 at h1
    dsimp only at h1
    split_ifs at h1 <;> omega
  obtain ⟨a, h1, h2, h3⟩ := ((C23_sync_sector_size fileC23 0 0 (by decide) (by decide)).1 2352
    (by unfold isCandidate; decide) (by unfold qualifies; decide) hfirst).2.2.2.2 (by decide)
    70561 (by decide)
  exact ⟨a, h1, h2, h3⟩

/-- C23, counterexample: in the file of `2^32 + 2064` bytes whose blocks of 16 bytes all begin
with the sync pattern, the window begins with the sync pattern and the candidate 2064
qualifies, but `AnalyseTrack` does not return: the offset of the counting loop is a 32-bit
number, it never leaves the file, and the loop finds the sync pattern in every round. -/
theorem C23_counterexample :
    bytesAt (window fileC23x 0) 0 12 = syncPattern ∧
    isCandidate 2064 ∧ qualifies (window fileC23x 0) 2064 ∧
    ∀ fuel, AnalyseTrack fuel fileC23x 0 0 = .error .outOfFuel := by
  have hsync : bytesAt (window fileC23x 0) 0 12 = syncPattern := by decide
  have hloop : candidateLoop (window fileC23x 0) 125 2064 = some 2064 := by decide
  have hd : descriptorBytes (window fileC23x 0) 2064 = 0 := by decide
  refine ⟨hsync, by unfold isCandidate; decide, by unfold qualifies; decide, fun fuel => ?_⟩
  obtain ⟨-, h2, h3⟩ := AnalyseTrack_sync_cases fuel fileC23x 0 0 2064 (by decide) hsync hloop
  apply h3
  rw [h2]
  rintro ⟨k, -, hk⟩
  rw [hd, Nat.zero_add] at hk
  exact countingStops_never _ (Nat.mod_lt _ (by decide)) (by omega) hk

/-- C24 (amended): for every window of 50000 bytes that does not begin with the sync pattern,
`AnalyseTrack` returns, with the label `MODE1/2048` and sector size 2048 if the ISO-9660
signature is at offset `0x8000` with a block count other than 0; otherwise `MODE2/2336` and
2336 if the signature is at `0x9208` with a block count other than 0; otherwise `MODE1/2048`
and 2048 if the UDF signature is at `0x8000`; otherwise pure audio, the label `AUDIO` with 0
data sectors.  The label is `AUDIO` exactly in the last case. -/
theorem C24_classification_without_sync (fuel : Nat) (f : SrcFile)
    (readpos subchanbytes : Nat) (hwin : readpos + 50000 ≤ f.size)
    (hns : bytesAt (window f readpos) 0 12 ≠ syncPattern) :
    ∃ a, AnalyseTrack fuel f readpos subchanbytes = .ok a ∧
      (isoFound (window f readpos) 0x8000 →
        a.modetxt = bytes "MODE1/2048" ∧ a.sectorsize = 2048) ∧
      (¬ isoFound (window f readpos) 0x8000 → isoFound (window f readpos) 0x9208 →
        a.modetxt = bytes "MODE2/2336" ∧ a.sectorsize = 2336) ∧
      (¬ isoFound (window f readpos) 0x8000 → ¬ isoFound (window f readpos) 0x9208 →
        udfAt (window f readpos) 0x8000 →
        a.modetxt = bytes "MODE1/2048" ∧ a.sectorsize = 2048) ∧
      (¬ isoFound (window f readpos) 0x8000 → ¬ isoFound (window f readpos) 0x9208 →
        ¬ udfAt (window f readpos) 0x8000 →
        a.modetxt = bytes "AUDIO" ∧ a.isotracksectors = 0 ∧ a.sectorsize = 2352) ∧
      (a.modetxt = bytes "AUDIO" ↔
        ¬ isoFound (window f readpos) 0x8000 ∧ ¬ isoFound (window f readpos) 0x9208 ∧
          ¬ udfAt (window f readpos) 0x8000) := by
  have hns' : ¬ bytesAt (fun k => f.byte (readpos + k)) 0 12 = syncPattern := hns
  have e1 := CheckIsoHeader_ne_zero (window f readpos) 0x8000
  have e2 := CheckIsoHeader_ne_zero (window f readpos) 0x9208
  have d1 : bytes "MODE1/2048" ≠ bytes "AUDIO" := by decide
  have d2 : bytes "MODE2/2336" ≠ bytes "AUDIO" := by decide
  unfold AnalyseTrack
  rw [if_neg (by omega)]
  dsimp only
  rw [if_neg hns']
  by_cases h1 : CheckIsoHeader (fun k => f.byte (readpos + k)) 0x8000 0 ≠ 0
  · have k1 : isoFound (window f readpos) 0x8000 := e1.1 h1
    rw [if_pos h1]
    dsimp only
    rw [if_pos h1]
    exact ⟨_, rfl, fun _ => ⟨rfl, rfl⟩, fun h => absurd k1 h, fun h => absurd k1 h,
      fun h => absurd k1 h, fun h => absurd h d1, fun h => absurd k1 h.1⟩
  · have k1 : ¬ isoFound (window f readpos) 0x8000 := fun h => h1 (e1.2 h)
    rw [if_neg h1]
    by_cases h2 : CheckIsoHeader (fun k => f.byte (readpos + k)) 0x9208 0 ≠ 0
    · have k2 : isoFound (window f readpos) 0x9208 := e2.1 h2
      rw [if_pos h2]
      dsimp only
      rw [if_pos h2]
      exact ⟨_, rfl, fun h => absurd h k1, fun _ _ => ⟨rfl, rfl⟩, fun _ h => absurd k2 h,
        fun _ h => absurd k2 h, fun h => absurd h d2, fun h => absurd k2 h.2.1⟩
    · have k2 : ¬ isoFound (window f readpos) 0x9208 := fun h => h2 (e2.2 h)
      rw [if_neg h2]
      by_cases h3 : bytesAt (fun k => f.byte (readpos + k)) 0x8000 8 = udfVolumeDescriptor
      · have k3 : udfAt (window f readpos) 0x8000 := h3
        rw [if_pos h3]
        dsimp only
        by_cases h4 : f.size / 2048 % 4294967296 ≠ 0
        · rw [if_pos h4]
          exact ⟨_, rfl, fun h => absurd h k1, fun _ h => absurd h k2,
            fun _ _ _ => ⟨rfl, rfl⟩, fun _ _ h => absurd k3 h, fun h => absurd h d1,
            fun h => absurd k3 h.2.2⟩
        · rw [if_neg h4]
          exact ⟨_, rfl, fun h => absurd h k1, fun _ h => absurd h k2,
            fun _ _ _ => ⟨rfl, rfl⟩, fun _ _ h => absurd k3 h, fun h => absurd h d1,
            fun h => absurd k3 h.2.2⟩
      · have k3 : ¬ udfAt (window f readpos) 0x8000 := h3
        rw [if_neg h3]
        dsimp only
        rw [if_neg (by decide)]
        exact ⟨_, rfl, fun h => absurd h k1, fun _ h => absurd h k2,
          fun _ _ h => absurd h k3, fun _ _ _ => ⟨rfl, rfl, rfl⟩, fun _ => ⟨k1, k2, k3⟩,
          fun _ => rfl⟩

/-- C24 on an image of 30 blocks of 2048 bytes with its volume descriptor at `0x8000`. -/
theorem C24_witness :
    ∃ a, AnalyseTrack 0 (isoImage 61440 30) 0 0 = .ok a ∧
      a.modetxt = bytes "MODE1/2048" ∧ a.sectorsize = 2048 := by
  obtain ⟨a, h, h1, -⟩ := C24_classification_without_sync 0 (isoImage 61440 30) 0 0
    (by decide) (by decide)
  exact ⟨a, h, h1 (by unfold isoFound isoAt blockCount; decide)⟩

/-- C24, counterexample: the ISO-9660 signature is at offset `0x8000`, with a block count of
0, and no other signature is present; `AnalyseTrack` reports pure audio. -/
theorem C24_counterexample :
    isoAt (window (isoImage 50000 0) 0) 0x8000 ∧
    ∃ a, AnalyseTrack 0 (isoImage 50000 0) 0 0 = .ok a ∧ a.modetxt = bytes "AUDIO" ∧
      a.isotracksectors = 0 ∧ a.sectorsize = 2352 :=
  ⟨by unfold isoAt; decide, _, rfl, rfl, rfl, rfl⟩

/-- C25, as the code behaves when the bytes left are fewer than the sectors subtracted: for
an image of 25 blocks of 2048 bytes followed by 16 more bytes, no count `c ≤ 147` leaves a
non-negative multiple of 2352 (`16 - c * 2048`), yet the alignment loop of `AnalyseTrack`
ends with `count = 19`: the `uint32_t` variable `remaining` wraps around below 0 and reaches
a multiple of 2352 after 19 rounds.  The data region grows to 44 sectors, 90112 bytes, past
the end of the file of 51216 bytes. -/
theorem C25_alignment_wraps_around :
    (∀ c, ¬ (c ≤ 147 ∧ c * 2048 ≤ 16 ∧ (16 - c * 2048) % 2352 = 0)) ∧
    alignLoop 2048 149 16 0 = (4294928400, 19) ∧
    (isoImage 51216 25).size = 25 * 2048 + 16 ∧
    ∃ a, AnalyseTrack 0 (isoImage 51216 25) 0 0 = .ok a ∧ a.modetxt = bytes "MODE1/2048" ∧
      a.isotracksectors = 44 ∧ a.isotrackbytes = 90112 ∧
      (isoImage 51216 25).size < a.isotrackbytes :=
  ⟨fun c h => by omega, by decide, rfl, _, rfl, rfl, rfl, rfl, by decide⟩

/-- C26: for the sector sizes 2048 and 2336, when the bytes after the declared data region
are `a` more sectors of that size followed by `b` raw sectors of 2352 bytes, less than `2^32`
bytes in all, the alignment loop of `AnalyseTrack` ends with `count = a mod 147`, which is at
most 146, so the success branch is taken, and the size left is a multiple of 2352: the region
grows by `a mod 147` sectors. -/
theorem C26_alignment_count (s a b : Nat) (hs : s = 2048 ∨ s = 2336)
    (hlt : a * s + b * 2352 < 4294967296) :
    alignLoop s 149 (a * s + b * 2352) 0 = (a * s + b * 2352 - a % 147 * s, a % 147) ∧
    a % 147 ≤ 146 ∧ (a * s + b * 2352 - a % 147 * s) % 2352 = 0 ∧
    ∀ filesize readpos n, n * s < 4294967296 →
      filesize = readpos + n * s + (a * s + b * 2352) →
      alignRegion filesize readpos s n =
        ((n * s + a % 147 * s) % 4294967296, (n + a % 147) % 4294967296) := by
  have hmod : a % 147 ≤ 146 := by omega
  have key : alignLoop s 149 (a * s + b * 2352) 0 =
      (a * s + b * 2352 - a % 147 * s, a % 147) ∧
      (a * s + b * 2352 - a % 147 * s) % 2352 = 0 := by
    rcases hs with rfl | rfl
    · refine ⟨alignLoop_count _ _ _ (by decide) hlt (by omega) (by omega) ?_ ?_, by omega⟩
      · intro k hk
        simp only [SIZERAW]
        omega
      · simp only [SIZERAW]
        omega
    · refine ⟨alignLoop_count _ _ _ (by decide) hlt (by omega) (by omega) ?_ ?_, by omega⟩
      · intro k hk
        simp only [SIZERAW]
        omega
      · simp only [SIZERAW]
        omega
  refine ⟨key.1, hmod, key.2, ?_⟩
  intro filesize readpos n hn hfile
  have hrem : (((filesize : Int) - readpos - ((n * s % 4294967296 : Nat) : Int)) %
      4294967296).toNat = a * s + b * 2352 := by
    rw [Nat.mod_eq_of_lt hn, hfile]
    push_cast
    have e : ((readpos : Int) + n * s + (a * s + b * 2352) - readpos - n * s) =
        ((a * s + b * 2352 : Nat) : Int) := by push_cast; ring
    rw [e, Int.emod_eq_of_lt (Int.ofNat_nonneg _) (by exact_mod_cast hlt), Int.toNat_ofNat]
  unfold alignRegion
  dsimp only
  rw [hrem, key.1]
  dsimp only
  rw [if_pos (by omega), Nat.mod_eq_of_lt hn]

/-- C26 for 150 more sectors of 2048 bytes followed by 10 raw sectors: the loop counts
`150 mod 147 = 3` sectors and leaves `147 * 2048 + 10 * 2352` bytes, 138 raw sectors. -/
theorem C26_witness :
    alignLoop 2048 149 (150 * 2048 + 10 * 2352) 0 = (324576, 3) ∧ 324576 % 2352 = 0 := by
  obtain ⟨h1, -, h3, -⟩ := C26_alignment_count 2048 150 10 (Or.inl rfl) (by decide)
  exact ⟨h1, h3⟩

/-- C27: for a record size `0 < r ≤ 4 MiB` and a file of `L` bytes read from its start with
empty buffers, every refill `BufferedFRead` requests is a positive multiple `m * r` of the
record size, the first `⌈L / r⌉` calls succeed and hand out records of `r` bytes whose
concatenation is the content of the file followed by zero bytes up to a multiple of `r`, and
the call after them returns `false`. -/
theorem C27_records_of_a_file (r : Nat) (f : SrcFile) (h0 : 0 < r) (hr : r ≤ INBUF_SIZE) :
    (∃ m, 0 < m ∧ INBUF_SIZE - INBUF_SIZE % r = m * r ∧
      ∀ s, (fillBuffer r s).inBufWriteIndex = min (m * r) (s.bin.file.size - s.bin.pos)) ∧
    ∃ rs s', readRecords r ((f.size + r - 1) / r) (ioStart f) = .ok (rs, s') ∧
      rs.length = (f.size + r - 1) / r ∧ (∀ x, x ∈ rs → x.length = r) ∧
      rs.flatten = paddedContent f ((f.size + r - 1) / r * r) ∧
      f.size ≤ (f.size + r - 1) / r * r ∧ (f.size + r - 1) / r * r < f.size + r ∧
      ∃ s'', BufferedFRead r s' = .ok (none, s'') := by
  obtain ⟨c1, c2, -⟩ := chunk_facts r h0 hr
  have hdm := Nat.div_add_mod (f.size + r - 1) r
  have hml := Nat.mod_lt (f.size + r - 1) h0
  have hcomm : r * ((f.size + r - 1) / r) = (f.size + r - 1) / r * r := Nat.mul_comm _ _
  constructor
  · obtain ⟨m, hm⟩ := c1
    refine ⟨m, ?_, by rw [hm, Nat.mul_comm], fun s => ?_⟩
    · rcases Nat.eq_zero_or_pos m with h | h
      · rw [h, Nat.mul_zero] at hm
        omega
      · exact h
    · show min (INBUF_SIZE - INBUF_SIZE % r) _ = _
      rw [hm, Nat.mul_comm]
  · have hex : ∀ i, i < (f.size + r - 1) / r →
        0 + (0 + i) * r < (ioStart f).bin.file.size := by
      intro i hi
      have h1 : (i + 1) * r ≤ f.size + r - 1 := (Nat.le_div_iff_mul_le h0).1 hi
      have h2 : (i + 1) * r = i * r + r := by ring
      show 0 + (0 + i) * r < f.size
      rw [Nat.zero_add, Nat.zero_add]
      omega
    obtain ⟨s', b', hrun, hinv, hfile⟩ := readRecords_spec r 0 h0 hr ((f.size + r - 1) / r) 0 0
      (ioStart f) (RecInv.start r 0 _ rfl rfl rfl) hex
    obtain ⟨s'', hnone, -⟩ := BufferedFRead_none hinv h0 (by
      rw [hfile]
      show f.size ≤ 0 + (0 + (f.size + r - 1) / r) * r
      rw [Nat.zero_add, Nat.zero_add]
      omega)
    refine ⟨_, s', hrun, by simp, ?_, ?_, by omega, by omega, s'', hnone⟩
    · intro x hx
      obtain ⟨i, -, rfl⟩ := List.mem_map.1 hx
      simp
    · have hg : ∀ i q, recByte (ioStart f).bin.file 0 r (0 + i) q =
          (fun p => if p < f.size then f.byte p else 0) (i * r + q) := by
        intro i q
        unfold recByte
        simp only [Nat.zero_add]
        rfl
      simp only [hg]
      exact flatten_records (fun p => if p < f.size then f.byte p else 0) r _

/-- C27, on a file of 5 bytes read in records of 2 bytes: three records, the last one
completed by a zero byte. -/
theorem C27_witness :
    (∃ m, 0 < m ∧ INBUF_SIZE - INBUF_SIZE % 2 = m * 2 ∧
      ∀ s, (fillBuffer 2 s).inBufWriteIndex = min (m * 2) (s.bin.file.size - s.bin.pos)) ∧
    ∃ rs s', readRecords 2 3 (ioStart fileC27) = .ok (rs, s') ∧
      rs.length = 3 ∧ (∀ x, x ∈ rs → x.length = 2) ∧
      rs.flatten = [1, 2, 3, 4, 5, 0] ∧
      fileC27.size ≤ 3 * 2 ∧ 3 * 2 < fileC27.size + 2 ∧
      ∃ s'', BufferedFRead 2 s' = .ok (none, s'') :=
  C27_records_of_a_file 2 fileC27 (by decide) (by decide)

/-- C28, as the code behaves: for every `TRACK` line `ParseCueLine` accepts, the mode dispatch
of `DoTrack` on the track created ends with "Unexpected mode!" exactly when the datatype text
begins with `MODE2/2448`; the dispatch knows the seven other modes only. -/
theorem C28_dispatch_of_parsed_track (fs : FileSys) (st : CueState) (pre : List Nat) (a : Nat)
    (digits : List Nat) (c b : Nat) (dt : List Nat) (fd : SrcFile) (s : IOState)
    (hpre : ∀ x ∈ pre, x = 32 ∨ x = 10 ∨ x = 13)
    (hdig : ∀ x ∈ digits, 48 ≤ x ∧ x ≤ 57) (hne : digits ≠ [])
    (hc0 : c ≠ 0) (hc : ¬ (48 ≤ c ∧ c ≤ 57)) (hdt : dt.head? ≠ some 32)
    (hn : st.nTracks < MAXIMUM_TRACK_NUMBERS) (haf : st.activefile ≠ [])
    (hfd : fs st.activefile = some fd)
    (hlen : (cutExt st.activefile).length + digits.length + 5 < 264)
    (hl : listedPrefix (cstr dt)) :
    ∃ st', ParseCueLine fs (trackLine pre a digits c b dt) st = .ok st' ∧
      (DoTrack (st'.tracks st.nTracks) s = .error .unexpectedMode ↔
        bytes "MODE2/2448" <+: cstr dt) := by
  obtain ⟨st', m, hparse, -, -, hm, hmatch⟩ :=
    (trackLine_parse fs st pre a digits c b dt fd hpre hdig hne hc0 hc hdt hn haf hfd hlen).2 hl
  obtain ⟨m1, m2, m3, m4, m5, m6, m7, m8⟩ := hmatch
  refine ⟨st', hparse, ?_⟩
  rw [DoTrack_unexpected_iff, hm]
  constructor
  · intro hnot
    by_contra h8
    apply hnot
    rcases hl with h | h | h | h | h | h | h
    · by_cases hs : bytes "AUDIO/" <+: cstr dt
      · exact Or.inr (Or.inl (m1 hs))
      · exact Or.inl (m2 h hs)
    · exact Or.inr (Or.inr (Or.inl (m3 h)))
    · exact Or.inr (Or.inr (Or.inr (Or.inl (m4 h))))
    · exact Or.inr (Or.inr (Or.inr (Or.inr (Or.inl (m5 h)))))
    · exact Or.inr (Or.inr (Or.inr (Or.inr (Or.inr (Or.inl (m6 h))))))
    · exact Or.inr (Or.inr (Or.inr (Or.inr (Or.inr (Or.inr (m7 h))))))
    · exact absurd h h8
  · intro h8
    rw [m8 h8]
    decide

/-- C28, at the failing input: the line `  TRACK 01 MODE2/2448` after `FILE "a.bin"` is
accepted, and `DoTrack` on its track ends with "Unexpected mode!". -/
theorem C28_witness :
    ∃ st', ParseCueLine (fsOne ⟨0, fun _ => 0⟩) (bytes "  TRACK 01 MODE2/2448\n") stFile
        = .ok st' ∧
      DoTrack (st'.tracks 0) IOState.init = .error .unexpectedMode := by
  obtain ⟨st', h1, h2⟩ := C28_dispatch_of_parsed_track (fsOne ⟨0, fun _ => 0⟩) stFile
    (bytes "  ") 0 (bytes "01") 32 0 (bytes "MODE2/2448\n") ⟨0, fun _ => 0⟩ IOState.init
    (by decide) (by decide) (by decide) (by decide) (by decide) (by decide) (by decide)
    (by decide) rfl (by decide) (by unfold listedPrefix; decide)
  exact ⟨st', h1, h2.2 (by decide)⟩

/-- C29, as the code behaves: a `TRACK` line read when the table holds 100 tracks or more is
the fatal error "too many tracks", so `ParseCueLine` stays inside entries 0..99; but for a
table of exactly 100 tracks the geometry pass of `IsoFromCue` never completes inside the
table: after the normalisation loop, line 782 assigns to `tracks[100]`.  On the sheet with
99 `TRACK` lines the run completes, on the one with 100 it reaches that assignment, on the
one with 101 parsing fails. -/
theorem C29_entry_100_is_written (fs : FileSys) (r : List Nat) (st : CueState) (k : Nat)
    (opts : CommandlineOptions) (tbl : Table) :
    parseTrack fs r { st with nTracks := MAXIMUM_TRACK_NUMBERS + k } = .error .tooManyTracks ∧
    (geometryPass opts tbl MAXIMUM_TRACK_NUMBERS = .error .tableOverflow ∨
      geometryPass opts tbl MAXIMUM_TRACK_NUMBERS = .error .index0AfterIndex1) ∧
    failsWith .tableOverflow
      (IsoFromCue (fsOne ⟨2352, fun _ => 0⟩) defaultOptions (sheetTracks 100)) = true ∧
    failsWith .tooManyTracks
      (IsoFromCue (fsOne ⟨2352, fun _ => 0⟩) defaultOptions (sheetTracks 101)) = true ∧
    completes (IsoFromCue (fsOne ⟨2352, fun _ => 0⟩) defaultOptions (sheetTracks 99)) = true := by
  refine ⟨?_, ?_, by decide!, by decide!, by decide!⟩
  · unfold parseTrack
    dsimp only
    rw [if_pos (Nat.le_add_right _ _)]
  · unfold geometryPass
    cases h : normalise MAXIMUM_TRACK_NUMBERS 0 tbl with
    | error e =>
      rw [normalise_error _ _ _ _ h]
      exact Or.inr rfl
    | ok t =>
      dsimp only
      rw [if_pos (Nat.le_refl _)]
      exact Or.inl rfl

/-- C30 (amended): for every parsed sheet whose tracks belong to one file and have the same
sector size `S`, when no product `idx1 * S` reaches `2^32` and the geometry pass succeeds,
the pass gives track `i` the start offset `(idx1 - b) * S` under the discard and the
postgap-conversion policy, and `(idx0 - b) * S` when pregaps are preserved (without automatic
gap detection); `idx0`, `idx1` are the parsed indices of the track, an unset index counting
as 0 (`normTrack`), and `b` is `idx0` of the first track: with `b = 0` the offsets are
`idx1 * S` and `idx0 * S`, otherwise they are lower by `b * S`. -/
theorem C30_start_offsets (fs : FileSys) (content : List Nat) (opts : CommandlineOptions)
    (tbl F : Table) (n S i : Nat)
    (hp : ParseCue fs content = .ok (tbl, n)) (hF : geometryPass opts tbl n = .ok F)
    (hi : i < n)
    (hfile : ∀ j, j + 1 < n → (tbl j).sSrcFileName = (tbl (j + 1)).sSrcFileName)
    (hS : ∀ j, j < n → (tbl j).sectorSize = S)
    (hb : ∀ j, j < n → (normTrack (tbl j)).idx1 * S < 4294967296) :
    ((opts.noGaps = true ∨ opts.allPostGaps = true) →
      (F i).startOfs = ((normTrack (tbl i)).idx1 - (normTrack (tbl 0)).idx0) * S) ∧
    (opts.noGaps = false → opts.allPostGaps = false → opts.autoGaps = false →
      (F i).startOfs = ((normTrack (tbl i)).idx0 - (normTrack (tbl 0)).idx0) * S) := by
  obtain ⟨-, N, hN, hloop⟩ := geometryPass_split hF
  have hs := normalised_start hp hN
  have hfile' : ∀ j, 0 ≤ j → j + 1 < n →
      (setIdx0 (setIdx1 N n 0) n 0 j).sSrcFileName =
        (setIdx0 (setIdx1 N n 0) n 0 (j + 1)).sSrcFileName := by
    intro j _ hj
    rw [(hs j (by omega)).1, (hs (j + 1) hj).1, (hs j (by omega)).2.1, (hs (j + 1) hj).2.1,
      normTrack_sSrcFileName, normTrack_sSrcFileName]
    exact hfile j hj
  have hgood : ∀ j, 0 ≤ j → j < n → (setIdx0 (setIdx1 N n 0) n 0 j).sectorSize = S ∧
      0 ≤ (setIdx0 (setIdx1 N n 0) n 0 j).idx0 ∧
      (setIdx0 (setIdx1 N n 0) n 0 j).idx0 ≤ (setIdx0 (setIdx1 N n 0) n 0 j).idx1 ∧
      (setIdx0 (setIdx1 N n 0) n 0 j).idx1 ≤ 755040 ∧
      (setIdx0 (setIdx1 N n 0) n 0 j).idx1 * S < 4294967296 := by
    intro j _ hj
    obtain ⟨e1, e2, b0, b1, b2⟩ := hs j hj
    rw [e1]
    refine ⟨?_, b0, b1, b2, ?_⟩
    · rw [e2, normTrack_sectorSize]
      exact hS j hj
    · rw [e2]
      exact hb j hj
  have hofs : 0 < n → (0 : Int) =
      ((setIdx0 (setIdx1 N n 0) n 0 0).idx0 - (normTrack (tbl 0)).idx0) * S := by
    intro hn
    rw [(hs 0 hn).1, (hs 0 hn).2.1, Int.sub_self, Int.zero_mul]
  obtain ⟨r1, r2, r3⟩ := geomLoop_offsets S (normTrack (tbl 0)).idx0 n hloop (Nat.zero_add _)
    hfile' hgood hofs i (Nat.zero_le _) hi
  rw [(hs i hi).1, (hs i hi).2.1] at r2 r3
  constructor
  · intro hpol
    rw [r1, r2 hpol]
  · intro h1 h2 h3
    rw [r1, r3 h1 h2 h3]

set_option maxRecDepth 100000 in
/-- C30 on track 2 of the sheet of scenario 2 (first track at sector 150, second track with
`INDEX 01` at sector 770, raw sectors, default options): the offset is `(770 - 150) * 2352`. -/
theorem C30_witness :
    ∃ tbl F, ParseCue (fsOne ⟨2352 * 1000, fun _ => 0⟩) sheetC4 = .ok (tbl, 2) ∧
      geometryPass defaultOptions tbl 2 = .ok F ∧
      (normTrack (tbl 1)).idx1 = 770 ∧ (normTrack (tbl 0)).idx0 = 150 ∧
      (F 1).startOfs = ((normTrack (tbl 1)).idx1 - (normTrack (tbl 0)).idx0) * (2352 : Nat) := by
  refine ⟨_, _, rfl, rfl, rfl, rfl, ?_⟩
  exact (C30_start_offsets (fsOne ⟨2352 * 1000, fun _ => 0⟩) sheetC4 defaultOptions _ _ 2 2352
    1 rfl rfl (by decide) (fun j hj => by cases j with | zero => rfl | succ k => omega)
    (fun j hj => by interval_cases j <;> rfl)
    (fun j hj => by interval_cases j <;> decide)).1 (Or.inr rfl)

set_option maxRecDepth 100000 in
/-- C30, counterexample: one `AUDIO/100000` track with `INDEX 00` at sector 0 and `INDEX 01`
at sector 50000, over a file of 4000000000 bytes (below `2^32`).  The sheet is accepted and
the track starts at byte 705032704, which is `50000 * 100000` modulo `2^32`, not at
`idx1 * S = 5000000000`. -/
theorem C30_counterexample :
    ∃ tbl F, ParseCue (fsOne ⟨4000000000, fun _ => 0⟩) sheetC30 = .ok (tbl, 1) ∧
      (tbl 0).idx0 = 0 ∧ (tbl 0).idx1 = 50000 ∧ (tbl 0).sectorSize = 100000 ∧
      IsoFromCue (fsOne ⟨4000000000, fun _ => 0⟩) defaultOptions sheetC30 = .ok (F, 1) ∧
      (F 0).startOfs = 705032704 ∧ (F 0).startOfs ≠ 50000 * 100000 :=
  ⟨_, _, rfl, rfl, rfl, rfl, rfl, rfl, by decide⟩

/-- C31 (amended): for every stream, limit and gap width, when the sector counter stays below
`2^32` and the track counter below `2^31`, the sectors give a list of boundaries: the sector
of `INDEX 00` is not after the sector of `INDEX 01`, both lie in the run of sectors that are
not loud which the loud sector ended that made the loop write the boundary, and the sector of
`INDEX 01` is before the sector of `INDEX 00` of every later boundary.  When the texts of
`TimeIndex` for all these sectors fit the buffer `char indextxt[9]`, the splitting loop of
`CueFromBin` returns, and what it has written is the text of these boundaries, with
consecutive ascending track numbers and the texts of `TimeIndex` for the sectors; when one
does not fit, the loop writes beyond the buffer.  A text fits exactly when the minute, taken
modulo 256, is below 100, so all fit when the sector counter ends at 450000 or below, and
below sector 450000 the text is read back as the sector. -/
theorem C31_split_boundaries (opts : CommandlineOptions) (modetxt : List Nat)
    (ss fuel n : Nat) (s : IOState) (st : SplitState)
    (h1 : SIZERAW ≤ ss) (h2 : ss ≤ INBUF_SIZE)
    (hr : s.inBufReadIndex = 0) (hw : s.inBufWriteIndex = 0)
    (hn : n = (s.bin.file.size - s.bin.pos + ss - 1) / ss) (hfuel : n < fuel)
    (hg : st.gapsectors = 0) (hsec : st.sector + n < 4294967296)
    (ht0 : 0 ≤ st.track) (ht : st.track + (n / 2 : Nat) < 2147483648) :
    (∃ bs : List (Nat × Nat),
      bs.Pairwise (fun x y => x.2 < y.1) ∧
      (∀ x ∈ bs, inQuietRun opts s.bin.file s.bin.pos ss st.sector n x) ∧
      (boundsFit bs →
        ∃ s' st', splitLoop opts modetxt ss fuel s st = .ok (s', st') ∧
          st'.cue = st.cue ++ boundariesText modetxt st.track bs ∧
          st'.track = st.track + bs.length) ∧
      (¬ boundsFit bs → splitLoop opts modetxt ss fuel s st = .error .tableOverflow) ∧
      (st.sector + n ≤ 450000 → boundsFit bs)) ∧
    (∀ k, indexFits k ↔ k % 4294967296 / 4500 % 256 < 100) ∧
    (∀ k, k < 450000 → timeSector (TimeIndex k) = k) :=
  ⟨splitLoop_boundaries opts modetxt ss fuel n s st h1 h2 hr hw hn hfuel hg hsec ht0 ht,
    indexFits_iff, timeSector_TimeIndex⟩

/-- C31 on the image of 1000 loud, 60 silent and 1000 loud sectors with limit 80 and gap
width 48: the loop returns, and what it has written is the text of boundaries that lie in
their runs, in ascending order. -/
theorem C31_witness :
    ∃ bs s' st', splitLoop defaultOptions (bytes "AUDIO") 2352 2061 (ioStart fileC20) stC20
        = .ok (s', st') ∧
      st'.cue = stC20.cue ++ boundariesText (bytes "AUDIO") stC20.track bs ∧
      st'.track = stC20.track + bs.length ∧
      bs.Pairwise (fun x y => x.2 < y.1) ∧
      ∀ x ∈ bs, inQuietRun defaultOptions (ioStart fileC20).bin.file (ioStart fileC20).bin.pos
          2352 stC20.sector 2060 x := by
  obtain ⟨⟨bs, c1, c2, c3, -, c5⟩, -, -⟩ :=
    C31_split_boundaries defaultOptions (bytes "AUDIO") 2352 2061 2060 (ioStart fileC20) stC20
      (by decide) (by decide) rfl rfl (by decide) (by decide) rfl (by decide) (by decide)
      (by decide)
  obtain ⟨s', st', r1, r2, r3⟩ := c3 (c5 (by decide))
  exact ⟨bs, s', st', r1, r2, r3, c1, c2⟩

/-- C31, counterexample: on the image of 1152100 loud sectors, 50 silent sectors and a loud
sector, with limit 80 and gap width 48, the loop writes one boundary, for the sectors 1152100
and 1152149 of the gap; `TimeIndex` keeps the minute in a `uint8_t`, so the times written
are `00:01:25` and `00:01:74`, those of the sectors 100 and 149, which are loud and lie in
no run of sectors that are not loud. -/
theorem C31_counterexample :
    defaultOptions.splitGapLength ≤ 50 ∧
    (∀ k, k < 1152100 → isLoud defaultOptions (gapImage 1152100 50 1) 0 2352 k) ∧
    (∀ k, 1152100 ≤ k → k < 1152150 →
      ¬ isLoud defaultOptions (gapImage 1152100 50 1) 0 2352 k) ∧
    isLoud defaultOptions (gapImage 1152100 50 1) 0 2352 1152150 ∧
    ∃ s' st', splitLoop defaultOptions (bytes "AUDIO") 2352 1152152
        (ioStart (gapImage 1152100 50 1)) stC20 = .ok (s', st') ∧
      st'.cue = bytes "  TRACK 01 AUDIO\n    INDEX 00 00:01:25\n    INDEX 01 00:01:74\n" ∧
      timeSector (bytes "00:01:25") = 100 ∧ timeSector (bytes "00:01:74") = 149 := by
  have f0 : indexFits 1152100 := by
    rw [indexFits_iff]
    decide
  have f1 : indexFits (1152100 + (50 - 1)) := by
    rw [indexFits_iff]
    decide
  obtain ⟨s', st', w1, w2, -⟩ := (gapImage_split 1152100 50 1 (by decide) (by decide)
    (by decide)).1 f0 f1
  refine ⟨by decide, fun k hk => gapImage_loud _ _ _ k (Or.inl hk) (by omega),
    fun k h1 h2 => (gapImage_quiet defaultOptions _ _ _ k h1 (by omega)).2,
    gapImage_loud _ _ _ _ (Or.inr (by decide)) (by decide), s', st', w1, ?_, by decide,
    by decide⟩
  rw [w2]
  decide

/-- C32 (amended): of the datatype texts that `CueFromBin` writes after `AnalyseTrack`, the
label of the first track is accepted by `ParseCueLine` exactly when it is one of the six
names `MODE1/2048`, `MODE1/2352`, `MODE1/2448`, `MODE2/2336`, `MODE2/2352`, `MODE2/2448`, and
the track created then has the sector size `AnalyseTrack` found; for every other label
`MODE<m>/<size>` the line ends in "Unknown mode".  The label of the audio tracks, `AUDIO` or
`AUDIO/<2352 + subchannel bytes>`, is always accepted, and the track created has the record
size of the splitting loop. -/
theorem C32_inferred_labels (fuel : Nat) (f : SrcFile) (readpos : Nat) (A : Analysis)
    (fs : FileSys) (st : CueState) (fd : SrcFile) (digits : List Nat)
    (hA : AnalyseTrack fuel f readpos 0 = .ok A)
    (hdig : ∀ x ∈ digits, 48 ≤ x ∧ x ≤ 57) (h2 : 2 ≤ digits.length)
    (hn : st.nTracks < MAXIMUM_TRACK_NUMBERS) (haf : st.activefile ≠ [])
    (hfd : fs st.activefile = some fd)
    (hlen : (cutExt st.activefile).length + digits.length + 5 < 264) :
    (A.isotracksectors ≠ 0 →
      firstTrackText A = bytes "  TRACK " ++ bytes "01" ++ bytes " " ++ A.modetxt ++ bytes "\n"
        ++ bytes "    INDEX 01 00:00:00\n" ∧
      (A.modetxt ∈ dataLabels →
        ∃ st', ParseCueLine fs
            (bytes "  TRACK " ++ bytes "01" ++ bytes " " ++ A.modetxt ++ bytes "\n") st
            = .ok st' ∧
          (st'.tracks st.nTracks).sectorSize = A.sectorsize) ∧
      (A.modetxt ∉ dataLabels →
        ParseCueLine fs
          (bytes "  TRACK " ++ bytes "01" ++ bytes " " ++ A.modetxt ++ bytes "\n") st
          = .error .unknownMode)) ∧
    ∃ st', ParseCueLine fs
        (bytes "  TRACK " ++ digits ++ bytes " " ++ audioLabel A.subchanbytes ++ bytes "\n") st
        = .ok st' ∧
      (st'.tracks st.nTracks).sectorSize = audioSectorSize A.subchanbytes ∧
      audioSectorSize A.subchanbytes = 2352 + A.subchanbytes := by
  obtain ⟨hlab, k, hk, hsub⟩ := AnalyseTrack_label hA
  have hne : digits ≠ [] := by
    intro h
    rw [h] at h2
    exact absurd h2 (by decide)
  constructor
  · intro h0
    have hparse : labelParse A.modetxt A.sectorsize := by
      rcases hlab h0 with ⟨e1, e2⟩ | ⟨e1, e2⟩ | ⟨b, hb, hc, e1⟩
      · rw [e1, e2]
        exact fixedLabel_check.1
      · rw [e1, e2]
        exact fixedLabel_check.2
      · rw [e1]
        exact syncLabel_check b _ hb hc
    refine ⟨?_, dataLabel_line fs st (bytes "01") fd _ _ hparse (by decide) (by decide) hn haf
      hfd (by
        have e : (bytes "01").length = 2 := rfl
        omega)⟩
    unfold firstTrackText
    rw [if_pos h0]
    have e : bytes "  TRACK 01 " = bytes "  TRACK " ++ bytes "01" ++ bytes " " := rfl
    rw [e]
  · obtain ⟨st', r1, r2⟩ := audioLabel_line fs st digits fd A.subchanbytes
      (by rw [hsub]; exact audioLabel_check k hk) hdig hne hn haf hfd hlen
    refine ⟨st', r1, r2, ?_⟩
    unfold audioSectorSize
    simp only [SIZERAW]
    omega

/-- C32 on the image of 30 raw mode 1 sectors: the first track is written as
`TRACK 01 MODE1/2352` and read back with sectors of 2352 bytes, and a line
`TRACK 02 AUDIO` is read back with sectors of 2352 bytes. -/
theorem C32_witness :
    AnalyseTrack 31 fileC23 0 0 = .ok ⟨bytes "MODE1/2352", 30, 0, 2352, 70560⟩ ∧
    (∃ st', ParseCueLine (fsOne fileC23) (bytes "  TRACK 01 MODE1/2352\n") stFile = .ok st' ∧
      (st'.tracks 0).sectorSize = 2352) ∧
    ∃ st', ParseCueLine (fsOne fileC23) (bytes "  TRACK 02 AUDIO\n") stFile = .ok st' ∧
      (st'.tracks 0).sectorSize = 2352 := by
  have h := C32_inferred_labels 31 fileC23 0 ⟨bytes "MODE1/2352", 30, 0, 2352, 70560⟩
    (fsOne fileC23) stFile fileC23 (bytes "02") rfl (by decide) (by decide) (by decide)
    (by decide) rfl (by decide)
  obtain ⟨h1, st2, h2, h3, -⟩ := h
  obtain ⟨-, h4, -⟩ := h1 (by decide)
  obtain ⟨st1, h5, h6⟩ := h4 (by decide)
  exact ⟨rfl, ⟨st1, h5, h6⟩, st2, h2, h3⟩

/-- C32, counterexample: on an image of 25 sectors of 2064 bytes with sync pattern and mode
byte 1, `AnalyseTrack` finds the sector size 2064 and builds the label `MODE1/2064`;
`CueFromBin` writes `TRACK 01 MODE1/2064`, and `ParseCueLine` ends on that line with
"Unknown mode". -/
theorem C32_counterexample :
    ∃ a, AnalyseTrack 26 fileC32 0 0 = .ok a ∧ a.modetxt = bytes "MODE1/2064" ∧
      a.sectorsize = 2064 ∧ a.isotracksectors = 25 ∧
      firstTrackText a = bytes "  TRACK 01 MODE1/2064\n    INDEX 01 00:00:00\n" ∧
      ParseCueLine (fsOne fileC32) (bytes "  TRACK 01 MODE1/2064\n") stFile
        = .error .unknownMode :=
  ⟨_, rfl, rfl, rfl, rfl, rfl, rfl⟩

end Bin2Iso
